import Mathlib

/-!
Objgrind shadow memory and store checker.

A shallow embedding of `og_main.c` (the two-bit tag store with its primary map,
auxiliary map and front-cache, the range painter, the store checkers and the
client-request dispatch) together with theorems about it.

Conventions of the embedding.

* Machine words are natural numbers; `VG_WORDSIZE` (4 or 8, the size of `Addr`,
  `UWord`, `SizeT` in bytes) is an explicit first argument, arithmetic on words
  is reduced modulo `2 ^ (8 * VG_WORDSIZE)` where the C code can wrap.
* Global variables of the C file are the fields of `State`; every function
  that reads or writes them takes and returns the state explicitly.
* A pointer dereference that is undefined in C (null or dangling pointer, index
  outside an array) and a failing `tl_assert` make the embedded function return
  `none`.
* `VG_(malloc)` never fails and never returns a block twice; Valgrind's `OSet`
  and the error recorder `VG_(maybe_record_error)` are host services, modelled
  by a table of nodes and by a log of the submitted errors.
-/

namespace Objgrind

/-! ## Basic configuration -/

/-- Width in bits of `Addr`, `UWord` and `SizeT`. -/
def WORD_BITS (VG_WORDSIZE : Nat) : Nat := 8 * VG_WORDSIZE

/-- Conversion of a value to `Addr` / `UWord` (truncation to the word width). -/
def toWord (VG_WORDSIZE : Nat) (x : Nat) : Nat := x % 2 ^ WORD_BITS VG_WORDSIZE

/-- Bitwise complement of a word: the C expression `~(Addr)x`. -/
def notWord (VG_WORDSIZE : Nat) (x : Nat) : Nat := 2 ^ WORD_BITS VG_WORDSIZE - 1 - x

/-- The C macro `N_PRIMARY_BITS`: 16 when `VG_WORDSIZE == 4`, else 20. -/
def N_PRIMARY_BITS (VG_WORDSIZE : Nat) : Nat := if VG_WORDSIZE = 4 then 16 else 20

/-- The C macro `N_PRIMARY_MAP`: `((UWord)1) << N_PRIMARY_BITS`. -/
def N_PRIMARY_MAP (VG_WORDSIZE : Nat) : Nat :=
  toWord VG_WORDSIZE (1 <<< N_PRIMARY_BITS VG_WORDSIZE)

/-- The C macro `MAX_PRIMARY_ADDRESS`: `(Addr)((((Addr)65536) * N_PRIMARY_MAP)-1)`. -/
def MAX_PRIMARY_ADDRESS (VG_WORDSIZE : Nat) : Nat :=
  toWord VG_WORDSIZE
    (toWord VG_WORDSIZE (65536 * N_PRIMARY_MAP VG_WORDSIZE) + (2 ^ WORD_BITS VG_WORDSIZE - 1))

/-! ## Secondary maps -/

def A_BITS2_NOCHECK : Nat := 0x0
def A_BITS2_UNWRITABLE : Nat := 0x1
def A_BITS2_UNREFERABLE : Nat := 0x2
def A_BITS2_REFCHECK : Nat := 0x3

def A_BITS8_NOCHECK : Nat := 0x00
def A_BITS8_UNWRITABLE : Nat := 0x55
def A_BITS8_UNREFERABLE : Nat := 0xaa

def A_BITS16_NOCHECK : Nat := 0x0000
def A_BITS16_UNWRITABLE : Nat := 0x5555
def A_BITS16_UNREFERABLE : Nat := 0xaaaa
def A_BITS16_REFCHECK : Nat := 0xffff

def SM_CHUNKS : Nat := 16384

/-- The C macro `SM_OFF(aaa)`: `((aaa) & 0xffff) >> 2`. -/
def SM_OFF (aaa : Nat) : Nat := (aaa &&& 0xffff) >>> 2

/-- The C macro `SM_OFF_16(aaa)`: `((aaa) & 0xffff) >> 3`. -/
def SM_OFF_16 (aaa : Nat) : Nat := (aaa &&& 0xffff) >>> 3

def SM_SIZE : Nat := 65536
def SM_MASK : Nat := SM_SIZE - 1

/-- The C function `start_of_this_sm`: `a & (~SM_MASK)`. -/
def start_of_this_sm (VG_WORDSIZE : Nat) (a : Nat) : Nat := a &&& notWord VG_WORDSIZE SM_MASK

/-- The C function `is_start_of_sm`. -/
def is_start_of_sm (VG_WORDSIZE : Nat) (a : Nat) : Bool :=
  decide (start_of_this_sm VG_WORDSIZE a = a)

/-- The C struct `SecMap`: the array `abits8[SM_CHUNKS]` of shadow bytes. -/
structure SecMap where
  abits8 : Nat → Nat

def SM_DIST_NOCHECK : Nat := 0
def SM_DIST_UNWRITABLE : Nat := 1
def SM_DIST_UNREFERABLE : Nat := 2

/-- A value of type `SecMap*`: null, the address of an element of the static array
`sm_distinguished`, or a block obtained from `VG_(malloc)`. Equality is pointer identity. -/
inductive SecMapPtr where
  | null : SecMapPtr
  | distinguished (i : Nat) : SecMapPtr
  | allocated (id : Nat) : SecMapPtr
  deriving DecidableEq, Repr

/-- The C function `is_distinguished_sm`:
`sm >= &sm_distinguished[0] && sm <= &sm_distinguished[2]`. -/
def is_distinguished_sm : SecMapPtr → Bool
  | SecMapPtr.distinguished i => decide (0 ≤ i) && decide (i ≤ 2)
  | _ => false

/-- The C struct `AuxMapEnt`. -/
structure AuxMapEnt where
  base : Nat
  sm : SecMapPtr
  deriving DecidableEq, Repr

def N_AUXMAP_L1 : Nat := 24
def AUXMAP_L1_INSERT_IX : Nat := 12

/-- An element of the array `auxmap_L1`; `ent` is an `AuxMapEnt*`, `none` for `NULL`,
`some k` for the address of node `k` of `auxmap_L2`. -/
structure AuxL1Ent where
  base : Nat
  ent : Option Nat
  deriving DecidableEq, Repr

/-- Valgrind's `OSet` holding the `AuxMapEnt` nodes, keyed on `base`. Node `k` is the
`k`-th node handed out by `OSetGen_AllocNode`; nodes are never removed by `og_main.c`. -/
structure OSet where
  nodes : Nat → AuxMapEnt
  size : Nat

/-- The host function `VG_(OSetGen_Lookup)`: the node whose key is `key`, if there is one,
searched among the first `n` nodes. -/
def OSetGen_LookupIn (nodes : Nat → AuxMapEnt) (key : Nat) : Nat → Option Nat
  | 0 => none
  | n + 1 =>
    match OSetGen_LookupIn nodes key n with
    | some k => some k
    | none => if (nodes n).base = key then some n else none

/-- The host function `VG_(OSetGen_Lookup)`. -/
def OSetGen_Lookup (t : OSet) (key : Nat) : Option Nat := OSetGen_LookupIn t.nodes key t.size

/-- The host function `VG_(OSetGen_AllocNode)`: the address of a fresh node. -/
def OSetGen_AllocNode (t : OSet) : Nat := t.size

/-- The host function `VG_(OSetGen_Insert)` applied to the node just allocated. -/
def OSetGen_Insert (t : OSet) (e : AuxMapEnt) : OSet :=
  { nodes := Function.update t.nodes t.size e, size := t.size + 1 }

/-- The C enum `OgErrorKind` of `og_error.h`. -/
inductive OgErrorKind where
  | UnwritableErr : OgErrorKind
  | UnreferableErr : OgErrorKind
  deriving DecidableEq, Repr

/-- One call of `VG_(maybe_record_error)(tid, ekind, addr, NULL, NULL)`. -/
structure ErrorRec where
  tid : Nat
  ekind : OgErrorKind
  addr : Nat
  deriving DecidableEq, Repr

/-- The global variables of `og_main.c`, the heap of `SecMap` blocks, the running
thread and the errors submitted so far (oldest first). -/
structure State where
  sm_distinguished : Nat → SecMap
  heap : Nat → Option SecMap
  heap_next : Nat
  primary_map : Nat → SecMapPtr
  auxmap_L1 : Nat → AuxL1Ent
  auxmap_L2 : OSet
  n_auxmap_L1_searches : Nat
  n_auxmap_L1_cmps : Nat
  n_auxmap_L2_searches : Nat
  n_auxmap_L2_nodes : Nat
  running_tid : Nat
  errors : List ErrorRec

/-- Increment of a `ULong` counter. -/
def ulong_add (x y : Nat) : Nat := (x + y) % 2 ^ 64

/-- The C function `copy_for_writing`. -/
def copy_for_writing (s : State) (dist_sm : SecMapPtr) : Option (SecMapPtr × State) :=
  match dist_sm with
  | SecMapPtr.distinguished i =>
    if i = 0 ∨ i = 1 ∨ i = 2 then
      some (SecMapPtr.allocated s.heap_next,
            { s with heap := Function.update s.heap s.heap_next (some (s.sm_distinguished i)),
                     heap_next := s.heap_next + 1 })
    else none
  | _ => none

/-! ## Auxiliary primary map -/

/-- The shifting loop of `insert_into_auxmap_L1_at`:
`for (i = N_AUXMAP_L1-1; i > rank; i--) auxmap_L1[i] = auxmap_L1[i-1];`,
started at index `i`. -/
def insert_into_auxmap_L1_at_loop (rank : Nat) : Nat → (Nat → AuxL1Ent) → (Nat → AuxL1Ent)
  | 0, l1 => l1
  | i + 1, l1 =>
    if i + 1 > rank then
      insert_into_auxmap_L1_at_loop rank i (Function.update l1 (i + 1) (l1 i))
    else l1

/-- The C function `insert_into_auxmap_L1_at`. -/
def insert_into_auxmap_L1_at (s : State) (rank : Nat) (ent : Option Nat) : Option State :=
  match ent with
  | none => none
  | some k =>
    if rank < N_AUXMAP_L1 then
      if k < s.auxmap_L2.size then
        let l1 := insert_into_auxmap_L1_at_loop rank (N_AUXMAP_L1 - 1) s.auxmap_L1
        let e : AuxL1Ent := { base := (s.auxmap_L2.nodes k).base, ent := some k }
        some { s with auxmap_L1 := Function.update l1 rank e }
      else none
    else none

/-- The search loop of `maybe_find_in_auxmap`:
`for (i = 0; i < N_AUXMAP_L1; i++) if (auxmap_L1[i].base == a) break;`
with `n` iterations left from index `i`; the result is the final value of `i`. -/
def auxmap_L1_search (l1 : Nat → AuxL1Ent) (a : Nat) : Nat → Nat → Nat
  | 0, i => i
  | n + 1, i => if (l1 i).base = a then i else auxmap_L1_search l1 a n (i + 1)

/-- The C function `maybe_find_in_auxmap`. -/
def maybe_find_in_auxmap (VG_WORDSIZE : Nat) (s : State) (a : Nat) :
    Option (Option Nat × State) :=
  if a > MAX_PRIMARY_ADDRESS VG_WORDSIZE then
    let a := a &&& notWord VG_WORDSIZE 0xFFFF
    if (s.auxmap_L1 0).base = a then
      some ((s.auxmap_L1 0).ent, s)
    else if (s.auxmap_L1 1).base = a then
      let t := s.auxmap_L1 0
      let l1 := Function.update (Function.update s.auxmap_L1 0 (s.auxmap_L1 1)) 1 t
      some ((l1 0).ent, { s with auxmap_L1 := l1 })
    else
      let s1 := { s with n_auxmap_L1_searches := ulong_add s.n_auxmap_L1_searches 1 }
      let i := auxmap_L1_search s1.auxmap_L1 a N_AUXMAP_L1 0
      if i ≤ N_AUXMAP_L1 then
        let s2 := { s1 with n_auxmap_L1_cmps := ulong_add s1.n_auxmap_L1_cmps (i + 1) }
        if i < N_AUXMAP_L1 then
          if i > 0 then
            let t := s2.auxmap_L1 (i - 1)
            let l1 := Function.update (Function.update s2.auxmap_L1 (i - 1) (s2.auxmap_L1 i)) i t
            some ((l1 (i - 1)).ent, { s2 with auxmap_L1 := l1 })
          else
            some ((s2.auxmap_L1 i).ent, s2)
        else
          let s3 := { s2 with n_auxmap_L2_searches := ulong_add s2.n_auxmap_L2_searches 1 }
          match OSetGen_Lookup s3.auxmap_L2 a with
          | some k =>
            match insert_into_auxmap_L1_at s3 AUXMAP_L1_INSERT_IX (some k) with
            | some s4 => some (some k, s4)
            | none => none
          | none => some (none, s3)
      else none
  else none

/-- The C function `find_or_alloc_in_auxmap`. -/
def find_or_alloc_in_auxmap (VG_WORDSIZE : Nat) (s : State) (a : Nat) : Option (Nat × State) :=
  match maybe_find_in_auxmap VG_WORDSIZE s a with
  | none => none
  | some (some res, s1) => some (res, s1)
  | some (none, s1) =>
    let a := a &&& notWord VG_WORDSIZE 0xFFFF
    let nyu := OSetGen_AllocNode s1.auxmap_L2
    let nyu_val : AuxMapEnt := { base := a, sm := SecMapPtr.distinguished SM_DIST_NOCHECK }
    let s2 := { s1 with auxmap_L2 := OSetGen_Insert s1.auxmap_L2 nyu_val }
    match insert_into_auxmap_L1_at s2 AUXMAP_L1_INSERT_IX (some nyu) with
    | none => none
    | some s3 =>
      some (nyu, { s3 with n_auxmap_L2_nodes := ulong_add s3.n_auxmap_L2_nodes 1 })

/-! ## SecMap fundamentals -/

/-- A value of type `SecMap**`: the address of an element of `primary_map` or of the
`sm` field of a node of `auxmap_L2`. -/
inductive SecMapSlot where
  | primary (pm_off : Nat) : SecMapSlot
  | aux (node : Nat) : SecMapSlot
  deriving DecidableEq, Repr

/-- Reading through a `SecMap**`. -/
def load_slot (VG_WORDSIZE : Nat) (s : State) : SecMapSlot → Option SecMapPtr
  | SecMapSlot.primary pm_off =>
    if pm_off < N_PRIMARY_MAP VG_WORDSIZE then some (s.primary_map pm_off) else none
  | SecMapSlot.aux k =>
    if k < s.auxmap_L2.size then some (s.auxmap_L2.nodes k).sm else none

/-- Writing through a `SecMap**`. -/
def store_slot (VG_WORDSIZE : Nat) (s : State) (p : SecMapSlot) (sm : SecMapPtr) :
    Option State :=
  match p with
  | SecMapSlot.primary pm_off =>
    if pm_off < N_PRIMARY_MAP VG_WORDSIZE then
      some { s with primary_map := Function.update s.primary_map pm_off sm }
    else none
  | SecMapSlot.aux k =>
    if k < s.auxmap_L2.size then
      let e : AuxMapEnt := { base := (s.auxmap_L2.nodes k).base, sm := sm }
      let t : OSet := { nodes := Function.update s.auxmap_L2.nodes k e, size := s.auxmap_L2.size }
      some { s with auxmap_L2 := t }
    else none

/-- The C function `get_secmap_low_ptr`: `&primary_map[a >> 16]`. -/
def get_secmap_low_ptr (a : Nat) : SecMapSlot := SecMapSlot.primary (a >>> 16)

/-- The C function `get_secmap_high_ptr`. -/
def get_secmap_high_ptr (VG_WORDSIZE : Nat) (s : State) (a : Nat) :
    Option (SecMapSlot × State) :=
  match find_or_alloc_in_auxmap VG_WORDSIZE s a with
  | none => none
  | some (am, s1) => some (SecMapSlot.aux am, s1)

/-- The C function `get_secmap_ptr`. -/
def get_secmap_ptr (VG_WORDSIZE : Nat) (s : State) (a : Nat) : Option (SecMapSlot × State) :=
  if a ≤ MAX_PRIMARY_ADDRESS VG_WORDSIZE then some (get_secmap_low_ptr a, s)
  else get_secmap_high_ptr VG_WORDSIZE s a

/-- The C function `get_secmap_for_reading_low`. -/
def get_secmap_for_reading_low (VG_WORDSIZE : Nat) (s : State) (a : Nat) :
    Option (SecMapPtr × State) :=
  match load_slot VG_WORDSIZE s (get_secmap_low_ptr a) with
  | none => none
  | some sm => some (sm, s)

/-- The C function `get_secmap_for_reading_high`. -/
def get_secmap_for_reading_high (VG_WORDSIZE : Nat) (s : State) (a : Nat) :
    Option (SecMapPtr × State) :=
  match get_secmap_high_ptr VG_WORDSIZE s a with
  | none => none
  | some (p, s1) =>
    match load_slot VG_WORDSIZE s1 p with
    | none => none
    | some sm => some (sm, s1)

/-- The common body of `get_secmap_for_writing_low` and `get_secmap_for_writing_high`
after the slot `p` has been found:
`if (is_distinguished_sm(*p)) *p = copy_for_writing(*p); return *p;`. -/
def cow_slot (VG_WORDSIZE : Nat) (s : State) (p : SecMapSlot) : Option (SecMapPtr × State) :=
  match load_slot VG_WORDSIZE s p with
  | none => none
  | some sm =>
    if is_distinguished_sm sm then
      match copy_for_writing s sm with
      | none => none
      | some (new_sm, s1) =>
        match store_slot VG_WORDSIZE s1 p new_sm with
        | none => none
        | some s2 =>
          match load_slot VG_WORDSIZE s2 p with
          | none => none
          | some r => some (r, s2)
    else some (sm, s)

/-- The C function `get_secmap_for_writing_low`. -/
def get_secmap_for_writing_low (VG_WORDSIZE : Nat) (s : State) (a : Nat) :
    Option (SecMapPtr × State) :=
  cow_slot VG_WORDSIZE s (get_secmap_low_ptr a)

/-- The C function `get_secmap_for_writing_high`. -/
def get_secmap_for_writing_high (VG_WORDSIZE : Nat) (s : State) (a : Nat) :
    Option (SecMapPtr × State) :=
  match get_secmap_high_ptr VG_WORDSIZE s a with
  | none => none
  | some (p, s1) => cow_slot VG_WORDSIZE s1 p

/-- The C function `get_secmap_for_reading`. -/
def get_secmap_for_reading (VG_WORDSIZE : Nat) (s : State) (a : Nat) :
    Option (SecMapPtr × State) :=
  if a ≤ MAX_PRIMARY_ADDRESS VG_WORDSIZE then get_secmap_for_reading_low VG_WORDSIZE s a
  else get_secmap_for_reading_high VG_WORDSIZE s a

/-- The C function `get_secmap_for_writing`. -/
def get_secmap_for_writing (VG_WORDSIZE : Nat) (s : State) (a : Nat) :
    Option (SecMapPtr × State) :=
  if a ≤ MAX_PRIMARY_ADDRESS VG_WORDSIZE then get_secmap_for_writing_low VG_WORDSIZE s a
  else get_secmap_for_writing_high VG_WORDSIZE s a

/-- The C function `maybe_get_secmap_for`; the outer `Option` is failure of the call, the
inner `SecMapPtr` is `null` when there is no map. -/
def maybe_get_secmap_for (VG_WORDSIZE : Nat) (s : State) (a : Nat) :
    Option (SecMapPtr × State) :=
  if a ≤ MAX_PRIMARY_ADDRESS VG_WORDSIZE then get_secmap_for_reading_low VG_WORDSIZE s a
  else
    match maybe_find_in_auxmap VG_WORDSIZE s a with
    | none => none
    | some (some am, s1) =>
      match load_slot VG_WORDSIZE s1 (SecMapSlot.aux am) with
      | none => none
      | some sm => some (sm, s1)
    | some (none, s1) => some (SecMapPtr.null, s1)

/-! ## Fundamental functions -/

/-- Reading `sm->abits8[sm_off]`. -/
def load_abits8 (s : State) (sm : SecMapPtr) (sm_off : Nat) : Option Nat :=
  if sm_off < SM_CHUNKS then
    match sm with
    | SecMapPtr.null => none
    | SecMapPtr.distinguished i =>
      if i < 3 then some ((s.sm_distinguished i).abits8 sm_off) else none
    | SecMapPtr.allocated id =>
      match s.heap id with
      | some m => some (m.abits8 sm_off)
      | none => none
  else none

/-- Writing `sm->abits8[sm_off] = v`. -/
def store_abits8 (s : State) (sm : SecMapPtr) (sm_off : Nat) (v : Nat) : Option State :=
  if sm_off < SM_CHUNKS then
    match sm with
    | SecMapPtr.null => none
    | SecMapPtr.distinguished i =>
      if i < 3 then
        let m : SecMap := { abits8 := Function.update (s.sm_distinguished i).abits8 sm_off v }
        some { s with sm_distinguished := Function.update s.sm_distinguished i m }
      else none
    | SecMapPtr.allocated id =>
      match s.heap id with
      | some m =>
        let m1 : SecMap := { abits8 := Function.update m.abits8 sm_off v }
        some { s with heap := Function.update s.heap id (some m1) }
      | none => none
  else none

/-- The C function `insert_abits2_into_abits8`, as the new value of `*abits8`. The
operands are promoted to 32-bit `int` and each assignment truncates to `UChar`. -/
def insert_abits2_into_abits8 (a : Nat) (abits2 : Nat) (abits8 : Nat) : Nat :=
  let shift := (a &&& 3) <<< 1
  let abits8 := (abits8 &&& (0xFFFFFFFF ^^^ (0x3 <<< shift))) % 256
  (abits8 ||| (abits2 <<< shift)) % 256

/-- The C function `extract_abits2_from_abits8`. -/
def extract_abits2_from_abits8 (a : Nat) (abits8 : Nat) : Nat :=
  let shift := (a &&& 3) <<< 1
  let abits8 := (abits8 >>> shift) % 256
  0x3 &&& abits8

/-- The C function `set_abits2`. -/
def set_abits2 (VG_WORDSIZE : Nat) (s : State) (a : Nat) (abits2 : Nat) : Option State :=
  match get_secmap_for_writing VG_WORDSIZE s a with
  | none => none
  | some (sm, s1) =>
    let sm_off := SM_OFF a
    match load_abits8 s1 sm sm_off with
    | none => none
    | some abits8 => store_abits8 s1 sm sm_off (insert_abits2_into_abits8 a abits2 abits8)

/-- The C function `get_abits2`. -/
def get_abits2 (VG_WORDSIZE : Nat) (s : State) (a : Nat) : Option (Nat × State) :=
  match get_secmap_for_reading VG_WORDSIZE s a with
  | none => none
  | some (sm, s1) =>
    let sm_off := SM_OFF a
    match load_abits8 s1 sm sm_off with
    | none => none
    | some abits8 => some (extract_abits2_from_abits8 a abits8, s1)

/-- The loop `for (i = 0; i < lenT; i++) set_abits2(a + i, abits2);` of
`set_address_range_perms`, with `n` iterations left from counter `i`. -/
def set_address_range_perms_loop (VG_WORDSIZE : Nat) (a : Nat) (abits2 : Nat) :
    Nat → Nat → State → Option State
  | 0, _, s => some s
  | n + 1, i, s =>
    match set_abits2 VG_WORDSIZE s (toWord VG_WORDSIZE (a + i)) abits2 with
    | none => none
    | some s1 => set_address_range_perms_loop VG_WORDSIZE a abits2 n (i + 1) s1

/-- The C function `set_address_range_perms` as compiled by default, that is without
`PERF_FAST_SARP`: the function returns at the end of the byte loop. The warning printed
for ranges above 256 MiB has no effect on the state and is left out. -/
def set_address_range_perms (VG_WORDSIZE : Nat) (s : State) (a : Nat) (lenT : Nat)
    (abits16 : Nat) (_dsm_num : Nat) : Option State :=
  let abits2 := abits16 &&& 0x3
  if A_BITS16_NOCHECK = abits16 ∨ A_BITS16_UNWRITABLE = abits16 ∨
     A_BITS16_UNREFERABLE = abits16 ∨ A_BITS16_REFCHECK = abits16 then
    if lenT = 0 then some s
    else set_address_range_perms_loop VG_WORDSIZE a abits2 lenT 0 s
  else none

/-! ## Event handlers called from generated code -/

/-- The host function `VG_(maybe_record_error)(VG_(get_running_tid)(), ekind, a, NULL, NULL)`:
the error is handed to the reporter, modelled by the log `errors`. -/
def maybe_record_error (s : State) (ekind : OgErrorKind) (a : Nat) : State :=
  { s with errors := s.errors ++ [{ tid := s.running_tid, ekind := ekind, addr := a }] }

/-- The C function `OG_(store_check8)`. -/
def store_check8 (VG_WORDSIZE : Nat) (s : State) (a : Nat) (_data8 : Nat) : Option State :=
  match get_abits2 VG_WORDSIZE s a with
  | none => none
  | some (t, s1) =>
    if t = A_BITS2_UNWRITABLE then some (maybe_record_error s1 OgErrorKind.UnwritableErr a)
    else some s1

/-- The C function `OG_(store_check16)`. -/
def store_check16 (VG_WORDSIZE : Nat) (s : State) (a : Nat) (_data16 : Nat) : Option State :=
  match get_abits2 VG_WORDSIZE s a with
  | none => none
  | some (t, s1) =>
    if t = A_BITS2_UNWRITABLE then some (maybe_record_error s1 OgErrorKind.UnwritableErr a)
    else some s1

/-- The C function `OG_(store_check32)`. -/
def store_check32 (VG_WORDSIZE : Nat) (s : State) (a : Nat) (data32 : Nat) : Option State :=
  match get_abits2 VG_WORDSIZE s a with
  | none => none
  | some (t, s1) =>
    if t = A_BITS2_UNWRITABLE then some (maybe_record_error s1 OgErrorKind.UnwritableErr a)
    else
      match get_abits2 VG_WORDSIZE s1 a with
      | none => none
      | some (t2, s2) =>
        if t2 = A_BITS2_REFCHECK then
          match get_abits2 VG_WORDSIZE s2 data32 with
          | none => none
          | some (t3, s3) =>
            if t3 = A_BITS2_UNREFERABLE then
              some (maybe_record_error s3 OgErrorKind.UnreferableErr (toWord VG_WORDSIZE data32))
            else some s3
        else some s2

/-- The C function `OG_(store_check64)`; `data64` is a `ULong`, converted to a host word
where it is passed as `Word`, `UWord` or `Addr`. -/
def store_check64 (VG_WORDSIZE : Nat) (s : State) (a : Nat) (data64 : Nat) (wordSize : Nat) :
    Option State :=
  if wordSize = 32 then
    match store_check32 VG_WORDSIZE s a (toWord VG_WORDSIZE data64) with
    | none => none
    | some s1 => store_check32 VG_WORDSIZE s1 a (toWord VG_WORDSIZE (data64 >>> 32))
  else
    match get_abits2 VG_WORDSIZE s a with
    | none => none
    | some (t, s1) =>
      if t = A_BITS2_UNWRITABLE then some (maybe_record_error s1 OgErrorKind.UnwritableErr a)
      else
        match get_abits2 VG_WORDSIZE s1 a with
        | none => none
        | some (t2, s2) =>
          if t2 = A_BITS2_REFCHECK then
            match get_abits2 VG_WORDSIZE s2 (toWord VG_WORDSIZE data64) with
            | none => none
            | some (t3, s3) =>
              if t3 = A_BITS2_UNREFERABLE then
                some (maybe_record_error s3 OgErrorKind.UnreferableErr
                        (toWord VG_WORDSIZE data64))
              else some s3
          else some s2

/-! ## Client requests -/

/-- The macro `VG_USERREQ_TOOL_BASE(a,b)` of `valgrind.h`. -/
def VG_USERREQ_TOOL_BASE (a b : Nat) : Nat := ((a &&& 0xff) <<< 24) ||| ((b &&& 0xff) <<< 16)

/-- The macro `VG_IS_TOOL_USERREQ(a,b,v)` of `valgrind.h`. -/
def VG_IS_TOOL_USERREQ (a b v : Nat) : Bool :=
  decide (VG_USERREQ_TOOL_BASE a b = (v &&& 0xffff0000))

/-- The character constants `'O'` and `'G'`. -/
def CHAR_O : Nat := 79
def CHAR_G : Nat := 71

def VG_USERREQ__MAKE_NOCHECK : Nat := VG_USERREQ_TOOL_BASE CHAR_O CHAR_G
def VG_USERREQ__MAKE_UNWRITABLE : Nat := VG_USERREQ__MAKE_NOCHECK + 1
def VG_USERREQ__MAKE_UNREFERABLE : Nat := VG_USERREQ__MAKE_NOCHECK + 2
def VG_USERREQ__ADD_REFCHECK_FIELD : Nat := VG_USERREQ__MAKE_NOCHECK + 3
def VG_USERREQ__REMOVE_REFCHECK_FIELD : Nat := VG_USERREQ__MAKE_NOCHECK + 4
def VG_USERREQ__CHECK_UNWRITABLE : Nat := VG_USERREQ__MAKE_NOCHECK + 5

/-- The C function `add_refcheck_field`. -/
def add_refcheck_field (VG_WORDSIZE : Nat) (s : State) (field : Nat) : Option State :=
  set_abits2 VG_WORDSIZE s field A_BITS2_REFCHECK

/-- The C function `remove_refcheck_field`. -/
def remove_refcheck_field (VG_WORDSIZE : Nat) (s : State) (field : Nat) : Option State :=
  set_abits2 VG_WORDSIZE s field A_BITS2_NOCHECK

/-- The C function `og_handle_client_request`. `arg` is the argument vector, `ret` the
value of `*ret` on entry; the result is the returned `Bool`, the value of `*ret` on
return and the new state. The warning of the `default` case is not modelled. -/
def og_handle_client_request (VG_WORDSIZE : Nat) (s : State) (_tid : Nat) (arg : Nat → Nat)
    (ret : Nat) : Option (Bool × Nat × State) :=
  if !VG_IS_TOOL_USERREQ CHAR_O CHAR_G (arg 0)
      && decide (VG_USERREQ__MAKE_NOCHECK ≠ arg 0)
      && decide (VG_USERREQ__MAKE_UNWRITABLE ≠ arg 0)
      && decide (VG_USERREQ__MAKE_UNREFERABLE ≠ arg 0)
      && decide (VG_USERREQ__ADD_REFCHECK_FIELD ≠ arg 0)
      && decide (VG_USERREQ__REMOVE_REFCHECK_FIELD ≠ arg 0) then
    some (false, ret, s)
  else if arg 0 = VG_USERREQ__MAKE_NOCHECK then
    match set_address_range_perms VG_WORDSIZE s (arg 1) (arg 2) A_BITS16_NOCHECK
            SM_DIST_NOCHECK with
    | none => none
    | some s1 => some (true, ret, s1)
  else if arg 0 = VG_USERREQ__MAKE_UNWRITABLE then
    match set_address_range_perms VG_WORDSIZE s (arg 1) (arg 2) A_BITS16_UNWRITABLE
            SM_DIST_UNWRITABLE with
    | none => none
    | some s1 => some (true, ret, s1)
  else if arg 0 = VG_USERREQ__MAKE_UNREFERABLE then
    match set_address_range_perms VG_WORDSIZE s (arg 1) (arg 2) A_BITS16_UNREFERABLE
            SM_DIST_UNREFERABLE with
    | none => none
    | some s1 => some (true, ret, s1)
  else if arg 0 = VG_USERREQ__ADD_REFCHECK_FIELD then
    match add_refcheck_field VG_WORDSIZE s (arg 1) with
    | none => none
    | some s1 => some (true, ret, s1)
  else if arg 0 = VG_USERREQ__REMOVE_REFCHECK_FIELD then
    match remove_refcheck_field VG_WORDSIZE s (arg 1) with
    | none => none
    | some s1 => some (true, ret, s1)
  else if arg 0 = VG_USERREQ__CHECK_UNWRITABLE then
    match get_abits2 VG_WORDSIZE s (arg 1) with
    | none => none
    | some (t, s1) => some (true, if t = A_BITS2_UNWRITABLE then 1 else 0, s1)
  else
    some (false, ret, s)

/-! ## Setup -/

/-- The C function `init_auxmap_L1_L2`. -/
def init_auxmap_L1_L2 (s : State) : State :=
  { s with
    auxmap_L1 := fun i => if i < N_AUXMAP_L1 then { base := 0, ent := none } else s.auxmap_L1 i,
    auxmap_L2 := { nodes := s.auxmap_L2.nodes, size := 0 } }

/-- The static storage of `og_main.c` before `og_pre_clo_init` runs: zero-initialised
arrays and counters, no `SecMap` block allocated yet. -/
def static_storage : State :=
  { sm_distinguished := fun _ => { abits8 := fun _ => 0 },
    heap := fun _ => none,
    heap_next := 0,
    primary_map := fun _ => SecMapPtr.null,
    auxmap_L1 := fun _ => { base := 0, ent := none },
    auxmap_L2 := { nodes := fun _ => { base := 0, sm := SecMapPtr.null }, size := 0 },
    n_auxmap_L1_searches := 0,
    n_auxmap_L1_cmps := 0,
    n_auxmap_L2_searches := 0,
    n_auxmap_L2_nodes := 0,
    running_tid := 1,
    errors := [] }

/-- Filling loop `for (i = 0; i < SM_CHUNKS; i++) sm->abits8[i] = v;`. -/
def fill_secmap (m : SecMap) (v : Nat) : SecMap :=
  { abits8 := fun i => if i < SM_CHUNKS then v else m.abits8 i }

/-- The part of the C function `og_pre_clo_init` that builds the shadow memory, run on
the static storage: the state at startup. -/
def og_pre_clo_init (VG_WORDSIZE : Nat) : State :=
  let s := init_auxmap_L1_L2 static_storage
  let d0 := Function.update s.sm_distinguished SM_DIST_NOCHECK
              (fill_secmap (s.sm_distinguished SM_DIST_NOCHECK) A_BITS8_NOCHECK)
  let d1 := Function.update d0 SM_DIST_UNWRITABLE
              (fill_secmap (d0 SM_DIST_UNWRITABLE) A_BITS8_UNWRITABLE)
  let d2 := Function.update d1 SM_DIST_UNREFERABLE
              (fill_secmap (d1 SM_DIST_UNREFERABLE) A_BITS8_UNREFERABLE)
  { s with
    sm_distinguished := d2,
    primary_map := fun i =>
      if i < N_PRIMARY_MAP VG_WORDSIZE then SecMapPtr.distinguished SM_DIST_NOCHECK
      else s.primary_map i }

/-! ## Representation invariant and observations -/

/-- The two builds of the tool: 32-bit (`VG_WORDSIZE == 4`) and 64-bit (`VG_WORDSIZE == 8`). -/
def WordSizeOk (VG_WORDSIZE : Nat) : Prop := VG_WORDSIZE = 4 ∨ VG_WORDSIZE = 8

/-- A front-cache element is either empty, `(base 0, ent NULL)`, or points to a node of the
auxiliary map with the same base. -/
def EntOk (t : OSet) (e : AuxL1Ent) : Prop :=
  match e.ent with
  | none => e.base = 0
  | some k => k < t.size ∧ (t.nodes k).base = e.base

/-- Every element of `auxmap_L1` is empty or mirrors a node of `auxmap_L2`. -/
def L1Coherent (s : State) : Prop :=
  ∀ i, i < N_AUXMAP_L1 → EntOk s.auxmap_L2 (s.auxmap_L1 i)

/-- The keys of the nodes of an `OSet` are pairwise different. -/
def L2Nodup (t : OSet) : Prop :=
  ∀ j k, j < t.size → k < t.size → (t.nodes j).base = (t.nodes k).base → j = k

/-- A `SecMap*` that can be dereferenced: a distinguished map or a live heap block. -/
def ValidPtr (s : State) : SecMapPtr → Prop
  | SecMapPtr.null => False
  | SecMapPtr.distinguished i => i < 3
  | SecMapPtr.allocated id => s.heap id ≠ none

/-- The representation invariant of the shadow memory: the front-cache mirrors the
auxiliary map, auxiliary keys are unique, every map slot holds a pointer that can be
dereferenced, no heap block is referred to by two slots, and blocks not yet handed out
by `VG_(malloc)` are not live. -/
structure WF (VG_WORDSIZE : Nat) (s : State) : Prop where
  l1 : L1Coherent s
  l2 : L2Nodup s.auxmap_L2
  valid : ∀ p v, load_slot VG_WORDSIZE s p = some v → ValidPtr s v
  noalias : ∀ p q id, load_slot VG_WORDSIZE s p = some (SecMapPtr.allocated id) →
    load_slot VG_WORDSIZE s q = some (SecMapPtr.allocated id) → p = q
  fresh : ∀ id, s.heap_next ≤ id → s.heap id = none

/-- The secondary map that the auxiliary map associates with the key `key`: the `sm` of
the node with that key, and the distinguished NOCHECK map (which `find_or_alloc_in_auxmap`
installs on first touch) when there is no node. -/
def auxSm (t : OSet) (key : Nat) : SecMapPtr :=
  match OSetGen_Lookup t key with
  | some k => (t.nodes k).sm
  | none => SecMapPtr.distinguished SM_DIST_NOCHECK

/-- The secondary map in charge of address `a`: the content of the map slot of the
64 KiB region of `a`. -/
def smOf (VG_WORDSIZE : Nat) (s : State) (a : Nat) : SecMapPtr :=
  if a ≤ MAX_PRIMARY_ADDRESS VG_WORDSIZE then s.primary_map (a >>> 16)
  else auxSm s.auxmap_L2 (a &&& notWord VG_WORDSIZE 0xFFFF)

/-- The `SecMap` a pointer points to. -/
def contents (s : State) : SecMapPtr → Option SecMap
  | SecMapPtr.null => none
  | SecMapPtr.distinguished i => if i < 3 then some (s.sm_distinguished i) else none
  | SecMapPtr.allocated id => s.heap id

/-- The shadow byte stored for address `a`. -/
def abits8_of (VG_WORDSIZE : Nat) (s : State) (a : Nat) : Nat :=
  ((contents s (smOf VG_WORDSIZE s a)).map (fun m => m.abits8 (SM_OFF a))).getD 0

/-- The tag stored for address `a`, read off the state without running a lookup. -/
def abits2_of (VG_WORDSIZE : Nat) (s : State) (a : Nat) : Nat :=
  extract_abits2_from_abits8 a (abits8_of VG_WORDSIZE s a)

/-- The tag returned by `get_abits2`, `none` when the call fails. -/
def tag_at (VG_WORDSIZE : Nat) (s : State) (a : Nat) : Option Nat :=
  (get_abits2 VG_WORDSIZE s a).map Prod.fst

/-- The relation between the states before and after an operation that only touches the
auxiliary map and its front-cache: heap, distinguished maps, primary map and error log
are the same, and every address is still served by the same secondary map. -/
structure AuxOnly (VG_WORDSIZE : Nat) (s s1 : State) : Prop where
  dist : s1.sm_distinguished = s.sm_distinguished
  heap : s1.heap = s.heap
  heap_next : s1.heap_next = s.heap_next
  primary : s1.primary_map = s.primary_map
  errors : s1.errors = s.errors
  tid : s1.running_tid = s.running_tid
  sm : ∀ b, smOf VG_WORDSIZE s1 b = smOf VG_WORDSIZE s b

/-- The relation between the states before and after an operation that only touches the
front-cache and its search counters. -/
structure CacheOnly (s s1 : State) : Prop where
  dist : s1.sm_distinguished = s.sm_distinguished
  heap : s1.heap = s.heap
  heap_next : s1.heap_next = s.heap_next
  primary : s1.primary_map = s.primary_map
  l2 : s1.auxmap_L2 = s.auxmap_L2
  nodes : s1.n_auxmap_L2_nodes = s.n_auxmap_L2_nodes
  errors : s1.errors = s.errors
  tid : s1.running_tid = s.running_tid

/-- The `SecMap**` `p` is the map slot of the 64 KiB region of address `a`: the element
`a >> 16` of the primary map, or the `sm` field of the auxiliary node keyed on the base of
the region. -/
def SlotFor (VG_WORDSIZE : Nat) (s : State) (a : Nat) (p : SecMapSlot) : Prop :=
  if a ≤ MAX_PRIMARY_ADDRESS VG_WORDSIZE then p = SecMapSlot.primary (a >>> 16)
  else ∃ k, p = SecMapSlot.aux k ∧
    OSetGen_Lookup s.auxmap_L2 (a &&& notWord VG_WORDSIZE 0xFFFF) = some k

/-- The relation between the states before and after an operation that changes no tag:
every address keeps its tag, the distinguished maps and the running thread are the same. -/
structure SameTags (VG_WORDSIZE : Nat) (s s1 : State) : Prop where
  tags : ∀ b, abits2_of VG_WORDSIZE s1 b = abits2_of VG_WORDSIZE s b
  dist : s1.sm_distinguished = s.sm_distinguished
  tid : s1.running_tid = s.running_tid

/-- The 16-bit repeat value `A_BITS16_*` that the client requests pass for a tag. -/
def abits16_of_tag (t : Nat) : Nat :=
  if t = A_BITS2_NOCHECK then A_BITS16_NOCHECK
  else if t = A_BITS2_UNWRITABLE then A_BITS16_UNWRITABLE
  else if t = A_BITS2_UNREFERABLE then A_BITS16_UNREFERABLE
  else A_BITS16_REFCHECK

/-- The index `SM_DIST_*` that the client requests pass for a paintable tag. -/
def dsm_of_tag (t : Nat) : Nat :=
  if t = A_BITS2_NOCHECK then SM_DIST_NOCHECK
  else if t = A_BITS2_UNWRITABLE then SM_DIST_UNWRITABLE
  else SM_DIST_UNREFERABLE

/-- The argument vector `{code, a1, a2, 0, 0, 0}` built by the macros of `objgrind.h`. -/
def request_args (code a1 a2 : Nat) : Nat → Nat :=
  fun i => if i = 0 then code else if i = 1 then a1 else if i = 2 then a2 else 0

/-- The checker that runs for a store of a pointer (`m[0] = p` in `tiny_tests.c`):
`OG_(store_check32)` in a 32-bit build, where a pointer is an `Ity_I32` datum, and
`OG_(store_check64)` with host word width 64 in a 64-bit build. -/
def store_check_ptr (VG_WORDSIZE : Nat) (s : State) (a data : Nat) : Option State :=
  if VG_WORDSIZE = 4 then store_check32 VG_WORDSIZE s a data
  else store_check64 VG_WORDSIZE s a data 64

/-- The error record submitted for a store to an UNWRITABLE address `a`. -/
def unwritable_at (s : State) (a : Nat) : ErrorRec :=
  { tid := s.running_tid, ekind := OgErrorKind.UnwritableErr, addr := a }

/-- The error record submitted for a store of the UNREFERABLE value `data`. -/
def unreferable_at (s : State) (data : Nat) : ErrorRec :=
  { tid := s.running_tid, ekind := OgErrorKind.UnreferableErr, addr := data }

/-- One operation of the shadow memory, as run by the tool on behalf of the guest. -/
inductive ShadowOp where
  | set_abits2 (a abits2 : Nat) : ShadowOp
  | set_address_range_perms (a lenT abits16 dsm_num : Nat) : ShadowOp
  | get_abits2 (a : Nat) : ShadowOp
  | get_secmap_for_reading (a : Nat) : ShadowOp
  | get_secmap_for_writing (a : Nat) : ShadowOp
  | maybe_get_secmap_for (a : Nat) : ShadowOp
  | store_check8 (a data : Nat) : ShadowOp
  | store_check16 (a data : Nat) : ShadowOp
  | store_check32 (a data : Nat) : ShadowOp
  | store_check64 (a data wordSize : Nat) : ShadowOp

/-- The state after one operation; the value returned by a lookup is dropped. -/
def run_op (VG_WORDSIZE : Nat) (s : State) : ShadowOp → Option State
  | ShadowOp.set_abits2 a abits2 => set_abits2 VG_WORDSIZE s a abits2
  | ShadowOp.set_address_range_perms a lenT abits16 dsm_num =>
    set_address_range_perms VG_WORDSIZE s a lenT abits16 dsm_num
  | ShadowOp.get_abits2 a => (get_abits2 VG_WORDSIZE s a).map Prod.snd
  | ShadowOp.get_secmap_for_reading a => (get_secmap_for_reading VG_WORDSIZE s a).map Prod.snd
  | ShadowOp.get_secmap_for_writing a => (get_secmap_for_writing VG_WORDSIZE s a).map Prod.snd
  | ShadowOp.maybe_get_secmap_for a => (maybe_get_secmap_for VG_WORDSIZE s a).map Prod.snd
  | ShadowOp.store_check8 a data => store_check8 VG_WORDSIZE s a data
  | ShadowOp.store_check16 a data => store_check16 VG_WORDSIZE s a data
  | ShadowOp.store_check32 a data => store_check32 VG_WORDSIZE s a data
  | ShadowOp.store_check64 a data wordSize => store_check64 VG_WORDSIZE s a data wordSize

/-- The state after a sequence of operations. -/
def run_ops (VG_WORDSIZE : Nat) (s : State) : List ShadowOp → Option State
  | [] => some s
  | op :: ops =>
    match run_op VG_WORDSIZE s op with
    | none => none
    | some s1 => run_ops VG_WORDSIZE s1 ops

/-- The arguments of an operation are host words, its tag argument is one of the four
two-bit tags and its `abits16` argument one of the four `A_BITS16_*` constants. -/
def ValidOp (VG_WORDSIZE : Nat) : ShadowOp → Prop
  | ShadowOp.set_abits2 a abits2 => a < 2 ^ WORD_BITS VG_WORDSIZE ∧ abits2 < 4
  | ShadowOp.set_address_range_perms _ _ abits16 _ =>
    abits16 = A_BITS16_NOCHECK ∨ abits16 = A_BITS16_UNWRITABLE ∨
      abits16 = A_BITS16_UNREFERABLE ∨ abits16 = A_BITS16_REFCHECK
  | ShadowOp.get_abits2 a => a < 2 ^ WORD_BITS VG_WORDSIZE
  | ShadowOp.get_secmap_for_reading a => a < 2 ^ WORD_BITS VG_WORDSIZE
  | ShadowOp.get_secmap_for_writing a => a < 2 ^ WORD_BITS VG_WORDSIZE
  | ShadowOp.maybe_get_secmap_for a => a < 2 ^ WORD_BITS VG_WORDSIZE
  | ShadowOp.store_check8 a _ => a < 2 ^ WORD_BITS VG_WORDSIZE
  | ShadowOp.store_check16 a _ => a < 2 ^ WORD_BITS VG_WORDSIZE
  | ShadowOp.store_check32 a data =>
    a < 2 ^ WORD_BITS VG_WORDSIZE ∧ data < 2 ^ WORD_BITS VG_WORDSIZE
  | ShadowOp.store_check64 a _ _ => a < 2 ^ WORD_BITS VG_WORDSIZE

/-- The three distinguished maps hold their startup contents. -/
def DistinguishedIntact (s : State) : Prop :=
  ∀ off, off < SM_CHUNKS →
    (s.sm_distinguished SM_DIST_NOCHECK).abits8 off = A_BITS8_NOCHECK ∧
    (s.sm_distinguished SM_DIST_UNWRITABLE).abits8 off = A_BITS8_UNWRITABLE ∧
    (s.sm_distinguished SM_DIST_UNREFERABLE).abits8 off = A_BITS8_UNREFERABLE

/-- The operation does not write a tag in the 64 KiB region of address `b`: it is not a
`set_abits2` on an address of that region, nor a paint of a range that meets it. Lookups,
copies for writing and store checks write no tag. -/
def RegionUntouched (VG_WORDSIZE : Nat) (b : Nat) : ShadowOp → Prop
  | ShadowOp.set_abits2 a _ => a / 65536 ≠ b / 65536
  | ShadowOp.set_address_range_perms a lenT _ _ =>
    ∀ j, j < lenT → toWord VG_WORDSIZE (a + j) / 65536 ≠ b / 65536
  | _ => True

/-- The nodes of an `OSet` in the order in which `VG_(OSetGen_ResetIter)` followed by
repeated calls of `VG_(OSetGen_Next)` yields them: by increasing key. -/
def OSetGen_iter (t : OSet) : List Nat :=
  List.insertionSort (fun j k => (t.nodes j).base ≤ (t.nodes k).base) (List.range t.size)

/-- The loop `while ( (elem = VG_(OSetGen_Next)(auxmap_L2)) )` of
`check_auxmap_L1_L2_sanity` over the nodes still to visit: the text returned from inside
the loop (`none` when the loop runs to its end) and the values of `elems_seen` (a `UWord`)
and `*n_secmaps_found`. -/
def check_auxmap_L2_loop (VG_WORDSIZE : Nat) (s : State) :
    List Nat → Nat → Nat → Option String × Nat × Nat
  | [], elems_seen, n_secmaps_found => (none, elems_seen, n_secmaps_found)
  | elem :: rest, elems_seen, n_secmaps_found =>
    let elems_seen := toWord VG_WORDSIZE (elems_seen + 1)
    if 0 ≠ ((s.auxmap_L2.nodes elem).base &&& 0xFFFF) then
      (some "64-bit: nonzero .base & 0xFFFF in auxmap_L2", elems_seen, n_secmaps_found)
    else if (s.auxmap_L2.nodes elem).base ≤ MAX_PRIMARY_ADDRESS VG_WORDSIZE then
      (some "64-bit: .base <= MAX_PRIMARY_ADDRESS in auxmap_L2", elems_seen, n_secmaps_found)
    else if (s.auxmap_L2.nodes elem).sm = SecMapPtr.null then
      (some "64-bit: .sm in _L2 is NULL", elems_seen, n_secmaps_found)
    else
      check_auxmap_L2_loop VG_WORDSIZE s rest elems_seen
        (if !is_distinguished_sm (s.auxmap_L2.nodes elem).sm then n_secmaps_found + 1
         else n_secmaps_found)

/-- The loop "Check L1-L2 correspondence" of `check_auxmap_L1_L2_sanity`, with `n`
iterations left from index `i`: the text returned from inside the loop, `some none` when
the loop runs to its end, and `none` when `auxmap_L1[i].ent` does not point to a node. -/
def check_auxmap_L1_loop (VG_WORDSIZE : Nat) (s : State) : Nat → Nat → Option (Option String)
  | 0, _ => some none
  | n + 1, i =>
    if (s.auxmap_L1 i).base = 0 ∧ (s.auxmap_L1 i).ent = none then
      check_auxmap_L1_loop VG_WORDSIZE s n (i + 1)
    else if 0 ≠ ((s.auxmap_L1 i).base &&& 0xFFFF) then
      some (some "64-bit: nonzero .base & 0xFFFF in auxmap_L1")
    else if (s.auxmap_L1 i).base ≤ MAX_PRIMARY_ADDRESS VG_WORDSIZE then
      some (some "64-bit: .base <= MAX_PRIMARY_ADDRESS in auxmap_L1")
    else
      match (s.auxmap_L1 i).ent with
      | none => some (some "64-bit: .ent is NULL in auxmap_L1")
      | some ent =>
        if ent < s.auxmap_L2.size then
          if (s.auxmap_L2.nodes ent).base ≠ (s.auxmap_L1 i).base then
            some (some "64-bit: _L1 and _L2 bases are inconsistent")
          else
            match OSetGen_Lookup s.auxmap_L2 (s.auxmap_L1 i).base with
            | none => some (some "64-bit: _L1 .base not found in _L2")
            | some res =>
              if res ≠ ent then some (some "64-bit: _L1 .ent disagrees with _L2 entry")
              else check_auxmap_L1_loop VG_WORDSIZE s n (i + 1)
        else none

/-- The inner loop `for (j = i+1; j < N_AUXMAP_L1; j++)` of the duplicate check, with `n`
iterations left from index `j`: whether the `return` inside the loop is reached. -/
def check_auxmap_L1_dup_inner (s : State) (i : Nat) : Nat → Nat → Bool
  | 0, _ => false
  | n + 1, j =>
    if (s.auxmap_L1 j).base = 0 then check_auxmap_L1_dup_inner s i n (j + 1)
    else if (s.auxmap_L1 j).base = (s.auxmap_L1 i).base then true
    else check_auxmap_L1_dup_inner s i n (j + 1)

/-- The loop "Check L1 contains no duplicates" of `check_auxmap_L1_L2_sanity`, with `n`
iterations left from index `i`: whether the `return` inside the loops is reached. -/
def check_auxmap_L1_dup (s : State) : Nat → Nat → Bool
  | 0, _ => false
  | n + 1, i =>
    if (s.auxmap_L1 i).base = 0 then check_auxmap_L1_dup s n (i + 1)
    else if check_auxmap_L1_dup_inner s i (N_AUXMAP_L1 - (i + 1)) (i + 1) then true
    else check_auxmap_L1_dup s n (i + 1)

/-- The loop of the 32-bit branch of `check_auxmap_L1_L2_sanity`, with `n` iterations left
from index `i`: whether the `return` inside the loop is reached. -/
def check_auxmap_L1_nonempty (s : State) : Nat → Nat → Bool
  | 0, _ => false
  | n + 1, i =>
    if (s.auxmap_L1 i).base ≠ 0 ∨ (s.auxmap_L1 i).ent ≠ none then true
    else check_auxmap_L1_nonempty s n (i + 1)

/-- The C function `check_auxmap_L1_L2_sanity`: the returned text, `none` for `NULL`, and
the value left in `*n_secmaps_found`; the call itself fails (`none`) when it dereferences
an `ent` that points to no node. `sizeof(void*) == 4` is `VG_WORDSIZE == 4`. -/
def check_auxmap_L1_L2_sanity (VG_WORDSIZE : Nat) (s : State) :
    Option (Option String × Nat) :=
  if VG_WORDSIZE = 4 then
    if s.auxmap_L2.size ≠ 0 then some (some "32-bit: auxmap_L2 is non-empty", 0)
    else if check_auxmap_L1_nonempty s N_AUXMAP_L1 0 then
      some (some "32-bit: auxmap_L1 is non-empty", 0)
    else some (none, 0)
  else
    match check_auxmap_L2_loop VG_WORDSIZE s (OSetGen_iter s.auxmap_L2) 0 0 with
    | (some msg, _, n_secmaps_found) => some (some msg, n_secmaps_found)
    | (none, elems_seen, n_secmaps_found) =>
      if elems_seen ≠ s.n_auxmap_L2_nodes then
        some (some "64-bit: disagreement on number of elems in _L2", n_secmaps_found)
      else
        match check_auxmap_L1_loop VG_WORDSIZE s N_AUXMAP_L1 0 with
        | none => none
        | some (some msg) => some (some msg, n_secmaps_found)
        | some none =>
          if check_auxmap_L1_dup s N_AUXMAP_L1 0 then
            some (some "64-bit: duplicate _L1 .base entries", n_secmaps_found)
          else some (none, n_secmaps_found)

/-- No two non-empty elements of the front-cache have the same base. -/
def L1Nodup (l1 : Nat → AuxL1Ent) : Prop :=
  ∀ i j, i < N_AUXMAP_L1 → j < N_AUXMAP_L1 → (l1 i).base ≠ 0 →
    (l1 i).base = (l1 j).base → i = j

/-- The representation invariant of the auxiliary map and its front-cache, as documented
in `check_auxmap_L1_L2_sanity`. -/
structure AuxSane (VG_WORDSIZE : Nat) (s : State) : Prop where
  l1 : L1Coherent s
  l2 : L2Nodup s.auxmap_L2
  l1nodup : L1Nodup s.auxmap_L1
  aligned : ∀ k, k < s.auxmap_L2.size → (s.auxmap_L2.nodes k).base &&& 0xFFFF = 0
  high : ∀ k, k < s.auxmap_L2.size →
    MAX_PRIMARY_ADDRESS VG_WORDSIZE < (s.auxmap_L2.nodes k).base
  page : ∀ k, k < s.auxmap_L2.size → (s.auxmap_L2.nodes k).sm ≠ SecMapPtr.null
  count : s.n_auxmap_L2_nodes = s.auxmap_L2.size % 2 ^ 64

/-- A call of one of the two lookup functions of the auxiliary map. -/
inductive AuxMapOp where
  | maybe_find_in_auxmap (a : Nat) : AuxMapOp
  | find_or_alloc_in_auxmap (a : Nat) : AuxMapOp

/-- The address passed by a call. -/
def AuxMapOp.addr : AuxMapOp → Nat
  | AuxMapOp.maybe_find_in_auxmap a => a
  | AuxMapOp.find_or_alloc_in_auxmap a => a

/-- The state after one call; the value returned is dropped. -/
def run_auxmap_op (VG_WORDSIZE : Nat) (s : State) : AuxMapOp → Option State
  | AuxMapOp.maybe_find_in_auxmap a => (maybe_find_in_auxmap VG_WORDSIZE s a).map Prod.snd
  | AuxMapOp.find_or_alloc_in_auxmap a =>
    (find_or_alloc_in_auxmap VG_WORDSIZE s a).map Prod.snd

/-- The state after a sequence of calls. -/
def run_auxmap_ops (VG_WORDSIZE : Nat) (s : State) : List AuxMapOp → Option State
  | [] => some s
  | op :: ops =>
    match run_auxmap_op VG_WORDSIZE s op with
    | none => none
    | some s1 => run_auxmap_ops VG_WORDSIZE s1 ops

/-- A state whose front-cache holds the keys `2^40` at index 0, `2^41` at index 1 and `2^42`
at index 5, with the three nodes in the auxiliary map: an example for the cache lemmas. -/
def cache_example : State :=
  { og_pre_clo_init 8 with
    auxmap_L1 := fun j =>
      if j = 0 then { base := 2 ^ 40, ent := some 0 }
      else if j = 1 then { base := 2 ^ 41, ent := some 1 }
      else if j = 5 then { base := 2 ^ 42, ent := some 2 }
      else { base := 0, ent := none },
    auxmap_L2 :=
      { nodes := fun k =>
          if k = 0 then { base := 2 ^ 40, sm := SecMapPtr.distinguished SM_DIST_NOCHECK }
          else if k = 1 then { base := 2 ^ 41, sm := SecMapPtr.distinguished SM_DIST_NOCHECK }
          else if k = 2 then { base := 2 ^ 42, sm := SecMapPtr.distinguished SM_DIST_NOCHECK }
          else { base := 2 ^ 43, sm := SecMapPtr.distinguished SM_DIST_NOCHECK },
        size := 4 },
    n_auxmap_L2_nodes := 4 }

/-! ## Error handlers of `og_error.c` -/

/-- The value of an enumerator of `OgErrorKind` as the core's `ErrorKind`, an `Int`:
`UnwritableErr = 1`, `UnreferableErr` the next one. -/
def OgErrorKind.code : OgErrorKind → Int
  | OgErrorKind.UnwritableErr => 1
  | OgErrorKind.UnreferableErr => 2

/-- The macro `STR_UnwritableError` of `og_error.h`. -/
def STR_UnwritableError : String := "UnwritableMemoryError"

/-- The macro `STR_UnreferableError` of `og_error.h`. -/
def STR_UnreferableError : String := "UnreferableError"

/-- The core's `VgRes`, the resolution asked for when two errors are compared. -/
inductive VgRes where
  | Vg_LowRes : VgRes
  | Vg_MedRes : VgRes
  | Vg_HighRes : VgRes
  deriving DecidableEq, Repr

/-- The core's `Error`, as far as `og_error.c` reads it: `VG_(get_error_kind)`,
`VG_(get_error_address)` and the thread that raised it. -/
structure Error where
  tid : Nat
  ekind : Int
  addr : Nat
  deriving DecidableEq, Repr

/-- The core's `Supp`, as far as `og_error.c` uses it: the kind set by
`VG_(set_supp_kind)` and read by `VG_(get_supp_kind)`. -/
structure Supp where
  skind : Int
  deriving DecidableEq, Repr

/-- The error that the core builds from a call of `VG_(maybe_record_error)`. -/
def ErrorRec.toError (r : ErrorRec) : Error :=
  { tid := r.tid, ekind := r.ekind.code, addr := r.addr }

/-- The C function `og_compare_error_contexts`; `none` when the `tl_assert` fails or the
tool panics on an unknown error code. -/
def og_compare_error_contexts (_res : VgRes) (e1 e2 : Error) : Option Bool :=
  if e1.ekind = e2.ekind then
    if e1.ekind = OgErrorKind.UnwritableErr.code ∨ e1.ekind = OgErrorKind.UnreferableErr.code then
      some (if e1.addr = e2.addr then true else false)
    else none
  else none

/-- The C function `og_is_recognized_suppression`: the returned `Bool` and the suppression
after the call. -/
def og_is_recognized_suppression (name : String) (supp : Supp) : Bool × Supp :=
  if name = STR_UnwritableError then
    (true, { supp with skind := OgErrorKind.UnwritableErr.code })
  else if name = STR_UnreferableError then
    (true, { supp with skind := OgErrorKind.UnreferableErr.code })
  else (false, supp)

/-- The C function `og_error_matches_suppression`. -/
def og_error_matches_suppression (e : Error) (supp : Supp) : Bool :=
  decide (supp.skind = e.ekind)

/-- The C function `og_get_error_name`; `none` when `tl_assert(0)` is reached. -/
def og_get_error_name (e : Error) : Option String :=
  if e.ekind = OgErrorKind.UnwritableErr.code then some STR_UnwritableError
  else if e.ekind = OgErrorKind.UnreferableErr.code then some STR_UnreferableError
  else none

/-! ## The range painter compiled with `PERF_FAST_SARP` -/

/-- The macro `VG_IS_8_ALIGNED` of `pub_tool_basics.h`: `0 == (((Addr)a) & ((Addr)0x7))`. -/
def VG_IS_8_ALIGNED (a : Nat) : Bool := decide (0 = (a &&& 0x7))

/-- The statement `insert_abits2_into_abits8( a, abits2, &(sm->abits8[sm_off]) )` with
`sm_off = SM_OFF(a)`, as written in the loops of `set_address_range_perms`. -/
def insert_abits2_at (s : State) (sm : SecMapPtr) (a abits2 : Nat) : Option State :=
  let sm_off := SM_OFF a
  match load_abits8 s sm sm_off with
  | none => none
  | some abits8 => store_abits8 s sm sm_off (insert_abits2_into_abits8 a abits2 abits8)

/-- The statement `((UShort*)(sm->abits8))[sm_off16] = abits16`: the shadow bytes
`2*sm_off16` and `2*sm_off16 + 1` receive the low and the high byte of the value converted
to `UShort` (the byte order of a little-endian host; the two bytes of each of the
`A_BITS16_*` constants are equal). -/
def store_abits16 (s : State) (sm : SecMapPtr) (sm_off16 : Nat) (abits16 : Nat) :
    Option State :=
  match store_abits8 s sm (2 * sm_off16) (abits16 % 256) with
  | none => none
  | some s1 => store_abits8 s1 sm (2 * sm_off16 + 1) ((abits16 >>> 8) % 256)

/-- The call `VG_(free)((void *)sm)` on a `SecMap*`: defined only for a live heap block. -/
def free_secmap (s : State) (sm : SecMapPtr) : Option State :=
  match sm with
  | SecMapPtr.allocated id =>
    match s.heap id with
    | some _ => some { s with heap := Function.update s.heap id none }
    | none => none
  | _ => none

/-- The first loop "1 byte steps" of part 1,
`while (True) { if (VG_IS_8_ALIGNED(a)) break; if (lenA < 1) break; ...; a += 1; lenA -= 1; }`,
by recursion on `lenA`: the values of `a` and `lenA` and the state when the loop ends. -/
def sarp_1_byte_steps_to_8_aligned (VG_WORDSIZE : Nat) (sm : SecMapPtr) (abits2 : Nat) :
    Nat → Nat → State → Option (Nat × Nat × State)
  | 0, a, s => some (a, 0, s)
  | lenA + 1, a, s =>
    if VG_IS_8_ALIGNED a then some (a, lenA + 1, s)
    else
      match insert_abits2_at s sm a abits2 with
      | none => none
      | some s1 =>
        sarp_1_byte_steps_to_8_aligned VG_WORDSIZE sm abits2 lenA (toWord VG_WORDSIZE (a + 1)) s1

/-- The loops "8-aligned, 8 byte steps" of parts 1 and 3,
`while (True) { if (len < 8) break; ((UShort*)(sm->abits8))[SM_OFF_16(a)] = abits16; a += 8; len -= 8; }`.
The first argument bounds the number of iterations; the result is `none` if it is used up
before the loop ends. -/
def sarp_8_byte_steps (VG_WORDSIZE : Nat) (sm : SecMapPtr) (abits16 : Nat) :
    Nat → Nat → Nat → State → Option (Nat × Nat × State)
  | 0, a, len, s => if len < 8 then some (a, len, s) else none
  | fuel + 1, a, len, s =>
    if len < 8 then some (a, len, s)
    else
      match store_abits16 s sm (SM_OFF_16 a) abits16 with
      | none => none
      | some s1 =>
        sarp_8_byte_steps VG_WORDSIZE sm abits16 fuel (toWord VG_WORDSIZE (a + 8)) (len - 8) s1

/-- The last loops "1 byte steps" of parts 1 and 3,
`while (True) { if (len < 1) break; ...; a += 1; len -= 1; }`, by recursion on `len`. -/
def sarp_1_byte_steps (VG_WORDSIZE : Nat) (sm : SecMapPtr) (abits2 : Nat) :
    Nat → Nat → State → Option (Nat × Nat × State)
  | 0, a, s => some (a, 0, s)
  | len + 1, a, s =>
    match insert_abits2_at s sm a abits2 with
    | none => none
    | some s1 => sarp_1_byte_steps VG_WORDSIZE sm abits2 len (toWord VG_WORDSIZE (a + 1)) s1

/-- Part 1 of `set_address_range_perms`, from `sm_ptr = get_secmap_ptr(a)` to the end of
the third loop: the values of `a` and `lenA` and the state at that point. When the slot
holds `example_dsm` the range is skipped; otherwise
`if (is_distinguished_sm(*sm_ptr)) *sm_ptr = copy_for_writing(*sm_ptr); sm = *sm_ptr;`
is the body shared with `get_secmap_for_writing`. -/
def sarp_part1 (VG_WORDSIZE : Nat) (s : State) (a lenA aNext abits16 : Nat)
    (example_dsm : SecMapPtr) : Option (Nat × Nat × State) :=
  let abits2 := abits16 &&& 0x3
  match get_secmap_ptr VG_WORDSIZE s a with
  | none => none
  | some (sm_ptr, s1) =>
    match load_slot VG_WORDSIZE s1 sm_ptr with
    | none => none
    | some p =>
      let r : Option (Nat × Nat × SecMapPtr × State) :=
        if is_distinguished_sm p ∧ p = example_dsm then some (aNext, 0, p, s1)
        else
          match cow_slot VG_WORDSIZE s1 sm_ptr with
          | none => none
          | some (sm, s2) => some (a, lenA, sm, s2)
      match r with
      | none => none
      | some (a, lenA, sm, s2) =>
        match sarp_1_byte_steps_to_8_aligned VG_WORDSIZE sm abits2 lenA a s2 with
        | none => none
        | some (a, lenA, s3) =>
          match sarp_8_byte_steps VG_WORDSIZE sm abits16 lenA a lenA s3 with
          | none => none
          | some (a, lenA, s4) => sarp_1_byte_steps VG_WORDSIZE sm abits2 lenA a s4

/-- The loop "64KB-aligned, 64KB steps" of part 2. The first argument bounds the number of
iterations; the result is `none` if it is used up, if the `tl_assert` fails or if a pointer
that cannot be freed is freed. -/
def sarp_part2 (VG_WORDSIZE : Nat) (example_dsm : SecMapPtr) :
    Nat → Nat → Nat → State → Option (Nat × Nat × State)
  | 0, a, lenB, s => if lenB < SM_SIZE then some (a, lenB, s) else none
  | fuel + 1, a, lenB, s =>
    if lenB < SM_SIZE then some (a, lenB, s)
    else if is_start_of_sm VG_WORDSIZE a then
      match get_secmap_ptr VG_WORDSIZE s a with
      | none => none
      | some (sm_ptr, s1) =>
        match load_slot VG_WORDSIZE s1 sm_ptr with
        | none => none
        | some p =>
          match (if !is_distinguished_sm p then free_secmap s1 p else some s1) with
          | none => none
          | some s2 =>
            match store_slot VG_WORDSIZE s2 sm_ptr example_dsm with
            | none => none
            | some s3 =>
              sarp_part2 VG_WORDSIZE example_dsm fuel (toWord VG_WORDSIZE (a + SM_SIZE))
                (lenB - SM_SIZE) s3
    else none

/-- Part 3 of `set_address_range_perms`. -/
def sarp_part3 (VG_WORDSIZE : Nat) (s : State) (a lenB abits16 : Nat)
    (example_dsm : SecMapPtr) : Option State :=
  let abits2 := abits16 &&& 0x3
  if is_start_of_sm VG_WORDSIZE a ∧ lenB < SM_SIZE then
    match get_secmap_ptr VG_WORDSIZE s a with
    | none => none
    | some (sm_ptr, s1) =>
      match load_slot VG_WORDSIZE s1 sm_ptr with
      | none => none
      | some p =>
        if is_distinguished_sm p ∧ p = example_dsm then some s1
        else
          match cow_slot VG_WORDSIZE s1 sm_ptr with
          | none => none
          | some (sm, s2) =>
            match sarp_8_byte_steps VG_WORDSIZE sm abits16 lenB a lenB s2 with
            | none => none
            | some (a, lenB, s3) =>
              match sarp_1_byte_steps VG_WORDSIZE sm abits2 lenB a s3 with
              | none => none
              | some (_, _, s4) => some s4
  else none

/-- Parts 2 and 3 of `set_address_range_perms`, from the label `part2`. -/
def sarp_part23 (VG_WORDSIZE : Nat) (s : State) (a lenA lenB abits16 : Nat)
    (example_dsm : SecMapPtr) : Option State :=
  if 0 = lenA then
    match sarp_part2 VG_WORDSIZE example_dsm lenB a lenB s with
    | none => none
    | some (a, lenB, s1) =>
      if lenB = 0 then some s1
      else sarp_part3 VG_WORDSIZE s1 a lenB abits16 example_dsm
  else none

/-- The C function `set_address_range_perms` as compiled with `PERF_FAST_SARP` defined. The
local variable `example_dsm` is read without having been assigned; its value is a
parameter here. `a` and `lenT` are host words. -/
def set_address_range_perms_fast (VG_WORDSIZE : Nat) (s : State) (a : Nat) (lenT : Nat)
    (abits16 : Nat) (_dsm_num : Nat) (example_dsm : SecMapPtr) : Option State :=
  if A_BITS16_NOCHECK = abits16 ∨ A_BITS16_UNWRITABLE = abits16 ∨
     A_BITS16_UNREFERABLE = abits16 ∨ A_BITS16_REFCHECK = abits16 then
    if lenT = 0 then some s
    else
      let aNext := toWord VG_WORDSIZE (start_of_this_sm VG_WORDSIZE a + SM_SIZE)
      let len_to_next_secmap := toWord VG_WORDSIZE (aNext + (2 ^ WORD_BITS VG_WORDSIZE - a))
      if lenT ≤ len_to_next_secmap then
        match sarp_part1 VG_WORDSIZE s a lenT aNext abits16 example_dsm with
        | none => none
        | some (_, _, s1) => some s1
      else if is_start_of_sm VG_WORDSIZE a then
        sarp_part23 VG_WORDSIZE s a 0 lenT abits16 example_dsm
      else
        match sarp_part1 VG_WORDSIZE s a len_to_next_secmap aNext abits16 example_dsm with
        | none => none
        | some (a1, lenA1, s1) =>
          if lenT - len_to_next_secmap = 0 then some s1
          else sarp_part23 VG_WORDSIZE s1 a1 lenA1 (lenT - len_to_next_secmap) abits16
                 example_dsm
  else none

/-- The tag that the page `m` holds for an address `b` of its region. -/
def tag_in (m : SecMap) (b : Nat) : Nat :=
  extract_abits2_from_abits8 b (m.abits8 (SM_OFF b))

/-- The state in which the heap block `id` holds the page `m`. -/
def set_page (s : State) (id : Nat) (m : SecMap) : State :=
  { s with heap := Function.update s.heap id (some m) }

/-- The page `m1` is the page `m` with the tag `t` for the addresses whose offset in the
64 KiB region lies in `[lo, hi)`, and the tags of `m` elsewhere. -/
def Painted (m m1 : SecMap) (lo hi t : Nat) : Prop :=
  ∀ b, tag_in m1 b = if lo ≤ b % 65536 ∧ b % 65536 < hi then t else tag_in m b

/-- Between the states `s` and `s1` the addresses `a + j` (as host words) with
`i ≤ j < i + n` received the tag `t`, and every other address kept its tag. -/
def PaintStep (VG_WORDSIZE : Nat) (a t i n : Nat) (s s1 : State) : Prop :=
  ∀ b, b < 2 ^ WORD_BITS VG_WORDSIZE →
    ((∃ j, i ≤ j ∧ j < i + n ∧ toWord VG_WORDSIZE (a + j) = b) →
      abits2_of VG_WORDSIZE s1 b = t) ∧
    ((∀ j, i ≤ j → j < i + n → toWord VG_WORDSIZE (a + j) ≠ b) →
      abits2_of VG_WORDSIZE s1 b = abits2_of VG_WORDSIZE s b)

/-- Between the states `s` and `s1` the map slots of the addresses `a + j` (as host words)
with `i ≤ j < i + n` received the pointer `d`, and the slot of every other address kept
its content. -/
def ShareStep (VG_WORDSIZE : Nat) (a : Nat) (d : SecMapPtr) (i n : Nat) (s s1 : State) :
    Prop :=
  ∀ b, b < 2 ^ WORD_BITS VG_WORDSIZE →
    ((∃ j, i ≤ j ∧ j < i + n ∧ toWord VG_WORDSIZE (a + j) = b) →
      smOf VG_WORDSIZE s1 b = d) ∧
    ((∀ j, i ≤ j → j < i + n → toWord VG_WORDSIZE (a + j) ≠ b) →
      smOf VG_WORDSIZE s1 b = smOf VG_WORDSIZE s b)

/-- Between the states `s` and `s1` the map slot of every 64 KiB region other than that of
address `c` kept its content. -/
def SlotFrame (VG_WORDSIZE : Nat) (c : Nat) (s s1 : State) : Prop :=
  ∀ b, b < 2 ^ WORD_BITS VG_WORDSIZE → b / 65536 ≠ c / 65536 →
    smOf VG_WORDSIZE s1 b = smOf VG_WORDSIZE s b

/-! ## The intermediate representation and the instrumentation pass -/

/-- The enum `IRType` of VEX (`libvex_ir.h`). -/
inductive IRType where
  | Ity_INVALID | Ity_I1 | Ity_I8 | Ity_I16 | Ity_I32 | Ity_I64 | Ity_I128
  | Ity_F32 | Ity_F64 | Ity_D32 | Ity_D64 | Ity_D128 | Ity_F128 | Ity_V128 | Ity_V256
  deriving DecidableEq, Repr

/-- The constants `IRConst` of VEX: the tag and the bits of the constant. -/
inductive IRConst where
  | U1 (b : Bool)
  | U8 (n : Nat)
  | U16 (n : Nat)
  | U32 (n : Nat)
  | U64 (n : Nat)
  | F32 (bits : Nat)
  | F32i (n : Nat)
  | F64 (bits : Nat)
  | F64i (n : Nat)
  | V128 (n : Nat)
  | V256 (n : Nat)
  deriving DecidableEq, Repr

/-- The function `typeOfIRConst` of VEX. -/
def typeOfIRConst : IRConst → IRType
  | IRConst.U1 _ => IRType.Ity_I1
  | IRConst.U8 _ => IRType.Ity_I8
  | IRConst.U16 _ => IRType.Ity_I16
  | IRConst.U32 _ => IRType.Ity_I32
  | IRConst.U64 _ => IRType.Ity_I64
  | IRConst.F32 _ => IRType.Ity_F32
  | IRConst.F32i _ => IRType.Ity_F32
  | IRConst.F64 _ => IRType.Ity_F64
  | IRConst.F64i _ => IRType.Ity_F64
  | IRConst.V128 _ => IRType.Ity_V128
  | IRConst.V256 _ => IRType.Ity_V256

/-- The primitive operations `IROp` that `og_main.c` names. `Iop_other` stands for the
remaining values of the enum, which occur only in statements of the input block. -/
inductive IROp where
  | Iop_Add32 | Iop_Add64
  | Iop_8Uto32 | Iop_16Uto32 | Iop_32Uto64
  | Iop_V128to64 | Iop_V128HIto64
  | Iop_V256to64_0 | Iop_V256to64_1 | Iop_V256to64_2 | Iop_V256to64_3
  | Iop_other (code : Nat)
  deriving DecidableEq, Repr

/-- The expressions `IRExpr` of VEX. -/
inductive IRExpr where
  | Binder (binder : Nat)
  | Get (offset : Nat) (ty : IRType)
  | GetI (elemTy : IRType) (ix : IRExpr) (bias : Nat)
  | RdTmp (tmp : Nat)
  | Qop (op : IROp) (arg1 arg2 arg3 arg4 : IRExpr)
  | Triop (op : IROp) (arg1 arg2 arg3 : IRExpr)
  | Binop (op : IROp) (arg1 arg2 : IRExpr)
  | Unop (op : IROp) (arg : IRExpr)
  | Load (ty : IRType) (addr : IRExpr)
  | Const (con : IRConst)
  | ITE (cond iftrue iffalse : IRExpr)
  | CCall (callee : Nat) (retty : IRType) (args : List IRExpr)

/-- The callee of a dirty call (`cee->addr`): one of the four checkers of `og_main.c`, or
a helper that is not the tool's. -/
inductive OgHelper where
  | store_check8 | store_check16 | store_check32 | store_check64
  | other (addr : Nat)
  deriving DecidableEq, Repr

/-- The struct `IRDirty` of VEX, with the name and the address of the callee, the guard,
the argument vector and `mAddr`. -/
structure IRDirty where
  hname : String
  helper : OgHelper
  guard : IRExpr
  args : List IRExpr
  mAddr : Option IRExpr

/-- The statements `IRStmt` of VEX, one constructor for each value of `IRStmtTag`. -/
inductive IRStmt where
  | NoOp
  | IMark (addr len delta : Nat)
  | AbiHint (base : IRExpr) (len : Nat) (nia : IRExpr)
  | Put (offset : Nat) (data : IRExpr)
  | PutI (ix : IRExpr) (bias : Nat) (data : IRExpr)
  | WrTmp (tmp : Nat) (data : IRExpr)
  | Store (addr data : IRExpr)
  | StoreG (addr data guard : IRExpr)
  | LoadG (dst : Nat) (addr alt guard : IRExpr)
  | CAS (addr : IRExpr) (expdHi : Option IRExpr) (expdLo : IRExpr)
      (dataHi : Option IRExpr) (dataLo : IRExpr)
  | LLSC (result : Nat) (addr : IRExpr) (storedata : Option IRExpr)
  | Dirty (details : IRDirty)
  | MBE (event : Nat)
  | Exit (guard : IRExpr) (jk : Nat) (dst : IRConst) (offsIP : Nat)

/-- The struct `IRSB` of VEX: a type environment (the type of temporary `t` is element `t`),
the statements, and the fields `next`, `jumpkind` and `offsIP`. -/
structure IRSB where
  tyenv : List IRType
  stmts : List IRStmt
  next : IRExpr
  jumpkind : Nat
  offsIP : Nat

/-- The function `isIRAtom` of VEX: `e->tag == Iex_RdTmp || e->tag == Iex_Const`. -/
def isIRAtom : IRExpr → Bool
  | IRExpr.RdTmp _ => true
  | IRExpr.Const _ => true
  | _ => false

/-- A null pointer counts as an atom in the tests of `isFlatIRStmt` on optional fields. -/
def isIRAtomOpt : Option IRExpr → Bool
  | none => true
  | some e => isIRAtom e

/-- The function `isFlatIRStmt` of VEX: every operand of the statement is an atom. -/
def isFlatIRStmt : IRStmt → Bool
  | IRStmt.NoOp => true
  | IRStmt.IMark _ _ _ => true
  | IRStmt.AbiHint base _ nia => isIRAtom base && isIRAtom nia
  | IRStmt.Put _ data => isIRAtom data
  | IRStmt.PutI ix _ data => isIRAtom ix && isIRAtom data
  | IRStmt.WrTmp _ data =>
    match data with
    | IRExpr.Binder _ => true
    | IRExpr.Get _ _ => true
    | IRExpr.GetI _ ix _ => isIRAtom ix
    | IRExpr.RdTmp _ => true
    | IRExpr.Qop _ a1 a2 a3 a4 => isIRAtom a1 && isIRAtom a2 && isIRAtom a3 && isIRAtom a4
    | IRExpr.Triop _ a1 a2 a3 => isIRAtom a1 && isIRAtom a2 && isIRAtom a3
    | IRExpr.Binop _ a1 a2 => isIRAtom a1 && isIRAtom a2
    | IRExpr.Unop _ a => isIRAtom a
    | IRExpr.Load _ addr => isIRAtom addr
    | IRExpr.Const _ => true
    | IRExpr.ITE c t f => isIRAtom c && isIRAtom t && isIRAtom f
    | IRExpr.CCall _ _ args => args.all isIRAtom
  | IRStmt.Store addr data => isIRAtom addr && isIRAtom data
  | IRStmt.StoreG addr data guard => isIRAtom addr && isIRAtom data && isIRAtom guard
  | IRStmt.LoadG _ addr alt guard => isIRAtom addr && isIRAtom alt && isIRAtom guard
  | IRStmt.CAS addr expdHi expdLo dataHi dataLo =>
    isIRAtom addr && isIRAtomOpt expdHi && isIRAtom expdLo && isIRAtomOpt dataHi &&
      isIRAtom dataLo
  | IRStmt.LLSC _ addr storedata => isIRAtom addr && isIRAtomOpt storedata
  | IRStmt.Dirty d => isIRAtom d.guard && d.args.all isIRAtom && isIRAtomOpt d.mAddr
  | IRStmt.MBE _ => true
  | IRStmt.Exit guard _ _ _ => isIRAtom guard

/-- The function `typeOfIRExpr` of VEX on the expressions whose type does not depend on
VEX's table of primitive operations: a temporary has the type recorded in the type
environment (`typeOfIRTemp` asserts that it is in range), a constant the type of its tag.
The tool applies the function to the data operand of a store, an atom in a flat block. -/
def typeOfIRExpr (tyenv : List IRType) : IRExpr → Option IRType
  | IRExpr.RdTmp tmp => tyenv.get? tmp
  | IRExpr.Const con => some (typeOfIRConst con)
  | IRExpr.Get _ ty => some ty
  | IRExpr.Load ty _ => some ty
  | IRExpr.GetI elemTy _ _ => some elemTy
  | IRExpr.CCall _ retty _ => some retty
  | _ => none

/-- The host function `newIRTemp`: a new temporary of type `ty`. -/
def newIRTemp (bb : IRSB) (ty : IRType) : Nat × IRSB :=
  (bb.tyenv.length, { bb with tyenv := bb.tyenv ++ [ty] })

/-- The host function `addStmtToIRSB`. -/
def addStmtToIRSB (bb : IRSB) (st : IRStmt) : IRSB :=
  { bb with stmts := bb.stmts ++ [st] }

/-- The C function `assignNew`: the atom that reads the new temporary, and the block. -/
def assignNew (bbOut : IRSB) (ty : IRType) (e : IRExpr) : IRExpr × IRSB :=
  let r := newIRTemp bbOut ty
  (IRExpr.RdTmp r.1, addStmtToIRSB r.2 (IRStmt.WrTmp r.1 e))

/-- The C function `zwidenToHostWord`; `none` where it calls `VG_(tool_panic)`. -/
def zwidenToHostWord (bbOut : IRSB) (tyH : IRType) (atom : IRExpr) : Option (IRExpr × IRSB) :=
  match typeOfIRExpr bbOut.tyenv atom with
  | none => none
  | some ty =>
    if tyH = IRType.Ity_I32 then
      match ty with
      | IRType.Ity_I32 => some (atom, bbOut)
      | IRType.Ity_I16 => some (assignNew bbOut tyH (IRExpr.Unop IROp.Iop_16Uto32 atom))
      | IRType.Ity_I8 => some (assignNew bbOut tyH (IRExpr.Unop IROp.Iop_8Uto32 atom))
      | _ => none
    else if tyH = IRType.Ity_I64 then
      match ty with
      | IRType.Ity_I32 => some (assignNew bbOut tyH (IRExpr.Unop IROp.Iop_32Uto64 atom))
      | IRType.Ity_I16 =>
        let r := assignNew bbOut IRType.Ity_I32 (IRExpr.Unop IROp.Iop_16Uto32 atom)
        some (assignNew r.2 tyH (IRExpr.Unop IROp.Iop_32Uto64 r.1))
      | IRType.Ity_I8 =>
        let r := assignNew bbOut IRType.Ity_I32 (IRExpr.Unop IROp.Iop_8Uto32 atom)
        some (assignNew r.2 tyH (IRExpr.Unop IROp.Iop_32Uto64 r.1))
      | _ => none
    else none

/-- The host function `unsafeIRDirty_0_N(regparms, name, addr, args)`: a call that returns
no value, with the guard `1:I1` and no memory effect. -/
def IRDirty_0_N (_regparms : Nat) (name : String) (addr : OgHelper) (args : List IRExpr) :
    IRDirty :=
  { hname := name, helper := addr, guard := IRExpr.Const (IRConst.U1 true), args := args,
    mAddr := none }

/-- The statement `if (guard) di->guard = guard;`. -/
def set_guard (guard : Option IRExpr) (di : IRDirty) : IRDirty :=
  match guard with
  | some g => { di with guard := g }
  | none => di

/-- The `switch (ty)` of `insert_store_checker` that selects `helper` and `hname`; `none`
in the `default` case, which calls `VG_(tool_panic)`. -/
def select_helper : IRType → Option (OgHelper × String)
  | IRType.Ity_V256 => some (OgHelper.store_check64, "OG_(store_check64)")
  | IRType.Ity_V128 => some (OgHelper.store_check64, "OG_(store_check64)")
  | IRType.Ity_I64 => some (OgHelper.store_check64, "OG_(store_check64)")
  | IRType.Ity_I32 => some (OgHelper.store_check32, "OG_(store_check32)")
  | IRType.Ity_I16 => some (OgHelper.store_check16, "OG_(store_check16)")
  | IRType.Ity_I8 => some (OgHelper.store_check8, "OG_(store_check8)")
  | _ => none

/-- The constant `tyAddr==Ity_I32 ? mkU32(n) : mkU64(n)`. -/
def eBias (tyAddr : IRType) (n : Nat) : IRExpr :=
  if tyAddr = IRType.Ity_I32 then IRExpr.Const (IRConst.U32 n) else IRExpr.Const (IRConst.U64 n)

/-- The C function `insert_store_checker`; `guard` is `none` for a null pointer. The result
is `none` where the function asserts or panics. -/
def insert_store_checker (bbOut : IRSB) (addr data : IRExpr) (guard : Option IRExpr)
    (tyAddr : IRType) : Option IRSB :=
  let mkAdd := if tyAddr = IRType.Ity_I32 then IROp.Iop_Add32 else IROp.Iop_Add64
  if tyAddr = IRType.Ity_I32 ∨ tyAddr = IRType.Ity_I64 then
    match typeOfIRExpr bbOut.tyenv data with
    | none => none
    | some ty =>
      match select_helper ty with
      | none => none
      | some (helper, hname) =>
        let wordSize := IRExpr.Const (IRConst.U32 (if tyAddr = IRType.Ity_I32 then 32 else 64))
        if ty = IRType.Ity_V256 then
          let aQ0 := assignNew bbOut tyAddr (IRExpr.Binop mkAdd addr (eBias tyAddr 0))
          let dQ0 := assignNew aQ0.2 IRType.Ity_I64 (IRExpr.Unop IROp.Iop_V256to64_0 data)
          let diQ0 := IRDirty_0_N 0 hname helper [aQ0.1, dQ0.1, wordSize]
          let aQ1 := assignNew dQ0.2 tyAddr (IRExpr.Binop mkAdd addr (eBias tyAddr 8))
          let dQ1 := assignNew aQ1.2 IRType.Ity_I64 (IRExpr.Unop IROp.Iop_V256to64_1 data)
          let diQ1 := IRDirty_0_N 0 hname helper [aQ1.1, dQ1.1, wordSize]
          let aQ2 := assignNew dQ1.2 tyAddr (IRExpr.Binop mkAdd addr (eBias tyAddr 16))
          let dQ2 := assignNew aQ2.2 IRType.Ity_I64 (IRExpr.Unop IROp.Iop_V256to64_2 data)
          let diQ2 := IRDirty_0_N 0 hname helper [aQ2.1, dQ2.1, wordSize]
          let aQ3 := assignNew dQ2.2 tyAddr (IRExpr.Binop mkAdd addr (eBias tyAddr 24))
          let dQ3 := assignNew aQ3.2 IRType.Ity_I64 (IRExpr.Unop IROp.Iop_V256to64_3 data)
          let diQ3 := IRDirty_0_N 0 hname helper [aQ3.1, dQ3.1, wordSize]
          some (addStmtToIRSB (addStmtToIRSB (addStmtToIRSB (addStmtToIRSB dQ3.2
            (IRStmt.Dirty (set_guard guard diQ0))) (IRStmt.Dirty (set_guard guard diQ1)))
            (IRStmt.Dirty (set_guard guard diQ2))) (IRStmt.Dirty (set_guard guard diQ3)))
        else if ty = IRType.Ity_V128 then
          let aLo := assignNew bbOut tyAddr (IRExpr.Binop mkAdd addr (eBias tyAddr 0))
          let dLo := assignNew aLo.2 IRType.Ity_I64 (IRExpr.Unop IROp.Iop_V128to64 data)
          let diLo64 := IRDirty_0_N 0 hname helper [aLo.1, dLo.1]
          let aHi := assignNew dLo.2 tyAddr (IRExpr.Binop mkAdd addr (eBias tyAddr 8))
          let dHi := assignNew aHi.2 IRType.Ity_I64 (IRExpr.Unop IROp.Iop_V128HIto64 data)
          let diHi64 := IRDirty_0_N 0 hname helper [aHi.1, dHi.1]
          some (addStmtToIRSB (addStmtToIRSB dHi.2 (IRStmt.Dirty (set_guard guard diLo64)))
            (IRStmt.Dirty (set_guard guard diHi64)))
        else if ty = IRType.Ity_I64 then
          let di := IRDirty_0_N 0 hname helper [addr, data]
          some (addStmtToIRSB bbOut (IRStmt.Dirty (set_guard guard di)))
        else
          match zwidenToHostWord bbOut tyAddr data with
          | none => none
          | some (w, bb1) =>
            let di := IRDirty_0_N 0 hname helper [addr, w]
            some (addStmtToIRSB bb1 (IRStmt.Dirty (set_guard guard di)))
  else none

/-- The body of the loop of `og_instrument` for the statement `st`: the two assertions and
the `switch (st->tag)`. The `default` case is not reachable for a statement of the enum. -/
def og_instrument_stmt (hWordTy : IRType) (bbOut : IRSB) (st : IRStmt) : Option IRSB :=
  if isFlatIRStmt st then
    match st with
    | IRStmt.NoOp => some (addStmtToIRSB bbOut st)
    | IRStmt.AbiHint _ _ _ => some (addStmtToIRSB bbOut st)
    | IRStmt.Put _ _ => some (addStmtToIRSB bbOut st)
    | IRStmt.PutI _ _ _ => some (addStmtToIRSB bbOut st)
    | IRStmt.MBE _ => some (addStmtToIRSB bbOut st)
    | IRStmt.IMark _ _ _ => some (addStmtToIRSB bbOut st)
    | IRStmt.WrTmp _ _ => some (addStmtToIRSB bbOut st)
    | IRStmt.LoadG _ _ _ _ => some (addStmtToIRSB bbOut st)
    | IRStmt.Dirty _ => some (addStmtToIRSB bbOut st)
    | IRStmt.LLSC _ _ _ => some (addStmtToIRSB bbOut st)
    | IRStmt.Exit _ _ _ _ => some (addStmtToIRSB bbOut st)
    | IRStmt.Store addr data =>
      match insert_store_checker bbOut addr data none hWordTy with
      | none => none
      | some bb1 => some (addStmtToIRSB bb1 st)
    | IRStmt.StoreG addr data guard =>
      match insert_store_checker bbOut addr data (some guard) hWordTy with
      | none => none
      | some bb1 => some (addStmtToIRSB bb1 st)
    | IRStmt.CAS _ _ _ _ _ => some (addStmtToIRSB bbOut st)
  else none

/-- The loop `for (i = 0; i < bb_in->stmts_used; i++)` of `og_instrument`. -/
def og_instrument_loop (hWordTy : IRType) : List IRStmt → IRSB → Option IRSB
  | [], bbOut => some bbOut
  | st :: rest, bbOut =>
    match og_instrument_stmt hWordTy bbOut st with
    | none => none
    | some bb1 => og_instrument_loop hWordTy rest bb1

/-- The C function `og_instrument`; the arguments it does not read are left out. -/
def og_instrument (bb_in : IRSB) (_gWordTy hWordTy : IRType) : Option IRSB :=
  let bbOut : IRSB :=
    { tyenv := bb_in.tyenv, stmts := [], next := bb_in.next, jumpkind := bb_in.jumpkind,
      offsIP := bb_in.offsIP }
  og_instrument_loop hWordTy bb_in.stmts bbOut

/-! ## Running the emitted checks -/

/-- The bits of a constant. -/
def IRConst.bits : IRConst → Nat
  | IRConst.U1 b => if b then 1 else 0
  | IRConst.U8 n => n
  | IRConst.U16 n => n
  | IRConst.U32 n => n
  | IRConst.U64 n => n
  | IRConst.F32 n => n
  | IRConst.F32i n => n
  | IRConst.F64 n => n
  | IRConst.F64i n => n
  | IRConst.V128 n => n
  | IRConst.V256 n => n

/-- The value of an atom when the temporaries hold `env`; `none` for a temporary whose
value the model does not determine. -/
def eval_atom (env : Nat → Option Nat) : IRExpr → Option Nat
  | IRExpr.RdTmp t => env t
  | IRExpr.Const c => some c.bits
  | _ => none

/-- The unary operations that the tool emits: zero-extension and the 64-bit lanes of a
vector (lane 0 holds the least significant bits). -/
def eval_unop : IROp → Nat → Option Nat
  | IROp.Iop_8Uto32, x => some (x % 2 ^ 8)
  | IROp.Iop_16Uto32, x => some (x % 2 ^ 16)
  | IROp.Iop_32Uto64, x => some (x % 2 ^ 32)
  | IROp.Iop_V128to64, x => some (x % 2 ^ 64)
  | IROp.Iop_V128HIto64, x => some ((x >>> 64) % 2 ^ 64)
  | IROp.Iop_V256to64_0, x => some (x % 2 ^ 64)
  | IROp.Iop_V256to64_1, x => some ((x >>> 64) % 2 ^ 64)
  | IROp.Iop_V256to64_2, x => some ((x >>> 128) % 2 ^ 64)
  | IROp.Iop_V256to64_3, x => some ((x >>> 192) % 2 ^ 64)
  | _, _ => none

/-- The binary operations that the tool emits. -/
def eval_binop : IROp → Nat → Nat → Option Nat
  | IROp.Iop_Add32, x, y => some ((x + y) % 2 ^ 32)
  | IROp.Iop_Add64, x, y => some ((x + y) % 2 ^ 64)
  | _, _, _ => none

/-- The value of the right-hand side of a `WrTmp` of a flat block, where the model
determines it. -/
def eval_expr (env : Nat → Option Nat) : IRExpr → Option Nat
  | IRExpr.Unop op a =>
    match eval_atom env a with
    | none => none
    | some x => eval_unop op x
  | IRExpr.Binop op a b =>
    match eval_atom env a, eval_atom env b with
    | some x, some y => eval_binop op x y
    | _, _ => none
  | e => eval_atom env e

/-- Running a dirty call: nothing happens when the guard is 0; otherwise a call to one of
the four checkers runs the checker on the values of the arguments. `store_check64` has
three parameters: when the call passes two arguments, the third parameter holds `junk`,
a value that the program does not determine. The result is `none` when the checker fails
or when the model does not determine a value. -/
def run_dirty (VG_WORDSIZE : Nat) (junk : Nat) (env : Nat → Option Nat) (s : State)
    (d : IRDirty) : Option State :=
  match eval_atom env d.guard with
  | none => none
  | some g =>
    if g = 0 then some s
    else
      match d.helper, d.args.map (eval_atom env) with
      | OgHelper.store_check8, [some a, some x] => store_check8 VG_WORDSIZE s a x
      | OgHelper.store_check16, [some a, some x] => store_check16 VG_WORDSIZE s a x
      | OgHelper.store_check32, [some a, some x] => store_check32 VG_WORDSIZE s a x
      | OgHelper.store_check64, [some a, some x, some w] => store_check64 VG_WORDSIZE s a x w
      | OgHelper.store_check64, [some a, some x] => store_check64 VG_WORDSIZE s a x junk
      | OgHelper.other _, _ => some s
      | _, _ => none

/-- The effect of a statement of an instrumented block on the temporaries and on the state
of the tool: a `WrTmp` gives its temporary the value of its right-hand side, a dirty call
is run by `run_dirty`, every other statement acts on the guest state only. -/
def run_stmt (VG_WORDSIZE : Nat) (junk : Nat) (st : IRStmt)
    (r : (Nat → Option Nat) × State) : Option ((Nat → Option Nat) × State) :=
  match st with
  | IRStmt.WrTmp t e => some (Function.update r.1 t (eval_expr r.1 e), r.2)
  | IRStmt.Dirty d =>
    match run_dirty VG_WORDSIZE junk r.1 r.2 d with
    | none => none
    | some s1 => some (r.1, s1)
  | _ => some r

/-- Running a list of statements in order. -/
def run_stmts (VG_WORDSIZE : Nat) (junk : Nat) :
    List IRStmt → (Nat → Option Nat) × State → Option ((Nat → Option Nat) × State)
  | [], r => some r
  | st :: rest, r =>
    match run_stmt VG_WORDSIZE junk st r with
    | none => none
    | some r1 => run_stmts VG_WORDSIZE junk rest r1

/-- The host word type `hWordTy` that the core passes to `og_instrument`. -/
def hWordTy_of (VG_WORDSIZE : Nat) : IRType :=
  if VG_WORDSIZE = 4 then IRType.Ity_I32 else IRType.Ity_I64

/-- The address, the data and the guard of a store statement (`Ist_Store`, `Ist_StoreG`);
`none` for the other statements. -/
def store_operands : IRStmt → Option (IRExpr × IRExpr × Option IRExpr)
  | IRStmt.Store addr data => some (addr, data, none)
  | IRStmt.StoreG addr data guard => some (addr, data, some guard)
  | _ => none

/-- The data types of the stores that the tool checks. -/
def checked_types : List IRType :=
  [IRType.Ity_I8, IRType.Ity_I16, IRType.Ity_I32, IRType.Ity_I64, IRType.Ity_V128,
   IRType.Ity_V256]

/-- If `st` is a store, its data operand has in `tyenv` one of the types I8, I16, I32,
I64, V128, V256. -/
def store_data_checked (tyenv : List IRType) (st : IRStmt) : Bool :=
  match store_operands st with
  | none => true
  | some (_, data, _) =>
    match typeOfIRExpr tyenv data with
    | none => false
    | some ty => checked_types.contains ty

/-- The list `c` is a check of a store of `data` to `addr` under `guard`, for a block whose
temporaries are those of `tyenv`: assignments to temporaries that are not in `tyenv`,
followed by at least one dirty call; each call is to the checker matching the type of
`data` (`store_check8/16/32/64` for I8/I16/I32/I64, `store_check64` for the vector types)
and carries the guard of the store (the guard `1:I1` when there is none); for I8, I16, I32
and I64 there is one call and its first argument is `addr`. -/
def ChecksStore (tyenv : List IRType) (addr data : IRExpr) (guard : Option IRExpr)
    (c : List IRStmt) : Prop :=
  ∃ ty pre calls, typeOfIRExpr tyenv data = some ty ∧
    c = pre ++ List.map IRStmt.Dirty calls ∧
    (∀ x, x ∈ pre → ∃ t e, x = IRStmt.WrTmp t e ∧ tyenv.length ≤ t) ∧
    calls ≠ [] ∧
    (∀ d, d ∈ calls → d.guard = guard.getD (IRExpr.Const (IRConst.U1 true)) ∧
      (ty = IRType.Ity_I8 →
        d.helper = OgHelper.store_check8 ∧ d.hname = "OG_(store_check8)") ∧
      (ty = IRType.Ity_I16 →
        d.helper = OgHelper.store_check16 ∧ d.hname = "OG_(store_check16)") ∧
      (ty = IRType.Ity_I32 →
        d.helper = OgHelper.store_check32 ∧ d.hname = "OG_(store_check32)") ∧
      (ty = IRType.Ity_I64 ∨ ty = IRType.Ity_V128 ∨ ty = IRType.Ity_V256 →
        d.helper = OgHelper.store_check64 ∧ d.hname = "OG_(store_check64)")) ∧
    (ty = IRType.Ity_I8 ∨ ty = IRType.Ity_I16 ∨ ty = IRType.Ity_I32 ∨ ty = IRType.Ity_I64 →
      ∃ d, calls = [d] ∧ d.args.head? = some addr)

/-- The statements that the pass puts in front of the statement `st`: a check of the
store when `st` is a store, nothing otherwise. -/
def EmittedFor (tyenv : List IRType) (st : IRStmt) (c : List IRStmt) : Prop :=
  match store_operands st with
  | some (addr, data, guard) => ChecksStore tyenv addr data guard c
  | none => c = []

/-- The 64-bit lane `k` of the vector value `v`. -/
def lane64 (v k : Nat) : Nat := (v >>> (64 * k)) % 2 ^ 64

/-- The width that `insert_store_checker` passes as `wordSize` on a host whose words have
`VG_WORDSIZE` bytes. -/
def wordSize_of (VG_WORDSIZE : Nat) : Nat := if VG_WORDSIZE = 4 then 32 else 64

/-- The expression `e` is an atom that reads no temporary numbered `n` or above. -/
def AtomBelow (n : Nat) : IRExpr → Prop
  | IRExpr.RdTmp t => t < n
  | IRExpr.Const _ => True
  | _ => False

/-- The four 64-bit checks of a 256-bit store of `v` to `a`, in order. -/
def four_checks (VG_WORDSIZE : Nat) (s : State) (a v w : Nat) : Option State :=
  match store_check64 VG_WORDSIZE s (toWord VG_WORDSIZE (a + 0)) (lane64 v 0) w with
  | none => none
  | some s1 =>
    match store_check64 VG_WORDSIZE s1 (toWord VG_WORDSIZE (a + 8)) (lane64 v 1) w with
    | none => none
    | some s2 =>
      match store_check64 VG_WORDSIZE s2 (toWord VG_WORDSIZE (a + 16)) (lane64 v 2) w with
      | none => none
      | some s3 => store_check64 VG_WORDSIZE s3 (toWord VG_WORDSIZE (a + 24)) (lane64 v 3) w

/-! ## The arguments of the emitted calls -/

/-- The dirty calls among the statements `l`, in order. -/
def dirty_calls : List IRStmt → List IRDirty
  | [] => []
  | IRStmt.Dirty d :: rest => d :: dirty_calls rest
  | _ :: rest => dirty_calls rest

/-- The constant that the expression is, when it is one. -/
def const_of : IRExpr → Option IRConst
  | IRExpr.Const c => some c
  | _ => none

/-- For each call to `store_check64` among the statements of the block, in order: the
number of its arguments, and its third argument when there is one and it is a constant. -/
def check64_calls (bb : IRSB) : List (Nat × Option IRConst) :=
  ((dirty_calls bb.stmts).filter (fun d => decide (d.helper = OgHelper.store_check64))).map
    (fun d => (d.args.length, (d.args.get? 2).bind const_of))

/-- The input block `t0:tyAddr, t1:tyData; IMark; STle(t0) = t1`: one instruction that
stores the temporary `t1` at the address held by `t0`. -/
def store_example (tyAddr tyData : IRType) : IRSB :=
  { tyenv := [tyAddr, tyData],
    stmts := [IRStmt.IMark 4096 4 0, IRStmt.Store (IRExpr.RdTmp 0) (IRExpr.RdTmp 1)],
    next := IRExpr.Const (IRConst.U64 4100), jumpkind := 0, offsIP := 0 }

/-- The number of errors submitted when the block `bb` runs from the state `s` with the
temporaries `t0` and `t1` holding `a` and `v`; `junk` is the value read by a parameter of
`store_check64` for which the call passes no argument. -/
def errors_of_run (VG_WORDSIZE junk : Nat) (bb : IRSB) (a v : Nat) (s : State) :
    Option Nat :=
  (run_stmts VG_WORDSIZE junk bb.stmts
    (fun t => if t = 0 then some a else if t = 1 then some v else none, s)).map
    (fun r => r.2.errors.length)

/-! ## The writes of the fast range painter -/

/-- A write to a shadow page in the loops of `set_address_range_perms`: the value of `a`
at the write, and whether it is the 16-bit store of an 8-byte step (`wide`) or the update
of one 2-bit field in a 1-byte step. -/
structure SarpWrite where
  a : Nat
  wide : Bool
  deriving DecidableEq, Repr

/-- The writes of one run of part 1 or part 3: the address for which the part fetched its
page with `get_secmap_ptr`, and the writes it made through that page pointer, in order. -/
structure SarpPart where
  fetched : Nat
  writes : List SarpWrite
  deriving DecidableEq, Repr

/-- The loop of `sarp_1_byte_steps_to_8_aligned`, also giving the list of its writes. -/
def sarp_1_byte_steps_to_8_aligned_log (VG_WORDSIZE : Nat) (sm : SecMapPtr) (abits2 : Nat) :
    Nat → Nat → State → Option (Nat × Nat × State × List SarpWrite)
  | 0, a, s => some (a, 0, s, [])
  | lenA + 1, a, s =>
    if VG_IS_8_ALIGNED a then some (a, lenA + 1, s, [])
    else
      match insert_abits2_at s sm a abits2 with
      | none => none
      | some s1 =>
        match sarp_1_byte_steps_to_8_aligned_log VG_WORDSIZE sm abits2 lenA
            (toWord VG_WORDSIZE (a + 1)) s1 with
        | none => none
        | some (a2, l2, s2, w) => some (a2, l2, s2, { a := a, wide := false } :: w)

/-- The loop of `sarp_8_byte_steps`, also giving the list of its writes. -/
def sarp_8_byte_steps_log (VG_WORDSIZE : Nat) (sm : SecMapPtr) (abits16 : Nat) :
    Nat → Nat → Nat → State → Option (Nat × Nat × State × List SarpWrite)
  | 0, a, len, s => if len < 8 then some (a, len, s, []) else none
  | fuel + 1, a, len, s =>
    if len < 8 then some (a, len, s, [])
    else
      match store_abits16 s sm (SM_OFF_16 a) abits16 with
      | none => none
      | some s1 =>
        match sarp_8_byte_steps_log VG_WORDSIZE sm abits16 fuel (toWord VG_WORDSIZE (a + 8))
            (len - 8) s1 with
        | none => none
        | some (a2, l2, s2, w) => some (a2, l2, s2, { a := a, wide := true } :: w)

/-- The loop of `sarp_1_byte_steps`, also giving the list of its writes. -/
def sarp_1_byte_steps_log (VG_WORDSIZE : Nat) (sm : SecMapPtr) (abits2 : Nat) :
    Nat → Nat → State → Option (Nat × Nat × State × List SarpWrite)
  | 0, a, s => some (a, 0, s, [])
  | len + 1, a, s =>
    match insert_abits2_at s sm a abits2 with
    | none => none
    | some s1 =>
      match sarp_1_byte_steps_log VG_WORDSIZE sm abits2 len (toWord VG_WORDSIZE (a + 1)) s1 with
      | none => none
      | some (a2, l2, s2, w) => some (a2, l2, s2, { a := a, wide := false } :: w)

/-- The three loops of part 1 on the page `sm`, also giving the list of their writes. -/
def sarp_loops_log (VG_WORDSIZE : Nat) (sm : SecMapPtr) (abits16 : Nat) (a lenA : Nat)
    (s : State) : Option (Nat × Nat × State × List SarpWrite) :=
  let abits2 := abits16 &&& 0x3
  match sarp_1_byte_steps_to_8_aligned_log VG_WORDSIZE sm abits2 lenA a s with
  | none => none
  | some (a, lenA, s3, w1) =>
    match sarp_8_byte_steps_log VG_WORDSIZE sm abits16 lenA a lenA s3 with
    | none => none
    | some (a, lenA, s4, w2) =>
      match sarp_1_byte_steps_log VG_WORDSIZE sm abits2 lenA a s4 with
      | none => none
      | some (a, lenA, s5, w3) => some (a, lenA, s5, w1 ++ (w2 ++ w3))

/-- The function `sarp_part1`, also giving the list of its writes. -/
def sarp_part1_log (VG_WORDSIZE : Nat) (s : State) (a lenA aNext abits16 : Nat)
    (example_dsm : SecMapPtr) : Option (Nat × Nat × State × List SarpWrite) :=
  match get_secmap_ptr VG_WORDSIZE s a with
  | none => none
  | some (sm_ptr, s1) =>
    match load_slot VG_WORDSIZE s1 sm_ptr with
    | none => none
    | some p =>
      let r : Option (Nat × Nat × SecMapPtr × State) :=
        if is_distinguished_sm p ∧ p = example_dsm then some (aNext, 0, p, s1)
        else
          match cow_slot VG_WORDSIZE s1 sm_ptr with
          | none => none
          | some (sm, s2) => some (a, lenA, sm, s2)
      match r with
      | none => none
      | some (a, lenA, sm, s2) => sarp_loops_log VG_WORDSIZE sm abits16 a lenA s2

/-- The function `sarp_part3`, also giving the list of its writes. -/
def sarp_part3_log (VG_WORDSIZE : Nat) (s : State) (a lenB abits16 : Nat)
    (example_dsm : SecMapPtr) : Option (State × List SarpWrite) :=
  let abits2 := abits16 &&& 0x3
  if is_start_of_sm VG_WORDSIZE a ∧ lenB < SM_SIZE then
    match get_secmap_ptr VG_WORDSIZE s a with
    | none => none
    | some (sm_ptr, s1) =>
      match load_slot VG_WORDSIZE s1 sm_ptr with
      | none => none
      | some p =>
        if is_distinguished_sm p ∧ p = example_dsm then some (s1, [])
        else
          match cow_slot VG_WORDSIZE s1 sm_ptr with
          | none => none
          | some (sm, s2) =>
            match sarp_8_byte_steps_log VG_WORDSIZE sm abits16 lenB a lenB s2 with
            | none => none
            | some (a, lenB, s3, w2) =>
              match sarp_1_byte_steps_log VG_WORDSIZE sm abits2 lenB a s3 with
              | none => none
              | some (_, _, s4, w3) => some (s4, w2 ++ w3)
  else none

/-- The function `sarp_part23`, also giving the writes of part 3 when it runs. -/
def sarp_part23_log (VG_WORDSIZE : Nat) (s : State) (a lenA lenB abits16 : Nat)
    (example_dsm : SecMapPtr) : Option (State × List SarpPart) :=
  if 0 = lenA then
    match sarp_part2 VG_WORDSIZE example_dsm lenB a lenB s with
    | none => none
    | some (a, lenB, s1) =>
      if lenB = 0 then some (s1, [])
      else
        match sarp_part3_log VG_WORDSIZE s1 a lenB abits16 example_dsm with
        | none => none
        | some (s2, w) => some (s2, [{ fetched := a, writes := w }])
  else none

/-- The function `set_address_range_perms_fast`, also giving the writes of the parts 1
and 3 that run, in order. -/
def set_address_range_perms_fast_log (VG_WORDSIZE : Nat) (s : State) (a : Nat) (lenT : Nat)
    (abits16 : Nat) (_dsm_num : Nat) (example_dsm : SecMapPtr) :
    Option (State × List SarpPart) :=
  if A_BITS16_NOCHECK = abits16 ∨ A_BITS16_UNWRITABLE = abits16 ∨
     A_BITS16_UNREFERABLE = abits16 ∨ A_BITS16_REFCHECK = abits16 then
    if lenT = 0 then some (s, [])
    else
      let aNext := toWord VG_WORDSIZE (start_of_this_sm VG_WORDSIZE a + SM_SIZE)
      let len_to_next_secmap := toWord VG_WORDSIZE (aNext + (2 ^ WORD_BITS VG_WORDSIZE - a))
      if lenT ≤ len_to_next_secmap then
        match sarp_part1_log VG_WORDSIZE s a lenT aNext abits16 example_dsm with
        | none => none
        | some (_, _, s1, w) => some (s1, [{ fetched := a, writes := w }])
      else if is_start_of_sm VG_WORDSIZE a then
        sarp_part23_log VG_WORDSIZE s a 0 lenT abits16 example_dsm
      else
        match sarp_part1_log VG_WORDSIZE s a len_to_next_secmap aNext abits16 example_dsm with
        | none => none
        | some (a1, lenA1, s1, w) =>
          if lenT - len_to_next_secmap = 0 then some (s1, [{ fetched := a, writes := w }])
          else
            match sarp_part23_log VG_WORDSIZE s1 a1 lenA1 (lenT - len_to_next_secmap) abits16
                example_dsm with
            | none => none
            | some (s2, l) => some (s2, { fetched := a, writes := w } :: l)
  else none

/-! ## Arithmetic of addresses and shadow bytes -/

theorem and_mask_eq (w : Nat) (hw : 16 ≤ w) (a : Nat) (ha : a < 2 ^ w) :
    a &&& (2 ^ w - 1 - 0xFFFF) = a / 65536 * 65536 := by
  apply Nat.eq_of_testBit_eq
  intro i
  have h1 : 2 ^ w - 1 - 0xFFFF = 2 ^ 16 * (2 ^ (w - 16) - 1) := by
    have : (2:Nat) ^ w = 2 ^ 16 * 2 ^ (w - 16) := by
      rw [← pow_add]; congr 1; omega
    rw [this, Nat.mul_sub]; norm_num; omega
  have h2 : a / 65536 * 65536 = 2 ^ 16 * (a >>> 16) := by
    rw [Nat.shiftRight_eq_div_pow]; norm_num; ring
  rw [Nat.testBit_and, h1, h2, Nat.testBit_mul_pow_two, Nat.testBit_mul_pow_two,
    Nat.testBit_two_pow_sub_one, Nat.testBit_shiftRight]
  by_cases hi : 16 ≤ i
  · have e : 16 + (i - 16) = i := by omega
    rw [e]
    by_cases hiw : i < w
    · have : i - 16 < w - 16 := by omega
      simp [hi, this]
    · have : a.testBit i = false := by
        apply Nat.testBit_lt_two_pow
        calc a < 2 ^ w := ha
          _ ≤ 2 ^ i := Nat.pow_le_pow_right (by norm_num) (by omega)
      simp [this]
  · simp [hi]

theorem region_mask (ws : Nat) (h : WordSizeOk ws) (a : Nat) (ha : a < 2 ^ WORD_BITS ws) :
    a &&& notWord ws 0xFFFF = a / 65536 * 65536 := by
  unfold notWord
  apply and_mask_eq _ _ _ ha
  rcases h with rfl | rfl <;> simp [WORD_BITS]

theorem SM_OFF_eq (a : Nat) : SM_OFF a = a % 65536 / 4 := by
  unfold SM_OFF
  have : (0xffff : Nat) = 2 ^ 16 - 1 := by norm_num
  rw [this, Nat.and_pow_two_sub_one_eq_mod, Nat.shiftRight_eq_div_pow]

theorem SM_OFF_lt (a : Nat) : SM_OFF a < SM_CHUNKS := by
  rw [SM_OFF_eq]; unfold SM_CHUNKS; omega

theorem MAX_PRIMARY_ADDRESS_four : MAX_PRIMARY_ADDRESS 4 = 2 ^ 32 - 1 := by decide

theorem MAX_PRIMARY_ADDRESS_eight : MAX_PRIMARY_ADDRESS 8 = 2 ^ 36 - 1 := by decide

theorem N_PRIMARY_MAP_four : N_PRIMARY_MAP 4 = 2 ^ 16 := by decide

theorem N_PRIMARY_MAP_eight : N_PRIMARY_MAP 8 = 2 ^ 20 := by decide

theorem le_MAX_iff (ws : Nat) (h : WordSizeOk ws) (a : Nat) :
    a ≤ MAX_PRIMARY_ADDRESS ws ↔ a / 65536 < N_PRIMARY_MAP ws := by
  rcases h with rfl | rfl
  · rw [MAX_PRIMARY_ADDRESS_four, N_PRIMARY_MAP_four]; omega
  · rw [MAX_PRIMARY_ADDRESS_eight, N_PRIMARY_MAP_eight]; omega

theorem MAX_ge (ws : Nat) (h : WordSizeOk ws) : 65535 ≤ MAX_PRIMARY_ADDRESS ws := by
  rcases h with rfl | rfl
  · rw [MAX_PRIMARY_ADDRESS_four]; norm_num
  · rw [MAX_PRIMARY_ADDRESS_eight]; norm_num

theorem and_three (a : Nat) : a &&& 3 = a % 4 := Nat.and_pow_two_sub_one_eq_mod a 2

theorem insert_abits2_mod (a t x : Nat) :
    insert_abits2_into_abits8 a t x = insert_abits2_into_abits8 (a % 4) t (x % 256) := by
  unfold insert_abits2_into_abits8
  simp only [and_three, Nat.mod_mod]
  congr 2
  apply Nat.eq_of_testBit_eq
  intro i
  have h8 : (256 : Nat) = 2 ^ 8 := by norm_num
  simp only [h8, Nat.testBit_mod_two_pow, Nat.testBit_and]
  by_cases hi : i < 8 <;> simp [hi]

theorem extract_abits2_mod (a x : Nat) :
    extract_abits2_from_abits8 a x = extract_abits2_from_abits8 (a % 4) (x % 256) := by
  unfold extract_abits2_from_abits8
  simp only [and_three, Nat.mod_mod]
  have hs : (a % 4) <<< 1 ≤ 6 := by
    rw [Nat.shiftLeft_eq]; omega
  generalize (a % 4) <<< 1 = s at hs
  apply Nat.eq_of_testBit_eq
  intro i
  have h8 : (256 : Nat) = 2 ^ 8 := by norm_num
  have h3 : (3 : Nat) = 2 ^ 2 - 1 := by norm_num
  simp only [h8, h3, Nat.testBit_mod_two_pow, Nat.testBit_and, Nat.testBit_shiftRight,
    Nat.testBit_two_pow_sub_one]
  by_cases hi : i < 2
  · have h1 : i < 8 := by omega
    have h2 : s + i < 8 := by omega
    simp [hi, h1, h2]
  · simp [hi]

set_option maxRecDepth 1000000 in
theorem byte_roundtrip_small : ∀ x < 256, ∀ s < 4, ∀ t < 4,
    extract_abits2_from_abits8 s (insert_abits2_into_abits8 s t x) = t := by
  decide

set_option maxRecDepth 1000000 in
theorem byte_frame_small : ∀ x < 256, ∀ s < 4, ∀ r < 4, ∀ t < 4, s ≠ r →
    extract_abits2_from_abits8 r (insert_abits2_into_abits8 s t x)
      = extract_abits2_from_abits8 r x := by
  decide

theorem insert_abits2_lt (a t x : Nat) : insert_abits2_into_abits8 a t x < 256 := by
  unfold insert_abits2_into_abits8
  exact Nat.mod_lt _ (by norm_num)

theorem extract_insert_same (a t x : Nat) (ht : t < 4) :
    extract_abits2_from_abits8 a (insert_abits2_into_abits8 a t x) = t := by
  rw [extract_abits2_mod, insert_abits2_mod, Nat.mod_eq_of_lt (insert_abits2_lt _ _ _)]
  exact byte_roundtrip_small (x % 256) (Nat.mod_lt _ (by norm_num)) (a % 4)
    (Nat.mod_lt _ (by norm_num)) t ht

theorem extract_insert_other (a b t x : Nat) (ht : t < 4) (h : a % 4 ≠ b % 4) :
    extract_abits2_from_abits8 b (insert_abits2_into_abits8 a t x)
      = extract_abits2_from_abits8 b x := by
  rw [extract_abits2_mod, insert_abits2_mod, Nat.mod_eq_of_lt (insert_abits2_lt _ _ _),
    extract_abits2_mod b x]
  exact byte_frame_small (x % 256) (Nat.mod_lt _ (by norm_num)) (a % 4)
    (Nat.mod_lt _ (by norm_num)) (b % 4) (Nat.mod_lt _ (by norm_num)) t ht h

/-! ## The auxiliary map and its front-cache -/

theorem lookupIn_some (nodes : Nat → AuxMapEnt) (key : Nat) :
    ∀ n k, OSetGen_LookupIn nodes key n = some k → k < n ∧ (nodes k).base = key := by
  intro n
  induction n with
  | zero => intro k h; simp [OSetGen_LookupIn] at h
  | succ n ih =>
    intro k h
    unfold OSetGen_LookupIn at h
    cases hr : OSetGen_LookupIn nodes key n with
    | some j =>
      rw [hr] at h
      simp only [Option.some.injEq] at h
      subst h
      exact ⟨Nat.lt_succ_of_lt (ih j hr).1, (ih j hr).2⟩
    | none =>
      rw [hr] at h
      by_cases hb : (nodes n).base = key
      · simp only [hb, if_true, Option.some.injEq] at h
        subst h
        exact ⟨Nat.lt_succ_self _, hb⟩
      · simp [hb] at h

theorem lookupIn_none (nodes : Nat → AuxMapEnt) (key : Nat) :
    ∀ n, OSetGen_LookupIn nodes key n = none → ∀ k, k < n → (nodes k).base ≠ key := by
  intro n
  induction n with
  | zero => intro _ k hk; omega
  | succ n ih =>
    intro h k hk
    unfold OSetGen_LookupIn at h
    cases hr : OSetGen_LookupIn nodes key n with
    | some j => rw [hr] at h; simp at h
    | none =>
      rw [hr] at h
      by_cases hb : (nodes n).base = key
      · simp [hb] at h
      · rcases Nat.lt_succ_iff_lt_or_eq.mp hk with h1 | h1
        · exact ih hr k h1
        · rw [h1]; exact hb

theorem lookup_of_node (t : OSet) (hn : L2Nodup t) (k : Nat) (hk : k < t.size) :
    OSetGen_Lookup t (t.nodes k).base = some k := by
  unfold OSetGen_Lookup
  cases hr : OSetGen_LookupIn t.nodes (t.nodes k).base t.size with
  | some j =>
    have := lookupIn_some _ _ _ _ hr
    rw [hn j k this.1 hk this.2]
  | none => exact absurd rfl (lookupIn_none _ _ _ hr k hk)

theorem lookupIn_congr (nodes nodes1 : Nat → AuxMapEnt) (key : Nat) :
    ∀ n, (∀ k, k < n → (nodes1 k).base = (nodes k).base) →
      OSetGen_LookupIn nodes1 key n = OSetGen_LookupIn nodes key n := by
  intro n
  induction n with
  | zero => intro _; rfl
  | succ n ih =>
    intro h
    unfold OSetGen_LookupIn
    rw [ih (fun k hk => h k (Nat.lt_succ_of_lt hk)), h n (Nat.lt_succ_self n)]

theorem search_le (l1 : Nat → AuxL1Ent) (a : Nat) :
    ∀ n i, auxmap_L1_search l1 a n i ≤ i + n := by
  intro n
  induction n with
  | zero => intro i; simp [auxmap_L1_search]
  | succ n ih =>
    intro i
    unfold auxmap_L1_search
    split
    · omega
    · have := ih (i + 1); omega

theorem search_ge (l1 : Nat → AuxL1Ent) (a : Nat) :
    ∀ n i, i ≤ auxmap_L1_search l1 a n i := by
  intro n
  induction n with
  | zero => intro i; simp [auxmap_L1_search]
  | succ n ih =>
    intro i
    unfold auxmap_L1_search
    split
    · omega
    · have := ih (i + 1); omega

theorem search_found (l1 : Nat → AuxL1Ent) (a : Nat) :
    ∀ n i, auxmap_L1_search l1 a n i < i + n →
      (l1 (auxmap_L1_search l1 a n i)).base = a := by
  intro n
  induction n with
  | zero => intro i h; simp [auxmap_L1_search] at h
  | succ n ih =>
    intro i h
    unfold auxmap_L1_search at h ⊢
    split
    · assumption
    · rename_i hne
      rw [if_neg hne] at h
      exact ih (i + 1) (by omega)

theorem insert_loop_eq (rank : Nat) :
    ∀ i (l1 : Nat → AuxL1Ent) (j : Nat),
      insert_into_auxmap_L1_at_loop rank i l1 j
        = if rank < j ∧ j ≤ i then l1 (j - 1) else l1 j := by
  intro i
  induction i with
  | zero =>
    intro l1 j
    simp only [insert_into_auxmap_L1_at_loop]
    have : ¬ (rank < j ∧ j ≤ 0) := by omega
    rw [if_neg this]
  | succ i ih =>
    intro l1 j
    unfold insert_into_auxmap_L1_at_loop
    by_cases hr : i + 1 > rank
    · rw [if_pos hr, ih]
      by_cases hj : j = i + 1
      · subst hj
        have h1 : ¬ (rank < i + 1 ∧ i + 1 ≤ i) := by omega
        have h2 : rank < i + 1 ∧ i + 1 ≤ i + 1 := by omega
        rw [if_neg h1, if_pos h2, Function.update_same]; rfl
      · by_cases hc : rank < j ∧ j ≤ i
        · have h2 : rank < j ∧ j ≤ i + 1 := by omega
          rw [if_pos hc, if_pos h2, Function.update_noteq (by omega)]
        · have h2 : ¬ (rank < j ∧ j ≤ i + 1) := by omega
          rw [if_neg hc, if_neg h2, Function.update_noteq hj]
    · rw [if_neg hr]
      have h2 : ¬ (rank < j ∧ j ≤ i + 1) := by omega
      rw [if_neg h2]

theorem EntOk_empty (t : OSet) : EntOk t { base := 0, ent := none } := by
  simp [EntOk]

theorem EntOk_mono (t t1 : OSet) (e : AuxL1Ent)
    (h : ∀ k, k < t.size → k < t1.size ∧ (t1.nodes k).base = (t.nodes k).base)
    (he : EntOk t e) : EntOk t1 e := by
  unfold EntOk at he ⊢
  cases hk : e.ent with
  | none => rw [hk] at he; exact he
  | some k =>
    rw [hk] at he
    exact ⟨(h k he.1).1, by rw [(h k he.1).2]; exact he.2⟩

theorem EntOk_hit (t : OSet) (hn : L2Nodup t) (e : AuxL1Ent) (he : EntOk t e)
    (hb : e.base ≠ 0) : e.ent = OSetGen_Lookup t e.base := by
  unfold EntOk at he
  cases hk : e.ent with
  | none => rw [hk] at he; exact absurd he hb
  | some k =>
    rw [hk] at he
    rw [← he.2, lookup_of_node t hn k he.1]

theorem CacheOnly_refl (s : State) : CacheOnly s s := ⟨rfl, rfl, rfl, rfl, rfl, rfl, rfl, rfl⟩

theorem EntOk_node (t : OSet) (k : Nat) (hk : k < t.size) :
    EntOk t { base := (t.nodes k).base, ent := some k } := by
  unfold EntOk
  exact ⟨hk, rfl⟩

theorem L1Coherent_swap (l1 : Nat → AuxL1Ent) (t : OSet) (i j : Nat)
    (hi : i < N_AUXMAP_L1) (hj : j < N_AUXMAP_L1)
    (hc : ∀ i, i < N_AUXMAP_L1 → EntOk t (l1 i)) :
    ∀ n, n < N_AUXMAP_L1 →
      EntOk t (Function.update (Function.update l1 i (l1 j)) j (l1 i) n) := by
  intro n hn
  by_cases h1 : n = j
  · subst h1; rw [Function.update_same]; exact hc i hi
  · rw [Function.update_noteq h1]
    by_cases h2 : n = i
    · subst h2; rw [Function.update_same]; exact hc j hj
    · rw [Function.update_noteq h2]; exact hc n hn

theorem insert_into_auxmap_L1_at_spec (s : State) (k : Nat) (hk : k < s.auxmap_L2.size)
    (hc : L1Coherent s) :
    ∃ s1, insert_into_auxmap_L1_at s AUXMAP_L1_INSERT_IX (some k) = some s1 ∧
      CacheOnly s s1 ∧ L1Coherent s1 := by
  unfold insert_into_auxmap_L1_at
  have hr : AUXMAP_L1_INSERT_IX < N_AUXMAP_L1 := by decide
  simp only [hr, hk, if_true]
  refine ⟨_, rfl, ⟨rfl, rfl, rfl, rfl, rfl, rfl, rfl, rfl⟩, ?_⟩
  intro n hn
  dsimp only
  by_cases h1 : n = AUXMAP_L1_INSERT_IX
  · subst h1
    rw [Function.update_same]
    exact EntOk_node _ k hk
  · rw [Function.update_noteq h1, insert_loop_eq]
    split
    · apply hc; omega
    · exact hc n hn

theorem maybe_find_in_auxmap_spec (ws : Nat) (s : State) (a : Nat)
    (hc : L1Coherent s) (hn : L2Nodup s.auxmap_L2)
    (ha : a > MAX_PRIMARY_ADDRESS ws) (hb : a &&& notWord ws 0xFFFF ≠ 0) :
    ∃ s1, maybe_find_in_auxmap ws s a
        = some (OSetGen_Lookup s.auxmap_L2 (a &&& notWord ws 0xFFFF), s1) ∧
      CacheOnly s s1 ∧ L1Coherent s1 := by
  unfold maybe_find_in_auxmap
  rw [if_pos ha]
  generalize hkey : a &&& notWord ws 0xFFFF = key at hb ⊢
  have hN : (0 : Nat) < N_AUXMAP_L1 := by decide
  have hN1 : (1 : Nat) < N_AUXMAP_L1 := by decide
  by_cases h0 : (s.auxmap_L1 0).base = key
  · simp only [h0, if_true]
    refine ⟨s, ?_, CacheOnly_refl s, hc⟩
    rw [EntOk_hit _ hn _ (hc 0 hN) (by rw [h0]; exact hb), h0]
  · simp only [h0, if_false]
    by_cases h1 : (s.auxmap_L1 1).base = key
    · simp only [h1, if_true]
      refine ⟨{ s with auxmap_L1 :=
          Function.update (Function.update s.auxmap_L1 0 (s.auxmap_L1 1)) 1 (s.auxmap_L1 0) },
        ?_, ?_, ?_⟩
      · rw [Function.update_noteq (by decide), Function.update_same,
          EntOk_hit _ hn _ (hc 1 hN1) (by rw [h1]; exact hb), h1]
      · exact ⟨rfl, rfl, rfl, rfl, rfl, rfl, rfl, rfl⟩
      · exact L1Coherent_swap s.auxmap_L1 s.auxmap_L2 0 1 hN hN1 hc
    · simp only [h1, if_false]
      have hle := search_le s.auxmap_L1 key N_AUXMAP_L1 0
      have hfound := search_found s.auxmap_L1 key N_AUXMAP_L1 0
      generalize auxmap_L1_search s.auxmap_L1 key N_AUXMAP_L1 0 = i at hle hfound
      simp only [Nat.zero_add] at hle hfound
      rw [if_pos hle]
      by_cases hi : i < N_AUXMAP_L1
      · rw [if_pos hi]
        have hbi := hfound hi
        have hent := EntOk_hit _ hn _ (hc i hi) (by rw [hbi]; exact hb)
        rw [hbi] at hent
        by_cases hpos : i > 0
        · rw [if_pos hpos]
          refine ⟨{ s with
              auxmap_L1 := Function.update (Function.update s.auxmap_L1 (i - 1) (s.auxmap_L1 i)) i
                (s.auxmap_L1 (i - 1)),
              n_auxmap_L1_searches := ulong_add s.n_auxmap_L1_searches 1,
              n_auxmap_L1_cmps := ulong_add s.n_auxmap_L1_cmps (i + 1) }, ?_, ?_, ?_⟩
          · dsimp only
            rw [Function.update_noteq (by omega), Function.update_same, hent]
          · exact ⟨rfl, rfl, rfl, rfl, rfl, rfl, rfl, rfl⟩
          · exact L1Coherent_swap s.auxmap_L1 s.auxmap_L2 (i - 1) i (by omega) hi hc
        · rw [if_neg hpos]
          refine ⟨{ s with
              n_auxmap_L1_searches := ulong_add s.n_auxmap_L1_searches 1,
              n_auxmap_L1_cmps := ulong_add s.n_auxmap_L1_cmps (i + 1) }, ?_, ?_, ?_⟩
          · dsimp only
            rw [hent]
          · exact ⟨rfl, rfl, rfl, rfl, rfl, rfl, rfl, rfl⟩
          · exact hc
      · rw [if_neg hi]
        cases hl : OSetGen_Lookup s.auxmap_L2 key with
        | none =>
          refine ⟨_, rfl, ?_, ?_⟩
          · exact ⟨rfl, rfl, rfl, rfl, rfl, rfl, rfl, rfl⟩
          · exact hc
        | some k =>
          have hk := (lookupIn_some _ _ _ _ hl).1
          obtain ⟨s4, h4, hco, hc4⟩ := insert_into_auxmap_L1_at_spec
            { s with n_auxmap_L1_searches := ulong_add s.n_auxmap_L1_searches 1,
                     n_auxmap_L1_cmps := ulong_add s.n_auxmap_L1_cmps (i + 1),
                     n_auxmap_L2_searches := ulong_add s.n_auxmap_L2_searches 1 } k hk hc
          refine ⟨s4, ?_, ?_, hc4⟩
          · simp only [h4]
          · exact ⟨hco.dist, hco.heap, hco.heap_next, hco.primary, hco.l2, hco.nodes,
              hco.errors, hco.tid⟩

theorem lookup_insert_old (t : OSet) (e : AuxMapEnt) (key : Nat) :
    OSetGen_LookupIn (OSetGen_Insert t e).nodes key t.size = OSetGen_Lookup t key := by
  unfold OSetGen_Lookup OSetGen_Insert
  apply lookupIn_congr
  intro k hk
  dsimp only
  rw [Function.update_noteq (by omega)]

theorem lookup_insert (t : OSet) (e : AuxMapEnt) (key : Nat) :
    OSetGen_Lookup (OSetGen_Insert t e) key =
      match OSetGen_Lookup t key with
      | some k => some k
      | none => if e.base = key then some t.size else none := by
  have h := lookup_insert_old t e key
  have h2 : OSetGen_Lookup (OSetGen_Insert t e) key
      = OSetGen_LookupIn (OSetGen_Insert t e).nodes key (t.size + 1) := rfl
  rw [h2]
  unfold OSetGen_LookupIn
  rw [h]
  have h3 : ((OSetGen_Insert t e).nodes t.size).base = e.base := by
    unfold OSetGen_Insert
    dsimp only
    rw [Function.update_same]
  rw [h3]

theorem auxSm_insert (t : OSet) (key : Nat) (key1 : Nat) :
    auxSm (OSetGen_Insert t { base := key, sm := SecMapPtr.distinguished SM_DIST_NOCHECK }) key1
      = auxSm t key1 := by
  unfold auxSm
  rw [lookup_insert]
  cases hl : OSetGen_Lookup t key1 with
  | some k =>
    dsimp only
    have hk := (lookupIn_some _ _ _ _ hl).1
    unfold OSetGen_Insert
    dsimp only
    rw [Function.update_noteq (by omega)]
  | none =>
    dsimp only
    by_cases hb : key = key1
    · rw [if_pos hb]
      dsimp only
      unfold OSetGen_Insert
      dsimp only
      rw [Function.update_same]
    · rw [if_neg hb]

theorem L2Nodup_insert (t : OSet) (e : AuxMapEnt) (hn : L2Nodup t)
    (h : OSetGen_Lookup t e.base = none) : L2Nodup (OSetGen_Insert t e) := by
  have hnone := lookupIn_none _ _ _ h
  intro j k hj hk hb
  unfold OSetGen_Insert at hj hk hb
  dsimp only at hj hk hb
  by_cases h1 : j = t.size
  · by_cases h2 : k = t.size
    · omega
    · rw [h1, Function.update_same, Function.update_noteq h2] at hb
      exact absurd hb.symm (hnone k (by omega))
  · by_cases h2 : k = t.size
    · rw [h2, Function.update_same, Function.update_noteq h1] at hb
      exact absurd hb (hnone j (by omega))
    · rw [Function.update_noteq h1, Function.update_noteq h2] at hb
      exact hn j k (by omega) (by omega) hb

theorem L1Coherent_of_l2 (s s1 : State) (h1 : s1.auxmap_L1 = s.auxmap_L1)
    (h : ∀ k, k < s.auxmap_L2.size →
      k < s1.auxmap_L2.size ∧ (s1.auxmap_L2.nodes k).base = (s.auxmap_L2.nodes k).base)
    (hc : L1Coherent s) : L1Coherent s1 := by
  intro i hi
  rw [h1]
  exact EntOk_mono _ _ _ h (hc i hi)

theorem insert_grows (t : OSet) (e : AuxMapEnt) :
    ∀ k, k < t.size →
      k < (OSetGen_Insert t e).size ∧ ((OSetGen_Insert t e).nodes k).base = (t.nodes k).base := by
  intro k hk
  unfold OSetGen_Insert
  dsimp only
  rw [Function.update_noteq (by omega)]
  exact ⟨by omega, rfl⟩

theorem find_or_alloc_in_auxmap_spec (ws : Nat) (s : State) (a : Nat)
    (hc : L1Coherent s) (hn : L2Nodup s.auxmap_L2)
    (ha : a > MAX_PRIMARY_ADDRESS ws) (hb : a &&& notWord ws 0xFFFF ≠ 0) :
    ∃ k s1, find_or_alloc_in_auxmap ws s a = some (k, s1) ∧
      L1Coherent s1 ∧ L2Nodup s1.auxmap_L2 ∧
      OSetGen_Lookup s1.auxmap_L2 (a &&& notWord ws 0xFFFF) = some k ∧
      s1.sm_distinguished = s.sm_distinguished ∧ s1.heap = s.heap ∧
      s1.heap_next = s.heap_next ∧ s1.primary_map = s.primary_map ∧
      s1.errors = s.errors ∧ s1.running_tid = s.running_tid ∧
      (s1.auxmap_L2 = s.auxmap_L2 ∨
        (OSetGen_Lookup s.auxmap_L2 (a &&& notWord ws 0xFFFF) = none ∧
          s1.auxmap_L2 = OSetGen_Insert s.auxmap_L2
            { base := a &&& notWord ws 0xFFFF,
              sm := SecMapPtr.distinguished SM_DIST_NOCHECK })) := by
  obtain ⟨s1, h1, hco, hc1⟩ := maybe_find_in_auxmap_spec ws s a hc hn ha hb
  unfold find_or_alloc_in_auxmap
  rw [h1]
  cases hl : OSetGen_Lookup s.auxmap_L2 (a &&& notWord ws 0xFFFF) with
  | some k =>
    dsimp only
    refine ⟨k, s1, rfl, hc1, ?_, ?_, hco.dist, hco.heap, hco.heap_next, hco.primary,
      hco.errors, hco.tid, Or.inl hco.l2⟩
    · rw [hco.l2]; exact hn
    · rw [hco.l2]; exact hl
  | none =>
    dsimp only
    generalize hkey : a &&& notWord ws 0xFFFF = key at hb hl ⊢
    have hsz : OSetGen_AllocNode s1.auxmap_L2 <
        (OSetGen_Insert s1.auxmap_L2
          { base := key, sm := SecMapPtr.distinguished SM_DIST_NOCHECK }).size := by
      unfold OSetGen_AllocNode OSetGen_Insert
      dsimp only
      omega
    have hc2 : L1Coherent { s1 with auxmap_L2 := (OSetGen_Insert s1.auxmap_L2
        ⟨key, SecMapPtr.distinguished SM_DIST_NOCHECK⟩) } :=
      L1Coherent_of_l2 s1 _ rfl (insert_grows _ _) hc1
    obtain ⟨s3, h3, hco3, hc3⟩ := insert_into_auxmap_L1_at_spec
      { s1 with auxmap_L2 := (OSetGen_Insert s1.auxmap_L2
        ⟨key, SecMapPtr.distinguished SM_DIST_NOCHECK⟩) }
      (OSetGen_AllocNode s1.auxmap_L2) hsz hc2
    rw [h3]
    dsimp only
    have hl2 : s3.auxmap_L2 = OSetGen_Insert s.auxmap_L2
        { base := key, sm := SecMapPtr.distinguished SM_DIST_NOCHECK } := by
      rw [hco3.l2]; dsimp only; rw [hco.l2]
    refine ⟨_, _, rfl, ?_, ?_, ?_, ?_, ?_, ?_, ?_, ?_, ?_, Or.inr ⟨rfl, hl2⟩⟩
    · exact hc3
    · dsimp only
      rw [hl2]
      exact L2Nodup_insert _ _ hn hl
    · dsimp only
      rw [hl2, lookup_insert, hl]
      dsimp only
      rw [if_pos rfl, hco.l2]
      rfl
    · dsimp only; rw [hco3.dist]; exact hco.dist
    · dsimp only; rw [hco3.heap]; exact hco.heap
    · dsimp only; rw [hco3.heap_next]; exact hco.heap_next
    · dsimp only; rw [hco3.primary]; exact hco.primary
    · dsimp only; rw [hco3.errors]; exact hco.errors
    · dsimp only; rw [hco3.tid]; exact hco.tid

/-! ## Map slots -/

theorem high_key_ne_zero (ws : Nat) (hws : WordSizeOk ws) (a : Nat)
    (ha : a > MAX_PRIMARY_ADDRESS ws) (ha2 : a < 2 ^ WORD_BITS ws) :
    a &&& notWord ws 0xFFFF ≠ 0 := by
  rw [region_mask ws hws a ha2]
  have := MAX_ge ws hws
  omega

theorem ValidPtr_of_heap (s s1 : State) (h : s1.heap = s.heap) (v : SecMapPtr)
    (hv : ValidPtr s v) : ValidPtr s1 v := by
  cases v with
  | null => exact hv
  | distinguished i => exact hv
  | allocated id => unfold ValidPtr at hv ⊢; rw [h]; exact hv

theorem load_slot_primary (ws : Nat) (s : State) (i : Nat) :
    load_slot ws s (SecMapSlot.primary i)
      = if i < N_PRIMARY_MAP ws then some (s.primary_map i) else none := rfl

theorem load_slot_aux (ws : Nat) (s : State) (k : Nat) :
    load_slot ws s (SecMapSlot.aux k)
      = if k < s.auxmap_L2.size then some (s.auxmap_L2.nodes k).sm else none := rfl

theorem load_slot_aux_step (ws : Nat) (s s1 : State) (key : Nat)
    (hp : s1.primary_map = s.primary_map)
    (h2 : s1.auxmap_L2 = s.auxmap_L2 ∨
      s1.auxmap_L2 = OSetGen_Insert s.auxmap_L2
        { base := key, sm := SecMapPtr.distinguished SM_DIST_NOCHECK })
    (p : SecMapSlot) (v : SecMapPtr) (h : load_slot ws s1 p = some v) :
    load_slot ws s p = some v ∨ v = SecMapPtr.distinguished SM_DIST_NOCHECK := by
  cases p with
  | primary i =>
    left
    rw [load_slot_primary] at h ⊢
    rw [hp] at h
    exact h
  | aux k =>
    rcases h2 with h2 | h2
    · left
      rw [load_slot_aux] at h ⊢
      rw [h2] at h
      exact h
    · rw [load_slot_aux] at h ⊢
      rw [h2] at h
      unfold OSetGen_Insert at h
      dsimp only at h
      by_cases hk : k < s.auxmap_L2.size
      · left
        rw [if_pos (by omega), Function.update_noteq (by omega)] at h
        rw [if_pos hk]
        exact h
      · right
        by_cases hk2 : k = s.auxmap_L2.size
        · rw [if_pos (by omega), hk2, Function.update_same] at h
          simp only [Option.some.injEq] at h
          exact h.symm
        · rw [if_neg (by omega)] at h
          simp at h

theorem smOf_aux_step (ws : Nat) (s s1 : State) (key : Nat)
    (hp : s1.primary_map = s.primary_map)
    (h2 : s1.auxmap_L2 = s.auxmap_L2 ∨
      s1.auxmap_L2 = OSetGen_Insert s.auxmap_L2
        { base := key, sm := SecMapPtr.distinguished SM_DIST_NOCHECK })
    (b : Nat) : smOf ws s1 b = smOf ws s b := by
  unfold smOf
  rw [hp]
  rcases h2 with h2 | h2
  · rw [h2]
  · rw [h2, auxSm_insert]

theorem WF_aux_step (ws : Nat) (s s1 : State) (key : Nat) (hwf : WF ws s)
    (hc1 : L1Coherent s1) (hn1 : L2Nodup s1.auxmap_L2)
    (hheap : s1.heap = s.heap) (hnext : s1.heap_next = s.heap_next)
    (hp : s1.primary_map = s.primary_map)
    (h2 : s1.auxmap_L2 = s.auxmap_L2 ∨
      s1.auxmap_L2 = OSetGen_Insert s.auxmap_L2
        { base := key, sm := SecMapPtr.distinguished SM_DIST_NOCHECK }) :
    WF ws s1 := by
  refine ⟨hc1, hn1, ?_, ?_, ?_⟩
  · intro p v h
    rcases load_slot_aux_step ws s s1 key hp h2 p v h with h3 | h3
    · exact ValidPtr_of_heap s s1 hheap v (hwf.valid p v h3)
    · rw [h3]; show SM_DIST_NOCHECK < 3; decide
  · intro p q id h3 h4
    rcases load_slot_aux_step ws s s1 key hp h2 p _ h3 with h5 | h5
    · rcases load_slot_aux_step ws s s1 key hp h2 q _ h4 with h6 | h6
      · exact hwf.noalias p q id h5 h6
      · cases h6
    · cases h5
  · intro id hid
    rw [hheap]
    exact hwf.fresh id (by omega)

theorem load_slot_of_SlotFor (ws : Nat) (hws : WordSizeOk ws) (s : State) (a : Nat)
    (p : SecMapSlot) (h : SlotFor ws s a p) : load_slot ws s p = some (smOf ws s a) := by
  unfold SlotFor at h
  unfold smOf
  by_cases ha : a ≤ MAX_PRIMARY_ADDRESS ws
  · rw [if_pos ha] at h ⊢
    rw [h, load_slot_primary]
    have : a >>> 16 < N_PRIMARY_MAP ws := by
      rw [Nat.shiftRight_eq_div_pow]
      exact (le_MAX_iff ws hws a).mp ha
    rw [if_pos this]
  · rw [if_neg ha] at h ⊢
    obtain ⟨k, hk, hl⟩ := h
    rw [hk, load_slot_aux]
    unfold auxSm
    rw [hl]
    have := (lookupIn_some _ _ _ _ hl).1
    rw [if_pos this]

theorem get_secmap_ptr_spec (ws : Nat) (hws : WordSizeOk ws) (s : State) (a : Nat)
    (hwf : WF ws s) (ha2 : a < 2 ^ WORD_BITS ws) :
    ∃ p s1, get_secmap_ptr ws s a = some (p, s1) ∧ WF ws s1 ∧ AuxOnly ws s s1 ∧
      SlotFor ws s1 a p := by
  unfold get_secmap_ptr
  by_cases ha : a ≤ MAX_PRIMARY_ADDRESS ws
  · rw [if_pos ha]
    refine ⟨_, _, rfl, hwf, ⟨rfl, rfl, rfl, rfl, rfl, rfl, fun _ => rfl⟩, ?_⟩
    unfold SlotFor get_secmap_low_ptr
    rw [if_pos ha]
  · rw [if_neg ha]
    unfold get_secmap_high_ptr
    obtain ⟨k, s1, h1, hc1, hn1, hl1, hd, hh, hnx, hp, he, ht, h2⟩ :=
      find_or_alloc_in_auxmap_spec ws s a hwf.l1 hwf.l2 (by omega)
        (high_key_ne_zero ws hws a (by omega) ha2)
    rw [h1]
    dsimp only
    have h2' : s1.auxmap_L2 = s.auxmap_L2 ∨
      s1.auxmap_L2 = OSetGen_Insert s.auxmap_L2
        { base := a &&& notWord ws 0xFFFF, sm := SecMapPtr.distinguished SM_DIST_NOCHECK } := by
      rcases h2 with h2 | h2
      · exact Or.inl h2
      · exact Or.inr h2.2
    refine ⟨_, _, rfl, WF_aux_step ws s s1 _ hwf hc1 hn1 hh hnx hp h2',
      ⟨hd, hh, hnx, hp, he, ht, smOf_aux_step ws s s1 _ hp h2'⟩, ?_⟩
    unfold SlotFor
    rw [if_neg ha]
    exact ⟨k, rfl, hl1⟩

theorem get_secmap_for_reading_eq (ws : Nat) (s : State) (a : Nat) :
    get_secmap_for_reading ws s a =
      match get_secmap_ptr ws s a with
      | none => none
      | some (p, s1) =>
        match load_slot ws s1 p with
        | none => none
        | some sm => some (sm, s1) := by
  unfold get_secmap_for_reading get_secmap_ptr get_secmap_for_reading_low
    get_secmap_for_reading_high
  by_cases ha : a ≤ MAX_PRIMARY_ADDRESS ws
  · rw [if_pos ha, if_pos ha]
  · rw [if_neg ha, if_neg ha]

theorem get_secmap_for_writing_eq (ws : Nat) (s : State) (a : Nat) :
    get_secmap_for_writing ws s a =
      match get_secmap_ptr ws s a with
      | none => none
      | some (p, s1) => cow_slot ws s1 p := by
  unfold get_secmap_for_writing get_secmap_ptr get_secmap_for_writing_low
    get_secmap_for_writing_high
  by_cases ha : a ≤ MAX_PRIMARY_ADDRESS ws
  · rw [if_pos ha, if_pos ha]
  · rw [if_neg ha, if_neg ha]

/-! ## Reading and writing shadow bytes -/

theorem contents_distinguished (s : State) (i : Nat) :
    contents s (SecMapPtr.distinguished i)
      = if i < 3 then some (s.sm_distinguished i) else none := rfl

theorem contents_allocated (s : State) (id : Nat) :
    contents s (SecMapPtr.allocated id) = s.heap id := rfl

theorem contents_congr (s s1 : State) (hd : s1.sm_distinguished = s.sm_distinguished)
    (hh : s1.heap = s.heap) (p : SecMapPtr) : contents s1 p = contents s p := by
  cases p with
  | null => rfl
  | distinguished i => rw [contents_distinguished, contents_distinguished, hd]
  | allocated id => rw [contents_allocated, contents_allocated, hh]

theorem contents_of_valid (s : State) (p : SecMapPtr) (h : ValidPtr s p) :
    ∃ m, contents s p = some m := by
  cases p with
  | null => exact absurd h id
  | distinguished i =>
    have hi : i < 3 := h
    exact ⟨s.sm_distinguished i, by rw [contents_distinguished, if_pos hi]⟩
  | allocated id =>
    have hi : s.heap id ≠ none := h
    cases hh : s.heap id with
    | none => exact absurd hh hi
    | some m => exact ⟨m, by rw [contents_allocated]; exact hh⟩

theorem load_abits8_of_contents (s : State) (p : SecMapPtr) (m : SecMap) (off : Nat)
    (hoff : off < SM_CHUNKS) (h : contents s p = some m) :
    load_abits8 s p off = some (m.abits8 off) := by
  unfold load_abits8
  rw [if_pos hoff]
  cases p with
  | null => simp [contents] at h
  | distinguished i =>
    dsimp only
    rw [contents_distinguished] at h
    by_cases hi : i < 3
    · rw [if_pos hi] at h ⊢
      simp only [Option.some.injEq] at h
      rw [h]
    · rw [if_neg hi] at h
      simp at h
  | allocated id =>
    dsimp only
    rw [contents_allocated] at h
    rw [h]

theorem abits2_of_congr (ws : Nat) (s s1 : State) (b : Nat)
    (hsm : smOf ws s1 b = smOf ws s b)
    (hc : contents s1 (smOf ws s b) = contents s (smOf ws s b)) :
    abits2_of ws s1 b = abits2_of ws s b := by
  unfold abits2_of abits8_of
  rw [hsm, hc]

theorem abits2_of_AuxOnly (ws : Nat) (s s1 : State) (h : AuxOnly ws s s1) (b : Nat) :
    abits2_of ws s1 b = abits2_of ws s b :=
  abits2_of_congr ws s s1 b (h.sm b) (contents_congr s s1 h.dist h.heap _)

theorem AuxOnly_refl (ws : Nat) (s : State) : AuxOnly ws s s :=
  ⟨rfl, rfl, rfl, rfl, rfl, rfl, fun _ => rfl⟩

theorem AuxOnly_trans (ws : Nat) (s s1 s2 : State) (h1 : AuxOnly ws s s1)
    (h2 : AuxOnly ws s1 s2) : AuxOnly ws s s2 :=
  ⟨h2.dist.trans h1.dist, h2.heap.trans h1.heap, h2.heap_next.trans h1.heap_next,
    h2.primary.trans h1.primary, h2.errors.trans h1.errors, h2.tid.trans h1.tid,
    fun b => (h2.sm b).trans (h1.sm b)⟩

theorem get_abits2_spec (ws : Nat) (hws : WordSizeOk ws) (s : State) (a : Nat)
    (hwf : WF ws s) (ha2 : a < 2 ^ WORD_BITS ws) :
    ∃ s1, get_abits2 ws s a = some (abits2_of ws s a, s1) ∧ WF ws s1 ∧ AuxOnly ws s s1 := by
  obtain ⟨p, s1, h1, hwf1, hao, hslot⟩ := get_secmap_ptr_spec ws hws s a hwf ha2
  have hl := load_slot_of_SlotFor ws hws s1 a p hslot
  obtain ⟨m, hm⟩ := contents_of_valid s1 _ (hwf1.valid p _ hl)
  have hb := load_abits8_of_contents s1 _ m (SM_OFF a) (SM_OFF_lt a) hm
  refine ⟨s1, ?_, hwf1, hao⟩
  unfold get_abits2
  rw [get_secmap_for_reading_eq, h1]
  dsimp only
  rw [hl]
  dsimp only
  rw [hb]
  dsimp only
  have e : abits2_of ws s a = extract_abits2_from_abits8 a (m.abits8 (SM_OFF a)) := by
    rw [← abits2_of_AuxOnly ws s s1 hao a]
    unfold abits2_of abits8_of
    simp only [hm, Option.map_some', Option.getD_some]
  rw [e]

theorem tag_at_eq (ws : Nat) (hws : WordSizeOk ws) (s : State) (a : Nat)
    (hwf : WF ws s) (ha2 : a < 2 ^ WORD_BITS ws) :
    tag_at ws s a = some (abits2_of ws s a) := by
  obtain ⟨s1, h1, _, _⟩ := get_abits2_spec ws hws s a hwf ha2
  unfold tag_at
  rw [h1]
  rfl

/-! ## Copy on write -/

theorem store_slot_spec (ws : Nat) (s : State) (p : SecMapSlot) (v w : SecMapPtr)
    (hl : load_slot ws s p = some v) :
    ∃ s1, store_slot ws s p w = some s1 ∧
      (∀ q, load_slot ws s1 q = if q = p then some w else load_slot ws s q) ∧
      s1.heap = s.heap ∧ s1.heap_next = s.heap_next ∧
      s1.sm_distinguished = s.sm_distinguished ∧ s1.errors = s.errors ∧
      s1.running_tid = s.running_tid ∧ s1.auxmap_L1 = s.auxmap_L1 ∧
      s1.auxmap_L2.size = s.auxmap_L2.size ∧
      (∀ k, (s1.auxmap_L2.nodes k).base = (s.auxmap_L2.nodes k).base) := by
  cases p with
  | primary i =>
    rw [load_slot_primary] at hl
    have hi : i < N_PRIMARY_MAP ws := by
      by_contra hc
      rw [if_neg hc] at hl
      simp at hl
    unfold store_slot
    dsimp only
    rw [if_pos hi]
    refine ⟨_, rfl, ?_, rfl, rfl, rfl, rfl, rfl, rfl, rfl, fun _ => rfl⟩
    intro q
    cases q with
    | primary j =>
      rw [load_slot_primary, load_slot_primary]
      dsimp only
      by_cases hj : j = i
      · subst hj
        rw [if_pos hi, if_pos rfl, Function.update_same]
      · have : SecMapSlot.primary j ≠ SecMapSlot.primary i := by
          intro h; injection h with h; exact hj h
        rw [if_neg this, Function.update_noteq hj]
    | aux k =>
      have : SecMapSlot.aux k ≠ SecMapSlot.primary i := by intro h; cases h
      rw [if_neg this]
      rfl
  | aux k =>
    rw [load_slot_aux] at hl
    have hk : k < s.auxmap_L2.size := by
      by_contra hc
      rw [if_neg hc] at hl
      simp at hl
    unfold store_slot
    dsimp only
    rw [if_pos hk]
    refine ⟨_, rfl, ?_, rfl, rfl, rfl, rfl, rfl, rfl, rfl, ?_⟩
    · intro q
      cases q with
      | primary j =>
        have : SecMapSlot.primary j ≠ SecMapSlot.aux k := by intro h; cases h
        rw [if_neg this]
        rfl
      | aux j =>
        rw [load_slot_aux, load_slot_aux]
        dsimp only
        by_cases hj : j = k
        · subst hj
          rw [if_pos hk, if_pos rfl, Function.update_same]
        · have : SecMapSlot.aux j ≠ SecMapSlot.aux k := by
            intro h; injection h with h; exact hj h
          rw [if_neg this, Function.update_noteq hj]
    · intro j
      dsimp only
      by_cases hj : j = k
      · subst hj; rw [Function.update_same]
      · rw [Function.update_noteq hj]

theorem lookup_congr (t t1 : OSet) (hsz : t1.size = t.size)
    (hb : ∀ k, (t1.nodes k).base = (t.nodes k).base) (key : Nat) :
    OSetGen_Lookup t1 key = OSetGen_Lookup t key := by
  unfold OSetGen_Lookup
  rw [hsz]
  exact lookupIn_congr _ _ _ _ (fun k _ => hb k)

theorem L2Nodup_congr (t t1 : OSet) (hsz : t1.size = t.size)
    (hb : ∀ k, (t1.nodes k).base = (t.nodes k).base) (hn : L2Nodup t) : L2Nodup t1 := by
  intro j k hj hk h
  rw [hb j, hb k] at h
  exact hn j k (by omega) (by omega) h

theorem is_distinguished_iff (v : SecMapPtr) :
    is_distinguished_sm v = true ↔ ∃ i, i < 3 ∧ v = SecMapPtr.distinguished i := by
  cases v with
  | null => simp [is_distinguished_sm]
  | distinguished i =>
    simp only [is_distinguished_sm, Bool.and_eq_true, decide_eq_true_eq, SecMapPtr.distinguished.injEq,
      exists_eq_right']
    omega
  | allocated id => simp [is_distinguished_sm]

theorem valid_not_fresh (ws : Nat) (s : State) (hwf : WF ws s) (id : Nat)
    (h : ValidPtr s (SecMapPtr.allocated id)) : id ≠ s.heap_next := by
  intro he
  exact h (hwf.fresh id (by omega))

theorem cow_slot_spec (ws : Nat) (s : State) (p : SecMapSlot) (v : SecMapPtr)
    (hwf : WF ws s) (hl : load_slot ws s p = some v) :
    ∃ id s1, cow_slot ws s p = some (SecMapPtr.allocated id, s1) ∧ WF ws s1 ∧
      load_slot ws s1 p = some (SecMapPtr.allocated id) ∧
      contents s1 (SecMapPtr.allocated id) = contents s v ∧
      (∀ q, q ≠ p → load_slot ws s1 q = load_slot ws s q) ∧
      (∀ w, ValidPtr s w → contents s1 w = contents s w) ∧
      s1.sm_distinguished = s.sm_distinguished ∧ s1.errors = s.errors ∧
      s1.running_tid = s.running_tid ∧ s1.auxmap_L1 = s.auxmap_L1 ∧
      s1.auxmap_L2.size = s.auxmap_L2.size ∧
      (∀ k, (s1.auxmap_L2.nodes k).base = (s.auxmap_L2.nodes k).base) := by
  have hv := hwf.valid p v hl
  unfold cow_slot
  rw [hl]
  dsimp only
  by_cases hd : is_distinguished_sm v = true
  · rw [if_pos hd]
    obtain ⟨i, hi, rfl⟩ := (is_distinguished_iff v).mp hd
    have hi3 : i = 0 ∨ i = 1 ∨ i = 2 := by omega
    unfold copy_for_writing
    dsimp only
    rw [if_pos hi3]
    dsimp only
    obtain ⟨s1, h1, hload, hheap, hnext, hdist, herr, htid, hl1, hsz, hbase⟩ :=
      store_slot_spec ws
        { s with heap := Function.update s.heap s.heap_next (some (s.sm_distinguished i)),
                 heap_next := s.heap_next + 1 }
        p (SecMapPtr.distinguished i) (SecMapPtr.allocated s.heap_next) hl
    rw [h1]
    dsimp only
    have hp : load_slot ws s1 p = some (SecMapPtr.allocated s.heap_next) := by
      rw [hload p, if_pos rfl]
    rw [hp]
    dsimp only
    have hq : ∀ q, q ≠ p → load_slot ws s1 q = load_slot ws s q := by
      intro q hq
      rw [hload q, if_neg hq]
      rfl
    dsimp only at hheap hnext hdist herr htid hl1 hsz hbase
    have hnew : s1.heap s.heap_next = some (s.sm_distinguished i) := by
      rw [hheap, Function.update_same]
    have hold : ∀ id, id ≠ s.heap_next → s1.heap id = s.heap id := by
      intro id hid
      rw [hheap, Function.update_noteq hid]
    have hvalid : ∀ w, ValidPtr s w → ValidPtr s1 w := by
      intro w hw
      cases w with
      | null => exact hw
      | distinguished j => exact hw
      | allocated id =>
        show s1.heap id ≠ none
        rw [hold id (valid_not_fresh ws s hwf id hw)]
        exact hw
    refine ⟨s.heap_next, s1, rfl, ?_, hp, ?_, hq, ?_, hdist, herr, htid, hl1, hsz, hbase⟩
    · refine ⟨?_, ?_, ?_, ?_, ?_⟩
      · intro n hn
        rw [hl1]
        exact EntOk_mono _ _ _ (fun k hk => ⟨by omega, hbase k⟩) (hwf.l1 n hn)
      · exact L2Nodup_congr _ _ hsz hbase hwf.l2
      · intro q w hw
        by_cases hqp : q = p
        · rw [hqp, hp] at hw
          simp only [Option.some.injEq] at hw
          rw [← hw]
          show s1.heap s.heap_next ≠ none
          rw [hnew]
          simp
        · rw [hq q hqp] at hw
          exact hvalid w (hwf.valid q w hw)
      · intro q1 q2 id h1 h2
        by_cases hq1 : q1 = p
        · by_cases hq2 : q2 = p
          · rw [hq1, hq2]
          · rw [hq1, hp] at h1
            simp only [Option.some.injEq, SecMapPtr.allocated.injEq] at h1
            rw [hq q2 hq2, ← h1] at h2
            exact absurd rfl (valid_not_fresh ws s hwf _ (hwf.valid q2 _ h2))
        · by_cases hq2 : q2 = p
          · rw [hq2, hp] at h2
            simp only [Option.some.injEq, SecMapPtr.allocated.injEq] at h2
            rw [hq q1 hq1, ← h2] at h1
            exact absurd rfl (valid_not_fresh ws s hwf _ (hwf.valid q1 _ h1))
          · rw [hq q1 hq1] at h1
            rw [hq q2 hq2] at h2
            exact hwf.noalias q1 q2 id h1 h2
      · intro id hid
        rw [hnext] at hid
        rw [hold id (by omega)]
        exact hwf.fresh id (by omega)
    · rw [contents_allocated, hnew, contents_distinguished, if_pos hi]
    · intro w hw
      cases w with
      | null => rfl
      | distinguished j => rw [contents_distinguished, contents_distinguished, hdist]
      | allocated id =>
        rw [contents_allocated, contents_allocated, hold id (valid_not_fresh ws s hwf id hw)]
  · rw [if_neg hd]
    cases v with
    | null => exact absurd hv id
    | distinguished i =>
      have hi : i < 3 := hv
      exact absurd ((is_distinguished_iff _).mpr ⟨i, hi, rfl⟩) hd
    | allocated id =>
      exact ⟨id, s, rfl, hwf, hl, rfl, fun _ _ => rfl, fun _ _ => rfl, rfl, rfl, rfl, rfl,
        rfl, fun _ => rfl⟩

/-! ## Regions, slots and the secondary map of an address -/

theorem slot_cases (ws : Nat) (s : State) (b : Nat) :
    (∃ q, SlotFor ws s b q) ∨
      (¬ b ≤ MAX_PRIMARY_ADDRESS ws ∧
        OSetGen_Lookup s.auxmap_L2 (b &&& notWord ws 0xFFFF) = none) := by
  by_cases hb : b ≤ MAX_PRIMARY_ADDRESS ws
  · left
    refine ⟨SecMapSlot.primary (b >>> 16), ?_⟩
    unfold SlotFor
    rw [if_pos hb]
  · cases hl : OSetGen_Lookup s.auxmap_L2 (b &&& notWord ws 0xFFFF) with
    | none => exact Or.inr ⟨hb, rfl⟩
    | some k =>
      left
      refine ⟨SecMapSlot.aux k, ?_⟩
      unfold SlotFor
      rw [if_neg hb]
      exact ⟨k, rfl, hl⟩

theorem smOf_no_node (ws : Nat) (s : State) (b : Nat) (hb : ¬ b ≤ MAX_PRIMARY_ADDRESS ws)
    (hl : OSetGen_Lookup s.auxmap_L2 (b &&& notWord ws 0xFFFF) = none) :
    smOf ws s b = SecMapPtr.distinguished SM_DIST_NOCHECK := by
  unfold smOf auxSm
  rw [if_neg hb, hl]

theorem SlotFor_congr (ws : Nat) (s s1 : State)
    (h : ∀ key, OSetGen_Lookup s1.auxmap_L2 key = OSetGen_Lookup s.auxmap_L2 key)
    (b : Nat) (q : SecMapSlot) (hq : SlotFor ws s b q) : SlotFor ws s1 b q := by
  unfold SlotFor at hq ⊢
  by_cases hb : b ≤ MAX_PRIMARY_ADDRESS ws
  · rw [if_pos hb] at hq ⊢
    exact hq
  · rw [if_neg hb] at hq ⊢
    obtain ⟨k, hk, hl⟩ := hq
    exact ⟨k, hk, by rw [h]; exact hl⟩

theorem SlotFor_same_region (ws : Nat) (hws : WordSizeOk ws) (s : State) (a b : Nat)
    (ha : a < 2 ^ WORD_BITS ws) (hb : b < 2 ^ WORD_BITS ws) (p : SecMapSlot)
    (h1 : SlotFor ws s a p) (h2 : SlotFor ws s b p) : a / 65536 = b / 65536 := by
  unfold SlotFor at h1 h2
  by_cases ha1 : a ≤ MAX_PRIMARY_ADDRESS ws
  · rw [if_pos ha1] at h1
    by_cases hb1 : b ≤ MAX_PRIMARY_ADDRESS ws
    · rw [if_pos hb1] at h2
      rw [h1] at h2
      injection h2 with h2
      rw [Nat.shiftRight_eq_div_pow, Nat.shiftRight_eq_div_pow] at h2
      exact h2
    · rw [if_neg hb1] at h2
      obtain ⟨k, hk, _⟩ := h2
      rw [h1] at hk
      cases hk
  · rw [if_neg ha1] at h1
    obtain ⟨k, hk, hl⟩ := h1
    by_cases hb1 : b ≤ MAX_PRIMARY_ADDRESS ws
    · rw [if_pos hb1] at h2
      rw [h2] at hk
      cases hk
    · rw [if_neg hb1] at h2
      obtain ⟨k2, hk2, hl2⟩ := h2
      rw [hk] at hk2
      injection hk2 with hk2
      rw [← hk2] at hl2
      have e1 := (lookupIn_some _ _ _ _ hl).2
      have e2 := (lookupIn_some _ _ _ _ hl2).2
      rw [region_mask ws hws a ha] at e1
      rw [region_mask ws hws b hb] at e2
      omega

theorem smOf_region (ws : Nat) (hws : WordSizeOk ws) (s : State) (a b : Nat)
    (ha : a < 2 ^ WORD_BITS ws) (hb : b < 2 ^ WORD_BITS ws) (h : a / 65536 = b / 65536) :
    smOf ws s a = smOf ws s b := by
  unfold smOf
  have e : (a ≤ MAX_PRIMARY_ADDRESS ws) ↔ (b ≤ MAX_PRIMARY_ADDRESS ws) := by
    rw [le_MAX_iff ws hws a, le_MAX_iff ws hws b, h]
  by_cases ha1 : a ≤ MAX_PRIMARY_ADDRESS ws
  · rw [if_pos ha1, if_pos (e.mp ha1), Nat.shiftRight_eq_div_pow, Nat.shiftRight_eq_div_pow]
    norm_num
    rw [h]
  · rw [if_neg ha1, if_neg (fun hh => ha1 (e.mpr hh)), region_mask ws hws a ha,
      region_mask ws hws b hb, h]

theorem smOf_valid (ws : Nat) (hws : WordSizeOk ws) (s : State) (hwf : WF ws s) (b : Nat) :
    ValidPtr s (smOf ws s b) := by
  rcases slot_cases ws s b with ⟨q, hq⟩ | ⟨hb, hl⟩
  · exact hwf.valid q _ (load_slot_of_SlotFor ws hws s b q hq)
  · rw [smOf_no_node ws s b hb hl]
    show SM_DIST_NOCHECK < 3
    decide

theorem smOf_noalias (ws : Nat) (hws : WordSizeOk ws) (s : State) (hwf : WF ws s) (a b : Nat)
    (ha : a < 2 ^ WORD_BITS ws) (hb : b < 2 ^ WORD_BITS ws) (id : Nat)
    (h1 : smOf ws s a = SecMapPtr.allocated id) (h2 : smOf ws s b = SecMapPtr.allocated id) :
    a / 65536 = b / 65536 := by
  rcases slot_cases ws s a with ⟨p, hp⟩ | ⟨ha1, hl1⟩
  · rcases slot_cases ws s b with ⟨q, hq⟩ | ⟨hb1, hl2⟩
    · have e1 := load_slot_of_SlotFor ws hws s a p hp
      have e2 := load_slot_of_SlotFor ws hws s b q hq
      rw [h1] at e1
      rw [h2] at e2
      have := hwf.noalias p q id e1 e2
      rw [← this] at hq
      exact SlotFor_same_region ws hws s a b ha hb p hp hq
    · rw [smOf_no_node ws s b hb1 hl2] at h2
      cases h2
  · rw [smOf_no_node ws s a ha1 hl1] at h1
    cases h1

theorem get_secmap_for_writing_spec (ws : Nat) (hws : WordSizeOk ws) (s : State) (a : Nat)
    (hwf : WF ws s) (ha : a < 2 ^ WORD_BITS ws) :
    ∃ id s1, get_secmap_for_writing ws s a = some (SecMapPtr.allocated id, s1) ∧ WF ws s1 ∧
      smOf ws s1 a = SecMapPtr.allocated id ∧
      contents s1 (SecMapPtr.allocated id) = contents s (smOf ws s a) ∧
      (∀ b, b < 2 ^ WORD_BITS ws → b / 65536 ≠ a / 65536 → smOf ws s1 b = smOf ws s b) ∧
      (∀ w, ValidPtr s w → contents s1 w = contents s w) ∧
      s1.sm_distinguished = s.sm_distinguished ∧ s1.errors = s.errors ∧
      s1.running_tid = s.running_tid := by
  obtain ⟨p, sA, hA, hwfA, hao, hslot⟩ := get_secmap_ptr_spec ws hws s a hwf ha
  have hlA := load_slot_of_SlotFor ws hws sA a p hslot
  obtain ⟨id, sB, hB, hwfB, hlB, hcB, hqB, hvB, hdB, heB, htB, _, hszB, hbB⟩ :=
    cow_slot_spec ws sA p _ hwfA hlA
  have hlook : ∀ key, OSetGen_Lookup sB.auxmap_L2 key = OSetGen_Lookup sA.auxmap_L2 key :=
    lookup_congr _ _ hszB hbB
  have hslotB := SlotFor_congr ws sA sB hlook a p hslot
  have hsmB : smOf ws sB a = SecMapPtr.allocated id := by
    have := load_slot_of_SlotFor ws hws sB a p hslotB
    rw [hlB] at this
    simp only [Option.some.injEq] at this
    exact this.symm
  refine ⟨id, sB, ?_, hwfB, hsmB, ?_, ?_, ?_, hdB.trans hao.dist, heB.trans hao.errors,
    htB.trans hao.tid⟩
  · rw [get_secmap_for_writing_eq, hA]
    exact hB
  · rw [hcB, hao.sm a]
    exact contents_congr s sA hao.dist hao.heap _
  · intro b hb hne
    rw [← hao.sm b]
    rcases slot_cases ws sA b with ⟨q, hq⟩ | ⟨hb1, hl2⟩
    · have hqp : q ≠ p := by
        intro h
        rw [h] at hq
        exact hne (SlotFor_same_region ws hws sA a b ha hb p hslot hq).symm
      have e1 := load_slot_of_SlotFor ws hws sA b q hq
      have e2 := load_slot_of_SlotFor ws hws sB b q (SlotFor_congr ws sA sB hlook b q hq)
      rw [hqB q hqp, e1] at e2
      simp only [Option.some.injEq] at e2
      exact e2.symm
    · rw [smOf_no_node ws sA b hb1 hl2]
      exact smOf_no_node ws sB b hb1 (by rw [hlook]; exact hl2)
  · intro w hw
    rw [hvB w (ValidPtr_of_heap s sA hao.heap w hw)]
    exact contents_congr s sA hao.dist hao.heap w

theorem get_secmap_for_writing_abits8 (ws : Nat) (hws : WordSizeOk ws) (s s1 : State)
    (a id : Nat) (hwf : WF ws s) (ha : a < 2 ^ WORD_BITS ws)
    (hsm : smOf ws s1 a = SecMapPtr.allocated id)
    (hc : contents s1 (SecMapPtr.allocated id) = contents s (smOf ws s a))
    (hother : ∀ b, b < 2 ^ WORD_BITS ws → b / 65536 ≠ a / 65536 →
      smOf ws s1 b = smOf ws s b)
    (hcont : ∀ w, ValidPtr s w → contents s1 w = contents s w)
    (b : Nat) (hb : b < 2 ^ WORD_BITS ws) :
    abits8_of ws s1 b = abits8_of ws s b := by
  unfold abits8_of
  by_cases hr : b / 65536 = a / 65536
  · rw [smOf_region ws hws s1 b a hb ha hr, hsm, hc, smOf_region ws hws s b a hb ha hr]
  · rw [hother b hb hr, hcont _ (smOf_valid ws hws s hwf b)]

/-! ## `set_abits2` -/

theorem same_region_ne (a b : Nat) (hr : b / 65536 = a / 65536) (hne : b ≠ a)
    (hoff : SM_OFF b = SM_OFF a) : a % 4 ≠ b % 4 := by
  rw [SM_OFF_eq, SM_OFF_eq] at hoff
  omega

theorem set_abits2_spec (ws : Nat) (hws : WordSizeOk ws) (s : State) (a t : Nat)
    (hwf : WF ws s) (ha : a < 2 ^ WORD_BITS ws) (ht : t < 4) :
    ∃ s1, set_abits2 ws s a t = some s1 ∧ WF ws s1 ∧
      s1.sm_distinguished = s.sm_distinguished ∧ s1.errors = s.errors ∧
      s1.running_tid = s.running_tid ∧
      abits2_of ws s1 a = t ∧
      ∀ b, b < 2 ^ WORD_BITS ws → b ≠ a → abits2_of ws s1 b = abits2_of ws s b := by
  obtain ⟨id, sB, hB, hwfB, hsmB, hcB, hoB, hvB, hdB, heB, htB⟩ :=
    get_secmap_for_writing_spec ws hws s a hwf ha
  have h8 := get_secmap_for_writing_abits8 ws hws s sB a id hwf ha hsmB hcB hoB hvB
  obtain ⟨m, hm⟩ := contents_of_valid sB (SecMapPtr.allocated id)
    (by rw [← hsmB]; exact smOf_valid ws hws sB hwfB a)
  have hheap : sB.heap id = some m := hm
  have hload := load_abits8_of_contents sB _ m (SM_OFF a) (SM_OFF_lt a) hm
  unfold set_abits2
  rw [hB]
  dsimp only
  rw [hload]
  dsimp only
  unfold store_abits8
  rw [if_pos (SM_OFF_lt a)]
  dsimp only
  rw [hheap]
  dsimp only
  refine ⟨_, rfl, ?_, hdB, heB, htB, ?_, ?_⟩
  · refine ⟨hwfB.l1, hwfB.l2, ?_, hwfB.noalias, ?_⟩
    · intro p v hv
      have := hwfB.valid p v hv
      cases v with
      | null => exact this
      | distinguished i => exact this
      | allocated j =>
        show Function.update sB.heap id _ j ≠ none
        by_cases hj : j = id
        · rw [hj, Function.update_same]; simp
        · rw [Function.update_noteq hj]; exact this
    · intro j hj
      show Function.update sB.heap id _ j = none
      have hne : j ≠ id := by
        intro h
        rw [h] at hj
        have := hwfB.fresh id hj
        rw [hheap] at this
        cases this
      rw [Function.update_noteq hne]
      exact hwfB.fresh j hj
  · unfold abits2_of abits8_of
    show extract_abits2_from_abits8 a
      (((contents _ (smOf ws sB a)).map (fun m => m.abits8 (SM_OFF a))).getD 0) = t
    rw [hsmB, contents_allocated]
    dsimp only
    rw [Function.update_same]
    dsimp only [Option.map_some', Option.getD_some]
    rw [Function.update_same]
    exact extract_insert_same a t _ ht
  · intro b hb hne
    have e8 := h8 b hb
    unfold abits2_of
    rw [← e8]
    unfold abits8_of
    show extract_abits2_from_abits8 b
      (((contents _ (smOf ws sB b)).map (fun m => m.abits8 (SM_OFF b))).getD 0) = _
    by_cases hr : b / 65536 = a / 65536
    · rw [smOf_region ws hws sB b a hb ha hr, hsmB, contents_allocated, contents_allocated]
      dsimp only
      rw [Function.update_same, hheap]
      dsimp only [Option.map_some', Option.getD_some]
      by_cases hoff : SM_OFF b = SM_OFF a
      · rw [hoff, Function.update_same]
        exact extract_insert_other a b t _ ht (same_region_ne a b hr hne hoff)
      · rw [Function.update_noteq hoff]
    · have hne2 : smOf ws sB b ≠ SecMapPtr.allocated id := by
        intro h
        exact hr (smOf_noalias ws hws sB hwfB b a hb ha id h hsmB)
      cases hv : smOf ws sB b with
      | null => rfl
      | distinguished i => rfl
      | allocated j =>
        rw [hv] at hne2
        have hj : j ≠ id := by
          intro h; rw [h] at hne2; exact hne2 rfl
        rw [contents_allocated, contents_allocated]
        dsimp only
        rw [Function.update_noteq hj]

/-! ## The startup state -/

theorem startup_primary (ws : Nat) (i : Nat) (hi : i < N_PRIMARY_MAP ws) :
    (og_pre_clo_init ws).primary_map i = SecMapPtr.distinguished SM_DIST_NOCHECK := by
  unfold og_pre_clo_init
  dsimp only
  rw [if_pos hi]

theorem startup_size (ws : Nat) : (og_pre_clo_init ws).auxmap_L2.size = 0 := rfl

theorem startup_errors (ws : Nat) : (og_pre_clo_init ws).errors = [] := rfl

theorem startup_tid (ws : Nat) : (og_pre_clo_init ws).running_tid = 1 := rfl

theorem startup_l1 (ws : Nat) (i : Nat) (hi : i < N_AUXMAP_L1) :
    (og_pre_clo_init ws).auxmap_L1 i = { base := 0, ent := none } := by
  unfold og_pre_clo_init init_auxmap_L1_L2
  dsimp only
  rw [if_pos hi]

theorem startup_dist0 (ws : Nat) (off : Nat) (h : off < SM_CHUNKS) :
    ((og_pre_clo_init ws).sm_distinguished 0).abits8 off = A_BITS8_NOCHECK := by
  unfold og_pre_clo_init fill_secmap SM_DIST_NOCHECK SM_DIST_UNWRITABLE SM_DIST_UNREFERABLE
  dsimp only
  rw [Function.update_noteq (by decide), Function.update_noteq (by decide),
    Function.update_same]
  dsimp only
  rw [if_pos h]

theorem startup_dist1 (ws : Nat) (off : Nat) (h : off < SM_CHUNKS) :
    ((og_pre_clo_init ws).sm_distinguished 1).abits8 off = A_BITS8_UNWRITABLE := by
  unfold og_pre_clo_init fill_secmap SM_DIST_NOCHECK SM_DIST_UNWRITABLE SM_DIST_UNREFERABLE
  dsimp only
  rw [Function.update_noteq (by decide), Function.update_same]
  dsimp only
  rw [if_pos h]

theorem startup_dist2 (ws : Nat) (off : Nat) (h : off < SM_CHUNKS) :
    ((og_pre_clo_init ws).sm_distinguished 2).abits8 off = A_BITS8_UNREFERABLE := by
  unfold og_pre_clo_init fill_secmap SM_DIST_NOCHECK SM_DIST_UNWRITABLE SM_DIST_UNREFERABLE
  dsimp only
  rw [Function.update_same]
  dsimp only
  rw [if_pos h]

theorem startup_load_slot (ws : Nat) (p : SecMapSlot) (v : SecMapPtr)
    (h : load_slot ws (og_pre_clo_init ws) p = some v) :
    v = SecMapPtr.distinguished SM_DIST_NOCHECK := by
  cases p with
  | primary i =>
    rw [load_slot_primary] at h
    by_cases hi : i < N_PRIMARY_MAP ws
    · rw [if_pos hi, startup_primary ws i hi] at h
      simp only [Option.some.injEq] at h
      exact h.symm
    · rw [if_neg hi] at h
      simp at h
  | aux k =>
    rw [load_slot_aux, startup_size] at h
    simp at h

theorem WF_startup (ws : Nat) : WF ws (og_pre_clo_init ws) := by
  refine ⟨?_, ?_, ?_, ?_, ?_⟩
  · intro i hi
    rw [startup_l1 ws i hi]
    exact EntOk_empty _
  · intro j k hj
    rw [startup_size] at hj
    omega
  · intro p v h
    rw [startup_load_slot ws p v h]
    show SM_DIST_NOCHECK < 3
    decide
  · intro p q id h _
    have := startup_load_slot ws p _ h
    cases this
  · intro id _
    rfl

theorem startup_smOf (ws : Nat) (hws : WordSizeOk ws) (b : Nat) :
    smOf ws (og_pre_clo_init ws) b = SecMapPtr.distinguished SM_DIST_NOCHECK := by
  rcases slot_cases ws (og_pre_clo_init ws) b with ⟨q, hq⟩ | ⟨hb, hl⟩
  · have := load_slot_of_SlotFor ws hws _ b q hq
    exact (startup_load_slot ws q _ this)
  · exact smOf_no_node ws _ b hb hl

theorem startup_abits2 (ws : Nat) (hws : WordSizeOk ws) (b : Nat) :
    abits2_of ws (og_pre_clo_init ws) b = A_BITS2_NOCHECK := by
  unfold abits2_of abits8_of
  rw [startup_smOf ws hws b]
  have : contents (og_pre_clo_init ws) (SecMapPtr.distinguished SM_DIST_NOCHECK)
      = some ((og_pre_clo_init ws).sm_distinguished 0) := rfl
  rw [this]
  simp only [Option.map_some', Option.getD_some]
  rw [startup_dist0 ws _ (SM_OFF_lt b)]
  rw [extract_abits2_mod]
  have h4 : b % 4 < 4 := Nat.mod_lt _ (by norm_num)
  generalize b % 4 = r at h4
  revert r
  decide

/-! ## The byte loop of `set_address_range_perms` -/

theorem set_address_range_perms_loop_spec (ws : Nat) (hws : WordSizeOk ws) (a t : Nat)
    (ht : t < 4) :
    ∀ n i s, WF ws s →
      ∃ s1, set_address_range_perms_loop ws a t n i s = some s1 ∧ WF ws s1 ∧
        s1.sm_distinguished = s.sm_distinguished ∧ s1.errors = s.errors ∧
        s1.running_tid = s.running_tid ∧
        ∀ b, b < 2 ^ WORD_BITS ws →
          ((∃ j, i ≤ j ∧ j < i + n ∧ toWord ws (a + j) = b) → abits2_of ws s1 b = t) ∧
          ((∀ j, i ≤ j → j < i + n → toWord ws (a + j) ≠ b) →
            abits2_of ws s1 b = abits2_of ws s b) := by
  intro n
  induction n with
  | zero =>
    intro i s hwf
    refine ⟨s, rfl, hwf, rfl, rfl, rfl, ?_⟩
    intro b _
    refine ⟨?_, fun _ => rfl⟩
    rintro ⟨j, h1, h2, _⟩
    omega
  | succ n ih =>
    intro i s hwf
    have hlt : toWord ws (a + i) < 2 ^ WORD_BITS ws := Nat.mod_lt _ (by positivity)
    obtain ⟨s1, h1, hwf1, hd1, he1, ht1, hset1, hframe1⟩ :=
      set_abits2_spec ws hws s (toWord ws (a + i)) t hwf hlt ht
    obtain ⟨s2, h2, hwf2, hd2, he2, ht2, hspec2⟩ := ih (i + 1) s1 hwf1
    refine ⟨s2, ?_, hwf2, hd2.trans hd1, he2.trans he1, ht2.trans ht1, ?_⟩
    · unfold set_address_range_perms_loop
      rw [h1]
      exact h2
    · intro b hb
      by_cases hin : ∃ j, i + 1 ≤ j ∧ j < i + 1 + n ∧ toWord ws (a + j) = b
      · refine ⟨fun _ => (hspec2 b hb).1 hin, ?_⟩
        intro hall
        obtain ⟨j, hj1, hj2, hj3⟩ := hin
        exact absurd hj3 (hall j (by omega) (by omega))
      · have hnot : ∀ j, i + 1 ≤ j → j < i + 1 + n → toWord ws (a + j) ≠ b := by
          intro j hj1 hj2 hj3
          exact hin ⟨j, hj1, hj2, hj3⟩
        have e2 := (hspec2 b hb).2 hnot
        constructor
        · rintro ⟨j, hj1, hj2, hj3⟩
          have hji : j = i := by
            by_contra hne
            exact hnot j (by omega) (by omega) hj3
          rw [hji] at hj3
          rw [e2, ← hj3]
          exact hset1
        · intro hall
          rw [e2]
          exact hframe1 b hb (fun h => hall i (by omega) (by omega) h.symm)

/-! ## Store checkers -/

theorem SameTags_refl (ws : Nat) (s : State) : SameTags ws s s := ⟨fun _ => rfl, rfl, rfl⟩

theorem SameTags_trans (ws : Nat) (s s1 s2 : State) (h1 : SameTags ws s s1)
    (h2 : SameTags ws s1 s2) : SameTags ws s s2 :=
  ⟨fun b => (h2.tags b).trans (h1.tags b), h2.dist.trans h1.dist, h2.tid.trans h1.tid⟩

theorem SameTags_of_AuxOnly (ws : Nat) (s s1 : State) (h : AuxOnly ws s s1) :
    SameTags ws s s1 :=
  ⟨abits2_of_AuxOnly ws s s1 h, h.dist, h.tid⟩

theorem WF_record (ws : Nat) (s : State) (k : OgErrorKind) (a : Nat) (hwf : WF ws s) :
    WF ws (maybe_record_error s k a) :=
  ⟨hwf.l1, hwf.l2, hwf.valid, hwf.noalias, hwf.fresh⟩

theorem SameTags_record (ws : Nat) (s : State) (k : OgErrorKind) (a : Nat) :
    SameTags ws s (maybe_record_error s k a) := ⟨fun _ => rfl, rfl, rfl⟩

theorem errors_record (s : State) (k : OgErrorKind) (a : Nat) :
    (maybe_record_error s k a).errors
      = s.errors ++ [{ tid := s.running_tid, ekind := k, addr := a }] := rfl

theorem store_check8_spec (ws : Nat) (hws : WordSizeOk ws) (s : State) (a d : Nat)
    (hwf : WF ws s) (ha : a < 2 ^ WORD_BITS ws) :
    ∃ s1, store_check8 ws s a d = some s1 ∧ WF ws s1 ∧ SameTags ws s s1 ∧
      s1.errors = s.errors ++
        (if abits2_of ws s a = A_BITS2_UNWRITABLE then [unwritable_at s a] else []) := by
  obtain ⟨s1, h1, hwf1, hao⟩ := get_abits2_spec ws hws s a hwf ha
  unfold store_check8
  rw [h1]
  dsimp only
  by_cases ht : abits2_of ws s a = A_BITS2_UNWRITABLE
  · rw [if_pos ht, if_pos ht]
    refine ⟨_, rfl, WF_record ws s1 _ a hwf1,
      SameTags_trans ws s s1 _ (SameTags_of_AuxOnly ws s s1 hao) (SameTags_record ws s1 _ a), ?_⟩
    rw [errors_record, hao.errors, hao.tid]
    rfl
  · rw [if_neg ht, if_neg ht]
    refine ⟨_, rfl, hwf1, SameTags_of_AuxOnly ws s s1 hao, ?_⟩
    rw [hao.errors, List.append_nil]

theorem store_check16_spec (ws : Nat) (hws : WordSizeOk ws) (s : State) (a d : Nat)
    (hwf : WF ws s) (ha : a < 2 ^ WORD_BITS ws) :
    ∃ s1, store_check16 ws s a d = some s1 ∧ WF ws s1 ∧ SameTags ws s s1 ∧
      s1.errors = s.errors ++
        (if abits2_of ws s a = A_BITS2_UNWRITABLE then [unwritable_at s a] else []) := by
  obtain ⟨s1, h1, hwf1, hao⟩ := get_abits2_spec ws hws s a hwf ha
  unfold store_check16
  rw [h1]
  dsimp only
  by_cases ht : abits2_of ws s a = A_BITS2_UNWRITABLE
  · rw [if_pos ht, if_pos ht]
    refine ⟨_, rfl, WF_record ws s1 _ a hwf1,
      SameTags_trans ws s s1 _ (SameTags_of_AuxOnly ws s s1 hao) (SameTags_record ws s1 _ a), ?_⟩
    rw [errors_record, hao.errors, hao.tid]
    rfl
  · rw [if_neg ht, if_neg ht]
    refine ⟨_, rfl, hwf1, SameTags_of_AuxOnly ws s s1 hao, ?_⟩
    rw [hao.errors, List.append_nil]

/-- The errors that the policy of the 32- and 64-bit checkers prescribes for a store of
the word `data` to address `a`. -/
theorem store_check32_spec (ws : Nat) (hws : WordSizeOk ws) (s : State) (a data : Nat)
    (hwf : WF ws s) (ha : a < 2 ^ WORD_BITS ws) (hd : data < 2 ^ WORD_BITS ws) :
    ∃ s1, store_check32 ws s a data = some s1 ∧ WF ws s1 ∧ SameTags ws s s1 ∧
      s1.errors = s.errors ++
        (if abits2_of ws s a = A_BITS2_UNWRITABLE then [unwritable_at s a]
         else if abits2_of ws s a = A_BITS2_REFCHECK ∧
              abits2_of ws s data = A_BITS2_UNREFERABLE then [unreferable_at s data]
         else []) := by
  obtain ⟨s1, h1, hwf1, hao1⟩ := get_abits2_spec ws hws s a hwf ha
  obtain ⟨s2, h2, hwf2, hao2⟩ := get_abits2_spec ws hws s1 a hwf1 ha
  obtain ⟨s3, h3, hwf3, hao3⟩ := get_abits2_spec ws hws s2 data hwf2 hd
  have hao12 := AuxOnly_trans ws s s1 s2 hao1 hao2
  have hao13 := AuxOnly_trans ws s s2 s3 hao12 hao3
  have e2 : abits2_of ws s1 a = abits2_of ws s a := abits2_of_AuxOnly ws s s1 hao1 a
  have e3 : abits2_of ws s2 data = abits2_of ws s data := abits2_of_AuxOnly ws s s2 hao12 data
  have hdw : toWord ws data = data := Nat.mod_eq_of_lt hd
  unfold store_check32
  rw [h1]
  dsimp only
  by_cases ht : abits2_of ws s a = A_BITS2_UNWRITABLE
  · rw [if_pos ht, if_pos ht]
    refine ⟨_, rfl, WF_record ws s1 _ a hwf1,
      SameTags_trans ws s s1 _ (SameTags_of_AuxOnly ws s s1 hao1) (SameTags_record ws s1 _ a), ?_⟩
    rw [errors_record, hao1.errors, hao1.tid]
    rfl
  · rw [if_neg ht, if_neg ht, h2]
    dsimp only
    rw [e2]
    by_cases hr : abits2_of ws s a = A_BITS2_REFCHECK
    · rw [if_pos hr, h3]
      dsimp only
      rw [e3]
      by_cases hu : abits2_of ws s data = A_BITS2_UNREFERABLE
      · rw [if_pos hu, if_pos ⟨hr, hu⟩]
        refine ⟨_, rfl, WF_record ws s3 _ _ hwf3,
          SameTags_trans ws s s3 _ (SameTags_of_AuxOnly ws s s3 hao13)
            (SameTags_record ws s3 _ _), ?_⟩
        rw [errors_record, hao13.errors, hao13.tid, hdw]
        rfl
      · rw [if_neg hu, if_neg (fun h => hu h.2)]
        refine ⟨_, rfl, hwf3, SameTags_of_AuxOnly ws s s3 hao13, ?_⟩
        rw [hao13.errors, List.append_nil]
    · rw [if_neg hr, if_neg (fun h => hr h.1)]
      refine ⟨_, rfl, hwf2, SameTags_of_AuxOnly ws s s2 hao12, ?_⟩
      rw [hao12.errors, List.append_nil]

theorem store_check64_spec (ws : Nat) (hws : WordSizeOk ws) (s : State) (a data w : Nat)
    (hwf : WF ws s) (ha : a < 2 ^ WORD_BITS ws) (hw : w ≠ 32) :
    ∃ s1, store_check64 ws s a data w = some s1 ∧ WF ws s1 ∧ SameTags ws s s1 ∧
      s1.errors = s.errors ++
        (if abits2_of ws s a = A_BITS2_UNWRITABLE then [unwritable_at s a]
         else if abits2_of ws s a = A_BITS2_REFCHECK ∧
              abits2_of ws s (toWord ws data) = A_BITS2_UNREFERABLE
           then [unreferable_at s (toWord ws data)]
         else []) := by
  have hd : toWord ws data < 2 ^ WORD_BITS ws := Nat.mod_lt _ (by positivity)
  obtain ⟨s1, h1, hwf1, hao1⟩ := get_abits2_spec ws hws s a hwf ha
  obtain ⟨s2, h2, hwf2, hao2⟩ := get_abits2_spec ws hws s1 a hwf1 ha
  obtain ⟨s3, h3, hwf3, hao3⟩ := get_abits2_spec ws hws s2 (toWord ws data) hwf2 hd
  have hao12 := AuxOnly_trans ws s s1 s2 hao1 hao2
  have hao13 := AuxOnly_trans ws s s2 s3 hao12 hao3
  have e2 : abits2_of ws s1 a = abits2_of ws s a := abits2_of_AuxOnly ws s s1 hao1 a
  have e3 : abits2_of ws s2 (toWord ws data) = abits2_of ws s (toWord ws data) :=
    abits2_of_AuxOnly ws s s2 hao12 _
  unfold store_check64
  rw [if_neg hw, h1]
  dsimp only
  by_cases ht : abits2_of ws s a = A_BITS2_UNWRITABLE
  · rw [if_pos ht, if_pos ht]
    refine ⟨_, rfl, WF_record ws s1 _ a hwf1,
      SameTags_trans ws s s1 _ (SameTags_of_AuxOnly ws s s1 hao1) (SameTags_record ws s1 _ a), ?_⟩
    rw [errors_record, hao1.errors, hao1.tid]
    rfl
  · rw [if_neg ht, if_neg ht, h2]
    dsimp only
    rw [e2]
    by_cases hr : abits2_of ws s a = A_BITS2_REFCHECK
    · rw [if_pos hr, h3]
      dsimp only
      rw [e3]
      by_cases hu : abits2_of ws s (toWord ws data) = A_BITS2_UNREFERABLE
      · rw [if_pos hu, if_pos ⟨hr, hu⟩]
        refine ⟨_, rfl, WF_record ws s3 _ _ hwf3,
          SameTags_trans ws s s3 _ (SameTags_of_AuxOnly ws s s3 hao13)
            (SameTags_record ws s3 _ _), ?_⟩
        rw [errors_record, hao13.errors, hao13.tid]
        rfl
      · rw [if_neg hu, if_neg (fun h => hu h.2)]
        refine ⟨_, rfl, hwf3, SameTags_of_AuxOnly ws s s3 hao13, ?_⟩
        rw [hao13.errors, List.append_nil]
    · rw [if_neg hr, if_neg (fun h => hr h.1)]
      refine ⟨_, rfl, hwf2, SameTags_of_AuxOnly ws s s2 hao12, ?_⟩
      rw [hao12.errors, List.append_nil]

theorem store_check64_split_spec (ws : Nat) (hws : WordSizeOk ws) (s : State) (a data : Nat)
    (hwf : WF ws s) (ha : a < 2 ^ WORD_BITS ws) :
    ∃ s1 s2, store_check32 ws s a (toWord ws data) = some s1 ∧
      store_check32 ws s1 a (toWord ws (data >>> 32)) = some s2 ∧
      store_check64 ws s a data 32 = some s2 ∧ WF ws s2 ∧ SameTags ws s s2 ∧
      s2.errors = s.errors ++
        (if abits2_of ws s a = A_BITS2_UNWRITABLE then [unwritable_at s a]
         else if abits2_of ws s a = A_BITS2_REFCHECK ∧
              abits2_of ws s (toWord ws data) = A_BITS2_UNREFERABLE
           then [unreferable_at s (toWord ws data)]
         else []) ++
        (if abits2_of ws s a = A_BITS2_UNWRITABLE then [unwritable_at s a]
         else if abits2_of ws s a = A_BITS2_REFCHECK ∧
              abits2_of ws s (toWord ws (data >>> 32)) = A_BITS2_UNREFERABLE
           then [unreferable_at s (toWord ws (data >>> 32))]
         else []) := by
  have hd1 : toWord ws data < 2 ^ WORD_BITS ws := Nat.mod_lt _ (by positivity)
  have hd2 : toWord ws (data >>> 32) < 2 ^ WORD_BITS ws := Nat.mod_lt _ (by positivity)
  obtain ⟨s1, h1, hwf1, hst1, he1⟩ := store_check32_spec ws hws s a _ hwf ha hd1
  obtain ⟨s2, h2, hwf2, hst2, he2⟩ := store_check32_spec ws hws s1 a _ hwf1 ha hd2
  refine ⟨s1, s2, h1, h2, ?_, hwf2, SameTags_trans ws s s1 s2 hst1 hst2, ?_⟩
  · unfold store_check64
    rw [if_pos rfl, h1]
    exact h2
  · rw [he2, he1, hst1.tags a, hst1.tags (toWord ws (data >>> 32))]
    have u1 : unwritable_at s1 a = unwritable_at s a := by
      unfold unwritable_at; rw [hst1.tid]
    have u2 : unreferable_at s1 (toWord ws (data >>> 32))
        = unreferable_at s (toWord ws (data >>> 32)) := by
      unfold unreferable_at; rw [hst1.tid]
    rw [u1, u2]

/-! ## The range painter -/

theorem set_address_range_perms_spec (ws : Nat) (hws : WordSizeOk ws) (s : State)
    (a n abits16 dsm : Nat) (hwf : WF ws s)
    (hv : abits16 = A_BITS16_NOCHECK ∨ abits16 = A_BITS16_UNWRITABLE ∨
      abits16 = A_BITS16_UNREFERABLE ∨ abits16 = A_BITS16_REFCHECK) :
    ∃ s1, set_address_range_perms ws s a n abits16 dsm = some s1 ∧ WF ws s1 ∧
      s1.sm_distinguished = s.sm_distinguished ∧ s1.errors = s.errors ∧
      s1.running_tid = s.running_tid ∧
      ∀ b, b < 2 ^ WORD_BITS ws →
        ((∃ j, j < n ∧ toWord ws (a + j) = b) → abits2_of ws s1 b = abits16 &&& 3) ∧
        ((∀ j, j < n → toWord ws (a + j) ≠ b) → abits2_of ws s1 b = abits2_of ws s b) := by
  have hv2 : A_BITS16_NOCHECK = abits16 ∨ A_BITS16_UNWRITABLE = abits16 ∨
      A_BITS16_UNREFERABLE = abits16 ∨ A_BITS16_REFCHECK = abits16 := by
    rcases hv with h | h | h | h
    · exact Or.inl h.symm
    · exact Or.inr (Or.inl h.symm)
    · exact Or.inr (Or.inr (Or.inl h.symm))
    · exact Or.inr (Or.inr (Or.inr h.symm))
  have ht : abits16 &&& 3 < 4 := by
    rw [and_three]; exact Nat.mod_lt _ (by norm_num)
  unfold set_address_range_perms
  dsimp only
  rw [if_pos hv2]
  by_cases hn : n = 0
  · rw [if_pos hn]
    refine ⟨s, rfl, hwf, rfl, rfl, rfl, ?_⟩
    intro b _
    refine ⟨?_, fun _ => rfl⟩
    rintro ⟨j, hj, _⟩
    omega
  · rw [if_neg hn]
    obtain ⟨s1, h1, hwf1, hd1, he1, ht1, hspec⟩ :=
      set_address_range_perms_loop_spec ws hws a (abits16 &&& 3) ht n 0 s hwf
    refine ⟨s1, h1, hwf1, hd1, he1, ht1, ?_⟩
    intro b hb
    constructor
    · rintro ⟨j, hj, hjb⟩
      exact (hspec b hb).1 ⟨j, by omega, by omega, hjb⟩
    · intro hall
      exact (hspec b hb).2 (fun j _ hj => hall j (by omega))

theorem abits16_of_tag_and (t : Nat)
    (ht : t = A_BITS2_NOCHECK ∨ t = A_BITS2_UNWRITABLE ∨ t = A_BITS2_UNREFERABLE) :
    abits16_of_tag t &&& 3 = t := by
  rcases ht with rfl | rfl | rfl <;> decide

theorem abits16_of_tag_valid (t : Nat) :
    abits16_of_tag t = A_BITS16_NOCHECK ∨ abits16_of_tag t = A_BITS16_UNWRITABLE ∨
      abits16_of_tag t = A_BITS16_UNREFERABLE ∨ abits16_of_tag t = A_BITS16_REFCHECK := by
  unfold abits16_of_tag
  split
  · exact Or.inl rfl
  · split
    · exact Or.inr (Or.inl rfl)
    · split
      · exact Or.inr (Or.inr (Or.inl rfl))
      · exact Or.inr (Or.inr (Or.inr rfl))

theorem paint_spec (ws : Nat) (hws : WordSizeOk ws) (s : State) (hwf : WF ws s)
    (a n t dsm : Nat)
    (ht : t = A_BITS2_NOCHECK ∨ t = A_BITS2_UNWRITABLE ∨ t = A_BITS2_UNREFERABLE)
    (hrange : a + n ≤ 2 ^ WORD_BITS ws) :
    ∃ s1, set_address_range_perms ws s a n (abits16_of_tag t) dsm = some s1 ∧
      WF ws s1 ∧ s1.sm_distinguished = s.sm_distinguished ∧ s1.errors = s.errors ∧
      s1.running_tid = s.running_tid ∧
      (∀ b, a ≤ b → b < a + n → abits2_of ws s1 b = t) ∧
      (∀ b, b < 2 ^ WORD_BITS ws → (b < a ∨ a + n ≤ b) →
        abits2_of ws s1 b = abits2_of ws s b) := by
  obtain ⟨s1, h1, hwf1, hd1, he1, ht1, hspec⟩ :=
    set_address_range_perms_spec ws hws s a n (abits16_of_tag t) dsm hwf
      (abits16_of_tag_valid t)
  rw [abits16_of_tag_and t ht] at hspec
  have hw : ∀ j, j < n → toWord ws (a + j) = a + j := by
    intro j hj
    exact Nat.mod_eq_of_lt (by omega)
  refine ⟨s1, h1, hwf1, hd1, he1, ht1, ?_, ?_⟩
  · intro b hb1 hb2
    refine (hspec b (by omega)).1 ⟨b - a, by omega, ?_⟩
    rw [hw (b - a) (by omega)]
    omega
  · intro b hb hout
    refine (hspec b hb).2 ?_
    intro j hj
    rw [hw j hj]
    omega

/-- C1. Range paint uniformity: in a state satisfying the representation invariant, for a
range `[a, a+n)` that does not wrap the address space and a paintable tag `t`,
`set_address_range_perms(a, n, A_BITS16 of t, SM_DIST of t)` returns, afterwards
`get_abits2(a+i)` is `t` for every `i < n`, and `get_abits2` of every address outside the
range is what it was before. -/
theorem set_address_range_perms_paints_range (ws : Nat) (hws : WordSizeOk ws) (s : State)
    (hwf : WF ws s) (a n t : Nat)
    (ht : t = A_BITS2_NOCHECK ∨ t = A_BITS2_UNWRITABLE ∨ t = A_BITS2_UNREFERABLE)
    (hrange : a + n ≤ 2 ^ WORD_BITS ws) :
    ∃ s1, set_address_range_perms ws s a n (abits16_of_tag t) (dsm_of_tag t) = some s1 ∧
      (∀ i, i < n → tag_at ws s1 (a + i) = some t) ∧
      (∀ b, b < 2 ^ WORD_BITS ws → (b < a ∨ a + n ≤ b) →
        tag_at ws s1 b = tag_at ws s b) := by
  obtain ⟨s1, h1, hwf1, _, _, _, hin, hout⟩ :=
    paint_spec ws hws s hwf a n t (dsm_of_tag t) ht hrange
  refine ⟨s1, h1, ?_, ?_⟩
  · intro i hi
    rw [tag_at_eq ws hws s1 (a + i) hwf1 (by omega), hin (a + i) (by omega) (by omega)]
  · intro b hb hb2
    rw [tag_at_eq ws hws s1 b hwf1 hb, tag_at_eq ws hws s b hwf hb, hout b hb hb2]

theorem set_address_range_perms_paints_range_witness :
    ∃ s1, set_address_range_perms 8 (og_pre_clo_init 8) 65530 196608
        (abits16_of_tag A_BITS2_UNWRITABLE) (dsm_of_tag A_BITS2_UNWRITABLE) = some s1 ∧
      (∀ i, i < 196608 → tag_at 8 s1 (65530 + i) = some A_BITS2_UNWRITABLE) ∧
      (∀ b, b < 2 ^ WORD_BITS 8 → (b < 65530 ∨ 65530 + 196608 ≤ b) →
        tag_at 8 s1 b = tag_at 8 (og_pre_clo_init 8) b) :=
  set_address_range_perms_paints_range 8 (Or.inr rfl) (og_pre_clo_init 8) (WF_startup 8)
    65530 196608 A_BITS2_UNWRITABLE (Or.inr (Or.inl rfl)) (by decide)

/-- C2. Tag roundtrip: in a state satisfying the representation invariant, for every
address `a` and paintable tag `t`, `set_abits2(a, t)` returns, `get_abits2(a)` is `t`
afterwards, and `get_abits2(b)` is unchanged for every `b` whose 4-byte group `b >> 2`
differs from that of `a`. -/
theorem set_abits2_get_abits2_roundtrip (ws : Nat) (hws : WordSizeOk ws) (s : State)
    (hwf : WF ws s) (a t : Nat) (ha : a < 2 ^ WORD_BITS ws)
    (ht : t = A_BITS2_NOCHECK ∨ t = A_BITS2_UNWRITABLE ∨ t = A_BITS2_UNREFERABLE) :
    ∃ s1, set_abits2 ws s a t = some s1 ∧ tag_at ws s1 a = some t ∧
      ∀ b, b < 2 ^ WORD_BITS ws → b >>> 2 ≠ a >>> 2 → tag_at ws s1 b = tag_at ws s b := by
  have ht4 : t < 4 := by
    rcases ht with rfl | rfl | rfl <;> decide
  obtain ⟨s1, h1, hwf1, _, _, _, hset, hframe⟩ := set_abits2_spec ws hws s a t hwf ha ht4
  refine ⟨s1, h1, ?_, ?_⟩
  · rw [tag_at_eq ws hws s1 a hwf1 ha, hset]
  · intro b hb hne
    have hba : b ≠ a := by
      intro h; rw [h] at hne; exact hne rfl
    rw [tag_at_eq ws hws s1 b hwf1 hb, tag_at_eq ws hws s b hwf hb, hframe b hb hba]

theorem set_abits2_get_abits2_roundtrip_witness :
    ∃ s1, set_abits2 8 (og_pre_clo_init 8) (2 ^ 40 + 5) A_BITS2_UNREFERABLE = some s1 ∧
      tag_at 8 s1 (2 ^ 40 + 5) = some A_BITS2_UNREFERABLE ∧
      ∀ b, b < 2 ^ WORD_BITS 8 → b >>> 2 ≠ (2 ^ 40 + 5) >>> 2 →
        tag_at 8 s1 b = tag_at 8 (og_pre_clo_init 8) b :=
  set_abits2_get_abits2_roundtrip 8 (Or.inr rfl) (og_pre_clo_init 8) (WF_startup 8)
    (2 ^ 40 + 5) A_BITS2_UNREFERABLE (by decide) (Or.inr (Or.inr rfl))

theorem abits2_of_tag_at (ws : Nat) (hws : WordSizeOk ws) (s : State) (hwf : WF ws s)
    (a t : Nat) (ha : a < 2 ^ WORD_BITS ws) (h : tag_at ws s a = some t) :
    abits2_of ws s a = t := by
  rw [tag_at_eq ws hws s a hwf ha] at h
  exact Option.some.inj h

/-- C3 (counterexample). After `MAKE_UNWRITABLE(5, 1)` on the startup state of a 64-bit
build the tag of address 5 is UNWRITABLE, and `store_check64(5, 7, 32)` submits two
UnwritableErr, not one. -/
theorem store_check64_width32_records_two :
    (set_address_range_perms 8 (og_pre_clo_init 8) 5 1 A_BITS16_UNWRITABLE
        SM_DIST_UNWRITABLE).bind (fun s => tag_at 8 s 5) = some A_BITS2_UNWRITABLE ∧
    ((set_address_range_perms 8 (og_pre_clo_init 8) 5 1 A_BITS16_UNWRITABLE
        SM_DIST_UNWRITABLE).bind (fun s => store_check64 8 s 5 7 32)).map
        (fun s => s.errors)
      = some [{ tid := 1, ekind := OgErrorKind.UnwritableErr, addr := 5 },
              { tid := 1, ekind := OgErrorKind.UnwritableErr, addr := 5 }] := by
  decide

/-- C3 (amended). Checker policy for UNWRITABLE and NOCHECK: on a destination tagged
UNWRITABLE, `store_check8`, `store_check16`, `store_check32` and `store_check64` with a
host word width other than 32 submit exactly one UnwritableErr with address `a` and no
other error, while `store_check64` with host word width 32 runs the 32-bit check twice
and submits two UnwritableErr, both with address `a`; on a destination tagged NOCHECK
none of them submits an error, whatever the stored value. -/
theorem store_check_unwritable_nocheck (ws : Nat) (hws : WordSizeOk ws) (s : State)
    (hwf : WF ws s) (a d : Nat) (ha : a < 2 ^ WORD_BITS ws) (hd : d < 2 ^ WORD_BITS ws) :
    (tag_at ws s a = some A_BITS2_UNWRITABLE →
      (∃ s1, store_check8 ws s a d = some s1 ∧
        s1.errors = s.errors ++ [unwritable_at s a]) ∧
      (∃ s1, store_check16 ws s a d = some s1 ∧
        s1.errors = s.errors ++ [unwritable_at s a]) ∧
      (∃ s1, store_check32 ws s a d = some s1 ∧
        s1.errors = s.errors ++ [unwritable_at s a]) ∧
      (∀ w, w ≠ 32 → ∃ s1, store_check64 ws s a d w = some s1 ∧
        s1.errors = s.errors ++ [unwritable_at s a]) ∧
      (∃ s1, store_check64 ws s a d 32 = some s1 ∧
        s1.errors = s.errors ++ [unwritable_at s a, unwritable_at s a])) ∧
    (tag_at ws s a = some A_BITS2_NOCHECK →
      (∃ s1, store_check8 ws s a d = some s1 ∧ s1.errors = s.errors) ∧
      (∃ s1, store_check16 ws s a d = some s1 ∧ s1.errors = s.errors) ∧
      (∃ s1, store_check32 ws s a d = some s1 ∧ s1.errors = s.errors) ∧
      (∀ w, ∃ s1, store_check64 ws s a d w = some s1 ∧ s1.errors = s.errors)) := by
  obtain ⟨s8, h8, _, _, e8⟩ := store_check8_spec ws hws s a d hwf ha
  obtain ⟨s16, h16, _, _, e16⟩ := store_check16_spec ws hws s a d hwf ha
  obtain ⟨s32, h32, _, _, e32⟩ := store_check32_spec ws hws s a d hwf ha hd
  obtain ⟨_, sp, _, _, hsp, _, _, esp⟩ := store_check64_split_spec ws hws s a d hwf ha
  constructor
  · intro htag
    have ht := abits2_of_tag_at ws hws s hwf a _ ha htag
    rw [if_pos ht] at e8 e16 e32
    rw [if_pos ht, if_pos ht, List.append_assoc] at esp
    refine ⟨⟨s8, h8, e8⟩, ⟨s16, h16, e16⟩, ⟨s32, h32, e32⟩, ?_, ⟨sp, hsp, esp⟩⟩
    intro w hw
    obtain ⟨s64, h64, _, _, e64⟩ := store_check64_spec ws hws s a d w hwf ha hw
    rw [if_pos ht] at e64
    exact ⟨s64, h64, e64⟩
  · intro htag
    have ht := abits2_of_tag_at ws hws s hwf a _ ha htag
    have hnu : ¬ abits2_of ws s a = A_BITS2_UNWRITABLE := by rw [ht]; decide
    have hnr : ¬ abits2_of ws s a = A_BITS2_REFCHECK := by rw [ht]; decide
    rw [if_neg hnu, List.append_nil] at e8 e16
    rw [if_neg hnu, if_neg (fun h => hnr h.1), List.append_nil] at e32
    simp only [if_neg hnu, hnr, false_and, if_false, List.append_nil] at esp
    refine ⟨⟨s8, h8, e8⟩, ⟨s16, h16, e16⟩, ⟨s32, h32, e32⟩, ?_⟩
    intro w
    by_cases hw : w = 32
    · rw [hw]; exact ⟨sp, hsp, esp⟩
    · obtain ⟨s64, h64, _, _, e64⟩ := store_check64_spec ws hws s a d w hwf ha hw
      rw [if_neg hnu, if_neg (fun h => hnr h.1), List.append_nil] at e64
      exact ⟨s64, h64, e64⟩

theorem store_check_unwritable_nocheck_witness :
    ∃ s, set_address_range_perms 8 (og_pre_clo_init 8) 4096 8
        (abits16_of_tag A_BITS2_UNWRITABLE) (dsm_of_tag A_BITS2_UNWRITABLE) = some s ∧
      tag_at 8 s 4096 = some A_BITS2_UNWRITABLE ∧
      (∃ s1, store_check8 8 s 4096 120 = some s1 ∧
        s1.errors = s.errors ++ [unwritable_at s 4096]) ∧
      (∃ s1, store_check16 8 s 4096 120 = some s1 ∧
        s1.errors = s.errors ++ [unwritable_at s 4096]) ∧
      (∃ s1, store_check32 8 s 4096 120 = some s1 ∧
        s1.errors = s.errors ++ [unwritable_at s 4096]) ∧
      (∀ w, w ≠ 32 → ∃ s1, store_check64 8 s 4096 120 w = some s1 ∧
        s1.errors = s.errors ++ [unwritable_at s 4096]) ∧
      (∃ s1, store_check64 8 s 4096 120 32 = some s1 ∧
        s1.errors = s.errors ++ [unwritable_at s 4096, unwritable_at s 4096]) := by
  obtain ⟨s, h, hwf, _, _, _, hin, _⟩ :=
    paint_spec 8 (Or.inr rfl) (og_pre_clo_init 8) (WF_startup 8) 4096 8 A_BITS2_UNWRITABLE
      (dsm_of_tag A_BITS2_UNWRITABLE) (Or.inr (Or.inl rfl)) (by decide)
  have htag : tag_at 8 s 4096 = some A_BITS2_UNWRITABLE := by
    rw [tag_at_eq 8 (Or.inr rfl) s 4096 hwf (by decide), hin 4096 (by decide) (by decide)]
  exact ⟨s, h, htag,
    (store_check_unwritable_nocheck 8 (Or.inr rfl) s hwf 4096 120 (by decide) (by decide)).1
      htag⟩

/-- C4. Reference-check policy of `store_check32` and of `store_check64` with host word
width 64: on a destination tagged REFCHECK the check submits exactly one UnreferableErr,
whose address is the stored value `data`, when `get_abits2(data)` is UNREFERABLE, and no
error for any other stored value; on a destination tagged NOCHECK or UNREFERABLE it
submits nothing, also when `data` points at an UNREFERABLE byte. -/
theorem store_check_reference_policy (ws : Nat) (hws : WordSizeOk ws) (s : State)
    (hwf : WF ws s) (a data : Nat) (ha : a < 2 ^ WORD_BITS ws)
    (hd : data < 2 ^ WORD_BITS ws) :
    (tag_at ws s a = some A_BITS2_REFCHECK → tag_at ws s data = some A_BITS2_UNREFERABLE →
      (∃ s1, store_check32 ws s a data = some s1 ∧
        s1.errors = s.errors ++ [unreferable_at s data]) ∧
      (∃ s1, store_check64 ws s a data 64 = some s1 ∧
        s1.errors = s.errors ++ [unreferable_at s data])) ∧
    (tag_at ws s a = some A_BITS2_REFCHECK → tag_at ws s data ≠ some A_BITS2_UNREFERABLE →
      (∃ s1, store_check32 ws s a data = some s1 ∧ s1.errors = s.errors) ∧
      (∃ s1, store_check64 ws s a data 64 = some s1 ∧ s1.errors = s.errors)) ∧
    ((tag_at ws s a = some A_BITS2_NOCHECK ∨ tag_at ws s a = some A_BITS2_UNREFERABLE) →
      (∃ s1, store_check32 ws s a data = some s1 ∧ s1.errors = s.errors) ∧
      (∃ s1, store_check64 ws s a data 64 = some s1 ∧ s1.errors = s.errors)) := by
  obtain ⟨s32, h32, _, _, e32⟩ := store_check32_spec ws hws s a data hwf ha hd
  obtain ⟨s64, h64, _, _, e64⟩ := store_check64_spec ws hws s a data 64 hwf ha (by decide)
  have hdw : toWord ws data = data := Nat.mod_eq_of_lt hd
  rw [hdw] at e64
  refine ⟨?_, ?_, ?_⟩
  · intro h1 h2
    have t1 := abits2_of_tag_at ws hws s hwf a _ ha h1
    have t2 := abits2_of_tag_at ws hws s hwf data _ hd h2
    have hnu : ¬ abits2_of ws s a = A_BITS2_UNWRITABLE := by rw [t1]; decide
    rw [if_neg hnu, if_pos ⟨t1, t2⟩] at e32 e64
    exact ⟨⟨s32, h32, e32⟩, ⟨s64, h64, e64⟩⟩
  · intro h1 h2
    have t1 := abits2_of_tag_at ws hws s hwf a _ ha h1
    have t2 : ¬ abits2_of ws s data = A_BITS2_UNREFERABLE := by
      intro h
      apply h2
      rw [tag_at_eq ws hws s data hwf hd, h]
    have hnu : ¬ abits2_of ws s a = A_BITS2_UNWRITABLE := by rw [t1]; decide
    rw [if_neg hnu, if_neg (fun h => t2 h.2), List.append_nil] at e32 e64
    exact ⟨⟨s32, h32, e32⟩, ⟨s64, h64, e64⟩⟩
  · intro h1
    have hnu : ¬ abits2_of ws s a = A_BITS2_UNWRITABLE := by
      rcases h1 with h1 | h1
      · rw [abits2_of_tag_at ws hws s hwf a _ ha h1]; decide
      · rw [abits2_of_tag_at ws hws s hwf a _ ha h1]; decide
    have hnr : ¬ abits2_of ws s a = A_BITS2_REFCHECK := by
      rcases h1 with h1 | h1
      · rw [abits2_of_tag_at ws hws s hwf a _ ha h1]; decide
      · rw [abits2_of_tag_at ws hws s hwf a _ ha h1]; decide
    rw [if_neg hnu, if_neg (fun h => hnr h.1), List.append_nil] at e32 e64
    exact ⟨⟨s32, h32, e32⟩, ⟨s64, h64, e64⟩⟩

theorem store_check_reference_policy_witness :
    ∃ s0 s, set_abits2 8 (og_pre_clo_init 8) 4096 A_BITS2_REFCHECK = some s0 ∧
      set_address_range_perms 8 s0 8192 8
        (abits16_of_tag A_BITS2_UNREFERABLE) (dsm_of_tag A_BITS2_UNREFERABLE) = some s ∧
      tag_at 8 s 4096 = some A_BITS2_REFCHECK ∧
      tag_at 8 s 8192 = some A_BITS2_UNREFERABLE ∧
      (∃ s1, store_check32 8 s 4096 8192 = some s1 ∧
        s1.errors = s.errors ++ [unreferable_at s 8192]) ∧
      (∃ s1, store_check64 8 s 4096 8192 64 = some s1 ∧
        s1.errors = s.errors ++ [unreferable_at s 8192]) := by
  obtain ⟨s0, h0, hwf0, _, _, _, hset, _⟩ :=
    set_abits2_spec 8 (Or.inr rfl) (og_pre_clo_init 8) 4096 A_BITS2_REFCHECK (WF_startup 8)
      (by decide) (by decide)
  obtain ⟨s, h, hwf, _, _, _, hin, hout⟩ :=
    paint_spec 8 (Or.inr rfl) s0 hwf0 8192 8 A_BITS2_UNREFERABLE
      (dsm_of_tag A_BITS2_UNREFERABLE) (Or.inr (Or.inr rfl)) (by decide)
  have htag1 : tag_at 8 s 4096 = some A_BITS2_REFCHECK := by
    rw [tag_at_eq 8 (Or.inr rfl) s 4096 hwf (by decide),
      hout 4096 (by decide) (Or.inl (by decide)), hset]
  have htag2 : tag_at 8 s 8192 = some A_BITS2_UNREFERABLE := by
    rw [tag_at_eq 8 (Or.inr rfl) s 8192 hwf (by decide), hin 8192 (by decide) (by decide)]
  exact ⟨s0, s, h0, h, htag1, htag2,
    (store_check_reference_policy 8 (Or.inr rfl) s hwf 4096 8192 (by decide) (by decide)).1
      htag1 htag2⟩

/-! ## Client requests -/

theorem handle_MAKE_NOCHECK (ws : Nat) (s : State) (tid : Nat) (arg : Nat → Nat) (ret : Nat)
    (h : arg 0 = VG_USERREQ__MAKE_NOCHECK) :
    og_handle_client_request ws s tid arg ret
      = (set_address_range_perms ws s (arg 1) (arg 2) A_BITS16_NOCHECK SM_DIST_NOCHECK).map
          (fun s1 => (true, ret, s1)) := by
  unfold og_handle_client_request
  rw [h, if_neg (by decide), if_pos rfl]
  cases set_address_range_perms ws s (arg 1) (arg 2) A_BITS16_NOCHECK SM_DIST_NOCHECK <;> rfl

theorem handle_MAKE_UNWRITABLE (ws : Nat) (s : State) (tid : Nat) (arg : Nat → Nat)
    (ret : Nat) (h : arg 0 = VG_USERREQ__MAKE_UNWRITABLE) :
    og_handle_client_request ws s tid arg ret
      = (set_address_range_perms ws s (arg 1) (arg 2) A_BITS16_UNWRITABLE
          SM_DIST_UNWRITABLE).map (fun s1 => (true, ret, s1)) := by
  unfold og_handle_client_request
  rw [h, if_neg (by decide), if_neg (by decide), if_pos rfl]
  cases set_address_range_perms ws s (arg 1) (arg 2) A_BITS16_UNWRITABLE
    SM_DIST_UNWRITABLE <;> rfl

theorem handle_MAKE_UNREFERABLE (ws : Nat) (s : State) (tid : Nat) (arg : Nat → Nat)
    (ret : Nat) (h : arg 0 = VG_USERREQ__MAKE_UNREFERABLE) :
    og_handle_client_request ws s tid arg ret
      = (set_address_range_perms ws s (arg 1) (arg 2) A_BITS16_UNREFERABLE
          SM_DIST_UNREFERABLE).map (fun s1 => (true, ret, s1)) := by
  unfold og_handle_client_request
  rw [h, if_neg (by decide), if_neg (by decide), if_neg (by decide), if_pos rfl]
  cases set_address_range_perms ws s (arg 1) (arg 2) A_BITS16_UNREFERABLE
    SM_DIST_UNREFERABLE <;> rfl

theorem handle_ADD_REFCHECK_FIELD (ws : Nat) (s : State) (tid : Nat) (arg : Nat → Nat)
    (ret : Nat) (h : arg 0 = VG_USERREQ__ADD_REFCHECK_FIELD) :
    og_handle_client_request ws s tid arg ret
      = (set_abits2 ws s (arg 1) A_BITS2_REFCHECK).map (fun s1 => (true, ret, s1)) := by
  unfold og_handle_client_request add_refcheck_field
  rw [h, if_neg (by decide), if_neg (by decide), if_neg (by decide), if_neg (by decide),
    if_pos rfl]
  cases set_abits2 ws s (arg 1) A_BITS2_REFCHECK <;> rfl

theorem handle_REMOVE_REFCHECK_FIELD (ws : Nat) (s : State) (tid : Nat) (arg : Nat → Nat)
    (ret : Nat) (h : arg 0 = VG_USERREQ__REMOVE_REFCHECK_FIELD) :
    og_handle_client_request ws s tid arg ret
      = (set_abits2 ws s (arg 1) A_BITS2_NOCHECK).map (fun s1 => (true, ret, s1)) := by
  unfold og_handle_client_request remove_refcheck_field
  rw [h, if_neg (by decide), if_neg (by decide), if_neg (by decide), if_neg (by decide),
    if_neg (by decide), if_pos rfl]
  cases set_abits2 ws s (arg 1) A_BITS2_NOCHECK <;> rfl

theorem handle_CHECK_UNWRITABLE (ws : Nat) (s : State) (tid : Nat) (arg : Nat → Nat)
    (ret : Nat) (h : arg 0 = VG_USERREQ__CHECK_UNWRITABLE) :
    og_handle_client_request ws s tid arg ret
      = (get_abits2 ws s (arg 1)).map
          (fun r => (true, if r.1 = A_BITS2_UNWRITABLE then 1 else 0, r.2)) := by
  unfold og_handle_client_request
  rw [h, if_neg (by decide), if_neg (by decide), if_neg (by decide), if_neg (by decide),
    if_neg (by decide), if_neg (by decide), if_pos rfl]
  cases get_abits2 ws s (arg 1) <;> rfl

theorem handle_CHECK_UNWRITABLE_spec (ws : Nat) (hws : WordSizeOk ws) (s : State)
    (hwf : WF ws s) (tid : Nat) (arg : Nat → Nat) (ret : Nat)
    (h : arg 0 = VG_USERREQ__CHECK_UNWRITABLE) (ha : arg 1 < 2 ^ WORD_BITS ws) :
    ∃ s1, og_handle_client_request ws s tid arg ret
        = some (true, if abits2_of ws s (arg 1) = A_BITS2_UNWRITABLE then 1 else 0, s1) ∧
      WF ws s1 ∧ AuxOnly ws s s1 := by
  obtain ⟨s1, h1, hwf1, hao⟩ := get_abits2_spec ws hws s (arg 1) hwf ha
  refine ⟨s1, ?_, hwf1, hao⟩
  rw [handle_CHECK_UNWRITABLE ws s tid arg ret h, h1]
  rfl

/-- C7. For every address `addr` (the word `arg[1]`) and every state satisfying the
representation invariant, the CHECK_UNWRITABLE request is reported as handled and sets
the result word to 1 if `get_abits2(addr)` is UNWRITABLE and to 0 otherwise. -/
theorem check_unwritable_request (ws : Nat) (hws : WordSizeOk ws) (s : State)
    (hwf : WF ws s) (tid : Nat) (arg : Nat → Nat) (ret : Nat)
    (hcode : arg 0 = VG_USERREQ__CHECK_UNWRITABLE) (ha : arg 1 < 2 ^ WORD_BITS ws) :
    ∃ s1, og_handle_client_request ws s tid arg ret
      = some (true, if tag_at ws s (arg 1) = some A_BITS2_UNWRITABLE then 1 else 0, s1) := by
  obtain ⟨s1, h1, _, _⟩ := handle_CHECK_UNWRITABLE_spec ws hws s hwf tid arg ret hcode ha
  refine ⟨s1, ?_⟩
  rw [h1, tag_at_eq ws hws s (arg 1) hwf ha]
  simp only [Option.some.injEq]

theorem check_unwritable_request_witness :
    ∃ s1, og_handle_client_request 8 (og_pre_clo_init 8) 1
        (request_args VG_USERREQ__CHECK_UNWRITABLE 4096 0) 7
      = some (true,
          if tag_at 8 (og_pre_clo_init 8)
              (request_args VG_USERREQ__CHECK_UNWRITABLE 4096 0 1) = some A_BITS2_UNWRITABLE
          then 1 else 0, s1) :=
  check_unwritable_request 8 (Or.inr rfl) (og_pre_clo_init 8) (WF_startup 8) 1
    (request_args VG_USERREQ__CHECK_UNWRITABLE 4096 0) 7 rfl (by decide)

/-- C8. Client-request dispatch: with code MAKE_NOCHECK, MAKE_UNWRITABLE or
MAKE_UNREFERABLE the request leaves the state produced by
`set_address_range_perms(arg[1], arg[2], ..)` for NOCHECK, UNWRITABLE or UNREFERABLE;
with ADD_REFCHECK_FIELD the state produced by `set_abits2(arg[1], REFCHECK)` and with
REMOVE_REFCHECK_FIELD that of `set_abits2(arg[1], NOCHECK)`; in a state satisfying the
representation invariant all five return handled with the result word untouched, and
the two field requests change the tag of the single byte `arg[1]` only. -/
theorem client_request_dispatch (ws : Nat) (hws : WordSizeOk ws) (s : State) (tid : Nat)
    (arg : Nat → Nat) (ret : Nat) :
    (arg 0 = VG_USERREQ__MAKE_NOCHECK →
      og_handle_client_request ws s tid arg ret
        = (set_address_range_perms ws s (arg 1) (arg 2) A_BITS16_NOCHECK
            SM_DIST_NOCHECK).map (fun s1 => (true, ret, s1))) ∧
    (arg 0 = VG_USERREQ__MAKE_UNWRITABLE →
      og_handle_client_request ws s tid arg ret
        = (set_address_range_perms ws s (arg 1) (arg 2) A_BITS16_UNWRITABLE
            SM_DIST_UNWRITABLE).map (fun s1 => (true, ret, s1))) ∧
    (arg 0 = VG_USERREQ__MAKE_UNREFERABLE →
      og_handle_client_request ws s tid arg ret
        = (set_address_range_perms ws s (arg 1) (arg 2) A_BITS16_UNREFERABLE
            SM_DIST_UNREFERABLE).map (fun s1 => (true, ret, s1))) ∧
    (arg 0 = VG_USERREQ__ADD_REFCHECK_FIELD →
      og_handle_client_request ws s tid arg ret
        = (set_abits2 ws s (arg 1) A_BITS2_REFCHECK).map (fun s1 => (true, ret, s1))) ∧
    (arg 0 = VG_USERREQ__REMOVE_REFCHECK_FIELD →
      og_handle_client_request ws s tid arg ret
        = (set_abits2 ws s (arg 1) A_BITS2_NOCHECK).map (fun s1 => (true, ret, s1))) ∧
    (WF ws s → arg 1 < 2 ^ WORD_BITS ws →
      ((arg 0 = VG_USERREQ__MAKE_NOCHECK ∨ arg 0 = VG_USERREQ__MAKE_UNWRITABLE ∨
          arg 0 = VG_USERREQ__MAKE_UNREFERABLE ∨ arg 0 = VG_USERREQ__ADD_REFCHECK_FIELD ∨
          arg 0 = VG_USERREQ__REMOVE_REFCHECK_FIELD) →
        ∃ s1, og_handle_client_request ws s tid arg ret = some (true, ret, s1)) ∧
      (arg 0 = VG_USERREQ__ADD_REFCHECK_FIELD →
        ∃ s1, og_handle_client_request ws s tid arg ret = some (true, ret, s1) ∧
          tag_at ws s1 (arg 1) = some A_BITS2_REFCHECK ∧
          ∀ b, b < 2 ^ WORD_BITS ws → b ≠ arg 1 → tag_at ws s1 b = tag_at ws s b) ∧
      (arg 0 = VG_USERREQ__REMOVE_REFCHECK_FIELD →
        ∃ s1, og_handle_client_request ws s tid arg ret = some (true, ret, s1) ∧
          tag_at ws s1 (arg 1) = some A_BITS2_NOCHECK ∧
          ∀ b, b < 2 ^ WORD_BITS ws → b ≠ arg 1 → tag_at ws s1 b = tag_at ws s b)) := by
  refine ⟨handle_MAKE_NOCHECK ws s tid arg ret, handle_MAKE_UNWRITABLE ws s tid arg ret,
    handle_MAKE_UNREFERABLE ws s tid arg ret, handle_ADD_REFCHECK_FIELD ws s tid arg ret,
    handle_REMOVE_REFCHECK_FIELD ws s tid arg ret, ?_⟩
  intro hwf ha
  have hfield : ∀ t, t < 4 →
      ∃ s1, (set_abits2 ws s (arg 1) t).map (fun s1 => (true, ret, s1))
          = some (true, ret, s1) ∧
        tag_at ws s1 (arg 1) = some t ∧
        ∀ b, b < 2 ^ WORD_BITS ws → b ≠ arg 1 → tag_at ws s1 b = tag_at ws s b := by
    intro t ht
    obtain ⟨s1, h1, hwf1, _, _, _, hset, hframe⟩ :=
      set_abits2_spec ws hws s (arg 1) t hwf ha ht
    refine ⟨s1, by rw [h1]; rfl, ?_, ?_⟩
    · rw [tag_at_eq ws hws s1 (arg 1) hwf1 ha, hset]
    · intro b hb hne
      rw [tag_at_eq ws hws s1 b hwf1 hb, tag_at_eq ws hws s b hwf hb, hframe b hb hne]
  have hpaint : ∀ abits16 dsm,
      (abits16 = A_BITS16_NOCHECK ∨ abits16 = A_BITS16_UNWRITABLE ∨
        abits16 = A_BITS16_UNREFERABLE ∨ abits16 = A_BITS16_REFCHECK) →
      ∃ s1, (set_address_range_perms ws s (arg 1) (arg 2) abits16 dsm).map
          (fun s1 => (true, ret, s1)) = some (true, ret, s1) := by
    intro abits16 dsm hv
    obtain ⟨s1, h1, _⟩ :=
      set_address_range_perms_spec ws hws s (arg 1) (arg 2) abits16 dsm hwf hv
    exact ⟨s1, by rw [h1]; rfl⟩
  refine ⟨?_, ?_, ?_⟩
  · rintro (h | h | h | h | h)
    · rw [handle_MAKE_NOCHECK ws s tid arg ret h]
      exact hpaint _ _ (Or.inl rfl)
    · rw [handle_MAKE_UNWRITABLE ws s tid arg ret h]
      exact hpaint _ _ (Or.inr (Or.inl rfl))
    · rw [handle_MAKE_UNREFERABLE ws s tid arg ret h]
      exact hpaint _ _ (Or.inr (Or.inr (Or.inl rfl)))
    · rw [handle_ADD_REFCHECK_FIELD ws s tid arg ret h]
      obtain ⟨s1, h1, _⟩ := hfield A_BITS2_REFCHECK (by decide)
      exact ⟨s1, h1⟩
    · rw [handle_REMOVE_REFCHECK_FIELD ws s tid arg ret h]
      obtain ⟨s1, h1, _⟩ := hfield A_BITS2_NOCHECK (by decide)
      exact ⟨s1, h1⟩
  · intro h
    rw [handle_ADD_REFCHECK_FIELD ws s tid arg ret h]
    exact hfield A_BITS2_REFCHECK (by decide)
  · intro h
    rw [handle_REMOVE_REFCHECK_FIELD ws s tid arg ret h]
    exact hfield A_BITS2_NOCHECK (by decide)

theorem client_request_dispatch_witness :
    ∃ s1, og_handle_client_request 8 (og_pre_clo_init 8) 1
        (request_args VG_USERREQ__ADD_REFCHECK_FIELD 4096 0) 7 = some (true, 7, s1) ∧
      tag_at 8 s1 (request_args VG_USERREQ__ADD_REFCHECK_FIELD 4096 0 1)
        = some A_BITS2_REFCHECK ∧
      ∀ b, b < 2 ^ WORD_BITS 8 → b ≠ request_args VG_USERREQ__ADD_REFCHECK_FIELD 4096 0 1 →
        tag_at 8 s1 b = tag_at 8 (og_pre_clo_init 8) b :=
  ((client_request_dispatch 8 (Or.inr rfl) (og_pre_clo_init 8) 1
    (request_args VG_USERREQ__ADD_REFCHECK_FIELD 4096 0) 7).2.2.2.2.2
      (WF_startup 8) (by decide)).2.1 rfl

/-! ## The scenarios of `tiny_tests.c` -/

theorem request_args_zero (code a n : Nat) : request_args code a n 0 = code := rfl

theorem request_args_one (code a n : Nat) : request_args code a n 1 = a := rfl

theorem request_args_two (code a n : Nat) : request_args code a n 2 = n := rfl

theorem request_paint_spec (ws : Nat) (hws : WordSizeOk ws) (s : State) (hwf : WF ws s)
    (tid code t a n ret : Nat)
    (hcode : (code = VG_USERREQ__MAKE_NOCHECK ∧ t = A_BITS2_NOCHECK) ∨
      (code = VG_USERREQ__MAKE_UNWRITABLE ∧ t = A_BITS2_UNWRITABLE) ∨
      (code = VG_USERREQ__MAKE_UNREFERABLE ∧ t = A_BITS2_UNREFERABLE))
    (hrange : a + n ≤ 2 ^ WORD_BITS ws) :
    ∃ s1, og_handle_client_request ws s tid (request_args code a n) ret
        = some (true, ret, s1) ∧
      WF ws s1 ∧ s1.errors = s.errors ∧ s1.running_tid = s.running_tid ∧
      (∀ b, a ≤ b → b < a + n → abits2_of ws s1 b = t) ∧
      (∀ b, b < 2 ^ WORD_BITS ws → (b < a ∨ a + n ≤ b) →
        abits2_of ws s1 b = abits2_of ws s b) := by
  rcases hcode with ⟨hc, ht⟩ | ⟨hc, ht⟩ | ⟨hc, ht⟩
  · obtain ⟨s1, h1, hwf1, _, he, htid, hin, hout⟩ :=
      paint_spec ws hws s hwf a n t SM_DIST_NOCHECK (Or.inl ht) hrange
    refine ⟨s1, ?_, hwf1, he, htid, hin, hout⟩
    rw [handle_MAKE_NOCHECK ws s tid _ ret (by rw [hc]; exact request_args_zero _ _ _),
      request_args_one, request_args_two]
    rw [ht] at h1
    rw [show A_BITS16_NOCHECK = abits16_of_tag A_BITS2_NOCHECK from rfl, h1]
    rfl
  · obtain ⟨s1, h1, hwf1, _, he, htid, hin, hout⟩ :=
      paint_spec ws hws s hwf a n t SM_DIST_UNWRITABLE (Or.inr (Or.inl ht)) hrange
    refine ⟨s1, ?_, hwf1, he, htid, hin, hout⟩
    rw [handle_MAKE_UNWRITABLE ws s tid _ ret (by rw [hc]; exact request_args_zero _ _ _),
      request_args_one, request_args_two]
    rw [ht] at h1
    rw [show A_BITS16_UNWRITABLE = abits16_of_tag A_BITS2_UNWRITABLE from rfl, h1]
    rfl
  · obtain ⟨s1, h1, hwf1, _, he, htid, hin, hout⟩ :=
      paint_spec ws hws s hwf a n t SM_DIST_UNREFERABLE (Or.inr (Or.inr ht)) hrange
    refine ⟨s1, ?_, hwf1, he, htid, hin, hout⟩
    rw [handle_MAKE_UNREFERABLE ws s tid _ ret (by rw [hc]; exact request_args_zero _ _ _),
      request_args_one, request_args_two]
    rw [ht] at h1
    rw [show A_BITS16_UNREFERABLE = abits16_of_tag A_BITS2_UNREFERABLE from rfl, h1]
    rfl

theorem request_field_spec (ws : Nat) (hws : WordSizeOk ws) (s : State) (hwf : WF ws s)
    (tid code t a ret : Nat)
    (hcode : (code = VG_USERREQ__ADD_REFCHECK_FIELD ∧ t = A_BITS2_REFCHECK) ∨
      (code = VG_USERREQ__REMOVE_REFCHECK_FIELD ∧ t = A_BITS2_NOCHECK))
    (ha : a < 2 ^ WORD_BITS ws) :
    ∃ s1, og_handle_client_request ws s tid (request_args code a 0) ret
        = some (true, ret, s1) ∧
      WF ws s1 ∧ s1.errors = s.errors ∧ s1.running_tid = s.running_tid ∧
      abits2_of ws s1 a = t ∧
      (∀ b, b < 2 ^ WORD_BITS ws → b ≠ a → abits2_of ws s1 b = abits2_of ws s b) := by
  rcases hcode with ⟨hc, ht⟩ | ⟨hc, ht⟩
  · obtain ⟨s1, h1, hwf1, _, he, htid, hset, hframe⟩ :=
      set_abits2_spec ws hws s a t hwf ha (by rw [ht]; decide)
    refine ⟨s1, ?_, hwf1, he, htid, hset, hframe⟩
    rw [handle_ADD_REFCHECK_FIELD ws s tid _ ret (by rw [hc]; exact request_args_zero _ _ _),
      request_args_one]
    rw [ht] at h1
    rw [h1]
    rfl
  · obtain ⟨s1, h1, hwf1, _, he, htid, hset, hframe⟩ :=
      set_abits2_spec ws hws s a t hwf ha (by rw [ht]; decide)
    refine ⟨s1, ?_, hwf1, he, htid, hset, hframe⟩
    rw [handle_REMOVE_REFCHECK_FIELD ws s tid _ ret (by rw [hc]; exact request_args_zero _ _ _),
      request_args_one]
    rw [ht] at h1
    rw [h1]
    rfl

theorem request_check_spec (ws : Nat) (hws : WordSizeOk ws) (s : State) (hwf : WF ws s)
    (tid a ret : Nat) (ha : a < 2 ^ WORD_BITS ws) :
    ∃ s1, og_handle_client_request ws s tid (request_args VG_USERREQ__CHECK_UNWRITABLE a 0) ret
        = some (true, if abits2_of ws s a = A_BITS2_UNWRITABLE then 1 else 0, s1) ∧
      WF ws s1 ∧ s1.errors = s.errors ∧ s1.running_tid = s.running_tid ∧
      (∀ b, abits2_of ws s1 b = abits2_of ws s b) := by
  obtain ⟨s1, h1, hwf1, hao⟩ :=
    handle_CHECK_UNWRITABLE_spec ws hws s hwf tid
      (request_args VG_USERREQ__CHECK_UNWRITABLE a 0) ret (request_args_zero _ _ _)
      (by rw [request_args_one]; exact ha)
  rw [request_args_one] at h1
  exact ⟨s1, h1, hwf1, hao.errors, hao.tid, abits2_of_AuxOnly ws s s1 hao⟩

theorem store_check_ptr_spec (ws : Nat) (hws : WordSizeOk ws) (s : State) (a data : Nat)
    (hwf : WF ws s) (ha : a < 2 ^ WORD_BITS ws) (hd : data < 2 ^ WORD_BITS ws) :
    ∃ s1, store_check_ptr ws s a data = some s1 ∧ WF ws s1 ∧ SameTags ws s s1 ∧
      s1.errors = s.errors ++
        (if abits2_of ws s a = A_BITS2_UNWRITABLE then [unwritable_at s a]
         else if abits2_of ws s a = A_BITS2_REFCHECK ∧
              abits2_of ws s data = A_BITS2_UNREFERABLE then [unreferable_at s data]
         else []) := by
  unfold store_check_ptr
  by_cases h4 : ws = 4
  · rw [if_pos h4]
    exact store_check32_spec ws hws s a data hwf ha hd
  · rw [if_neg h4]
    have := store_check64_spec ws hws s a data 64 hwf ha (by decide)
    rw [show toWord ws data = data from Nat.mod_eq_of_lt hd] at this
    exact this

/-- C5. The unwritable guard scenario `test1` of `tiny_tests.c`, for a mapping of `5P`
bytes at `m` with page size `P >= 1`, from the startup state: after
`MAKE_UNWRITABLE(m, 2P)` the store check of a byte store to `m` submits one
UnwritableErr at `m` and `CHECK_UNWRITABLE(m)` returns 1; the check of a byte store to
`m + 3P` submits nothing; after `MAKE_NOCHECK(m, 2P)` the check of a byte store to `m`
submits nothing and `CHECK_UNWRITABLE(m)` returns 0; the error log of the whole run is
the single UnwritableErr at `m`. -/
theorem test1_unwritable_scenario (ws : Nat) (hws : WordSizeOk ws) (m P d tid ret : Nat)
    (hP : 1 ≤ P) (hm : m + 5 * P ≤ 2 ^ WORD_BITS ws) :
    ∃ s1 s2 s3 s4 s5 s6 s7,
      og_handle_client_request ws (og_pre_clo_init ws) tid
        (request_args VG_USERREQ__MAKE_UNWRITABLE m (2 * P)) ret = some (true, ret, s1) ∧
      s1.errors = [] ∧
      store_check8 ws s1 m d = some s2 ∧
      s2.errors = [{ tid := 1, ekind := OgErrorKind.UnwritableErr, addr := m }] ∧
      og_handle_client_request ws s2 tid
        (request_args VG_USERREQ__CHECK_UNWRITABLE m 0) ret = some (true, 1, s3) ∧
      store_check8 ws s3 (m + 3 * P) d = some s4 ∧
      s4.errors = [{ tid := 1, ekind := OgErrorKind.UnwritableErr, addr := m }] ∧
      og_handle_client_request ws s4 tid
        (request_args VG_USERREQ__MAKE_NOCHECK m (2 * P)) ret = some (true, ret, s5) ∧
      store_check8 ws s5 m d = some s6 ∧
      s6.errors = [{ tid := 1, ekind := OgErrorKind.UnwritableErr, addr := m }] ∧
      og_handle_client_request ws s6 tid
        (request_args VG_USERREQ__CHECK_UNWRITABLE m 0) ret = some (true, 0, s7) ∧
      s7.errors = [{ tid := 1, ekind := OgErrorKind.UnwritableErr, addr := m }] := by
  have hm0 : m < 2 ^ WORD_BITS ws := by omega
  have hm3 : m + 3 * P < 2 ^ WORD_BITS ws := by omega
  -- MAKE_UNWRITABLE(m, 2P)
  obtain ⟨s1, h1, hwf1, he1, ht1, hin1, hout1⟩ :=
    request_paint_spec ws hws (og_pre_clo_init ws) (WF_startup ws) tid
      VG_USERREQ__MAKE_UNWRITABLE A_BITS2_UNWRITABLE m (2 * P) ret
      (Or.inr (Or.inl ⟨rfl, rfl⟩)) (by omega)
  rw [startup_errors] at he1
  rw [startup_tid] at ht1
  have tag1m : abits2_of ws s1 m = A_BITS2_UNWRITABLE := hin1 m (by omega) (by omega)
  have tag1o : abits2_of ws s1 (m + 3 * P) = A_BITS2_NOCHECK := by
    rw [hout1 (m + 3 * P) hm3 (Or.inr (by omega))]
    exact startup_abits2 ws hws _
  -- m[0] = 'x'
  obtain ⟨s2, h2, hwf2, hst2, he2⟩ := store_check8_spec ws hws s1 m d hwf1 hm0
  rw [if_pos tag1m, he1, List.nil_append] at he2
  have hu : unwritable_at s1 m
      = { tid := 1, ekind := OgErrorKind.UnwritableErr, addr := m } := by
    unfold unwritable_at; rw [ht1]
  rw [hu] at he2
  -- CHECK_UNWRITABLE(m)
  obtain ⟨s3, h3, hwf3, he3, ht3, htag3⟩ := request_check_spec ws hws s2 hwf2 tid m ret hm0
  rw [hst2.tags m, if_pos tag1m] at h3
  -- m[3P] = 'x'
  obtain ⟨s4, h4, hwf4, hst4, he4⟩ := store_check8_spec ws hws s3 (m + 3 * P) d hwf3 hm3
  have tag3o : ¬ abits2_of ws s3 (m + 3 * P) = A_BITS2_UNWRITABLE := by
    rw [htag3, hst2.tags, tag1o]; decide
  rw [if_neg tag3o, List.append_nil, he3, he2] at he4
  -- MAKE_NOCHECK(m, 2P)
  obtain ⟨s5, h5, hwf5, he5, ht5, hin5, _⟩ :=
    request_paint_spec ws hws s4 hwf4 tid VG_USERREQ__MAKE_NOCHECK A_BITS2_NOCHECK m (2 * P)
      ret (Or.inl ⟨rfl, rfl⟩) (by omega)
  have tag5m : abits2_of ws s5 m = A_BITS2_NOCHECK := hin5 m (by omega) (by omega)
  -- m[0] = 'x'
  obtain ⟨s6, h6, hwf6, hst6, he6⟩ := store_check8_spec ws hws s5 m d hwf5 hm0
  have tag5n : ¬ abits2_of ws s5 m = A_BITS2_UNWRITABLE := by rw [tag5m]; decide
  rw [if_neg tag5n, List.append_nil, he5, he4] at he6
  -- CHECK_UNWRITABLE(m)
  obtain ⟨s7, h7, _, he7, _, _⟩ := request_check_spec ws hws s6 hwf6 tid m ret hm0
  rw [hst6.tags m, if_neg tag5n] at h7
  rw [he6] at he7
  exact ⟨s1, s2, s3, s4, s5, s6, s7, h1, he1, h2, he2, h3, h4, he4, h5, h6, he6, h7, he7⟩

theorem test1_unwritable_scenario_witness :
    ∃ s1 s2 s3 s4 s5 s6 s7,
      og_handle_client_request 8 (og_pre_clo_init 8) 1
        (request_args VG_USERREQ__MAKE_UNWRITABLE 139637976727552 (2 * 4096)) 0
          = some (true, 0, s1) ∧
      s1.errors = [] ∧
      store_check8 8 s1 139637976727552 120 = some s2 ∧
      s2.errors
        = [{ tid := 1, ekind := OgErrorKind.UnwritableErr, addr := 139637976727552 }] ∧
      og_handle_client_request 8 s2 1
        (request_args VG_USERREQ__CHECK_UNWRITABLE 139637976727552 0) 0
          = some (true, 1, s3) ∧
      store_check8 8 s3 (139637976727552 + 3 * 4096) 120 = some s4 ∧
      s4.errors
        = [{ tid := 1, ekind := OgErrorKind.UnwritableErr, addr := 139637976727552 }] ∧
      og_handle_client_request 8 s4 1
        (request_args VG_USERREQ__MAKE_NOCHECK 139637976727552 (2 * 4096)) 0
          = some (true, 0, s5) ∧
      store_check8 8 s5 139637976727552 120 = some s6 ∧
      s6.errors
        = [{ tid := 1, ekind := OgErrorKind.UnwritableErr, addr := 139637976727552 }] ∧
      og_handle_client_request 8 s6 1
        (request_args VG_USERREQ__CHECK_UNWRITABLE 139637976727552 0) 0
          = some (true, 0, s7) ∧
      s7.errors
        = [{ tid := 1, ekind := OgErrorKind.UnwritableErr, addr := 139637976727552 }] :=
  test1_unwritable_scenario 8 (Or.inr rfl) 139637976727552 4096 120 1 0 (by decide)
    (by decide)

/-- C6. The unreferable value scenario `test2` of `tiny_tests.c`, for a mapping of `5P`
bytes at `m`, `u = m + P` and `P >= 8`, from the startup state, with the checker of a
pointer store: after `ADD_REFCHECK_FIELD(m)` and `MAKE_UNREFERABLE(u, 8)` the check of
a store of the value 2 to `m` submits nothing and the check of a store of `u` to `m`
submits one UnreferableErr with address `u`; after `REMOVE_REFCHECK_FIELD(m)` the check
of a store of `u` to `m` submits nothing; after `ADD_REFCHECK_FIELD(m)` and
`MAKE_NOCHECK(u, 8)` it submits nothing; the error log of the whole run is the single
UnreferableErr at `u`. -/
theorem test2_unreferable_scenario (ws : Nat) (hws : WordSizeOk ws) (m P tid ret : Nat)
    (hP : 8 ≤ P) (hm : m + 5 * P ≤ 2 ^ WORD_BITS ws) :
    ∃ s1 s2 s3 s4 s5 s6 s7 s8 s9,
      og_handle_client_request ws (og_pre_clo_init ws) tid
        (request_args VG_USERREQ__ADD_REFCHECK_FIELD m 0) ret = some (true, ret, s1) ∧
      og_handle_client_request ws s1 tid
        (request_args VG_USERREQ__MAKE_UNREFERABLE (m + P) 8) ret = some (true, ret, s2) ∧
      s2.errors = [] ∧
      store_check_ptr ws s2 m 2 = some s3 ∧
      s3.errors = [] ∧
      store_check_ptr ws s3 m (m + P) = some s4 ∧
      s4.errors = [{ tid := 1, ekind := OgErrorKind.UnreferableErr, addr := m + P }] ∧
      og_handle_client_request ws s4 tid
        (request_args VG_USERREQ__REMOVE_REFCHECK_FIELD m 0) ret = some (true, ret, s5) ∧
      store_check_ptr ws s5 m (m + P) = some s6 ∧
      s6.errors = [{ tid := 1, ekind := OgErrorKind.UnreferableErr, addr := m + P }] ∧
      og_handle_client_request ws s6 tid
        (request_args VG_USERREQ__ADD_REFCHECK_FIELD m 0) ret = some (true, ret, s7) ∧
      og_handle_client_request ws s7 tid
        (request_args VG_USERREQ__MAKE_NOCHECK (m + P) 8) ret = some (true, ret, s8) ∧
      store_check_ptr ws s8 m (m + P) = some s9 ∧
      s9.errors = [{ tid := 1, ekind := OgErrorKind.UnreferableErr, addr := m + P }] := by
  have hW : 2 ^ 32 ≤ 2 ^ WORD_BITS ws := by
    rcases hws with rfl | rfl <;> decide
  have hm0 : m < 2 ^ WORD_BITS ws := by omega
  have hu : m + P < 2 ^ WORD_BITS ws := by omega
  have h2 : 2 < 2 ^ WORD_BITS ws := by omega
  -- ADD_REFCHECK_FIELD(m)
  obtain ⟨s1, h1, hwf1, he1, ht1, hset1, hframe1⟩ :=
    request_field_spec ws hws (og_pre_clo_init ws) (WF_startup ws) tid
      VG_USERREQ__ADD_REFCHECK_FIELD A_BITS2_REFCHECK m ret (Or.inl ⟨rfl, rfl⟩) hm0
  rw [startup_errors] at he1
  rw [startup_tid] at ht1
  have tag1two : abits2_of ws s1 2 ≠ A_BITS2_UNREFERABLE := by
    by_cases h : 2 = m
    · rw [h, hset1]; decide
    · rw [hframe1 2 h2 h, startup_abits2 ws hws]; decide
  -- MAKE_UNREFERABLE(u, 8)
  obtain ⟨s2, hr2, hwf2, he2, ht2, hin2, hout2⟩ :=
    request_paint_spec ws hws s1 hwf1 tid VG_USERREQ__MAKE_UNREFERABLE A_BITS2_UNREFERABLE
      (m + P) 8 ret (Or.inr (Or.inr ⟨rfl, rfl⟩)) (by omega)
  rw [he1] at he2
  rw [ht1] at ht2
  have tag2m : abits2_of ws s2 m = A_BITS2_REFCHECK := by
    rw [hout2 m hm0 (Or.inl (by omega))]; exact hset1
  have tag2u : abits2_of ws s2 (m + P) = A_BITS2_UNREFERABLE :=
    hin2 (m + P) (by omega) (by omega)
  have tag2two : abits2_of ws s2 2 ≠ A_BITS2_UNREFERABLE := by
    rw [hout2 2 h2 (Or.inl (by omega))]; exact tag1two
  have hnu2 : ¬ abits2_of ws s2 m = A_BITS2_UNWRITABLE := by rw [tag2m]; decide
  -- m[0] = (int *)2
  obtain ⟨s3, hc3, hwf3, hst3, he3⟩ := store_check_ptr_spec ws hws s2 m 2 hwf2 hm0 h2
  rw [if_neg hnu2, if_neg (fun h => tag2two h.2), List.append_nil, he2] at he3
  -- m[0] = unreferable
  obtain ⟨s4, hc4, hwf4, hst4, he4⟩ := store_check_ptr_spec ws hws s3 m (m + P) hwf3 hm0 hu
  rw [hst3.tags m, hst3.tags (m + P), if_neg hnu2, if_pos ⟨tag2m, tag2u⟩, he3,
    List.nil_append] at he4
  have hur : unreferable_at s3 (m + P)
      = { tid := 1, ekind := OgErrorKind.UnreferableErr, addr := m + P } := by
    unfold unreferable_at; rw [hst3.tid, ht2]
  rw [hur] at he4
  -- REMOVE_REFCHECK_FIELD(m)
  obtain ⟨s5, hr5, hwf5, he5, _, hset5, _⟩ :=
    request_field_spec ws hws s4 hwf4 tid VG_USERREQ__REMOVE_REFCHECK_FIELD A_BITS2_NOCHECK
      m ret (Or.inr ⟨rfl, rfl⟩) hm0
  have hnu5 : ¬ abits2_of ws s5 m = A_BITS2_UNWRITABLE := by rw [hset5]; decide
  have hnr5 : ¬ abits2_of ws s5 m = A_BITS2_REFCHECK := by rw [hset5]; decide
  -- m[0] = unreferable
  obtain ⟨s6, hc6, hwf6, _, he6⟩ := store_check_ptr_spec ws hws s5 m (m + P) hwf5 hm0 hu
  rw [if_neg hnu5, if_neg (fun h => hnr5 h.1), List.append_nil, he5, he4] at he6
  -- ADD_REFCHECK_FIELD(m)
  obtain ⟨s7, hr7, hwf7, he7, _, hset7, _⟩ :=
    request_field_spec ws hws s6 hwf6 tid VG_USERREQ__ADD_REFCHECK_FIELD A_BITS2_REFCHECK
      m ret (Or.inl ⟨rfl, rfl⟩) hm0
  -- MAKE_NOCHECK(u, 8)
  obtain ⟨s8, hr8, hwf8, he8, _, hin8, hout8⟩ :=
    request_paint_spec ws hws s7 hwf7 tid VG_USERREQ__MAKE_NOCHECK A_BITS2_NOCHECK
      (m + P) 8 ret (Or.inl ⟨rfl, rfl⟩) (by omega)
  have tag8m : abits2_of ws s8 m = A_BITS2_REFCHECK := by
    rw [hout8 m hm0 (Or.inl (by omega))]; exact hset7
  have tag8u : ¬ abits2_of ws s8 (m + P) = A_BITS2_UNREFERABLE := by
    rw [hin8 (m + P) (by omega) (by omega)]; decide
  have hnu8 : ¬ abits2_of ws s8 m = A_BITS2_UNWRITABLE := by rw [tag8m]; decide
  -- m[0] = unreferable
  obtain ⟨s9, hc9, _, _, he9⟩ := store_check_ptr_spec ws hws s8 m (m + P) hwf8 hm0 hu
  rw [if_neg hnu8, if_neg (fun h => tag8u h.2), List.append_nil, he8, he7, he6] at he9
  exact ⟨s1, s2, s3, s4, s5, s6, s7, s8, s9, h1, hr2, he2, hc3, he3, hc4, he4, hr5, hc6,
    he6, hr7, hr8, hc9, he9⟩

theorem test2_unreferable_scenario_witness :
    ∃ s1 s2 s3 s4 s5 s6 s7 s8 s9,
      og_handle_client_request 8 (og_pre_clo_init 8) 1
        (request_args VG_USERREQ__ADD_REFCHECK_FIELD 139637976727552 0) 0
          = some (true, 0, s1) ∧
      og_handle_client_request 8 s1 1
        (request_args VG_USERREQ__MAKE_UNREFERABLE (139637976727552 + 4096) 8) 0
          = some (true, 0, s2) ∧
      s2.errors = [] ∧
      store_check_ptr 8 s2 139637976727552 2 = some s3 ∧
      s3.errors = [] ∧
      store_check_ptr 8 s3 139637976727552 (139637976727552 + 4096) = some s4 ∧
      s4.errors = [{ tid := 1, ekind := OgErrorKind.UnreferableErr,
                     addr := 139637976727552 + 4096 }] ∧
      og_handle_client_request 8 s4 1
        (request_args VG_USERREQ__REMOVE_REFCHECK_FIELD 139637976727552 0) 0
          = some (true, 0, s5) ∧
      store_check_ptr 8 s5 139637976727552 (139637976727552 + 4096) = some s6 ∧
      s6.errors = [{ tid := 1, ekind := OgErrorKind.UnreferableErr,
                     addr := 139637976727552 + 4096 }] ∧
      og_handle_client_request 8 s6 1
        (request_args VG_USERREQ__ADD_REFCHECK_FIELD 139637976727552 0) 0
          = some (true, 0, s7) ∧
      og_handle_client_request 8 s7 1
        (request_args VG_USERREQ__MAKE_NOCHECK (139637976727552 + 4096) 8) 0
          = some (true, 0, s8) ∧
      store_check_ptr 8 s8 139637976727552 (139637976727552 + 4096) = some s9 ∧
      s9.errors = [{ tid := 1, ekind := OgErrorKind.UnreferableErr,
                     addr := 139637976727552 + 4096 }] :=
  test2_unreferable_scenario 8 (Or.inr rfl) 139637976727552 4096 1 0 (by decide) (by decide)

/-! ## Copy-on-write isolation -/

theorem get_secmap_for_reading_spec (ws : Nat) (hws : WordSizeOk ws) (s : State) (a : Nat)
    (hwf : WF ws s) (ha : a < 2 ^ WORD_BITS ws) :
    ∃ s1, get_secmap_for_reading ws s a = some (smOf ws s a, s1) ∧ WF ws s1 ∧
      AuxOnly ws s s1 := by
  obtain ⟨p, s1, h1, hwf1, hao, hslot⟩ := get_secmap_ptr_spec ws hws s a hwf ha
  have hl := load_slot_of_SlotFor ws hws s1 a p hslot
  refine ⟨s1, ?_, hwf1, hao⟩
  rw [get_secmap_for_reading_eq, h1]
  dsimp only
  rw [hl, hao.sm a]

theorem maybe_get_secmap_for_spec (ws : Nat) (hws : WordSizeOk ws) (s : State) (a : Nat)
    (hwf : WF ws s) (ha : a < 2 ^ WORD_BITS ws) :
    ∃ r s1, maybe_get_secmap_for ws s a = some (r, s1) ∧ WF ws s1 ∧ CacheOnly s s1 := by
  unfold maybe_get_secmap_for
  by_cases hlow : a ≤ MAX_PRIMARY_ADDRESS ws
  · rw [if_pos hlow]
    unfold get_secmap_for_reading_low get_secmap_low_ptr
    rw [load_slot_primary]
    have : a >>> 16 < N_PRIMARY_MAP ws := by
      rw [Nat.shiftRight_eq_div_pow]
      exact (le_MAX_iff ws hws a).mp hlow
    rw [if_pos this]
    exact ⟨_, s, rfl, hwf, CacheOnly_refl s⟩
  · rw [if_neg hlow]
    obtain ⟨s1, h1, hco, hc1⟩ :=
      maybe_find_in_auxmap_spec ws s a hwf.l1 hwf.l2 (by omega)
        (high_key_ne_zero ws hws a (by omega) ha)
    have hwf1 : WF ws s1 :=
      WF_aux_step ws s s1 0 hwf hc1 (by rw [hco.l2]; exact hwf.l2) hco.heap hco.heap_next
        hco.primary (Or.inl hco.l2)
    rw [h1]
    cases hl : OSetGen_Lookup s.auxmap_L2 (a &&& notWord ws 0xFFFF) with
    | none => exact ⟨_, s1, rfl, hwf1, hco⟩
    | some k =>
      dsimp only
      have hk : k < s1.auxmap_L2.size := by
        rw [hco.l2]; exact (lookupIn_some _ _ _ _ hl).1
      rw [load_slot_aux, if_pos hk]
      exact ⟨_, s1, rfl, hwf1, hco⟩

theorem run_op_spec (ws : Nat) (hws : WordSizeOk ws) (s : State) (op : ShadowOp)
    (hwf : WF ws s) (hv : ValidOp ws op) :
    ∃ s1, run_op ws s op = some s1 ∧ WF ws s1 ∧
      s1.sm_distinguished = s.sm_distinguished := by
  cases op with
  | set_abits2 a t =>
    obtain ⟨s1, h1, hwf1, hd, _⟩ := set_abits2_spec ws hws s a t hwf hv.1 hv.2
    exact ⟨s1, h1, hwf1, hd⟩
  | set_address_range_perms a n abits16 dsm =>
    obtain ⟨s1, h1, hwf1, hd, _⟩ :=
      set_address_range_perms_spec ws hws s a n abits16 dsm hwf hv
    exact ⟨s1, h1, hwf1, hd⟩
  | get_abits2 a =>
    obtain ⟨s1, h1, hwf1, hao⟩ := get_abits2_spec ws hws s a hwf hv
    exact ⟨s1, by show (get_abits2 ws s a).map Prod.snd = _; rw [h1]; rfl, hwf1, hao.dist⟩
  | get_secmap_for_reading a =>
    obtain ⟨s1, h1, hwf1, hao⟩ := get_secmap_for_reading_spec ws hws s a hwf hv
    exact ⟨s1, by show (get_secmap_for_reading ws s a).map Prod.snd = _; rw [h1]; rfl,
      hwf1, hao.dist⟩
  | get_secmap_for_writing a =>
    obtain ⟨id, s1, h1, hwf1, _, _, _, _, hd, _⟩ :=
      get_secmap_for_writing_spec ws hws s a hwf hv
    exact ⟨s1, by show (get_secmap_for_writing ws s a).map Prod.snd = _; rw [h1]; rfl,
      hwf1, hd⟩
  | maybe_get_secmap_for a =>
    obtain ⟨r, s1, h1, hwf1, hco⟩ := maybe_get_secmap_for_spec ws hws s a hwf hv
    exact ⟨s1, by show (maybe_get_secmap_for ws s a).map Prod.snd = _; rw [h1]; rfl,
      hwf1, hco.dist⟩
  | store_check8 a d =>
    obtain ⟨s1, h1, hwf1, hst, _⟩ := store_check8_spec ws hws s a d hwf hv
    exact ⟨s1, h1, hwf1, hst.dist⟩
  | store_check16 a d =>
    obtain ⟨s1, h1, hwf1, hst, _⟩ := store_check16_spec ws hws s a d hwf hv
    exact ⟨s1, h1, hwf1, hst.dist⟩
  | store_check32 a d =>
    obtain ⟨s1, h1, hwf1, hst, _⟩ := store_check32_spec ws hws s a d hwf hv.1 hv.2
    exact ⟨s1, h1, hwf1, hst.dist⟩
  | store_check64 a d w =>
    by_cases hw : w = 32
    · obtain ⟨_, s2, _, _, h2, hwf2, hst, _⟩ := store_check64_split_spec ws hws s a d hwf hv
      exact ⟨s2, by rw [hw]; exact h2, hwf2, hst.dist⟩
    · obtain ⟨s1, h1, hwf1, hst, _⟩ := store_check64_spec ws hws s a d w hwf hv hw
      exact ⟨s1, h1, hwf1, hst.dist⟩

theorem run_ops_spec (ws : Nat) (hws : WordSizeOk ws) :
    ∀ (ops : List ShadowOp) (s : State), WF ws s → (∀ op, op ∈ ops → ValidOp ws op) →
      ∃ s1, run_ops ws s ops = some s1 ∧ WF ws s1 ∧
        s1.sm_distinguished = s.sm_distinguished := by
  intro ops
  induction ops with
  | nil =>
    intro s hwf _
    exact ⟨s, rfl, hwf, rfl⟩
  | cons op ops ih =>
    intro s hwf hv
    obtain ⟨s1, h1, hwf1, hd1⟩ :=
      run_op_spec ws hws s op hwf (hv op (List.mem_cons_self _ _))
    obtain ⟨s2, h2, hwf2, hd2⟩ :=
      ih s1 hwf1 (fun o ho => hv o (List.mem_cons_of_mem _ ho))
    refine ⟨s2, ?_, hwf2, hd2.trans hd1⟩
    unfold run_ops
    rw [h1]
    exact h2

theorem DistinguishedIntact_startup (ws : Nat) : DistinguishedIntact (og_pre_clo_init ws) :=
  fun off h => ⟨startup_dist0 ws off h, startup_dist1 ws off h, startup_dist2 ws off h⟩

/-- C9. Copy-on-write isolation: every sequence of `set_abits2`,
`set_address_range_perms`, lookups and store checks whose arguments are host words runs
to completion from the startup state, and in the state it reaches the array
`sm_distinguished` is what it was at startup: every shadow byte is 0x00 in the NOCHECK
map, 0x55 in the UNWRITABLE map and 0xaa in the UNREFERABLE map. -/
theorem distinguished_maps_never_written (ws : Nat) (hws : WordSizeOk ws)
    (ops : List ShadowOp) (hv : ∀ op, op ∈ ops → ValidOp ws op) :
    ∃ s1, run_ops ws (og_pre_clo_init ws) ops = some s1 ∧
      s1.sm_distinguished = (og_pre_clo_init ws).sm_distinguished ∧
      DistinguishedIntact s1 := by
  obtain ⟨s1, h1, _, hd⟩ := run_ops_spec ws hws ops (og_pre_clo_init ws) (WF_startup ws) hv
  refine ⟨s1, h1, hd, ?_⟩
  intro off hoff
  rw [hd]
  exact DistinguishedIntact_startup ws off hoff

theorem distinguished_maps_never_written_witness :
    ∃ s1, run_ops 8 (og_pre_clo_init 8)
        [ShadowOp.set_abits2 4096 A_BITS2_REFCHECK,
         ShadowOp.set_address_range_perms 65530 131072 A_BITS16_UNWRITABLE SM_DIST_UNWRITABLE,
         ShadowOp.store_check64 4096 65536 64,
         ShadowOp.get_abits2 (2 ^ 40)] = some s1 ∧
      s1.sm_distinguished = (og_pre_clo_init 8).sm_distinguished ∧
      DistinguishedIntact s1 :=
  distinguished_maps_never_written 8 (Or.inr rfl) _ (by
    intro op hop
    simp only [List.mem_cons, List.mem_singleton, List.not_mem_nil, or_false] at hop
    rcases hop with rfl | rfl | rfl | rfl
    · exact ⟨by decide, by decide⟩
    · exact Or.inr (Or.inl rfl)
    · show 4096 < 2 ^ WORD_BITS 8
      decide
    · show 2 ^ 40 < 2 ^ WORD_BITS 8
      decide)

/-- C10. For every address `a` and state satisfying the representation invariant,
`get_secmap_for_writing(a)` returns a map that is not one of the three distinguished
maps; afterwards the map slot of the 64 KiB region of `a` holds the returned map, whose
contents are those of the map the slot held before the call; the slots of all other
regions are unchanged, and `get_abits2` of every address is what it was before. -/
theorem get_secmap_for_writing_cow (ws : Nat) (hws : WordSizeOk ws) (s : State)
    (hwf : WF ws s) (a : Nat) (ha : a < 2 ^ WORD_BITS ws) :
    ∃ sm s1, get_secmap_for_writing ws s a = some (sm, s1) ∧
      is_distinguished_sm sm = false ∧
      smOf ws s1 a = sm ∧
      contents s1 sm = contents s (smOf ws s a) ∧
      (∀ b, b < 2 ^ WORD_BITS ws → b / 65536 ≠ a / 65536 → smOf ws s1 b = smOf ws s b) ∧
      (∀ b, b < 2 ^ WORD_BITS ws → tag_at ws s1 b = tag_at ws s b) := by
  obtain ⟨id, s1, h1, hwf1, hsm, hc, hother, hcont, _⟩ :=
    get_secmap_for_writing_spec ws hws s a hwf ha
  refine ⟨SecMapPtr.allocated id, s1, h1, rfl, hsm, hc, hother, ?_⟩
  intro b hb
  rw [tag_at_eq ws hws s1 b hwf1 hb, tag_at_eq ws hws s b hwf hb]
  unfold abits2_of
  rw [get_secmap_for_writing_abits8 ws hws s s1 a id hwf ha hsm hc hother hcont b hb]

theorem get_secmap_for_writing_cow_witness :
    ∃ sm s1, get_secmap_for_writing 8 (og_pre_clo_init 8) (2 ^ 40 + 5) = some (sm, s1) ∧
      is_distinguished_sm sm = false ∧
      smOf 8 s1 (2 ^ 40 + 5) = sm ∧
      contents s1 sm = contents (og_pre_clo_init 8) (smOf 8 (og_pre_clo_init 8) (2 ^ 40 + 5)) ∧
      (∀ b, b < 2 ^ WORD_BITS 8 → b / 65536 ≠ (2 ^ 40 + 5) / 65536 →
        smOf 8 s1 b = smOf 8 (og_pre_clo_init 8) b) ∧
      (∀ b, b < 2 ^ WORD_BITS 8 → tag_at 8 s1 b = tag_at 8 (og_pre_clo_init 8) b) :=
  get_secmap_for_writing_cow 8 (Or.inr rfl) (og_pre_clo_init 8) (WF_startup 8) (2 ^ 40 + 5)
    (by decide)

/-! ## The front-cache is transparent -/

/-- C13. The front-cache is transparent: in every state whose front-cache mirrors the
auxiliary map and whose auxiliary keys are unique, and for every address `a` above
`MAX_PRIMARY_ADDRESS`, `maybe_find_in_auxmap(a)` returns and its result is the result of
the direct lookup of the base `a & ~0xFFFF` in the auxiliary map `auxmap_L2`, which the
call leaves as it is: the node with that base when there is one, and a miss when no node
has that base. A hit is a node whose base is the non-zero key, never an empty cache slot. -/
theorem maybe_find_in_auxmap_transparent (ws : Nat) (hws : WordSizeOk ws) (s : State)
    (a : Nat) (hc : L1Coherent s) (hn : L2Nodup s.auxmap_L2)
    (ha : a > MAX_PRIMARY_ADDRESS ws) (ha2 : a < 2 ^ WORD_BITS ws) :
    ∃ s1, maybe_find_in_auxmap ws s a
        = some (OSetGen_Lookup s.auxmap_L2 (a &&& notWord ws 0xFFFF), s1) ∧
      s1.auxmap_L2 = s.auxmap_L2 ∧
      (∀ k, k < s.auxmap_L2.size → (s.auxmap_L2.nodes k).base = a &&& notWord ws 0xFFFF →
        OSetGen_Lookup s.auxmap_L2 (a &&& notWord ws 0xFFFF) = some k) ∧
      ((∀ k, k < s.auxmap_L2.size → (s.auxmap_L2.nodes k).base ≠ a &&& notWord ws 0xFFFF) →
        OSetGen_Lookup s.auxmap_L2 (a &&& notWord ws 0xFFFF) = none) ∧
      (∀ k, OSetGen_Lookup s.auxmap_L2 (a &&& notWord ws 0xFFFF) = some k →
        k < s.auxmap_L2.size ∧ (s.auxmap_L2.nodes k).base = a &&& notWord ws 0xFFFF ∧
          (s.auxmap_L2.nodes k).base ≠ 0) := by
  have hb := high_key_ne_zero ws hws a ha ha2
  obtain ⟨s1, h1, hco, _⟩ := maybe_find_in_auxmap_spec ws s a hc hn ha hb
  refine ⟨s1, h1, hco.l2, ?_, ?_, ?_⟩
  · intro k hk hbase
    rw [← hbase]
    exact lookup_of_node s.auxmap_L2 hn k hk
  · intro hall
    cases hl : OSetGen_Lookup s.auxmap_L2 (a &&& notWord ws 0xFFFF) with
    | none => rfl
    | some k =>
      obtain ⟨hk, hbase⟩ := lookupIn_some _ _ _ _ hl
      exact absurd hbase (hall k hk)
  · intro k hl
    obtain ⟨hk, hbase⟩ := lookupIn_some _ _ _ _ hl
    exact ⟨hk, hbase, by rw [hbase]; exact hb⟩

theorem maybe_find_in_auxmap_transparent_witness :
    ∃ k s, find_or_alloc_in_auxmap 8 (og_pre_clo_init 8) (2 ^ 40 + 5) = some (k, s) ∧
      ∃ s1, maybe_find_in_auxmap 8 s (2 ^ 40 + 5)
          = some (OSetGen_Lookup s.auxmap_L2 ((2 ^ 40 + 5) &&& notWord 8 0xFFFF), s1) ∧
        s1.auxmap_L2 = s.auxmap_L2 ∧
        (∀ k, k < s.auxmap_L2.size →
          (s.auxmap_L2.nodes k).base = (2 ^ 40 + 5) &&& notWord 8 0xFFFF →
          OSetGen_Lookup s.auxmap_L2 ((2 ^ 40 + 5) &&& notWord 8 0xFFFF) = some k) ∧
        ((∀ k, k < s.auxmap_L2.size →
            (s.auxmap_L2.nodes k).base ≠ (2 ^ 40 + 5) &&& notWord 8 0xFFFF) →
          OSetGen_Lookup s.auxmap_L2 ((2 ^ 40 + 5) &&& notWord 8 0xFFFF) = none) ∧
        (∀ k, OSetGen_Lookup s.auxmap_L2 ((2 ^ 40 + 5) &&& notWord 8 0xFFFF) = some k →
          k < s.auxmap_L2.size ∧
            (s.auxmap_L2.nodes k).base = (2 ^ 40 + 5) &&& notWord 8 0xFFFF ∧
            (s.auxmap_L2.nodes k).base ≠ 0) := by
  obtain ⟨k, s, h, hc, hn, _⟩ :=
    find_or_alloc_in_auxmap_spec 8 (og_pre_clo_init 8) (2 ^ 40 + 5) (WF_startup 8).l1
      (WF_startup 8).l2 (by decide) (by decide)
  exact ⟨k, s, h,
    maybe_find_in_auxmap_transparent 8 (Or.inr rfl) s (2 ^ 40 + 5) hc hn (by decide)
      (by decide)⟩

/-! ## Painting twice -/

/-- C14. Range paint idempotence: for every state satisfying the representation
invariant, address `a`, length `n` and paintable tag `t`, painting `[a, a+n)` with `t`
twice in a row returns both times, and `get_abits2` of every address gives after the
second paint what it gives after the first. -/
theorem set_address_range_perms_idempotent (ws : Nat) (hws : WordSizeOk ws) (s : State)
    (hwf : WF ws s) (a n t : Nat)
    (_ht : t = A_BITS2_NOCHECK ∨ t = A_BITS2_UNWRITABLE ∨ t = A_BITS2_UNREFERABLE) :
    ∃ s1 s2,
      set_address_range_perms ws s a n (abits16_of_tag t) (dsm_of_tag t) = some s1 ∧
      set_address_range_perms ws s1 a n (abits16_of_tag t) (dsm_of_tag t) = some s2 ∧
      ∀ b, b < 2 ^ WORD_BITS ws → tag_at ws s2 b = tag_at ws s1 b := by
  obtain ⟨s1, h1, hwf1, _, _, _, hp1⟩ :=
    set_address_range_perms_spec ws hws s a n (abits16_of_tag t) (dsm_of_tag t) hwf
      (abits16_of_tag_valid t)
  obtain ⟨s2, h2, hwf2, _, _, _, hp2⟩ :=
    set_address_range_perms_spec ws hws s1 a n (abits16_of_tag t) (dsm_of_tag t) hwf1
      (abits16_of_tag_valid t)
  refine ⟨s1, s2, h1, h2, ?_⟩
  intro b hb
  rw [tag_at_eq ws hws s2 b hwf2 hb, tag_at_eq ws hws s1 b hwf1 hb]
  by_cases hin : ∃ j, j < n ∧ toWord ws (a + j) = b
  · rw [(hp2 b hb).1 hin, (hp1 b hb).1 hin]
  · rw [(hp2 b hb).2 (fun j hj he => hin ⟨j, hj, he⟩)]

theorem set_address_range_perms_idempotent_witness :
    ∃ s1 s2,
      set_address_range_perms 8 (og_pre_clo_init 8) 65530 196608
        (abits16_of_tag A_BITS2_UNREFERABLE) (dsm_of_tag A_BITS2_UNREFERABLE) = some s1 ∧
      set_address_range_perms 8 s1 65530 196608
        (abits16_of_tag A_BITS2_UNREFERABLE) (dsm_of_tag A_BITS2_UNREFERABLE) = some s2 ∧
      ∀ b, b < 2 ^ WORD_BITS 8 → tag_at 8 s2 b = tag_at 8 s1 b :=
  set_address_range_perms_idempotent 8 (Or.inr rfl) (og_pre_clo_init 8) (WF_startup 8)
    65530 196608 A_BITS2_UNREFERABLE (Or.inr (Or.inr rfl))

/-! ## Narrow stores -/

/-- C18. 8- and 16-bit stores are never reference-checked: for every address `a`, stored
value `d` and state satisfying the representation invariant, `store_check8` and
`store_check16` return and submit one UnwritableErr at `a` when `get_abits2(a)` is
UNWRITABLE and nothing otherwise; the outcome is the same for every other stored value,
and a destination tagged REFCHECK with a stored value that points at an UNREFERABLE byte
submits no error. -/
theorem store_check8_16_no_reference_check (ws : Nat) (hws : WordSizeOk ws) (s : State)
    (hwf : WF ws s) (a d : Nat) (ha : a < 2 ^ WORD_BITS ws) :
    (∃ s1, store_check8 ws s a d = some s1 ∧
      s1.errors = s.errors ++
        (if tag_at ws s a = some A_BITS2_UNWRITABLE then [unwritable_at s a] else [])) ∧
    (∃ s1, store_check16 ws s a d = some s1 ∧
      s1.errors = s.errors ++
        (if tag_at ws s a = some A_BITS2_UNWRITABLE then [unwritable_at s a] else [])) ∧
    (∀ d2, store_check8 ws s a d2 = store_check8 ws s a d ∧
      store_check16 ws s a d2 = store_check16 ws s a d) ∧
    (tag_at ws s a = some A_BITS2_REFCHECK → tag_at ws s d = some A_BITS2_UNREFERABLE →
      (∃ s1, store_check8 ws s a d = some s1 ∧ s1.errors = s.errors) ∧
      (∃ s1, store_check16 ws s a d = some s1 ∧ s1.errors = s.errors)) := by
  obtain ⟨s8, h8, _, _, e8⟩ := store_check8_spec ws hws s a d hwf ha
  obtain ⟨s16, h16, _, _, e16⟩ := store_check16_spec ws hws s a d hwf ha
  have htag := tag_at_eq ws hws s a hwf ha
  have hiff : (tag_at ws s a = some A_BITS2_UNWRITABLE) ↔
      (abits2_of ws s a = A_BITS2_UNWRITABLE) := by
    rw [htag]
    exact ⟨fun h => Option.some.inj h, fun h => by rw [h]⟩
  refine ⟨⟨s8, h8, ?_⟩, ⟨s16, h16, ?_⟩, fun d2 => ⟨rfl, rfl⟩, ?_⟩
  · rw [e8]
    simp only [hiff]
  · rw [e16]
    simp only [hiff]
  · intro hr _
    have hne : ¬ abits2_of ws s a = A_BITS2_UNWRITABLE := by
      rw [htag] at hr
      rw [Option.some.inj hr]
      decide
    rw [if_neg hne, List.append_nil] at e8 e16
    exact ⟨⟨s8, h8, e8⟩, ⟨s16, h16, e16⟩⟩

theorem store_check8_16_no_reference_check_witness :
    ∃ s0 s, set_abits2 8 (og_pre_clo_init 8) 4096 A_BITS2_REFCHECK = some s0 ∧
      set_address_range_perms 8 s0 8192 8
        (abits16_of_tag A_BITS2_UNREFERABLE) (dsm_of_tag A_BITS2_UNREFERABLE) = some s ∧
      tag_at 8 s 4096 = some A_BITS2_REFCHECK ∧
      tag_at 8 s 8192 = some A_BITS2_UNREFERABLE ∧
      (∃ s1, store_check8 8 s 4096 8192 = some s1 ∧ s1.errors = s.errors) ∧
      (∃ s1, store_check16 8 s 4096 8192 = some s1 ∧ s1.errors = s.errors) := by
  have hws : WordSizeOk 8 := Or.inr rfl
  obtain ⟨s0, h0, hwf0, _, _, _, ht0, _⟩ :=
    set_abits2_spec 8 hws (og_pre_clo_init 8) 4096 A_BITS2_REFCHECK (WF_startup 8)
      (by decide) (by decide)
  obtain ⟨s, h1, hwf1, _, _, _, hin, hout⟩ :=
    paint_spec 8 hws s0 hwf0 8192 8 A_BITS2_UNREFERABLE (dsm_of_tag A_BITS2_UNREFERABLE)
      (Or.inr (Or.inr rfl)) (by decide)
  have ta : tag_at 8 s 4096 = some A_BITS2_REFCHECK := by
    rw [tag_at_eq 8 hws s 4096 hwf1 (by decide),
      hout 4096 (by decide) (Or.inl (by decide)), ht0]
  have td : tag_at 8 s 8192 = some A_BITS2_UNREFERABLE := by
    rw [tag_at_eq 8 hws s 8192 hwf1 (by decide), hin 8192 (by decide) (by decide)]
  exact ⟨s0, s, h0, h1, ta, td,
    (store_check8_16_no_reference_check 8 hws s hwf1 4096 8192 (by decide)).2.2.2 ta td⟩

/-! ## Requests that are not accepted -/

/-- C19. Unknown requests: for every request code other than the six accepted ones,
inside the tool's `'O','G'` namespace or outside it, `og_handle_client_request` returns
False and leaves the state and the result word as they were; for each of the six accepted
codes, in a state satisfying the representation invariant and with a host word as first
argument, it returns True. -/
theorem unknown_requests_not_handled (ws : Nat) (hws : WordSizeOk ws) (s : State)
    (tid : Nat) (arg : Nat → Nat) (ret : Nat) :
    ((arg 0 ≠ VG_USERREQ__MAKE_NOCHECK ∧ arg 0 ≠ VG_USERREQ__MAKE_UNWRITABLE ∧
        arg 0 ≠ VG_USERREQ__MAKE_UNREFERABLE ∧ arg 0 ≠ VG_USERREQ__ADD_REFCHECK_FIELD ∧
        arg 0 ≠ VG_USERREQ__REMOVE_REFCHECK_FIELD ∧
        arg 0 ≠ VG_USERREQ__CHECK_UNWRITABLE) →
      og_handle_client_request ws s tid arg ret = some (false, ret, s)) ∧
    (WF ws s → arg 1 < 2 ^ WORD_BITS ws →
      (arg 0 = VG_USERREQ__MAKE_NOCHECK ∨ arg 0 = VG_USERREQ__MAKE_UNWRITABLE ∨
        arg 0 = VG_USERREQ__MAKE_UNREFERABLE ∨ arg 0 = VG_USERREQ__ADD_REFCHECK_FIELD ∨
        arg 0 = VG_USERREQ__REMOVE_REFCHECK_FIELD ∨
        arg 0 = VG_USERREQ__CHECK_UNWRITABLE) →
      ∃ r s1, og_handle_client_request ws s tid arg ret = some (true, r, s1)) := by
  constructor
  · rintro ⟨h0, h1, h2, h3, h4, h5⟩
    unfold og_handle_client_request
    split
    · rfl
    · rfl
  · intro hwf ha hcode
    rcases hcode with h | h | h | h | h | h
    · obtain ⟨s1, h1, _⟩ :=
        set_address_range_perms_spec ws hws s (arg 1) (arg 2) A_BITS16_NOCHECK
          SM_DIST_NOCHECK hwf (Or.inl rfl)
      exact ⟨ret, s1, by rw [handle_MAKE_NOCHECK ws s tid arg ret h, h1]; rfl⟩
    · obtain ⟨s1, h1, _⟩ :=
        set_address_range_perms_spec ws hws s (arg 1) (arg 2) A_BITS16_UNWRITABLE
          SM_DIST_UNWRITABLE hwf (Or.inr (Or.inl rfl))
      exact ⟨ret, s1, by rw [handle_MAKE_UNWRITABLE ws s tid arg ret h, h1]; rfl⟩
    · obtain ⟨s1, h1, _⟩ :=
        set_address_range_perms_spec ws hws s (arg 1) (arg 2) A_BITS16_UNREFERABLE
          SM_DIST_UNREFERABLE hwf (Or.inr (Or.inr (Or.inl rfl)))
      exact ⟨ret, s1, by rw [handle_MAKE_UNREFERABLE ws s tid arg ret h, h1]; rfl⟩
    · obtain ⟨s1, h1, _⟩ :=
        set_abits2_spec ws hws s (arg 1) A_BITS2_REFCHECK hwf ha (by decide)
      exact ⟨ret, s1, by rw [handle_ADD_REFCHECK_FIELD ws s tid arg ret h, h1]; rfl⟩
    · obtain ⟨s1, h1, _⟩ :=
        set_abits2_spec ws hws s (arg 1) A_BITS2_NOCHECK hwf ha (by decide)
      exact ⟨ret, s1, by rw [handle_REMOVE_REFCHECK_FIELD ws s tid arg ret h, h1]; rfl⟩
    · obtain ⟨s1, h1, _⟩ := handle_CHECK_UNWRITABLE_spec ws hws s hwf tid arg ret h ha
      exact ⟨_, s1, h1⟩

theorem unknown_requests_not_handled_witness :
    og_handle_client_request 8 (og_pre_clo_init 8) 1
        (request_args (VG_USERREQ__MAKE_NOCHECK + 6) 4096 8) 7
      = some (false, 7, og_pre_clo_init 8) ∧
    og_handle_client_request 8 (og_pre_clo_init 8) 1 (request_args 4096 4096 8) 7
      = some (false, 7, og_pre_clo_init 8) ∧
    ∃ r s1, og_handle_client_request 8 (og_pre_clo_init 8) 1
        (request_args VG_USERREQ__CHECK_UNWRITABLE 4096 8) 7 = some (true, r, s1) :=
  ⟨(unknown_requests_not_handled 8 (Or.inr rfl) (og_pre_clo_init 8) 1
      (request_args (VG_USERREQ__MAKE_NOCHECK + 6) 4096 8) 7).1 (by decide),
   (unknown_requests_not_handled 8 (Or.inr rfl) (og_pre_clo_init 8) 1
      (request_args 4096 4096 8) 7).1 (by decide),
   (unknown_requests_not_handled 8 (Or.inr rfl) (og_pre_clo_init 8) 1
      (request_args VG_USERREQ__CHECK_UNWRITABLE 4096 8) 7).2 (WF_startup 8) (by decide)
      (Or.inr (Or.inr (Or.inr (Or.inr (Or.inr rfl)))))⟩

/-! ## 64-bit stores on a 32-bit host -/

theorem toWord_four (x : Nat) : toWord 4 x = x % 2 ^ 32 := rfl

theorem high_half (d : Nat) (hd : d < 2 ^ 64) : toWord 4 (d >>> 32) = d / 2 ^ 32 := by
  rw [toWord_four, Nat.shiftRight_eq_div_pow]
  apply Nat.mod_eq_of_lt
  rw [Nat.div_lt_iff_lt_mul (by decide)]
  exact hd

/-- C16. In a 32-bit build, where a host word has 32 bits and `store_check64` is called
with word size 32, for every address `a`, 64-bit value `d` and state: the call
`store_check64(a, d, 32)` is `store_check32(a, low 32 bits of d)` followed by
`store_check32(a, high 32 bits of d)`, both at the destination `a`; in a state satisfying
the representation invariant all three return, and the errors submitted are those of the
first call followed by those of the second, each equal to what the 32-bit check submits
when run on its own in the starting state. -/
theorem store_check64_splits_in_two (s : State) (a d : Nat) (hd : d < 2 ^ 64) :
    store_check64 4 s a d 32
      = (store_check32 4 s a (d % 2 ^ 32)).bind (fun s1 => store_check32 4 s1 a (d / 2 ^ 32)) ∧
    (WF 4 s → a < 2 ^ WORD_BITS 4 →
      ∃ s1 s2 s3 lo hi,
        store_check32 4 s a (d % 2 ^ 32) = some s1 ∧ s1.errors = s.errors ++ lo ∧
        store_check32 4 s a (d / 2 ^ 32) = some s3 ∧ s3.errors = s.errors ++ hi ∧
        store_check32 4 s1 a (d / 2 ^ 32) = some s2 ∧ s2.errors = s1.errors ++ hi ∧
        store_check64 4 s a d 32 = some s2 ∧ s2.errors = s.errors ++ lo ++ hi) := by
  have hhi := high_half d hd
  constructor
  · unfold store_check64
    rw [if_pos rfl, hhi, toWord_four]
    cases store_check32 4 s a (d % 2 ^ 32) <;> rfl
  · intro hwf ha
    have hws : WordSizeOk 4 := Or.inl rfl
    obtain ⟨s1, s2, h1, h2, h64, _, _, e2⟩ := store_check64_split_spec 4 hws s a d hwf ha
    rw [hhi] at h2 e2
    rw [toWord_four] at h1 e2
    have hlo : d % 2 ^ 32 < 2 ^ WORD_BITS 4 := Nat.mod_lt _ (by decide)
    have hhi2 : d / 2 ^ 32 < 2 ^ WORD_BITS 4 := by
      rw [← hhi, toWord_four]
      exact Nat.mod_lt _ (by decide)
    obtain ⟨s1', h1', hwf1, hst1, e1⟩ := store_check32_spec 4 hws s a (d % 2 ^ 32) hwf ha hlo
    obtain ⟨s3, h3, _, _, e3⟩ := store_check32_spec 4 hws s a (d / 2 ^ 32) hwf ha hhi2
    rw [h1] at h1'
    cases Option.some.inj h1'
    refine ⟨s1, s2, s3, _, _, h1, e1, h3, e3, h2, ?_, h64, e2⟩
    rw [e2, e1]

theorem store_check64_splits_in_two_witness :
    store_check64 4 (og_pre_clo_init 4) 4096 (2 ^ 32 * 5 + 7) 32
      = (store_check32 4 (og_pre_clo_init 4) 4096 ((2 ^ 32 * 5 + 7) % 2 ^ 32)).bind
          (fun s1 => store_check32 4 s1 4096 ((2 ^ 32 * 5 + 7) / 2 ^ 32)) ∧
    ∃ s1 s2 s3 lo hi,
      store_check32 4 (og_pre_clo_init 4) 4096 ((2 ^ 32 * 5 + 7) % 2 ^ 32) = some s1 ∧
      s1.errors = (og_pre_clo_init 4).errors ++ lo ∧
      store_check32 4 (og_pre_clo_init 4) 4096 ((2 ^ 32 * 5 + 7) / 2 ^ 32) = some s3 ∧
      s3.errors = (og_pre_clo_init 4).errors ++ hi ∧
      store_check32 4 s1 4096 ((2 ^ 32 * 5 + 7) / 2 ^ 32) = some s2 ∧
      s2.errors = s1.errors ++ hi ∧
      store_check64 4 (og_pre_clo_init 4) 4096 (2 ^ 32 * 5 + 7) 32 = some s2 ∧
      s2.errors = (og_pre_clo_init 4).errors ++ lo ++ hi :=
  ⟨(store_check64_splits_in_two (og_pre_clo_init 4) 4096 (2 ^ 32 * 5 + 7) (by decide)).1,
   (store_check64_splits_in_two (og_pre_clo_init 4) 4096 (2 ^ 32 * 5 + 7) (by decide)).2
     (WF_startup 4) (by decide)⟩

/-- C17 (counterexample). In a 32-bit build, after `ADD_REFCHECK_FIELD(4096)` and
`MAKE_UNREFERABLE(8192, 8)` on the startup state, `store_check64(4096, 8192, 32)` submits an
UnreferableErr for the low half 8192 of the stored value: the reference check is performed. -/
theorem store_check64_width32_checks_references :
    ((set_abits2 4 (og_pre_clo_init 4) 4096 A_BITS2_REFCHECK).bind
        (fun s0 => (set_address_range_perms 4 s0 8192 8 A_BITS16_UNREFERABLE
          SM_DIST_UNREFERABLE).bind (fun s => store_check64 4 s 4096 8192 32))).map
        (fun s => s.errors)
      = some [{ tid := 1, ekind := OgErrorKind.UnreferableErr, addr := 8192 }] := by
  decide

/-- C17 (amended). On a 32-bit host, `store_check64` called with word size 32 runs the
32-bit check, reference check included, on each half of the stored value at the same
destination `a`: it submits two UnwritableErr at `a` when `a` is tagged UNWRITABLE; when
`a` is tagged REFCHECK it submits one UnreferableErr for each half, the low half first,
whose value read as an address is tagged UNREFERABLE, with that half as error address; and
it submits nothing otherwise. -/
theorem store_check64_width32_policy (s : State) (hwf : WF 4 s) (a d : Nat)
    (ha : a < 2 ^ WORD_BITS 4) (hd : d < 2 ^ 64) :
    ∃ s2, store_check64 4 s a d 32 = some s2 ∧
      s2.errors = s.errors ++
        (if tag_at 4 s a = some A_BITS2_UNWRITABLE then [unwritable_at s a, unwritable_at s a]
         else if tag_at 4 s a = some A_BITS2_REFCHECK then
           (if tag_at 4 s (d % 2 ^ 32) = some A_BITS2_UNREFERABLE
            then [unreferable_at s (d % 2 ^ 32)] else []) ++
           (if tag_at 4 s (d / 2 ^ 32) = some A_BITS2_UNREFERABLE
            then [unreferable_at s (d / 2 ^ 32)] else [])
         else []) := by
  have hws : WordSizeOk 4 := Or.inl rfl
  obtain ⟨s1, s2, _, _, h64, _, _, e2⟩ := store_check64_split_spec 4 hws s a d hwf ha
  rw [high_half d hd, toWord_four] at e2
  have hlo : d % 2 ^ 32 < 2 ^ WORD_BITS 4 := Nat.mod_lt _ (by decide)
  have hhi : d / 2 ^ 32 < 2 ^ WORD_BITS 4 := by
    rw [← high_half d hd, toWord_four]
    exact Nat.mod_lt _ (by decide)
  refine ⟨s2, h64, ?_⟩
  rw [e2, tag_at_eq 4 hws s a hwf ha, tag_at_eq 4 hws s _ hwf hlo, tag_at_eq 4 hws s _ hwf hhi]
  simp only [Option.some.injEq]
  by_cases hu : abits2_of 4 s a = A_BITS2_UNWRITABLE
  · simp only [if_pos hu, List.append_assoc, List.singleton_append]
  · simp only [if_neg hu]
    by_cases hr : abits2_of 4 s a = A_BITS2_REFCHECK
    · simp only [hr, true_and, if_true, List.append_assoc]
    · simp only [hr, false_and, if_false, List.append_nil]

theorem store_check64_width32_policy_witness :
    ∃ s0 s, set_abits2 4 (og_pre_clo_init 4) 4096 A_BITS2_REFCHECK = some s0 ∧
      set_address_range_perms 4 s0 8192 8
        (abits16_of_tag A_BITS2_UNREFERABLE) (dsm_of_tag A_BITS2_UNREFERABLE) = some s ∧
      ∃ s2, store_check64 4 s 4096 8192 32 = some s2 ∧
        s2.errors = s.errors ++
          (if tag_at 4 s 4096 = some A_BITS2_UNWRITABLE
           then [unwritable_at s 4096, unwritable_at s 4096]
           else if tag_at 4 s 4096 = some A_BITS2_REFCHECK then
             (if tag_at 4 s (8192 % 2 ^ 32) = some A_BITS2_UNREFERABLE
              then [unreferable_at s (8192 % 2 ^ 32)] else []) ++
             (if tag_at 4 s (8192 / 2 ^ 32) = some A_BITS2_UNREFERABLE
              then [unreferable_at s (8192 / 2 ^ 32)] else [])
           else []) := by
  have hws : WordSizeOk 4 := Or.inl rfl
  obtain ⟨s0, h0, hwf0, _⟩ :=
    set_abits2_spec 4 hws (og_pre_clo_init 4) 4096 A_BITS2_REFCHECK (WF_startup 4)
      (by decide) (by decide)
  obtain ⟨s, h1, hwf1, _⟩ :=
    paint_spec 4 hws s0 hwf0 8192 8 A_BITS2_UNREFERABLE (dsm_of_tag A_BITS2_UNREFERABLE)
      (Or.inr (Or.inr rfl)) (by decide)
  exact ⟨s0, s, h0, h1, store_check64_width32_policy s hwf1 4096 8192 (by decide) (by decide)⟩

/-! ## The result word of the painting requests -/

/-- C20. Evaluation at the failing input: on the startup state, each of the five
requests other than CHECK_UNWRITABLE, called with the result word holding 7, returns True
with the result word still 7, not 0: `og_handle_client_request` does not assign `*ret`
for these requests. -/
theorem make_requests_do_not_assign_result_word :
    (og_handle_client_request 8 (og_pre_clo_init 8) 1
        (request_args VG_USERREQ__MAKE_NOCHECK 4096 8) 7).map (fun r => (r.1, r.2.1))
      = some (true, 7) ∧
    (og_handle_client_request 8 (og_pre_clo_init 8) 1
        (request_args VG_USERREQ__MAKE_UNWRITABLE 4096 8) 7).map (fun r => (r.1, r.2.1))
      = some (true, 7) ∧
    (og_handle_client_request 8 (og_pre_clo_init 8) 1
        (request_args VG_USERREQ__MAKE_UNREFERABLE 4096 8) 7).map (fun r => (r.1, r.2.1))
      = some (true, 7) ∧
    (og_handle_client_request 8 (og_pre_clo_init 8) 1
        (request_args VG_USERREQ__ADD_REFCHECK_FIELD 4096 0) 7).map (fun r => (r.1, r.2.1))
      = some (true, 7) ∧
    (og_handle_client_request 8 (og_pre_clo_init 8) 1
        (request_args VG_USERREQ__REMOVE_REFCHECK_FIELD 4096 0) 7).map (fun r => (r.1, r.2.1))
      = some (true, 7) := by
  have hws : WordSizeOk 8 := Or.inr rfl
  obtain ⟨s1, h1, _⟩ := request_paint_spec 8 hws (og_pre_clo_init 8) (WF_startup 8) 1
    VG_USERREQ__MAKE_NOCHECK A_BITS2_NOCHECK 4096 8 7 (Or.inl ⟨rfl, rfl⟩) (by decide)
  obtain ⟨s2, h2, _⟩ := request_paint_spec 8 hws (og_pre_clo_init 8) (WF_startup 8) 1
    VG_USERREQ__MAKE_UNWRITABLE A_BITS2_UNWRITABLE 4096 8 7 (Or.inr (Or.inl ⟨rfl, rfl⟩))
    (by decide)
  obtain ⟨s3, h3, _⟩ := request_paint_spec 8 hws (og_pre_clo_init 8) (WF_startup 8) 1
    VG_USERREQ__MAKE_UNREFERABLE A_BITS2_UNREFERABLE 4096 8 7 (Or.inr (Or.inr ⟨rfl, rfl⟩))
    (by decide)
  obtain ⟨s4, h4, _⟩ := request_field_spec 8 hws (og_pre_clo_init 8) (WF_startup 8) 1
    VG_USERREQ__ADD_REFCHECK_FIELD A_BITS2_REFCHECK 4096 7 (Or.inl ⟨rfl, rfl⟩) (by decide)
  obtain ⟨s5, h5, _⟩ := request_field_spec 8 hws (og_pre_clo_init 8) (WF_startup 8) 1
    VG_USERREQ__REMOVE_REFCHECK_FIELD A_BITS2_NOCHECK 4096 7 (Or.inr ⟨rfl, rfl⟩) (by decide)
  rw [h1, h2, h3, h4, h5]
  exact ⟨rfl, rfl, rfl, rfl, rfl⟩

/-! ## Regions that were never written -/

theorem abits2_of_CacheOnly (ws : Nat) (s s1 : State) (h : CacheOnly s s1) (b : Nat) :
    abits2_of ws s1 b = abits2_of ws s b := by
  have hsm : smOf ws s1 b = smOf ws s b := by
    unfold smOf
    rw [h.primary, h.l2]
  exact abits2_of_congr ws s s1 b hsm (contents_congr s s1 h.dist h.heap _)

theorem get_abits2_node (ws : Nat) (hws : WordSizeOk ws) (s : State) (a : Nat)
    (hwf : WF ws s) (ha2 : a < 2 ^ WORD_BITS ws) :
    ∃ s1, get_abits2 ws s a = some (abits2_of ws s a, s1) ∧ WF ws s1 ∧ AuxOnly ws s s1 ∧
      (MAX_PRIMARY_ADDRESS ws < a →
        ∃ k, OSetGen_Lookup s1.auxmap_L2 (a &&& notWord ws 0xFFFF) = some k ∧
          k < s1.auxmap_L2.size ∧ (s1.auxmap_L2.nodes k).sm = smOf ws s a) := by
  obtain ⟨s1, h, hwf1, hao⟩ := get_abits2_spec ws hws s a hwf ha2
  refine ⟨s1, h, hwf1, hao, ?_⟩
  intro hhigh
  obtain ⟨p, s1', hp, _, _, hslot⟩ := get_secmap_ptr_spec ws hws s a hwf ha2
  have hl := load_slot_of_SlotFor ws hws s1' a p hslot
  have hs : s1' = s1 := by
    unfold get_abits2 at h
    rw [get_secmap_for_reading_eq, hp] at h
    dsimp only at h
    rw [hl] at h
    dsimp only at h
    cases hb : load_abits8 s1' (smOf ws s1' a) (SM_OFF a) with
    | none => rw [hb] at h; cases h
    | some v =>
      rw [hb] at h
      dsimp only at h
      exact congrArg Prod.snd (Option.some.inj h)
  subst hs
  unfold SlotFor at hslot
  rw [if_neg (by omega)] at hslot
  obtain ⟨k, hk, hlk⟩ := hslot
  have hksz := (lookupIn_some _ _ _ _ hlk).1
  refine ⟨k, hlk, hksz, ?_⟩
  rw [hk, load_slot_aux, if_pos hksz] at hl
  rw [← hao.sm a]
  exact Option.some.inj hl

theorem run_op_untouched (ws : Nat) (hws : WordSizeOk ws) (s : State) (op : ShadowOp)
    (hwf : WF ws s) (hv : ValidOp ws op) (b : Nat) (hb : b < 2 ^ WORD_BITS ws)
    (hu : RegionUntouched ws b op) :
    ∃ s1, run_op ws s op = some s1 ∧ WF ws s1 ∧ abits2_of ws s1 b = abits2_of ws s b := by
  cases op with
  | set_abits2 a t =>
    obtain ⟨s1, h1, hwf1, _, _, _, _, hfr⟩ := set_abits2_spec ws hws s a t hwf hv.1 hv.2
    refine ⟨s1, h1, hwf1, hfr b hb ?_⟩
    intro he
    exact hu (by rw [he])
  | set_address_range_perms a n abits16 dsm =>
    obtain ⟨s1, h1, hwf1, _, _, _, hp⟩ :=
      set_address_range_perms_spec ws hws s a n abits16 dsm hwf hv
    refine ⟨s1, h1, hwf1, (hp b hb).2 ?_⟩
    intro j hj he
    exact hu j hj (by rw [he])
  | get_abits2 a =>
    obtain ⟨s1, h1, hwf1, hao⟩ := get_abits2_spec ws hws s a hwf hv
    exact ⟨s1, by show (get_abits2 ws s a).map Prod.snd = _; rw [h1]; rfl, hwf1,
      abits2_of_AuxOnly ws s s1 hao b⟩
  | get_secmap_for_reading a =>
    obtain ⟨s1, h1, hwf1, hao⟩ := get_secmap_for_reading_spec ws hws s a hwf hv
    exact ⟨s1, by show (get_secmap_for_reading ws s a).map Prod.snd = _; rw [h1]; rfl,
      hwf1, abits2_of_AuxOnly ws s s1 hao b⟩
  | get_secmap_for_writing a =>
    obtain ⟨id, s1, h1, hwf1, hsm, hc, hother, hcont, _⟩ :=
      get_secmap_for_writing_spec ws hws s a hwf hv
    refine ⟨s1, by show (get_secmap_for_writing ws s a).map Prod.snd = _; rw [h1]; rfl,
      hwf1, ?_⟩
    unfold abits2_of
    rw [get_secmap_for_writing_abits8 ws hws s s1 a id hwf hv hsm hc hother hcont b hb]
  | maybe_get_secmap_for a =>
    obtain ⟨r, s1, h1, hwf1, hco⟩ := maybe_get_secmap_for_spec ws hws s a hwf hv
    exact ⟨s1, by show (maybe_get_secmap_for ws s a).map Prod.snd = _; rw [h1]; rfl,
      hwf1, abits2_of_CacheOnly ws s s1 hco b⟩
  | store_check8 a d =>
    obtain ⟨s1, h1, hwf1, hst, _⟩ := store_check8_spec ws hws s a d hwf hv
    exact ⟨s1, h1, hwf1, hst.tags b⟩
  | store_check16 a d =>
    obtain ⟨s1, h1, hwf1, hst, _⟩ := store_check16_spec ws hws s a d hwf hv
    exact ⟨s1, h1, hwf1, hst.tags b⟩
  | store_check32 a d =>
    obtain ⟨s1, h1, hwf1, hst, _⟩ := store_check32_spec ws hws s a d hwf hv.1 hv.2
    exact ⟨s1, h1, hwf1, hst.tags b⟩
  | store_check64 a d w =>
    by_cases hw : w = 32
    · obtain ⟨_, s2, _, _, h2, hwf2, hst, _⟩ := store_check64_split_spec ws hws s a d hwf hv
      exact ⟨s2, by rw [hw]; exact h2, hwf2, hst.tags b⟩
    · obtain ⟨s1, h1, hwf1, hst, _⟩ := store_check64_spec ws hws s a d w hwf hv hw
      exact ⟨s1, h1, hwf1, hst.tags b⟩

theorem run_ops_untouched (ws : Nat) (hws : WordSizeOk ws) (b : Nat)
    (hb : b < 2 ^ WORD_BITS ws) :
    ∀ (ops : List ShadowOp) (s : State), WF ws s → (∀ op, op ∈ ops → ValidOp ws op) →
      (∀ op, op ∈ ops → RegionUntouched ws b op) →
      ∃ s1, run_ops ws s ops = some s1 ∧ WF ws s1 ∧
        abits2_of ws s1 b = abits2_of ws s b := by
  intro ops
  induction ops with
  | nil =>
    intro s hwf _ _
    exact ⟨s, rfl, hwf, rfl⟩
  | cons op ops ih =>
    intro s hwf hv hu
    obtain ⟨s1, h1, hwf1, ht1⟩ :=
      run_op_untouched ws hws s op hwf (hv op (List.mem_cons_self _ _)) b hb
        (hu op (List.mem_cons_self _ _))
    obtain ⟨s2, h2, hwf2, ht2⟩ :=
      ih s1 hwf1 (fun o ho => hv o (List.mem_cons_of_mem _ ho))
        (fun o ho => hu o (List.mem_cons_of_mem _ ho))
    refine ⟨s2, ?_, hwf2, ht2.trans ht1⟩
    unfold run_ops
    rw [h1]
    exact h2

/-- C11. Initial view: at startup `get_abits2(a)` returns NOCHECK for every address `a`,
at or below `MAX_PRIMARY_ADDRESS` (primary map) and above it, where the lookup creates the
auxiliary node of the region and leaves the distinguished NOCHECK map in it; and after any
sequence of operations from startup in which no `set_abits2` and no paint targets the
64 KiB region of `a`, `get_abits2(a)` still returns NOCHECK. The lookup never fails. -/
theorem untouched_region_reads_NOCHECK (ws : Nat) (hws : WordSizeOk ws) (a : Nat)
    (ha : a < 2 ^ WORD_BITS ws) :
    (∃ s2, get_abits2 ws (og_pre_clo_init ws) a = some (A_BITS2_NOCHECK, s2) ∧
      (MAX_PRIMARY_ADDRESS ws < a →
        ∃ k, OSetGen_Lookup s2.auxmap_L2 (a &&& notWord ws 0xFFFF) = some k ∧
          (s2.auxmap_L2.nodes k).sm = SecMapPtr.distinguished SM_DIST_NOCHECK)) ∧
    (∀ ops : List ShadowOp, (∀ op, op ∈ ops → ValidOp ws op) →
      (∀ op, op ∈ ops → RegionUntouched ws a op) →
      ∃ s1 s2, run_ops ws (og_pre_clo_init ws) ops = some s1 ∧
        get_abits2 ws s1 a = some (A_BITS2_NOCHECK, s2) ∧
        (MAX_PRIMARY_ADDRESS ws < a →
          ∃ k, OSetGen_Lookup s2.auxmap_L2 (a &&& notWord ws 0xFFFF) = some k)) := by
  constructor
  · obtain ⟨s2, h, _, _, hnode⟩ :=
      get_abits2_node ws hws (og_pre_clo_init ws) a (WF_startup ws) ha
    rw [startup_abits2 ws hws a] at h
    refine ⟨s2, h, ?_⟩
    intro hhigh
    obtain ⟨k, hl, _, hsm⟩ := hnode hhigh
    exact ⟨k, hl, by rw [hsm, startup_smOf ws hws a]⟩
  · intro ops hv hu
    obtain ⟨s1, h1, hwf1, ht⟩ :=
      run_ops_untouched ws hws a ha ops (og_pre_clo_init ws) (WF_startup ws) hv hu
    obtain ⟨s2, h, _, _, hnode⟩ := get_abits2_node ws hws s1 a hwf1 ha
    rw [ht, startup_abits2 ws hws a] at h
    refine ⟨s1, s2, h1, h, ?_⟩
    intro hhigh
    obtain ⟨k, hl, _⟩ := hnode hhigh
    exact ⟨k, hl⟩

theorem untouched_region_reads_NOCHECK_witness :
    ∃ s1 s2, run_ops 8 (og_pre_clo_init 8)
        [ShadowOp.set_abits2 (2 ^ 40 + 65536) A_BITS2_REFCHECK,
         ShadowOp.set_address_range_perms 4096 8 A_BITS16_UNWRITABLE SM_DIST_UNWRITABLE,
         ShadowOp.get_secmap_for_writing (2 ^ 40 + 9),
         ShadowOp.store_check64 4096 (2 ^ 40 + 5) 64] = some s1 ∧
      get_abits2 8 s1 (2 ^ 40 + 5) = some (A_BITS2_NOCHECK, s2) ∧
      (MAX_PRIMARY_ADDRESS 8 < 2 ^ 40 + 5 →
        ∃ k, OSetGen_Lookup s2.auxmap_L2 ((2 ^ 40 + 5) &&& notWord 8 0xFFFF) = some k) :=
  (untouched_region_reads_NOCHECK 8 (Or.inr rfl) (2 ^ 40 + 5) (by decide)).2 _
    (by
      intro op hop
      simp only [List.mem_cons, List.mem_singleton, List.not_mem_nil, or_false] at hop
      rcases hop with rfl | rfl | rfl | rfl
      · exact ⟨by decide, by decide⟩
      · exact Or.inr (Or.inl rfl)
      · show 2 ^ 40 + 9 < 2 ^ WORD_BITS 8
        decide
      · show 4096 < 2 ^ WORD_BITS 8
        decide)
    (by
      intro op hop
      simp only [List.mem_cons, List.mem_singleton, List.not_mem_nil, or_false] at hop
      rcases hop with rfl | rfl | rfl | rfl
      · show (2 ^ 40 + 65536) / 65536 ≠ (2 ^ 40 + 5) / 65536
        decide
      · show ∀ j, j < 8 → toWord 8 (4096 + j) / 65536 ≠ (2 ^ 40 + 5) / 65536
        decide
      · trivial
      · trivial)

/-! ## The sanity check of the auxiliary map -/

theorem search_miss (l1 : Nat → AuxL1Ent) (a : Nat) :
    ∀ n i, auxmap_L1_search l1 a n i = i + n →
      ∀ j, i ≤ j → j < i + n → (l1 j).base ≠ a := by
  intro n
  induction n with
  | zero => intro i _ j h1 h2; omega
  | succ n ih =>
    intro i h j h1 h2
    unfold auxmap_L1_search at h
    by_cases he : (l1 i).base = a
    · rw [if_pos he] at h; omega
    · rw [if_neg he] at h
      by_cases hj : j = i
      · rw [hj]; exact he
      · exact ih (i + 1) (by rw [h]; omega) j (by omega) (by omega)

theorem swap_eq (l1 : Nat → AuxL1Ent) (i j n : Nat) :
    Function.update (Function.update l1 i (l1 j)) j (l1 i) n = l1 (Equiv.swap i j n) := by
  by_cases h1 : n = j
  · subst h1
    rw [Function.update_same, Equiv.swap_apply_right]
  · rw [Function.update_noteq h1]
    by_cases h2 : n = i
    · subst h2
      rw [Function.update_same, Equiv.swap_apply_left]
    · rw [Function.update_noteq h2, Equiv.swap_apply_of_ne_of_ne h2 h1]

theorem L1Nodup_swap (l1 : Nat → AuxL1Ent) (i j : Nat) (hi : i < N_AUXMAP_L1)
    (hj : j < N_AUXMAP_L1) (hd : L1Nodup l1) :
    L1Nodup (Function.update (Function.update l1 i (l1 j)) j (l1 i)) := by
  have hlt : ∀ n, n < N_AUXMAP_L1 → Equiv.swap i j n < N_AUXMAP_L1 := by
    intro n hn
    rw [Equiv.swap_apply_def]
    split
    · exact hj
    · split
      · exact hi
      · exact hn
  intro n m hn hm hne he
  rw [swap_eq] at hne he
  rw [swap_eq] at he
  exact (Equiv.swap i j).injective (hd _ _ (hlt n hn) (hlt m hm) hne he)

theorem insert_eq (l1 : Nat → AuxL1Ent) (e : AuxL1Ent) (n : Nat) (hn : n < N_AUXMAP_L1) :
    Function.update
        (insert_into_auxmap_L1_at_loop AUXMAP_L1_INSERT_IX (N_AUXMAP_L1 - 1) l1)
        AUXMAP_L1_INSERT_IX e n
      = if n = AUXMAP_L1_INSERT_IX then e
        else if AUXMAP_L1_INSERT_IX < n then l1 (n - 1) else l1 n := by
  by_cases h1 : n = AUXMAP_L1_INSERT_IX
  · rw [if_pos h1, h1, Function.update_same]
  · rw [if_neg h1, Function.update_noteq h1, insert_loop_eq]
    have h24 : N_AUXMAP_L1 = 24 := rfl
    by_cases h2 : AUXMAP_L1_INSERT_IX < n
    · rw [if_pos h2, if_pos ⟨h2, by omega⟩]
    · rw [if_neg h2, if_neg (fun h => h2 h.1)]

theorem L1Nodup_insert (l1 : Nat → AuxL1Ent) (key : Nat) (ent : Option Nat)
    (hd : L1Nodup l1)
    (hmiss : ∀ i, i < N_AUXMAP_L1 → (l1 i).base ≠ key) :
    L1Nodup (Function.update
      (insert_into_auxmap_L1_at_loop AUXMAP_L1_INSERT_IX (N_AUXMAP_L1 - 1) l1)
      AUXMAP_L1_INSERT_IX { base := key, ent := ent }) := by
  have h24 : N_AUXMAP_L1 = 24 := rfl
  have h12 : AUXMAP_L1_INSERT_IX = 12 := rfl
  intro n m hn hm hne he
  rw [insert_eq _ _ n hn] at hne he
  rw [insert_eq _ _ m hm] at he
  by_cases hn12 : n = AUXMAP_L1_INSERT_IX
  · rw [if_pos hn12] at he
    by_cases hm12 : m = AUXMAP_L1_INSERT_IX
    · rw [hn12, hm12]
    · rw [if_neg hm12] at he
      exfalso
      by_cases hgt : AUXMAP_L1_INSERT_IX < m
      · rw [if_pos hgt] at he
        exact hmiss (m - 1) (by omega) he.symm
      · rw [if_neg hgt] at he
        exact hmiss m hm he.symm
  · rw [if_neg hn12] at hne he
    by_cases hm12 : m = AUXMAP_L1_INSERT_IX
    · rw [if_pos hm12] at he
      exfalso
      by_cases hgt : AUXMAP_L1_INSERT_IX < n
      · rw [if_pos hgt] at he
        exact hmiss (n - 1) (by omega) he
      · rw [if_neg hgt] at he
        exact hmiss n hn he
    · rw [if_neg hm12] at he
      by_cases hgn : AUXMAP_L1_INSERT_IX < n <;> by_cases hgm : AUXMAP_L1_INSERT_IX < m
      · rw [if_pos hgn] at hne he
        rw [if_pos hgm] at he
        have := hd (n - 1) (m - 1) (by omega) (by omega) hne he
        omega
      · rw [if_pos hgn] at hne he
        rw [if_neg hgm] at he
        have := hd (n - 1) m (by omega) hm hne he
        omega
      · rw [if_neg hgn] at hne he
        rw [if_pos hgm] at he
        have := hd n (m - 1) hn (by omega) hne he
        omega
      · rw [if_neg hgn] at hne he
        rw [if_neg hgm] at he
        exact hd n m hn hm hne he

theorem EntOk_some_of_base (t : OSet) (e : AuxL1Ent) (he : EntOk t e) (hb : e.base ≠ 0) :
    e.ent ≠ none := by
  intro hn
  unfold EntOk at he
  rw [hn] at he
  exact hb he

theorem maybe_find_in_auxmap_cache (ws : Nat) (s : State) (a : Nat)
    (hc : L1Coherent s) (hd : L1Nodup s.auxmap_L1)
    (ha : a > MAX_PRIMARY_ADDRESS ws) (hb : a &&& notWord ws 0xFFFF ≠ 0) :
    ∀ r s1, maybe_find_in_auxmap ws s a = some (r, s1) →
      L1Nodup s1.auxmap_L1 ∧
      (r = none → s1.auxmap_L1 = s.auxmap_L1 ∧
        ∀ i, i < N_AUXMAP_L1 → (s.auxmap_L1 i).base ≠ a &&& notWord ws 0xFFFF) := by
  intro r s1 h
  unfold maybe_find_in_auxmap at h
  rw [if_pos ha] at h
  generalize hkey : a &&& notWord ws 0xFFFF = key at hb h ⊢
  have hN : (0 : Nat) < N_AUXMAP_L1 := by decide
  have hN1 : (1 : Nat) < N_AUXMAP_L1 := by decide
  by_cases h0 : (s.auxmap_L1 0).base = key
  · simp only [h0, if_true] at h
    cases h
    exact ⟨hd, fun hr => absurd hr
      (EntOk_some_of_base _ _ (hc 0 hN) (by rw [h0]; exact hb))⟩
  · simp only [h0, if_false] at h
    by_cases h1 : (s.auxmap_L1 1).base = key
    · simp only [h1, if_true] at h
      cases h
      refine ⟨L1Nodup_swap s.auxmap_L1 0 1 hN hN1 hd, ?_⟩
      intro hr
      rw [Function.update_noteq (by decide), Function.update_same] at hr
      exact absurd hr (EntOk_some_of_base _ _ (hc 1 hN1) (by rw [h1]; exact hb))
    · simp only [h1, if_false] at h
      have hle := search_le s.auxmap_L1 key N_AUXMAP_L1 0
      have hfound := search_found s.auxmap_L1 key N_AUXMAP_L1 0
      have hmiss := search_miss s.auxmap_L1 key N_AUXMAP_L1 0
      generalize auxmap_L1_search s.auxmap_L1 key N_AUXMAP_L1 0 = i at hle hfound hmiss h
      simp only [Nat.zero_add] at hle hfound hmiss
      rw [if_pos hle] at h
      by_cases hi : i < N_AUXMAP_L1
      · rw [if_pos hi] at h
        have hbi := hfound hi
        have hsome := EntOk_some_of_base _ _ (hc i hi) (by rw [hbi]; exact hb)
        by_cases hpos : i > 0
        · rw [if_pos hpos] at h
          cases h
          refine ⟨L1Nodup_swap s.auxmap_L1 (i - 1) i (by omega) hi hd, ?_⟩
          intro hr
          rw [Function.update_noteq (by omega), Function.update_same] at hr
          exact absurd hr hsome
        · rw [if_neg hpos] at h
          cases h
          exact ⟨hd, fun hr => absurd hr hsome⟩
      · rw [if_neg hi] at h
        have hi24 : i = N_AUXMAP_L1 := by omega
        have hm := hmiss hi24
        cases hl : OSetGen_Lookup s.auxmap_L2 key with
        | none =>
          simp only [hl] at h
          cases h
          exact ⟨hd, fun _ => ⟨rfl, fun j hj => hm j (Nat.zero_le j) hj⟩⟩
        | some k =>
          simp only [hl] at h
          have hkb := (lookupIn_some _ _ _ _ hl).2
          have hk := (lookupIn_some _ _ _ _ hl).1
          unfold insert_into_auxmap_L1_at at h
          have hr : AUXMAP_L1_INSERT_IX < N_AUXMAP_L1 := by decide
          simp only [hr, hk, if_true] at h
          cases h
          refine ⟨?_, fun hr => by cases hr⟩
          exact L1Nodup_insert s.auxmap_L1 _ (some k) hd
            (fun j hj => by rw [hkb]; exact hm j (Nat.zero_le j) hj)

theorem key_aligned (ws : Nat) (hws : WordSizeOk ws) (a : Nat) (ha2 : a < 2 ^ WORD_BITS ws) :
    (a &&& notWord ws 0xFFFF) &&& 0xFFFF = 0 := by
  rw [region_mask ws hws a ha2]
  show a / 65536 * 65536 &&& (2 ^ 16 - 1) = 0
  rw [Nat.and_pow_two_sub_one_eq_mod]
  exact Nat.mul_mod_left _ _

theorem key_high (ws : Nat) (hws : WordSizeOk ws) (a : Nat)
    (ha : a > MAX_PRIMARY_ADDRESS ws) (ha2 : a < 2 ^ WORD_BITS ws) :
    MAX_PRIMARY_ADDRESS ws < a &&& notWord ws 0xFFFF := by
  rw [region_mask ws hws a ha2]
  have h1 : ¬ a / 65536 < N_PRIMARY_MAP ws := by
    intro h
    have := (le_MAX_iff ws hws a).mpr h
    omega
  have h2 : ¬ a / 65536 * 65536 ≤ MAX_PRIMARY_ADDRESS ws := by
    intro h
    have := (le_MAX_iff ws hws (a / 65536 * 65536)).mp h
    rw [Nat.mul_div_cancel _ (by decide)] at this
    exact h1 this
  omega

theorem AuxSane_maybe_find (ws : Nat) (hws : WordSizeOk ws) (s : State) (a : Nat)
    (h : AuxSane ws s) (ha : a > MAX_PRIMARY_ADDRESS ws) (ha2 : a < 2 ^ WORD_BITS ws) :
    ∃ r s1, maybe_find_in_auxmap ws s a = some (r, s1) ∧ AuxSane ws s1 ∧
      s1.auxmap_L2.size = s.auxmap_L2.size := by
  have hb := high_key_ne_zero ws hws a ha ha2
  obtain ⟨s1, h1, hco, hc1⟩ := maybe_find_in_auxmap_spec ws s a h.l1 h.l2 ha hb
  have hd1 := (maybe_find_in_auxmap_cache ws s a h.l1 h.l1nodup ha hb _ _ h1).1
  refine ⟨_, s1, h1, ⟨hc1, ?_, hd1, ?_, ?_, ?_, ?_⟩, by rw [hco.l2]⟩
  · rw [hco.l2]; exact h.l2
  · rw [hco.l2]; exact h.aligned
  · rw [hco.l2]; exact h.high
  · rw [hco.l2]; exact h.page
  · rw [hco.l2, hco.nodes]; exact h.count

theorem AuxSane_find_or_alloc (ws : Nat) (hws : WordSizeOk ws) (s : State) (a : Nat)
    (h : AuxSane ws s) (ha : a > MAX_PRIMARY_ADDRESS ws) (ha2 : a < 2 ^ WORD_BITS ws) :
    ∃ k s1, find_or_alloc_in_auxmap ws s a = some (k, s1) ∧ AuxSane ws s1 ∧
      s1.auxmap_L2.size ≤ s.auxmap_L2.size + 1 := by
  have hb := high_key_ne_zero ws hws a ha ha2
  have hal := key_aligned ws hws a ha2
  have hhi := key_high ws hws a ha ha2
  obtain ⟨s1, h1, hco, hc1⟩ := maybe_find_in_auxmap_spec ws s a h.l1 h.l2 ha hb
  obtain ⟨hd1, hnone⟩ := maybe_find_in_auxmap_cache ws s a h.l1 h.l1nodup ha hb _ _ h1
  unfold find_or_alloc_in_auxmap
  rw [h1]
  cases hl : OSetGen_Lookup s.auxmap_L2 (a &&& notWord ws 0xFFFF) with
  | some k =>
    dsimp only
    refine ⟨k, s1, rfl, ⟨hc1, ?_, hd1, ?_, ?_, ?_, ?_⟩, by rw [hco.l2]; omega⟩
    · rw [hco.l2]; exact h.l2
    · rw [hco.l2]; exact h.aligned
    · rw [hco.l2]; exact h.high
    · rw [hco.l2]; exact h.page
    · rw [hco.l2, hco.nodes]; exact h.count
  | none =>
    dsimp only
    obtain ⟨hl1, hmiss⟩ := hnone hl
    generalize hkey : a &&& notWord ws 0xFFFF = key at hb hl hal hhi hmiss ⊢
    have hr : AUXMAP_L1_INSERT_IX < N_AUXMAP_L1 := by decide
    have hsz : OSetGen_AllocNode s1.auxmap_L2 <
        (OSetGen_Insert s1.auxmap_L2
          { base := key, sm := SecMapPtr.distinguished SM_DIST_NOCHECK }).size := by
      unfold OSetGen_AllocNode OSetGen_Insert
      dsimp only
      omega
    have hc2 : L1Coherent { s1 with auxmap_L2 := (OSetGen_Insert s1.auxmap_L2
        ⟨key, SecMapPtr.distinguished SM_DIST_NOCHECK⟩) } :=
      L1Coherent_of_l2 s1 _ rfl (insert_grows _ _) hc1
    obtain ⟨s3, h3, hco3, hc3⟩ := insert_into_auxmap_L1_at_spec
      { s1 with auxmap_L2 := (OSetGen_Insert s1.auxmap_L2
        ⟨key, SecMapPtr.distinguished SM_DIST_NOCHECK⟩) }
      (OSetGen_AllocNode s1.auxmap_L2) hsz hc2
    have hl1_3 : s3.auxmap_L1 = Function.update
        (insert_into_auxmap_L1_at_loop AUXMAP_L1_INSERT_IX (N_AUXMAP_L1 - 1) s1.auxmap_L1)
        AUXMAP_L1_INSERT_IX { base := key, ent := some (OSetGen_AllocNode s1.auxmap_L2) } := by
      have h3e := h3
      unfold insert_into_auxmap_L1_at at h3e
      simp only [hr, hsz, if_true] at h3e
      cases h3e
      dsimp only
      unfold OSetGen_Insert OSetGen_AllocNode
      dsimp only
      rw [Function.update_same]
    rw [h3]
    dsimp only
    have hl2 : s3.auxmap_L2 = OSetGen_Insert s.auxmap_L2
        { base := key, sm := SecMapPtr.distinguished SM_DIST_NOCHECK } := by
      rw [hco3.l2]; dsimp only; rw [hco.l2]
    have hnode : ∀ k, k < s3.auxmap_L2.size →
        (k < s.auxmap_L2.size ∧ s3.auxmap_L2.nodes k = s.auxmap_L2.nodes k) ∨
        s3.auxmap_L2.nodes k = { base := key, sm := SecMapPtr.distinguished SM_DIST_NOCHECK } := by
      intro k hk
      rw [hl2] at hk ⊢
      unfold OSetGen_Insert at hk ⊢
      dsimp only at hk ⊢
      by_cases hks : k = s.auxmap_L2.size
      · right; rw [hks, Function.update_same]
      · left; exact ⟨by omega, by rw [Function.update_noteq hks]⟩
    refine ⟨_, _, rfl, ⟨hc3, ?_, ?_, ?_, ?_, ?_, ?_⟩, ?_⟩
    · show L2Nodup s3.auxmap_L2
      rw [hl2]
      exact L2Nodup_insert _ _ h.l2 hl
    · show L1Nodup s3.auxmap_L1
      rw [hl1_3]
      exact L1Nodup_insert s1.auxmap_L1 key _ hd1 (by rw [hl1]; exact hmiss)
    · intro k hk
      rcases hnode k hk with ⟨hk0, he⟩ | he
      · show (s3.auxmap_L2.nodes k).base &&& 0xFFFF = 0
        rw [he]; exact h.aligned k hk0
      · show (s3.auxmap_L2.nodes k).base &&& 0xFFFF = 0
        rw [he]; exact hal
    · intro k hk
      rcases hnode k hk with ⟨hk0, he⟩ | he
      · show MAX_PRIMARY_ADDRESS ws < (s3.auxmap_L2.nodes k).base
        rw [he]; exact h.high k hk0
      · show MAX_PRIMARY_ADDRESS ws < (s3.auxmap_L2.nodes k).base
        rw [he]; exact hhi
    · intro k hk
      rcases hnode k hk with ⟨hk0, he⟩ | he
      · show (s3.auxmap_L2.nodes k).sm ≠ SecMapPtr.null
        rw [he]; exact h.page k hk0
      · show (s3.auxmap_L2.nodes k).sm ≠ SecMapPtr.null
        rw [he]; intro hx; cases hx
    · show ulong_add s3.n_auxmap_L2_nodes 1 = s3.auxmap_L2.size % 2 ^ 64
      rw [hco3.nodes, hl2]
      show ulong_add s1.n_auxmap_L2_nodes 1 = (s.auxmap_L2.size + 1) % 2 ^ 64
      rw [hco.nodes, h.count]
      unfold ulong_add
      exact Nat.mod_add_mod _ _ _
    · show s3.auxmap_L2.size ≤ s.auxmap_L2.size + 1
      rw [hl2]
      exact Nat.le_refl _

theorem AuxSane_init (ws : Nat) : AuxSane ws (init_auxmap_L1_L2 static_storage) := by
  refine ⟨?_, ?_, ?_, ?_, ?_, ?_, rfl⟩
  · intro i hi
    show EntOk _ (if i < N_AUXMAP_L1 then _ else _)
    rw [if_pos hi]
    exact EntOk_empty _
  · intro j k hj
    exact absurd hj (Nat.not_lt_zero _)
  · intro i j hi _ hne
    exfalso
    apply hne
    show (if i < N_AUXMAP_L1 then ({ base := 0, ent := none } : AuxL1Ent) else _).base = 0
    rw [if_pos hi]
  · intro k hk
    exact absurd hk (Nat.not_lt_zero _)
  · intro k hk
    exact absurd hk (Nat.not_lt_zero _)
  · intro k hk
    exact absurd hk (Nat.not_lt_zero _)

theorem iter_length (t : OSet) : (OSetGen_iter t).length = t.size := by
  unfold OSetGen_iter
  rw [List.length_insertionSort, List.length_range]

theorem iter_mem (t : OSet) (k : Nat) (h : k ∈ OSetGen_iter t) : k < t.size := by
  unfold OSetGen_iter at h
  have := (List.perm_insertionSort _ _).mem_iff.mp h
  exact List.mem_range.mp this

theorem check_auxmap_L2_loop_ok (ws : Nat) (s : State) (h : AuxSane ws s) :
    ∀ (l : List Nat) (e f : Nat), e < 2 ^ WORD_BITS ws →
      (∀ k, k ∈ l → k < s.auxmap_L2.size) →
      ∃ f1, check_auxmap_L2_loop ws s l e f = (none, toWord ws (e + l.length), f1) := by
  intro l
  induction l with
  | nil =>
    intro e f he _
    refine ⟨f, ?_⟩
    unfold check_auxmap_L2_loop
    show (none, e, f) = (none, (e + 0) % 2 ^ WORD_BITS ws, f)
    rw [Nat.add_zero, Nat.mod_eq_of_lt he]
  | cons k rest ih =>
    intro e f _ hmem
    have hk := hmem k (List.mem_cons_self _ _)
    unfold check_auxmap_L2_loop
    dsimp only
    rw [if_neg (by rw [h.aligned k hk]; exact fun hx => hx rfl),
      if_neg (by have := h.high k hk; omega), if_neg (h.page k hk)]
    obtain ⟨f1, h1⟩ := ih (toWord ws (e + 1))
      (if !is_distinguished_sm (s.auxmap_L2.nodes k).sm then f + 1 else f)
      (Nat.mod_lt _ (Nat.pos_pow_of_pos _ (by decide)))
      (fun j hj => hmem j (List.mem_cons_of_mem _ hj))
    refine ⟨f1, ?_⟩
    rw [h1]
    show (none, ((e + 1) % 2 ^ WORD_BITS ws + rest.length) % 2 ^ WORD_BITS ws, f1)
      = (none, (e + (rest.length + 1)) % 2 ^ WORD_BITS ws, f1)
    rw [Nat.mod_add_mod, Nat.add_assoc, Nat.add_comm 1]

theorem check_auxmap_L1_loop_ok (ws : Nat) (s : State) (h : AuxSane ws s) :
    ∀ n i, i + n ≤ N_AUXMAP_L1 → check_auxmap_L1_loop ws s n i = some none := by
  intro n
  induction n with
  | zero => intro i _; rfl
  | succ n ih =>
    intro i hi
    unfold check_auxmap_L1_loop
    by_cases hemp : (s.auxmap_L1 i).base = 0 ∧ (s.auxmap_L1 i).ent = none
    · rw [if_pos hemp]
      exact ih (i + 1) (by omega)
    · rw [if_neg hemp]
      have hok := h.l1 i (by omega)
      unfold EntOk at hok
      cases hent : (s.auxmap_L1 i).ent with
      | none =>
        rw [hent] at hok
        exact absurd ⟨hok, hent⟩ hemp
      | some k =>
        rw [hent] at hok
        obtain ⟨hk, hbase⟩ := hok
        have hal := h.aligned k hk
        have hhi := h.high k hk
        have hlk := lookup_of_node s.auxmap_L2 h.l2 k hk
        rw [hbase] at hal hhi hlk
        rw [if_neg (by rw [hal]; exact fun hx => hx rfl), if_neg (by omega)]
        dsimp only
        rw [if_pos hk, if_neg (fun hx => hx hbase), hlk]
        dsimp only
        rw [if_neg (fun hx => hx rfl)]
        exact ih (i + 1) (by omega)

theorem check_auxmap_L1_dup_inner_ok (s : State) (hd : L1Nodup s.auxmap_L1) (i : Nat)
    (hi : i < N_AUXMAP_L1) (hne : (s.auxmap_L1 i).base ≠ 0) :
    ∀ n j, i < j → j + n ≤ N_AUXMAP_L1 → check_auxmap_L1_dup_inner s i n j = false := by
  intro n
  induction n with
  | zero => intro j _ _; rfl
  | succ n ih =>
    intro j hij hj
    unfold check_auxmap_L1_dup_inner
    by_cases h0 : (s.auxmap_L1 j).base = 0
    · rw [if_pos h0]
      exact ih (j + 1) (by omega) (by omega)
    · rw [if_neg h0]
      have hneq : ¬ (s.auxmap_L1 j).base = (s.auxmap_L1 i).base := by
        intro he
        have := hd i j hi (by omega) hne he.symm
        omega
      rw [if_neg hneq]
      exact ih (j + 1) (by omega) (by omega)

theorem check_auxmap_L1_dup_ok (s : State) (hd : L1Nodup s.auxmap_L1) :
    ∀ n i, i + n ≤ N_AUXMAP_L1 → check_auxmap_L1_dup s n i = false := by
  intro n
  induction n with
  | zero => intro i _; rfl
  | succ n ih =>
    intro i hi
    unfold check_auxmap_L1_dup
    by_cases h0 : (s.auxmap_L1 i).base = 0
    · rw [if_pos h0]
      exact ih (i + 1) (by omega)
    · rw [if_neg h0,
        check_auxmap_L1_dup_inner_ok s hd i (by omega) h0 (N_AUXMAP_L1 - (i + 1)) (i + 1)
          (by omega) (by omega)]
      exact ih (i + 1) (by omega)

theorem sanity_of_AuxSane (s : State) (h : AuxSane 8 s) :
    ∃ n, check_auxmap_L1_L2_sanity 8 s = some (none, n) := by
  obtain ⟨f1, hL2⟩ := check_auxmap_L2_loop_ok 8 s h (OSetGen_iter s.auxmap_L2) 0 0
    (by decide) (iter_mem s.auxmap_L2)
  refine ⟨f1, ?_⟩
  unfold check_auxmap_L1_L2_sanity
  rw [if_neg (by decide), hL2]
  dsimp only
  have hcount : ¬ toWord 8 (0 + (OSetGen_iter s.auxmap_L2).length) ≠ s.n_auxmap_L2_nodes := by
    rw [iter_length, h.count, Nat.zero_add]
    exact fun hx => hx rfl
  rw [if_neg hcount, check_auxmap_L1_loop_ok 8 s h N_AUXMAP_L1 0 (by omega)]
  dsimp only
  rw [check_auxmap_L1_dup_ok s h.l1nodup N_AUXMAP_L1 0 (by omega)]
  rfl

theorem run_auxmap_ops_sane (ws : Nat) (hws : WordSizeOk ws) :
    ∀ (ops : List AuxMapOp) (s : State), AuxSane ws s →
      (∀ op : AuxMapOp, op ∈ ops →
        MAX_PRIMARY_ADDRESS ws < op.addr ∧ op.addr < 2 ^ WORD_BITS ws) →
      ∃ s1, run_auxmap_ops ws s ops = some s1 ∧ AuxSane ws s1 ∧
        s1.auxmap_L2.size ≤ s.auxmap_L2.size + ops.length := by
  intro ops
  induction ops with
  | nil =>
    intro s h _
    exact ⟨s, rfl, h, Nat.le_refl _⟩
  | cons op ops ih =>
    intro s h hv
    have hop := hv op (List.mem_cons_self _ _)
    have hstep : ∃ s1, run_auxmap_op ws s op = some s1 ∧ AuxSane ws s1 ∧
        s1.auxmap_L2.size ≤ s.auxmap_L2.size + 1 := by
      cases op with
      | maybe_find_in_auxmap a =>
        obtain ⟨r, s1, h1, hs1, hsz⟩ := AuxSane_maybe_find ws hws s a h hop.1 hop.2
        exact ⟨s1, by show (maybe_find_in_auxmap ws s a).map Prod.snd = _; rw [h1]; rfl,
          hs1, by omega⟩
      | find_or_alloc_in_auxmap a =>
        obtain ⟨k, s1, h1, hs1, hsz⟩ := AuxSane_find_or_alloc ws hws s a h hop.1 hop.2
        exact ⟨s1, by show (find_or_alloc_in_auxmap ws s a).map Prod.snd = _; rw [h1]; rfl,
          hs1, hsz⟩
    obtain ⟨s1, h1, hs1, hsz1⟩ := hstep
    obtain ⟨s2, h2, hs2, hsz2⟩ := ih s1 hs1 (fun o ho => hv o (List.mem_cons_of_mem _ ho))
    refine ⟨s2, ?_, hs2, ?_⟩
    · unfold run_auxmap_ops
      rw [h1]
      exact h2
    · rw [List.length_cons]
      omega

/-- C12. Auxiliary map and front-cache representation invariant: from the state left by
`init_auxmap_L1_L2`, every sequence of `maybe_find_in_auxmap` and
`find_or_alloc_in_auxmap` calls with addresses above `MAX_PRIMARY_ADDRESS` runs to its end
in a 64-bit build, and in the state reached `check_auxmap_L1_L2_sanity` returns NULL:
every auxiliary node has a 64 KiB-aligned base above `MAX_PRIMARY_ADDRESS` and a non-NULL
page, `n_auxmap_L2_nodes` is the number of nodes (as a 64-bit counter), every front-cache
slot is `(base 0, ent NULL)` or refers to the auxiliary node with the same base, and no
two non-empty front-cache slots share a base. -/
theorem auxmap_sanity_reachable (ops : List AuxMapOp)
    (hv : ∀ op : AuxMapOp, op ∈ ops →
      MAX_PRIMARY_ADDRESS 8 < op.addr ∧ op.addr < 2 ^ WORD_BITS 8) :
    ∃ s1, run_auxmap_ops 8 (init_auxmap_L1_L2 static_storage) ops = some s1 ∧
      (∃ n, check_auxmap_L1_L2_sanity 8 s1 = some (none, n)) ∧
      (∀ k, k < s1.auxmap_L2.size →
        (s1.auxmap_L2.nodes k).base &&& 0xFFFF = 0 ∧
        MAX_PRIMARY_ADDRESS 8 < (s1.auxmap_L2.nodes k).base ∧
        (s1.auxmap_L2.nodes k).sm ≠ SecMapPtr.null) ∧
      s1.n_auxmap_L2_nodes = s1.auxmap_L2.size % 2 ^ 64 ∧
      (ops.length < 2 ^ 64 → s1.n_auxmap_L2_nodes = s1.auxmap_L2.size) ∧
      (∀ i, i < N_AUXMAP_L1 →
        s1.auxmap_L1 i = { base := 0, ent := none } ∨
        ∃ k, k < s1.auxmap_L2.size ∧
          s1.auxmap_L1 i = { base := (s1.auxmap_L2.nodes k).base, ent := some k }) ∧
      (∀ i j, i < N_AUXMAP_L1 → j < N_AUXMAP_L1 → i ≠ j →
        (s1.auxmap_L1 i).base ≠ 0 → (s1.auxmap_L1 j).base ≠ 0 →
        (s1.auxmap_L1 i).base ≠ (s1.auxmap_L1 j).base) := by
  obtain ⟨s1, h1, hs, hsz⟩ :=
    run_auxmap_ops_sane 8 (Or.inr rfl) ops _ (AuxSane_init 8) hv
  refine ⟨s1, h1, sanity_of_AuxSane s1 hs,
    fun k hk => ⟨hs.aligned k hk, hs.high k hk, hs.page k hk⟩, hs.count, ?_, ?_, ?_⟩
  · intro hlen
    rw [hs.count]
    apply Nat.mod_eq_of_lt
    have h0 : (init_auxmap_L1_L2 static_storage).auxmap_L2.size = 0 := rfl
    omega
  · intro i hi
    have hok := hs.l1 i hi
    unfold EntOk at hok
    cases he : s1.auxmap_L1 i with
    | mk base ent =>
      rw [he] at hok
      cases ent with
      | none =>
        left
        dsimp only at hok
        rw [hok]
      | some k =>
        right
        dsimp only at hok
        exact ⟨k, hok.1, by rw [hok.2]⟩
  · intro i j hi hj hij hne _ he
    exact hij (hs.l1nodup i j hi hj hne he)

theorem auxmap_sanity_reachable_witness :
    ∃ s1, run_auxmap_ops 8 (init_auxmap_L1_L2 static_storage)
        [AuxMapOp.find_or_alloc_in_auxmap (2 ^ 40 + 5),
         AuxMapOp.maybe_find_in_auxmap (2 ^ 40 + 9),
         AuxMapOp.maybe_find_in_auxmap (2 ^ 50),
         AuxMapOp.find_or_alloc_in_auxmap (2 ^ 41)] = some s1 ∧
      ∃ n, check_auxmap_L1_L2_sanity 8 s1 = some (none, n) := by
  obtain ⟨s1, h1, h2, _⟩ := auxmap_sanity_reachable
    [AuxMapOp.find_or_alloc_in_auxmap (2 ^ 40 + 5),
     AuxMapOp.maybe_find_in_auxmap (2 ^ 40 + 9),
     AuxMapOp.maybe_find_in_auxmap (2 ^ 50),
     AuxMapOp.find_or_alloc_in_auxmap (2 ^ 41)]
    (by
      intro op hop
      simp only [List.mem_cons, List.mem_singleton, List.not_mem_nil, or_false] at hop
      rcases hop with rfl | rfl | rfl | rfl
      · exact ⟨by decide, by decide⟩
      · exact ⟨by decide, by decide⟩
      · exact ⟨by decide, by decide⟩
      · exact ⟨by decide, by decide⟩)
  exact ⟨s1, h1, h2⟩

theorem sanity_rejects_stale_slot :
    check_auxmap_L1_L2_sanity 8
        { init_auxmap_L1_L2 static_storage with
          auxmap_L1 := fun i => if i = 3 then { base := 2 ^ 40, ent := none }
                                else { base := 0, ent := none } }
      = some (some "64-bit: .ent is NULL in auxmap_L1", 0) := by
  decide

/-! ## Pages left by the byte loop -/

theorem store_abits8_maps (s : State) (sm : SecMapPtr) (off v : Nat) (s1 : State)
    (h : store_abits8 s sm off v = some s1) :
    s1.primary_map = s.primary_map ∧ s1.auxmap_L2 = s.auxmap_L2 := by
  unfold store_abits8 at h
  by_cases hoff : off < SM_CHUNKS
  · rw [if_pos hoff] at h
    cases sm with
    | null => cases h
    | distinguished i =>
      dsimp only at h
      by_cases hi : i < 3
      · rw [if_pos hi] at h
        cases h
        exact ⟨rfl, rfl⟩
      · rw [if_neg hi] at h
        cases h
    | allocated id =>
      dsimp only at h
      cases hh : s.heap id with
      | none => rw [hh] at h; cases h
      | some m =>
        rw [hh] at h
        cases h
        exact ⟨rfl, rfl⟩
  · rw [if_neg hoff] at h
    cases h

theorem set_abits2_pages (ws : Nat) (hws : WordSizeOk ws) (s : State) (a t : Nat)
    (hwf : WF ws s) (ha : a < 2 ^ WORD_BITS ws) (ht : t < 4) :
    ∃ id s1, set_abits2 ws s a t = some s1 ∧ WF ws s1 ∧
      smOf ws s1 a = SecMapPtr.allocated id ∧
      ∀ b, b < 2 ^ WORD_BITS ws → b / 65536 ≠ a / 65536 → smOf ws s1 b = smOf ws s b := by
  obtain ⟨s1, h1, hwf1, _⟩ := set_abits2_spec ws hws s a t hwf ha ht
  obtain ⟨id, sB, hB, _, hsmB, _, hoB, _⟩ := get_secmap_for_writing_spec ws hws s a hwf ha
  have hmaps : s1.primary_map = sB.primary_map ∧ s1.auxmap_L2 = sB.auxmap_L2 := by
    have h := h1
    unfold set_abits2 at h
    rw [hB] at h
    dsimp only at h
    cases hl : load_abits8 sB (SecMapPtr.allocated id) (SM_OFF a) with
    | none => rw [hl] at h; cases h
    | some v =>
      rw [hl] at h
      exact store_abits8_maps _ _ _ _ _ h
  have hsm : ∀ b, smOf ws s1 b = smOf ws sB b := by
    intro b
    unfold smOf
    rw [hmaps.1, hmaps.2]
  refine ⟨id, s1, h1, hwf1, by rw [hsm]; exact hsmB, ?_⟩
  intro b hb hne
  rw [hsm]
  exact hoB b hb hne

theorem set_address_range_perms_loop_pages (ws : Nat) (hws : WordSizeOk ws) (a t : Nat)
    (ht : t < 4) :
    ∀ n i s, WF ws s →
      ∃ s1, set_address_range_perms_loop ws a t n i s = some s1 ∧ WF ws s1 ∧
        ∀ b, b < 2 ^ WORD_BITS ws →
          ((∃ j, i ≤ j ∧ j < i + n ∧ toWord ws (a + j) / 65536 = b / 65536) ∨
            (∃ id, smOf ws s b = SecMapPtr.allocated id)) →
          ∃ id, smOf ws s1 b = SecMapPtr.allocated id := by
  intro n
  induction n with
  | zero =>
    intro i s hwf
    refine ⟨s, rfl, hwf, ?_⟩
    intro b _ h
    rcases h with ⟨j, h1, h2, _⟩ | h
    · omega
    · exact h
  | succ n ih =>
    intro i s hwf
    have hlt : toWord ws (a + i) < 2 ^ WORD_BITS ws :=
      Nat.mod_lt _ (Nat.pos_pow_of_pos _ (by decide))
    obtain ⟨id, sA, hA, hwfA, hsmA, hoA⟩ :=
      set_abits2_pages ws hws s (toWord ws (a + i)) t hwf hlt ht
    obtain ⟨s1, h1, hwf1, hp⟩ := ih (i + 1) sA hwfA
    refine ⟨s1, ?_, hwf1, ?_⟩
    · unfold set_address_range_perms_loop
      rw [hA]
      exact h1
    · intro b hb h
      apply hp b hb
      by_cases hr : b / 65536 = toWord ws (a + i) / 65536
      · right
        exact ⟨id, by rw [smOf_region ws hws sA b _ hb hlt hr]; exact hsmA⟩
      · rcases h with ⟨j, h1, h2, h3⟩ | ⟨id0, h0⟩
        · left
          have hji : j ≠ i := by
            intro he
            rw [he] at h3
            exact hr h3.symm
          exact ⟨j, by omega, by omega, h3⟩
        · right
          exact ⟨id0, by rw [hoA b hb hr]; exact h0⟩

theorem set_address_range_perms_pages (ws : Nat) (hws : WordSizeOk ws) (s : State)
    (a n abits16 dsm : Nat) (hwf : WF ws s)
    (hv : A_BITS16_NOCHECK = abits16 ∨ A_BITS16_UNWRITABLE = abits16 ∨
      A_BITS16_UNREFERABLE = abits16 ∨ A_BITS16_REFCHECK = abits16) :
    ∃ s1, set_address_range_perms ws s a n abits16 dsm = some s1 ∧ WF ws s1 ∧
      ∀ b, b < 2 ^ WORD_BITS ws →
        (∃ j, j < n ∧ toWord ws (a + j) / 65536 = b / 65536) →
        ∃ id, smOf ws s1 b = SecMapPtr.allocated id := by
  have ht : abits16 &&& 3 < 4 := by
    rw [and_three]; exact Nat.mod_lt _ (by norm_num)
  unfold set_address_range_perms
  dsimp only
  rw [if_pos hv]
  by_cases hn : n = 0
  · rw [if_pos hn]
    refine ⟨s, rfl, hwf, ?_⟩
    rintro b _ ⟨j, hj, _⟩
    omega
  · rw [if_neg hn]
    obtain ⟨s1, h1, hwf1, hp⟩ :=
      set_address_range_perms_loop_pages ws hws a (abits16 &&& 3) ht n 0 s hwf
    refine ⟨s1, h1, hwf1, ?_⟩
    rintro b hb ⟨j, hj, hjb⟩
    exact hp b hb (Or.inl ⟨j, by omega, by omega, hjb⟩)

/-- C15. Evaluation at the failing input: in a 64-bit build, after
`set_address_range_perms(2^36, 2^20, A_BITS16_NOCHECK, SM_DIST_NOCHECK)` as compiled by
default on the startup state, the auxiliary node of the region of every address of
`[2^36, 2^36 + 2^20)` exists and its page pointer is a privately allocated page, not the
distinguished NOCHECK page: the byte loop calls `set_abits2`, which copies the page of
every region it touches. -/
theorem default_paint_allocates_private_pages :
    ∃ s1, set_address_range_perms 8 (og_pre_clo_init 8) (2 ^ 36) (2 ^ 20) A_BITS16_NOCHECK
        SM_DIST_NOCHECK = some s1 ∧
      ∀ b, 2 ^ 36 ≤ b → b < 2 ^ 36 + 2 ^ 20 →
        ∃ k id, OSetGen_Lookup s1.auxmap_L2 (b &&& notWord 8 0xFFFF) = some k ∧
          (s1.auxmap_L2.nodes k).sm = SecMapPtr.allocated id ∧
          (s1.auxmap_L2.nodes k).sm ≠ SecMapPtr.distinguished SM_DIST_NOCHECK ∧
          is_distinguished_sm (s1.auxmap_L2.nodes k).sm = false := by
  obtain ⟨s1, h1, _, hp⟩ :=
    set_address_range_perms_pages 8 (Or.inr rfl) (og_pre_clo_init 8) (2 ^ 36) (2 ^ 20)
      A_BITS16_NOCHECK SM_DIST_NOCHECK (WF_startup 8) (Or.inl rfl)
  refine ⟨s1, h1, ?_⟩
  intro b hb1 hb2
  have hW : WORD_BITS 8 = 64 := rfl
  have hb : b < 2 ^ WORD_BITS 8 := by rw [hW]; omega
  obtain ⟨id, hsm⟩ := hp b hb ⟨b - 2 ^ 36, by omega, by
    have : 2 ^ 36 + (b - 2 ^ 36) = b := by omega
    rw [this]
    unfold toWord
    rw [Nat.mod_eq_of_lt hb]⟩
  unfold smOf at hsm
  rw [if_neg (by rw [MAX_PRIMARY_ADDRESS_eight]; omega)] at hsm
  unfold auxSm at hsm
  cases hl : OSetGen_Lookup s1.auxmap_L2 (b &&& notWord 8 0xFFFF) with
  | none =>
    rw [hl] at hsm
    cases hsm
  | some k =>
    rw [hl] at hsm
    dsimp only at hsm
    refine ⟨k, id, rfl, hsm, ?_, ?_⟩
    · rw [hsm]; intro hx; cases hx
    · rw [hsm]; rfl

/-! ## Looking up a map without allocating -/

theorem maybe_get_secmap_for_result (ws : Nat) (hws : WordSizeOk ws) (s : State) (a : Nat)
    (hwf : WF ws s) (ha : a < 2 ^ WORD_BITS ws) :
    ∃ r s1, maybe_get_secmap_for ws s a = some (r, s1) ∧ WF ws s1 ∧ CacheOnly s s1 ∧
      (r = SecMapPtr.null ↔
        (MAX_PRIMARY_ADDRESS ws < a ∧
          OSetGen_Lookup s.auxmap_L2 (a &&& notWord ws 0xFFFF) = none)) ∧
      (r ≠ SecMapPtr.null → r = smOf ws s a) := by
  unfold maybe_get_secmap_for
  by_cases hlow : a ≤ MAX_PRIMARY_ADDRESS ws
  · rw [if_pos hlow]
    unfold get_secmap_for_reading_low get_secmap_low_ptr
    have hlt : a >>> 16 < N_PRIMARY_MAP ws := by
      rw [Nat.shiftRight_eq_div_pow]
      exact (le_MAX_iff ws hws a).mp hlow
    have hl : load_slot ws s (SecMapSlot.primary (a >>> 16)) = some (s.primary_map (a >>> 16)) := by
      rw [load_slot_primary, if_pos hlt]
    rw [hl]
    have hv := hwf.valid _ _ hl
    have hsm : smOf ws s a = s.primary_map (a >>> 16) := by
      unfold smOf
      rw [if_pos hlow]
    refine ⟨_, s, rfl, hwf, CacheOnly_refl s, ?_, fun _ => hsm.symm⟩
    constructor
    · intro hnull
      rw [hnull] at hv
      exact absurd hv (by simp [ValidPtr])
    · rintro ⟨h1, _⟩
      omega
  · rw [if_neg hlow]
    obtain ⟨s1, h1, hco, hc1⟩ :=
      maybe_find_in_auxmap_spec ws s a hwf.l1 hwf.l2 (by omega)
        (high_key_ne_zero ws hws a (by omega) ha)
    have hwf1 : WF ws s1 :=
      WF_aux_step ws s s1 0 hwf hc1 (by rw [hco.l2]; exact hwf.l2) hco.heap hco.heap_next
        hco.primary (Or.inl hco.l2)
    rw [h1]
    cases hl : OSetGen_Lookup s.auxmap_L2 (a &&& notWord ws 0xFFFF) with
    | none =>
      refine ⟨_, s1, rfl, hwf1, hco, ?_, fun h => absurd rfl h⟩
      exact ⟨fun _ => ⟨by omega, rfl⟩, fun _ => rfl⟩
    | some k =>
      dsimp only
      have hk0 : k < s.auxmap_L2.size := (lookupIn_some _ _ _ _ hl).1
      have hk : k < s1.auxmap_L2.size := by rw [hco.l2]; exact hk0
      have hls : load_slot ws s (SecMapSlot.aux k) = some (s.auxmap_L2.nodes k).sm := by
        rw [load_slot_aux, if_pos hk0]
      have hv := hwf.valid _ _ hls
      rw [load_slot_aux, if_pos hk]
      have hsm : smOf ws s a = (s.auxmap_L2.nodes k).sm := by
        unfold smOf auxSm
        rw [if_neg hlow, hl]
      refine ⟨_, s1, rfl, hwf1, hco, ?_, fun _ => by rw [hco.l2, hsm]⟩
      constructor
      · intro hnull
        rw [hco.l2] at hnull
        rw [hnull] at hv
        exact absurd hv (by simp [ValidPtr])
      · rintro ⟨_, h2⟩
        cases h2

/-- C21. `maybe_get_secmap_for(a)` does not allocate: in every state satisfying the
representation invariant and for every address `a` the call returns and leaves the primary
map, the nodes of the auxiliary map, `n_auxmap_L2_nodes`, the heap of private pages and the
distinguished pages as they were (only the front-cache and its search counters can differ);
it returns NULL exactly when `a` is above `MAX_PRIMARY_ADDRESS` and the auxiliary map has
no node for the 64 KiB region of `a`, and otherwise it returns the page mapped for `a`. -/
theorem maybe_get_secmap_for_no_alloc (ws : Nat) (hws : WordSizeOk ws) (s : State) (a : Nat)
    (hwf : WF ws s) (ha : a < 2 ^ WORD_BITS ws) :
    ∃ r s1, maybe_get_secmap_for ws s a = some (r, s1) ∧
      s1.primary_map = s.primary_map ∧ s1.auxmap_L2 = s.auxmap_L2 ∧
      s1.n_auxmap_L2_nodes = s.n_auxmap_L2_nodes ∧
      s1.heap = s.heap ∧ s1.heap_next = s.heap_next ∧
      s1.sm_distinguished = s.sm_distinguished ∧
      (r = SecMapPtr.null ↔
        (MAX_PRIMARY_ADDRESS ws < a ∧
          OSetGen_Lookup s.auxmap_L2 (a &&& notWord ws 0xFFFF) = none)) ∧
      (r ≠ SecMapPtr.null → r = smOf ws s a ∧ contents s1 r = contents s (smOf ws s a)) ∧
      (∀ b, b < 2 ^ WORD_BITS ws → tag_at ws s1 b = tag_at ws s b) := by
  obtain ⟨r, s1, h1, hwf1, hco, hnull, hpage⟩ := maybe_get_secmap_for_result ws hws s a hwf ha
  refine ⟨r, s1, h1, hco.primary, hco.l2, hco.nodes, hco.heap, hco.heap_next, hco.dist,
    hnull, ?_, ?_⟩
  · intro hne
    have := hpage hne
    exact ⟨this, by rw [this]; exact contents_congr s s1 hco.dist hco.heap _⟩
  · intro b hb
    rw [tag_at_eq ws hws s1 b hwf1 hb, tag_at_eq ws hws s b hwf hb]
    rw [abits2_of_CacheOnly ws s s1 hco b]

theorem maybe_get_secmap_for_no_alloc_witness :
    ∃ r s1, maybe_get_secmap_for 8 (og_pre_clo_init 8) (2 ^ 40 + 5) = some (r, s1) ∧
      s1.primary_map = (og_pre_clo_init 8).primary_map ∧
      s1.auxmap_L2 = (og_pre_clo_init 8).auxmap_L2 ∧
      s1.n_auxmap_L2_nodes = (og_pre_clo_init 8).n_auxmap_L2_nodes ∧
      s1.heap = (og_pre_clo_init 8).heap ∧ s1.heap_next = (og_pre_clo_init 8).heap_next ∧
      s1.sm_distinguished = (og_pre_clo_init 8).sm_distinguished ∧
      (r = SecMapPtr.null ↔
        (MAX_PRIMARY_ADDRESS 8 < 2 ^ 40 + 5 ∧
          OSetGen_Lookup (og_pre_clo_init 8).auxmap_L2 ((2 ^ 40 + 5) &&& notWord 8 0xFFFF)
            = none)) ∧
      (r ≠ SecMapPtr.null → r = smOf 8 (og_pre_clo_init 8) (2 ^ 40 + 5) ∧
        contents s1 r = contents (og_pre_clo_init 8) (smOf 8 (og_pre_clo_init 8) (2 ^ 40 + 5))) ∧
      (∀ b, b < 2 ^ WORD_BITS 8 → tag_at 8 s1 b = tag_at 8 (og_pre_clo_init 8) b) :=
  maybe_get_secmap_for_no_alloc 8 (Or.inr rfl) (og_pre_clo_init 8) (2 ^ 40 + 5) (WF_startup 8)
    (by decide)

/-! ## What a lookup does to the front-cache -/

theorem search_first (l1 : Nat → AuxL1Ent) (a i : Nat) (hb : (l1 i).base = a) :
    ∀ n k, k ≤ i → i < k + n → (∀ j, k ≤ j → j < i → (l1 j).base ≠ a) →
      auxmap_L1_search l1 a n k = i := by
  intro n
  induction n with
  | zero => intro k h1 h2 _; omega
  | succ n ih =>
    intro k h1 h2 hf
    unfold auxmap_L1_search
    by_cases hk : k = i
    · rw [hk, if_pos hb]
    · rw [if_neg (hf k (Nat.le_refl k) (by omega))]
      exact ih (k + 1) (by omega) (by omega) (fun j hj1 hj2 => hf j (by omega) hj2)

theorem search_none (l1 : Nat → AuxL1Ent) (a : Nat) :
    ∀ n k, (∀ j, k ≤ j → j < k + n → (l1 j).base ≠ a) →
      auxmap_L1_search l1 a n k = k + n := by
  intro n
  induction n with
  | zero => intro k _; rfl
  | succ n ih =>
    intro k hf
    unfold auxmap_L1_search
    rw [if_neg (hf k (Nat.le_refl k) (by omega)),
      ih (k + 1) (fun j hj1 hj2 => hf j (by omega) (by omega))]
    omega

/-- C28. Self-organising cache hit: for every state and address `a` above
`MAX_PRIMARY_ADDRESS` whose base `a & ~0xFFFF` is found in the front-cache, first at index
`i`, `maybe_find_in_auxmap(a)` returns the `ent` of that slot and leaves a front-cache in
which slots `i-1` and `i` are exchanged when `i > 0` (slots 0 and 1 for `i = 1`) and nothing
is changed when `i = 0`: the hit entry moves one position toward the head, every other slot
keeps its content, and the new cache is the old one composed with the transposition of
`i-1` and `i`. The auxiliary map is not changed. -/
theorem maybe_find_in_auxmap_hit (ws : Nat) (s : State) (a i : Nat)
    (ha : a > MAX_PRIMARY_ADDRESS ws) (hi : i < N_AUXMAP_L1)
    (hbase : (s.auxmap_L1 i).base = a &&& notWord ws 0xFFFF)
    (hfirst : ∀ j, j < i → (s.auxmap_L1 j).base ≠ a &&& notWord ws 0xFFFF) :
    ∃ s1, maybe_find_in_auxmap ws s a = some ((s.auxmap_L1 i).ent, s1) ∧
      (i = 0 → s1.auxmap_L1 = s.auxmap_L1) ∧
      (0 < i → s1.auxmap_L1 (i - 1) = s.auxmap_L1 i ∧
        s1.auxmap_L1 i = s.auxmap_L1 (i - 1)) ∧
      (∀ j, j ≠ i → j ≠ i - 1 → s1.auxmap_L1 j = s.auxmap_L1 j) ∧
      (∀ j, s1.auxmap_L1 j = s.auxmap_L1 (Equiv.swap (i - 1) i j)) ∧
      s1.auxmap_L2 = s.auxmap_L2 ∧ s1.n_auxmap_L2_nodes = s.n_auxmap_L2_nodes ∧
      s1.primary_map = s.primary_map ∧ s1.heap = s.heap := by
  unfold maybe_find_in_auxmap
  rw [if_pos ha]
  generalize a &&& notWord ws 0xFFFF = key at hbase hfirst ⊢
  by_cases h0 : (s.auxmap_L1 0).base = key
  · have hi0 : i = 0 := by
      by_contra hne
      exact hfirst 0 (by omega) h0
    subst hi0
    simp only [h0, if_true]
    refine ⟨s, rfl, fun _ => rfl, fun h => absurd h (by omega), fun _ _ _ => rfl, ?_,
      rfl, rfl, rfl, rfl⟩
    intro j
    rw [Equiv.swap_self]
    rfl
  · simp only [h0, if_false]
    have hipos : 0 < i := by
      by_contra hne
      have : i = 0 := by omega
      rw [this] at hbase
      exact h0 hbase
    by_cases h1 : (s.auxmap_L1 1).base = key
    · have hi1 : i = 1 := by
        by_contra hne
        exact hfirst 1 (by omega) h1
      subst hi1
      simp only [h1, if_true]
      refine ⟨{ s with auxmap_L1 :=
          Function.update (Function.update s.auxmap_L1 0 (s.auxmap_L1 1)) 1 (s.auxmap_L1 0) },
        ?_, fun h => absurd h (by decide), fun _ => ⟨?_, ?_⟩, ?_, ?_, rfl, rfl, rfl, rfl⟩
      · rw [Function.update_noteq (by decide), Function.update_same]
      · show Function.update (Function.update s.auxmap_L1 0 (s.auxmap_L1 1)) 1
          (s.auxmap_L1 0) 0 = _
        rw [Function.update_noteq (by decide), Function.update_same]
      · show Function.update (Function.update s.auxmap_L1 0 (s.auxmap_L1 1)) 1
          (s.auxmap_L1 0) 1 = _
        rw [Function.update_same]
      · intro j hj1 hj0
        show Function.update (Function.update s.auxmap_L1 0 (s.auxmap_L1 1)) 1
          (s.auxmap_L1 0) j = _
        rw [Function.update_noteq hj1, Function.update_noteq hj0]
      · intro j
        exact swap_eq s.auxmap_L1 0 1 j
    · simp only [h1, if_false]
      have hsearch : auxmap_L1_search s.auxmap_L1 key N_AUXMAP_L1 0 = i :=
        search_first s.auxmap_L1 key i hbase N_AUXMAP_L1 0 (Nat.zero_le i) (by omega)
          (fun j _ hj => hfirst j hj)
      rw [hsearch, if_pos (Nat.le_of_lt hi), if_pos hi, if_pos hipos]
      refine ⟨{ s with
          auxmap_L1 := Function.update (Function.update s.auxmap_L1 (i - 1) (s.auxmap_L1 i)) i
            (s.auxmap_L1 (i - 1)),
          n_auxmap_L1_searches := ulong_add s.n_auxmap_L1_searches 1,
          n_auxmap_L1_cmps := ulong_add s.n_auxmap_L1_cmps (i + 1) },
        ?_, fun h => absurd h (by omega), fun _ => ⟨?_, ?_⟩, ?_, ?_, rfl, rfl, rfl, rfl⟩
      · dsimp only
        rw [Function.update_noteq (by omega), Function.update_same]
      · show Function.update (Function.update s.auxmap_L1 (i - 1) (s.auxmap_L1 i)) i
          (s.auxmap_L1 (i - 1)) (i - 1) = _
        rw [Function.update_noteq (by omega), Function.update_same]
      · show Function.update (Function.update s.auxmap_L1 (i - 1) (s.auxmap_L1 i)) i
          (s.auxmap_L1 (i - 1)) i = _
        rw [Function.update_same]
      · intro j hj1 hj0
        show Function.update (Function.update s.auxmap_L1 (i - 1) (s.auxmap_L1 i)) i
          (s.auxmap_L1 (i - 1)) j = _
        rw [Function.update_noteq hj1, Function.update_noteq hj0]
      · intro j
        exact swap_eq s.auxmap_L1 (i - 1) i j

theorem maybe_find_in_auxmap_hit_witness :
    ∃ s1, maybe_find_in_auxmap 8 cache_example (2 ^ 42 + 100)
        = some ((cache_example.auxmap_L1 5).ent, s1) ∧
      (5 = 0 → s1.auxmap_L1 = cache_example.auxmap_L1) ∧
      (0 < 5 → s1.auxmap_L1 (5 - 1) = cache_example.auxmap_L1 5 ∧
        s1.auxmap_L1 5 = cache_example.auxmap_L1 (5 - 1)) ∧
      (∀ j, j ≠ 5 → j ≠ 5 - 1 → s1.auxmap_L1 j = cache_example.auxmap_L1 j) ∧
      (∀ j, s1.auxmap_L1 j = cache_example.auxmap_L1 (Equiv.swap (5 - 1) 5 j)) ∧
      s1.auxmap_L2 = cache_example.auxmap_L2 ∧
      s1.n_auxmap_L2_nodes = cache_example.n_auxmap_L2_nodes ∧
      s1.primary_map = cache_example.primary_map ∧ s1.heap = cache_example.heap :=
  maybe_find_in_auxmap_hit 8 cache_example (2 ^ 42 + 100) 5 (by decide) (by decide)
    (by decide) (by decide)

/-- C29. Front-cache insertion on a cache miss: when the base of `a` (above
`MAX_PRIMARY_ADDRESS`) is in no front-cache slot, then (1) if the auxiliary map has a node
`k` for it, `maybe_find_in_auxmap` and `find_or_alloc_in_auxmap` both return `k` and place
`(base, k)` in slot 12, slots 0..11 unchanged, the former slots 12..22 moved to 13..23 and
the former slot 23 dropped, the auxiliary map unchanged; (2) if it has none,
`maybe_find_in_auxmap` returns a miss and leaves cache and auxiliary map unchanged, while
`find_or_alloc_in_auxmap` creates a node with base `a & ~0xFFFF` and the distinguished
NOCHECK page, adds it to the auxiliary map, increments `n_auxmap_L2_nodes` by one and
places it in slot 12 in the same way. -/
theorem auxmap_miss_insertion (ws : Nat) (s : State) (a : Nat)
    (ha : a > MAX_PRIMARY_ADDRESS ws)
    (hmiss : ∀ j, j < N_AUXMAP_L1 → (s.auxmap_L1 j).base ≠ a &&& notWord ws 0xFFFF) :
    (∀ k, OSetGen_Lookup s.auxmap_L2 (a &&& notWord ws 0xFFFF) = some k →
      ∃ s1, maybe_find_in_auxmap ws s a = some (some k, s1) ∧
        find_or_alloc_in_auxmap ws s a = some (k, s1) ∧
        s1.auxmap_L2 = s.auxmap_L2 ∧ s1.n_auxmap_L2_nodes = s.n_auxmap_L2_nodes ∧
        s1.auxmap_L1 12 = { base := a &&& notWord ws 0xFFFF, ent := some k } ∧
        (∀ j, j < 12 → s1.auxmap_L1 j = s.auxmap_L1 j) ∧
        (∀ j, 12 < j → j < 24 → s1.auxmap_L1 j = s.auxmap_L1 (j - 1))) ∧
    (OSetGen_Lookup s.auxmap_L2 (a &&& notWord ws 0xFFFF) = none →
      (∃ s1, maybe_find_in_auxmap ws s a = some (none, s1) ∧
        s1.auxmap_L1 = s.auxmap_L1 ∧ s1.auxmap_L2 = s.auxmap_L2 ∧
        s1.n_auxmap_L2_nodes = s.n_auxmap_L2_nodes) ∧
      (∃ s2, find_or_alloc_in_auxmap ws s a = some (s.auxmap_L2.size, s2) ∧
        s2.auxmap_L2 = OSetGen_Insert s.auxmap_L2
          { base := a &&& notWord ws 0xFFFF,
            sm := SecMapPtr.distinguished SM_DIST_NOCHECK } ∧
        s2.auxmap_L2.size = s.auxmap_L2.size + 1 ∧
        s2.auxmap_L2.nodes s.auxmap_L2.size
          = { base := a &&& notWord ws 0xFFFF,
              sm := SecMapPtr.distinguished SM_DIST_NOCHECK } ∧
        s2.n_auxmap_L2_nodes = ulong_add s.n_auxmap_L2_nodes 1 ∧
        s2.auxmap_L1 12
          = { base := a &&& notWord ws 0xFFFF, ent := some s.auxmap_L2.size } ∧
        (∀ j, j < 12 → s2.auxmap_L1 j = s.auxmap_L1 j) ∧
        (∀ j, 12 < j → j < 24 → s2.auxmap_L1 j = s.auxmap_L1 (j - 1)))) := by
  generalize hkey : a &&& notWord ws 0xFFFF = key at hmiss ⊢
  have h24 : N_AUXMAP_L1 = 24 := rfl
  have h12 : AUXMAP_L1_INSERT_IX = 12 := rfl
  have hr : AUXMAP_L1_INSERT_IX < N_AUXMAP_L1 := by decide
  have h0 := hmiss 0 (by decide)
  have h1 := hmiss 1 (by decide)
  have hsearch : auxmap_L1_search s.auxmap_L1 key N_AUXMAP_L1 0 = N_AUXMAP_L1 := by
    rw [search_none s.auxmap_L1 key N_AUXMAP_L1 0 (fun j _ hj => hmiss j (by omega))]
    omega
  have hslots : ∀ (e : AuxL1Ent),
      Function.update
          (insert_into_auxmap_L1_at_loop AUXMAP_L1_INSERT_IX (N_AUXMAP_L1 - 1) s.auxmap_L1)
          AUXMAP_L1_INSERT_IX e 12 = e ∧
      (∀ j, j < 12 → Function.update
          (insert_into_auxmap_L1_at_loop AUXMAP_L1_INSERT_IX (N_AUXMAP_L1 - 1) s.auxmap_L1)
          AUXMAP_L1_INSERT_IX e j = s.auxmap_L1 j) ∧
      (∀ j, 12 < j → j < 24 → Function.update
          (insert_into_auxmap_L1_at_loop AUXMAP_L1_INSERT_IX (N_AUXMAP_L1 - 1) s.auxmap_L1)
          AUXMAP_L1_INSERT_IX e j = s.auxmap_L1 (j - 1)) := by
    intro e
    refine ⟨?_, ?_, ?_⟩
    · rw [insert_eq _ _ 12 (by decide), if_pos h12.symm]
    · intro j hj
      rw [insert_eq _ _ j (by omega), if_neg (by omega), if_neg (by omega)]
    · intro j hj1 hj2
      rw [insert_eq _ _ j (by omega), if_neg (by omega), if_pos (by omega)]
  have hfind : ∀ k, OSetGen_Lookup s.auxmap_L2 key = some k →
      maybe_find_in_auxmap ws s a = some (some k,
        { s with
          auxmap_L1 := Function.update
            (insert_into_auxmap_L1_at_loop AUXMAP_L1_INSERT_IX (N_AUXMAP_L1 - 1) s.auxmap_L1)
            AUXMAP_L1_INSERT_IX { base := key, ent := some k },
          n_auxmap_L1_searches := ulong_add s.n_auxmap_L1_searches 1,
          n_auxmap_L1_cmps := ulong_add s.n_auxmap_L1_cmps (N_AUXMAP_L1 + 1),
          n_auxmap_L2_searches := ulong_add s.n_auxmap_L2_searches 1 }) := by
    intro k hl
    obtain ⟨hk, hkb⟩ := lookupIn_some _ _ _ _ hl
    unfold maybe_find_in_auxmap
    rw [if_pos ha, hkey, if_neg h0, if_neg h1]
    dsimp only
    rw [hsearch, if_pos (Nat.le_refl _), if_neg (Nat.lt_irrefl _), hl]
    unfold insert_into_auxmap_L1_at
    simp only [hr, hk, if_true, hkb]
  have hnone : OSetGen_Lookup s.auxmap_L2 key = none →
      maybe_find_in_auxmap ws s a = some (none,
        { s with
          n_auxmap_L1_searches := ulong_add s.n_auxmap_L1_searches 1,
          n_auxmap_L1_cmps := ulong_add s.n_auxmap_L1_cmps (N_AUXMAP_L1 + 1),
          n_auxmap_L2_searches := ulong_add s.n_auxmap_L2_searches 1 }) := by
    intro hl
    unfold maybe_find_in_auxmap
    rw [if_pos ha, hkey, if_neg h0, if_neg h1]
    dsimp only
    rw [hsearch, if_pos (Nat.le_refl _), if_neg (Nat.lt_irrefl _), hl]
  constructor
  · intro k hl
    have hf := hfind k hl
    obtain ⟨e1, e2, e3⟩ := hslots { base := key, ent := some k }
    refine ⟨_, hf, ?_, rfl, rfl, e1, e2, e3⟩
    unfold find_or_alloc_in_auxmap
    rw [hf]
  · intro hl
    have hf := hnone hl
    refine ⟨⟨_, hf, rfl, rfl, rfl⟩, ?_⟩
    obtain ⟨e1, e2, e3⟩ := hslots { base := key, ent := some s.auxmap_L2.size }
    unfold find_or_alloc_in_auxmap
    rw [hf]
    dsimp only
    rw [hkey]
    unfold insert_into_auxmap_L1_at
    have hsz : OSetGen_AllocNode s.auxmap_L2 <
        (OSetGen_Insert s.auxmap_L2
          { base := key, sm := SecMapPtr.distinguished SM_DIST_NOCHECK }).size := by
      unfold OSetGen_AllocNode OSetGen_Insert
      dsimp only
      omega
    have hnb : ((OSetGen_Insert s.auxmap_L2
        { base := key, sm := SecMapPtr.distinguished SM_DIST_NOCHECK }).nodes
          (OSetGen_AllocNode s.auxmap_L2))
        = { base := key, sm := SecMapPtr.distinguished SM_DIST_NOCHECK } := by
      unfold OSetGen_AllocNode OSetGen_Insert
      dsimp only
      rw [Function.update_same]
    simp only [hr, hsz, if_true, hnb]
    exact ⟨_, rfl, rfl, rfl, hnb, rfl, e1, e2, e3⟩

theorem auxmap_miss_insertion_witness :
    (∃ s1, maybe_find_in_auxmap 8 cache_example (2 ^ 43 + 8) = some (some 3, s1) ∧
      find_or_alloc_in_auxmap 8 cache_example (2 ^ 43 + 8) = some (3, s1) ∧
      s1.auxmap_L2 = cache_example.auxmap_L2 ∧
      s1.n_auxmap_L2_nodes = cache_example.n_auxmap_L2_nodes ∧
      s1.auxmap_L1 12 = { base := (2 ^ 43 + 8) &&& notWord 8 0xFFFF, ent := some 3 } ∧
      (∀ j, j < 12 → s1.auxmap_L1 j = cache_example.auxmap_L1 j) ∧
      (∀ j, 12 < j → j < 24 → s1.auxmap_L1 j = cache_example.auxmap_L1 (j - 1))) ∧
    (∃ s1, maybe_find_in_auxmap 8 cache_example (2 ^ 44) = some (none, s1) ∧
      s1.auxmap_L1 = cache_example.auxmap_L1 ∧ s1.auxmap_L2 = cache_example.auxmap_L2 ∧
      s1.n_auxmap_L2_nodes = cache_example.n_auxmap_L2_nodes) ∧
    (∃ s2, find_or_alloc_in_auxmap 8 cache_example (2 ^ 44)
        = some (cache_example.auxmap_L2.size, s2) ∧
      s2.auxmap_L2 = OSetGen_Insert cache_example.auxmap_L2
        { base := 2 ^ 44 &&& notWord 8 0xFFFF,
          sm := SecMapPtr.distinguished SM_DIST_NOCHECK } ∧
      s2.auxmap_L2.size = cache_example.auxmap_L2.size + 1 ∧
      s2.auxmap_L2.nodes cache_example.auxmap_L2.size
        = { base := 2 ^ 44 &&& notWord 8 0xFFFF,
            sm := SecMapPtr.distinguished SM_DIST_NOCHECK } ∧
      s2.n_auxmap_L2_nodes = ulong_add cache_example.n_auxmap_L2_nodes 1 ∧
      s2.auxmap_L1 12
        = { base := 2 ^ 44 &&& notWord 8 0xFFFF, ent := some cache_example.auxmap_L2.size } ∧
      (∀ j, j < 12 → s2.auxmap_L1 j = cache_example.auxmap_L1 j) ∧
      (∀ j, 12 < j → j < 24 → s2.auxmap_L1 j = cache_example.auxmap_L1 (j - 1))) :=
  ⟨(auxmap_miss_insertion 8 cache_example (2 ^ 43 + 8) (by decide) (by decide)).1 3
      (by decide),
   ((auxmap_miss_insertion 8 cache_example (2 ^ 44) (by decide) (by decide)).2
      (by decide)).1,
   ((auxmap_miss_insertion 8 cache_example (2 ^ 44) (by decide) (by decide)).2
      (by decide)).2⟩

/-! ## Error equality and error-kind names -/

theorem code_injective (k1 k2 : OgErrorKind) (h : k1.code = k2.code) : k1 = k2 := by
  cases k1 <;> cases k2 <;> first | rfl | (exact absurd h (by decide))

/-- C24. Error equality: for every two errors of kinds UnwritableErr or UnreferableErr,
`og_compare_error_contexts`, called on errors of the same kind, returns True exactly when
their addresses are equal, whatever the threads and the resolution asked for; so two
errors pass the kind test of the caller and the comparison of the tool exactly when they
have the same kind and the same address. -/
theorem error_equality (res : VgRes) (e1 e2 : Error)
    (h1 : e1.ekind = OgErrorKind.UnwritableErr.code ∨
      e1.ekind = OgErrorKind.UnreferableErr.code)
    (_h2 : e2.ekind = OgErrorKind.UnwritableErr.code ∨
      e2.ekind = OgErrorKind.UnreferableErr.code) :
    (e1.ekind = e2.ekind →
      og_compare_error_contexts res e1 e2 = some (decide (e1.addr = e2.addr))) ∧
    ((e1.ekind = e2.ekind ∧ og_compare_error_contexts res e1 e2 = some true) ↔
      (e1.ekind = e2.ekind ∧ e1.addr = e2.addr)) ∧
    (∀ (res2 : VgRes) (t1 t2 : Nat),
      og_compare_error_contexts res2 { e1 with tid := t1 } { e2 with tid := t2 }
        = og_compare_error_contexts res e1 e2) := by
  have hcmp : e1.ekind = e2.ekind →
      og_compare_error_contexts res e1 e2 = some (decide (e1.addr = e2.addr)) := by
    intro hk
    unfold og_compare_error_contexts
    rw [if_pos hk, if_pos h1]
    by_cases ha : e1.addr = e2.addr
    · simp [ha]
    · simp [ha]
  refine ⟨hcmp, ?_, fun _ _ _ => rfl⟩
  constructor
  · rintro ⟨hk, hc⟩
    rw [hcmp hk] at hc
    exact ⟨hk, of_decide_eq_true (Option.some.inj hc)⟩
  · rintro ⟨hk, ha⟩
    exact ⟨hk, by rw [hcmp hk, decide_eq_true ha]⟩

theorem error_equality_witness :
    (og_compare_error_contexts VgRes.Vg_LowRes
        (ErrorRec.toError { tid := 1, ekind := OgErrorKind.UnwritableErr, addr := 4096 })
        (ErrorRec.toError { tid := 2, ekind := OgErrorKind.UnwritableErr, addr := 4096 })
      = some (decide ((4096 : Nat) = 4096))) ∧
    (og_compare_error_contexts VgRes.Vg_HighRes
        (ErrorRec.toError { tid := 1, ekind := OgErrorKind.UnreferableErr, addr := 4096 })
        (ErrorRec.toError { tid := 1, ekind := OgErrorKind.UnreferableErr, addr := 4100 })
      = some (decide ((4096 : Nat) = 4100))) :=
  ⟨(error_equality VgRes.Vg_LowRes
      (ErrorRec.toError { tid := 1, ekind := OgErrorKind.UnwritableErr, addr := 4096 })
      (ErrorRec.toError { tid := 2, ekind := OgErrorKind.UnwritableErr, addr := 4096 })
      (Or.inl rfl) (Or.inl rfl)).1 rfl,
   (error_equality VgRes.Vg_HighRes
      (ErrorRec.toError { tid := 1, ekind := OgErrorKind.UnreferableErr, addr := 4096 })
      (ErrorRec.toError { tid := 1, ekind := OgErrorKind.UnreferableErr, addr := 4100 })
      (Or.inr rfl) (Or.inr rfl)).1 rfl⟩

/-- C25. Error-kind names round-trip: `og_is_recognized_suppression` accepts a name exactly
when it is "UnwritableMemoryError" or "UnreferableError" (and leaves the suppression alone
otherwise); for each of the two kinds `k`, `og_get_error_name` of an error of kind `k`
returns a name that is accepted and sets the suppression kind to `k`, after which
`og_error_matches_suppression` matches an error exactly when its kind is `k`. -/
theorem error_names_roundtrip :
    (∀ (name : String) (supp : Supp),
      ((og_is_recognized_suppression name supp).1 = true ↔
        (name = "UnwritableMemoryError" ∨ name = "UnreferableError")) ∧
      ((og_is_recognized_suppression name supp).1 = false →
        (og_is_recognized_suppression name supp).2 = supp)) ∧
    (∀ (k : OgErrorKind) (e : Error) (supp : Supp), e.ekind = k.code →
      ∃ name, og_get_error_name e = some name ∧
        (og_is_recognized_suppression name supp).1 = true ∧
        (og_is_recognized_suppression name supp).2.skind = k.code ∧
        ∀ e2 : Error,
          og_error_matches_suppression e2 (og_is_recognized_suppression name supp).2 = true
            ↔ e2.ekind = k.code) := by
  constructor
  · intro name supp
    unfold og_is_recognized_suppression
    by_cases h1 : name = STR_UnwritableError
    · rw [if_pos h1]
      exact ⟨⟨fun _ => Or.inl h1, fun _ => rfl⟩, fun h => by cases h⟩
    · rw [if_neg h1]
      by_cases h2 : name = STR_UnreferableError
      · rw [if_pos h2]
        exact ⟨⟨fun _ => Or.inr h2, fun _ => rfl⟩, fun h => by cases h⟩
      · rw [if_neg h2]
        refine ⟨⟨fun h => (by cases h), fun h => ?_⟩, fun _ => rfl⟩
        rcases h with h | h
        · exact absurd h h1
        · exact absurd h h2
  · intro k e supp hk
    have hrec2 : og_is_recognized_suppression STR_UnreferableError supp
        = (true, { supp with skind := OgErrorKind.UnreferableErr.code }) := by
      unfold og_is_recognized_suppression
      rw [if_neg (by decide), if_pos rfl]
    cases k with
    | UnwritableErr =>
      refine ⟨STR_UnwritableError, ?_, rfl, rfl, ?_⟩
      · unfold og_get_error_name
        rw [if_pos hk]
      · intro e2
        show decide (OgErrorKind.UnwritableErr.code = e2.ekind) = true ↔ _
        rw [decide_eq_true_iff]
        exact eq_comm
    | UnreferableErr =>
      refine ⟨STR_UnreferableError, ?_, ?_, ?_, ?_⟩
      · unfold og_get_error_name
        rw [if_neg (by rw [hk]; decide), if_pos hk]
      · rw [hrec2]
      · rw [hrec2]
      · intro e2
        rw [hrec2]
        show decide (OgErrorKind.UnreferableErr.code = e2.ekind) = true ↔ _
        rw [decide_eq_true_iff]
        exact eq_comm

theorem error_names_roundtrip_witness :
    ∃ name, og_get_error_name
        (ErrorRec.toError { tid := 1, ekind := OgErrorKind.UnreferableErr, addr := 4096 })
          = some name ∧
      (og_is_recognized_suppression name { skind := 0 }).1 = true ∧
      (og_is_recognized_suppression name { skind := 0 }).2.skind
        = OgErrorKind.UnreferableErr.code ∧
      ∀ e2 : Error,
        og_error_matches_suppression e2 (og_is_recognized_suppression name { skind := 0 }).2
            = true
          ↔ e2.ekind = OgErrorKind.UnreferableErr.code :=
  error_names_roundtrip.2 OgErrorKind.UnreferableErr
    (ErrorRec.toError { tid := 1, ekind := OgErrorKind.UnreferableErr, addr := 4096 })
    { skind := 0 } rfl

/-! ## Writing tags into a private page -/

theorem mod4_of_mod (b : Nat) : b % 65536 % 4 = b % 4 :=
  Nat.mod_mod_of_dvd b (by decide)

theorem tag_in_update_other (f : Nat → Nat) (off v b : Nat) (h : SM_OFF b ≠ off) :
    tag_in { abits8 := Function.update f off v } b = tag_in { abits8 := f } b := by
  unfold tag_in
  dsimp only
  rw [Function.update_noteq h]

theorem tag_in_update_same (f : Nat → Nat) (v b : Nat) :
    tag_in { abits8 := Function.update f (SM_OFF b) v } b = extract_abits2_from_abits8 b v := by
  unfold tag_in
  dsimp only
  rw [Function.update_same]

theorem Painted_empty (m : SecMap) (lo hi t : Nat) (h : hi ≤ lo) : Painted m m lo hi t := by
  intro b
  rw [if_neg (by omega)]

theorem Painted_trans (m m1 m2 : SecMap) (lo mid hi t : Nat) (h1 : Painted m m1 lo mid t)
    (h2 : Painted m1 m2 mid hi t) (hlo : lo ≤ mid) (hhi : mid ≤ hi) :
    Painted m m2 lo hi t := by
  intro b
  rw [h2 b]
  by_cases hb : mid ≤ b % 65536 ∧ b % 65536 < hi
  · rw [if_pos hb, if_pos (by omega)]
  · rw [if_neg hb, h1 b]
    by_cases hb1 : lo ≤ b % 65536 ∧ b % 65536 < mid
    · rw [if_pos hb1, if_pos (by omega)]
    · rw [if_neg hb1, if_neg (by omega)]

theorem Painted_insert (m : SecMap) (a t : Nat) (ht : t < 4) :
    Painted m
      { abits8 := Function.update m.abits8 (SM_OFF a)
          (insert_abits2_into_abits8 a t (m.abits8 (SM_OFF a))) }
      (a % 65536) (a % 65536 + 1) t := by
  intro b
  have hb4 := mod4_of_mod b
  have ha4 := mod4_of_mod a
  by_cases hb : a % 65536 ≤ b % 65536 ∧ b % 65536 < a % 65536 + 1
  · rw [if_pos hb]
    have heq : b % 65536 = a % 65536 := by omega
    have hoff : SM_OFF b = SM_OFF a := by rw [SM_OFF_eq, SM_OFF_eq, heq]
    rw [← hoff, tag_in_update_same, hoff, extract_abits2_mod, insert_abits2_mod]
    have h4 : b % 4 = a % 4 := by omega
    rw [h4]
    have := extract_insert_same (a % 4) t (m.abits8 (SM_OFF a) % 256) ht
    rw [extract_abits2_mod] at this
    rw [Nat.mod_mod] at this
    exact this
  · rw [if_neg hb]
    by_cases hoff : SM_OFF b = SM_OFF a
    · rw [← hoff, tag_in_update_same, hoff]
      have hne : a % 4 ≠ b % 4 := by
        rw [SM_OFF_eq, SM_OFF_eq] at hoff
        omega
      unfold tag_in
      rw [hoff]
      exact extract_insert_other a b t _ ht hne
    · rw [tag_in_update_other _ _ _ _ hoff]

theorem extract_const_small : ∀ t < 4, ∀ r < 4,
    extract_abits2_from_abits8 r (abits16_of_tag t % 256) = t ∧
    extract_abits2_from_abits8 r ((abits16_of_tag t >>> 8) % 256) = t := by
  decide

theorem extract_const (t b : Nat) (ht : t < 4) :
    extract_abits2_from_abits8 b (abits16_of_tag t % 256) = t ∧
    extract_abits2_from_abits8 b ((abits16_of_tag t >>> 8) % 256) = t := by
  have h := extract_const_small t ht (b % 4) (Nat.mod_lt _ (by decide))
  constructor
  · rw [extract_abits2_mod, Nat.mod_mod]
    exact h.1
  · rw [extract_abits2_mod, Nat.mod_mod]
    exact h.2

theorem SM_OFF_16_eq (a : Nat) : SM_OFF_16 a = a % 65536 / 8 := by
  unfold SM_OFF_16
  rw [Nat.shiftRight_eq_div_pow]
  show (a &&& (2 ^ 16 - 1)) / 2 ^ 3 = _
  rw [Nat.and_pow_two_sub_one_eq_mod]
  rfl

theorem Painted_store16 (m : SecMap) (a t : Nat) (ht : t < 4) (ha : a % 8 = 0) :
    Painted m
      { abits8 := Function.update
          (Function.update m.abits8 (2 * SM_OFF_16 a) (abits16_of_tag t % 256))
          (2 * SM_OFF_16 a + 1) ((abits16_of_tag t >>> 8) % 256) }
      (a % 65536) (a % 65536 + 8) t := by
  intro b
  have hk := SM_OFF_16_eq a
  have hob := SM_OFF_eq b
  have ha8 : a % 65536 % 8 = 0 := by
    rw [Nat.mod_mod_of_dvd a (by decide)]
    exact ha
  by_cases hb : a % 65536 ≤ b % 65536 ∧ b % 65536 < a % 65536 + 8
  · rw [if_pos hb]
    by_cases hhi : SM_OFF b = 2 * SM_OFF_16 a + 1
    · rw [← hhi, tag_in_update_same]
      exact (extract_const t b ht).2
    · have hlo : SM_OFF b = 2 * SM_OFF_16 a := by omega
      rw [tag_in_update_other _ _ _ _ hhi, ← hlo, tag_in_update_same]
      exact (extract_const t b ht).1
  · rw [if_neg hb]
    have h1 : SM_OFF b ≠ 2 * SM_OFF_16 a + 1 := by omega
    have h2 : SM_OFF b ≠ 2 * SM_OFF_16 a := by omega
    rw [tag_in_update_other _ _ _ _ h1, tag_in_update_other _ _ _ _ h2]

theorem load_abits8_page (s : State) (id : Nat) (m : SecMap) (off : Nat)
    (hm : s.heap id = some m) (hoff : off < SM_CHUNKS) :
    load_abits8 s (SecMapPtr.allocated id) off = some (m.abits8 off) := by
  unfold load_abits8
  rw [if_pos hoff]
  dsimp only
  rw [hm]

theorem store_abits8_page (s : State) (id : Nat) (m : SecMap) (off v : Nat)
    (hm : s.heap id = some m) (hoff : off < SM_CHUNKS) :
    store_abits8 s (SecMapPtr.allocated id) off v
      = some (set_page s id { abits8 := Function.update m.abits8 off v }) := by
  unfold store_abits8
  rw [if_pos hoff]
  dsimp only
  rw [hm]
  rfl

theorem set_page_heap (s : State) (id : Nat) (m : SecMap) :
    (set_page s id m).heap id = some m := by
  unfold set_page
  dsimp only
  rw [Function.update_same]

theorem set_page_set_page (s : State) (id : Nat) (m m1 : SecMap) :
    set_page (set_page s id m) id m1 = set_page s id m1 := by
  unfold set_page
  dsimp only
  rw [Function.update_idem]

theorem insert_abits2_at_page (s : State) (id : Nat) (m : SecMap) (a t : Nat)
    (hm : s.heap id = some m) :
    insert_abits2_at s (SecMapPtr.allocated id) a t
      = some (set_page s id
          { abits8 := Function.update m.abits8 (SM_OFF a)
              (insert_abits2_into_abits8 a t (m.abits8 (SM_OFF a))) }) := by
  unfold insert_abits2_at
  dsimp only
  rw [load_abits8_page s id m _ hm (SM_OFF_lt a)]
  dsimp only
  rw [store_abits8_page s id m _ _ hm (SM_OFF_lt a)]

theorem store_abits16_page (s : State) (id : Nat) (m : SecMap) (off16 c : Nat)
    (hm : s.heap id = some m) (hoff : off16 < 8192) :
    store_abits16 s (SecMapPtr.allocated id) off16 c
      = some (set_page s id
          { abits8 := Function.update (Function.update m.abits8 (2 * off16) (c % 256))
              (2 * off16 + 1) ((c >>> 8) % 256) }) := by
  have hC : SM_CHUNKS = 16384 := rfl
  unfold store_abits16
  rw [store_abits8_page s id m _ _ hm (by omega)]
  dsimp only
  rw [store_abits8_page _ id _ _ _ (set_page_heap s id _) (by omega), set_page_set_page]

theorem SM_OFF_16_lt (a : Nat) : SM_OFF_16 a < 8192 := by
  rw [SM_OFF_16_eq]
  have := Nat.mod_lt a (show 0 < 65536 by decide)
  omega

theorem set_page_self (s : State) (id : Nat) (m : SecMap) (hm : s.heap id = some m) :
    set_page s id m = s := by
  unfold set_page
  rw [← hm, Function.update_eq_self]

theorem smOf_set_page (ws : Nat) (s : State) (id : Nat) (m : SecMap) (b : Nat) :
    smOf ws (set_page s id m) b = smOf ws s b := rfl

theorem abits2_of_set_page (ws : Nat) (s : State) (id : Nat) (m1 : SecMap) (b : Nat) :
    abits2_of ws (set_page s id m1) b
      = if smOf ws s b = SecMapPtr.allocated id then tag_in m1 b else abits2_of ws s b := by
  unfold abits2_of abits8_of
  rw [smOf_set_page]
  by_cases h : smOf ws s b = SecMapPtr.allocated id
  · rw [if_pos h, h, contents_allocated, set_page_heap]
    rfl
  · rw [if_neg h]
    cases hp : smOf ws s b with
    | null => rfl
    | distinguished i => rfl
    | allocated j =>
      have hj : j ≠ id := by
        intro he
        rw [hp, he] at h
        exact h rfl
      rw [contents_allocated, contents_allocated]
      unfold set_page
      dsimp only
      rw [Function.update_noteq hj]

theorem abits2_of_page (ws : Nat) (s : State) (id : Nat) (m : SecMap) (b : Nat)
    (hsm : smOf ws s b = SecMapPtr.allocated id) (hm : s.heap id = some m) :
    abits2_of ws s b = tag_in m b := by
  unfold abits2_of abits8_of
  rw [hsm, contents_allocated, hm]
  rfl

theorem WF_set_page (ws : Nat) (s : State) (id : Nat) (m1 : SecMap) (hwf : WF ws s)
    (hlive : s.heap id ≠ none) : WF ws (set_page s id m1) := by
  refine ⟨hwf.l1, hwf.l2, ?_, hwf.noalias, ?_⟩
  · intro p v hv
    have := hwf.valid p v hv
    cases v with
    | null => exact this
    | distinguished i => exact this
    | allocated j =>
      show Function.update s.heap id _ j ≠ none
      by_cases hj : j = id
      · rw [hj, Function.update_same]; simp
      · rw [Function.update_noteq hj]; exact this
  · intro j hj
    show Function.update s.heap id _ j = none
    have hne : j ≠ id := by
      intro h
      rw [h] at hj
      exact hlive (hwf.fresh id hj)
    rw [Function.update_noteq hne]
    exact hwf.fresh j hj

theorem page_of_region (ws : Nat) (hws : WordSizeOk ws) (s : State) (hwf : WF ws s)
    (a b id : Nat) (ha : a < 2 ^ WORD_BITS ws) (hb : b < 2 ^ WORD_BITS ws)
    (hsm : smOf ws s a = SecMapPtr.allocated id) :
    smOf ws s b = SecMapPtr.allocated id ↔ b / 65536 = a / 65536 := by
  constructor
  · intro h
    exact smOf_noalias ws hws s hwf b a hb ha id h hsm
  · intro h
    rw [smOf_region ws hws s b a hb ha h]
    exact hsm

theorem page_live (ws : Nat) (hws : WordSizeOk ws) (s : State) (hwf : WF ws s) (a id : Nat)
    (hsm : smOf ws s a = SecMapPtr.allocated id) : ∃ m, s.heap id = some m := by
  have hv := smOf_valid ws hws s hwf a
  rw [hsm] at hv
  cases hh : s.heap id with
  | none => exact absurd hh hv
  | some m => exact ⟨m, rfl⟩

theorem word_pow_dvd (ws : Nat) (hws : WordSizeOk ws) : 65536 ∣ 2 ^ WORD_BITS ws := by
  rcases hws with h | h
  · rw [h]; exact ⟨65536, by decide⟩
  · rw [h]; exact ⟨281474976710656, by decide⟩

theorem region_end_le (ws : Nat) (hws : WordSizeOk ws) (a : Nat) (ha : a < 2 ^ WORD_BITS ws) :
    a - a % 65536 + 65536 ≤ 2 ^ WORD_BITS ws := by
  obtain ⟨k, hk⟩ := word_pow_dvd ws hws
  have h1 := Nat.div_add_mod a 65536
  have h2 : a / 65536 < k := by
    by_contra hc
    have : k ≤ a / 65536 := by omega
    have := Nat.mul_le_mul_left 65536 this
    omega
  have h3 := Nat.mul_le_mul_left 65536 (show a / 65536 + 1 ≤ k by omega)
  omega

theorem toWord_of_lt (ws x : Nat) (h : x < 2 ^ WORD_BITS ws) : toWord ws x = x :=
  Nat.mod_eq_of_lt h

theorem toWord_add_toWord (ws x y : Nat) : toWord ws (toWord ws x + y) = toWord ws (x + y) := by
  unfold toWord
  rw [Nat.mod_add_mod]

theorem sarp_1_byte_steps_page (ws : Nat) (hws : WordSizeOk ws) (id t : Nat) (ht : t < 4) :
    ∀ len a s m, s.heap id = some m → a < 2 ^ WORD_BITS ws → a % 65536 + len ≤ 65536 →
      ∃ m1, sarp_1_byte_steps ws (SecMapPtr.allocated id) t len a s
          = some (toWord ws (a + len), 0, set_page s id m1) ∧
        Painted m m1 (a % 65536) (a % 65536 + len) t := by
  intro len
  induction len with
  | zero =>
    intro a s m hm ha _
    refine ⟨m, ?_, Painted_empty m _ _ t (Nat.le_refl _)⟩
    unfold sarp_1_byte_steps
    rw [set_page_self s id m hm, Nat.add_zero, toWord_of_lt ws a ha]
  | succ len ih =>
    intro a s m hm ha hlen
    unfold sarp_1_byte_steps
    rw [insert_abits2_at_page s id m a t hm]
    dsimp only
    have hend := region_end_le ws hws a ha
    have hmod := Nat.mod_le a 65536
    by_cases hl0 : len = 0
    · subst hl0
      refine ⟨_, ?_, Painted_insert m a t ht⟩
      unfold sarp_1_byte_steps
      rfl
    · have ha1 : a + 1 < 2 ^ WORD_BITS ws := by omega
      have hmod1 : (a + 1) % 65536 = a % 65536 + 1 := by
        rw [Nat.add_mod]
        have : a % 65536 + 1 < 65536 := by omega
        rw [Nat.mod_eq_of_lt (show 1 % 65536 = 1 by decide ▸ this)]
      obtain ⟨m1, h1, hp1⟩ := ih (toWord ws (a + 1)) (set_page s id _) _
        (set_page_heap s id _) (Nat.mod_lt _ (Nat.pos_pow_of_pos _ (by decide)))
        (by rw [toWord_of_lt ws _ ha1, hmod1]; omega)
      rw [toWord_of_lt ws _ ha1] at h1 hp1
      rw [toWord_of_lt ws _ ha1, h1, set_page_set_page]
      refine ⟨m1, by rw [Nat.add_assoc, Nat.add_comm 1 len], ?_⟩
      rw [hmod1] at hp1
      have := Painted_trans m _ m1 (a % 65536) (a % 65536 + 1) (a % 65536 + (len + 1)) t
        (Painted_insert m a t ht) (by rw [show a % 65536 + (len + 1) = a % 65536 + 1 + len by omega]; exact hp1)
        (by omega) (by omega)
      exact this

/-! ## The 16-bit write of the range painter -/

theorem mod_region (a b : Nat) (hr : b / 65536 = a / 65536) :
    b % 65536 + a = a % 65536 + b := by
  have h1 := Nat.div_add_mod a 65536
  have h2 := Nat.div_add_mod b 65536
  rw [hr] at h2
  omega

theorem tag_set_page_painted (ws : Nat) (hws : WordSizeOk ws) (s : State) (hwf : WF ws s)
    (a id : Nat) (m m1 : SecMap) (lo hi t : Nat) (ha : a < 2 ^ WORD_BITS ws)
    (hsm : smOf ws s a = SecMapPtr.allocated id) (hm : s.heap id = some m)
    (hp : Painted m m1 lo hi t) (b : Nat) (hb : b < 2 ^ WORD_BITS ws) :
    abits2_of ws (set_page s id m1) b
      = if b / 65536 = a / 65536 ∧ lo ≤ b % 65536 ∧ b % 65536 < hi then t
        else abits2_of ws s b := by
  rw [abits2_of_set_page]
  by_cases hr : b / 65536 = a / 65536
  · have hb2 := (page_of_region ws hws s hwf a b id ha hb hsm).mpr hr
    rw [if_pos hb2, hp b, abits2_of_page ws s id m b hb2 hm]
    by_cases hin : lo ≤ b % 65536 ∧ b % 65536 < hi
    · rw [if_pos hin, if_pos ⟨hr, hin⟩]
    · rw [if_neg hin, if_neg (fun h => hin h.2)]
  · have hb2 : ¬ smOf ws s b = SecMapPtr.allocated id :=
      fun h => hr ((page_of_region ws hws s hwf a b id ha hb hsm).mp h)
    rw [if_neg hb2, if_neg (fun h => hr h.1)]

theorem store_abits16_painted (s : State) (id : Nat) (m : SecMap) (a t : Nat)
    (hm : s.heap id = some m) (ht : t < 4) (ha : a % 8 = 0) :
    ∃ m1, store_abits16 s (SecMapPtr.allocated id) (SM_OFF_16 a) (abits16_of_tag t)
        = some (set_page s id m1) ∧
      Painted m m1 (a % 65536) (a % 65536 + 8) t :=
  ⟨_, store_abits16_page s id m (SM_OFF_16 a) (abits16_of_tag t) hm (SM_OFF_16_lt a),
    Painted_store16 m a t ht ha⟩

/-- C30 (counterexample). In the state after `get_secmap_for_writing(0)` at startup, the
16-bit write of `A_BITS16_UNWRITABLE` at `SM_OFF_16(0)` leaves address 8 tagged NOCHECK,
whereas setting the tag of each of the 32 addresses 0 .. 31 tags address 8 UNWRITABLE. -/
theorem store_abits16_not_32_addresses :
    ((get_secmap_for_writing 8 (og_pre_clo_init 8) 0).bind (fun r =>
        (store_abits16 r.2 r.1 (SM_OFF_16 0) A_BITS16_UNWRITABLE).bind (fun s1 =>
          tag_at 8 s1 8))) = some A_BITS2_NOCHECK ∧
    ((get_secmap_for_writing 8 (og_pre_clo_init 8) 0).bind (fun r =>
        (sarp_1_byte_steps 8 r.1 A_BITS2_UNWRITABLE 32 0 r.2).bind (fun r1 =>
          tag_at 8 r1.2.2 8))) = some A_BITS2_UNWRITABLE := by
  constructor <;> decide

/-- C30 (amended). Eight-byte write coverage: for every state satisfying the representation
invariant, every 8-aligned address `a` whose 64 KiB region has a private page
`allocated id`, and every tag `t`, the 16-bit write of the constant of `t` at index
`SM_OFF_16(a)` of that page and the eight two-bit writes of `t` for `a .. a+7` both
succeed and leave the same tag at every address: `t` at each of the 8 addresses
`a .. a+7`, and the tag held before at every other address. -/
theorem store_abits16_covers_eight (ws : Nat) (hws : WordSizeOk ws) (s : State)
    (hwf : WF ws s) (a id t : Nat) (ha : a < 2 ^ WORD_BITS ws) (ha8 : a % 8 = 0)
    (ht : t < 4) (hpage : smOf ws s a = SecMapPtr.allocated id) :
    ∃ s16 s8,
      store_abits16 s (SecMapPtr.allocated id) (SM_OFF_16 a) (abits16_of_tag t) = some s16 ∧
      sarp_1_byte_steps ws (SecMapPtr.allocated id) t 8 a s
        = some (toWord ws (a + 8), 0, s8) ∧
      (∀ b, b < 2 ^ WORD_BITS ws → tag_at ws s16 b = tag_at ws s8 b) ∧
      (∀ b, a ≤ b → b < a + 8 → tag_at ws s16 b = some t) ∧
      (∀ b, b < 2 ^ WORD_BITS ws → (b < a ∨ a + 8 ≤ b) → tag_at ws s16 b = tag_at ws s b) := by
  obtain ⟨m, hm⟩ := page_live ws hws s hwf a id hpage
  have hlive : s.heap id ≠ none := by rw [hm]; simp
  have hmod8 : a % 65536 % 8 = 0 := by
    rw [Nat.mod_mod_of_dvd a (by decide)]
    exact ha8
  have hmodlt := Nat.mod_lt a (show 0 < 65536 by decide)
  have hfit : a % 65536 + 8 ≤ 65536 := by omega
  have hend := region_end_le ws hws a ha
  have hmodle := Nat.mod_le a 65536
  obtain ⟨m8, h8, hp8⟩ := sarp_1_byte_steps_page ws hws id t ht 8 a s m hm ha hfit
  obtain ⟨m16, h16, hp16⟩ := store_abits16_painted s id m a t hm ht ha8
  have hwf16 := WF_set_page ws s id m16 hwf hlive
  have hwf8 := WF_set_page ws s id m8 hwf hlive
  have key16 := tag_set_page_painted ws hws s hwf a id m m16 _ _ t ha hpage hm hp16
  have key8 := tag_set_page_painted ws hws s hwf a id m m8 _ _ t ha hpage hm hp8
  refine ⟨_, _, h16, h8, ?_, ?_, ?_⟩
  · intro b hb
    rw [tag_at_eq ws hws _ b hwf16 hb, tag_at_eq ws hws _ b hwf8 hb, key16 b hb, key8 b hb]
  · intro b hb1 hb2
    have hb : b < 2 ^ WORD_BITS ws := by omega
    have hr : b / 65536 = a / 65536 := by
      have h1 := Nat.div_add_mod a 65536
      have h2 := Nat.div_add_mod b 65536
      omega
    have hmr := mod_region a b hr
    rw [tag_at_eq ws hws _ b hwf16 hb, key16 b hb, if_pos ⟨hr, by omega, by omega⟩]
  · intro b hb hout
    rw [tag_at_eq ws hws _ b hwf16 hb, tag_at_eq ws hws s b hwf hb, key16 b hb]
    by_cases hr : b / 65536 = a / 65536
    · have hmr := mod_region a b hr
      rw [if_neg (by omega)]
    · rw [if_neg (fun h => hr h.1)]

theorem store_abits16_covers_eight_witness :
    ∃ id s, get_secmap_for_writing 8 (og_pre_clo_init 8) 4096
        = some (SecMapPtr.allocated id, s) ∧
      ∃ s16 s8,
        store_abits16 s (SecMapPtr.allocated id) (SM_OFF_16 4096)
          (abits16_of_tag A_BITS2_UNWRITABLE) = some s16 ∧
        sarp_1_byte_steps 8 (SecMapPtr.allocated id) A_BITS2_UNWRITABLE 8 4096 s
          = some (toWord 8 (4096 + 8), 0, s8) ∧
        (∀ b, b < 2 ^ WORD_BITS 8 → tag_at 8 s16 b = tag_at 8 s8 b) ∧
        (∀ b, 4096 ≤ b → b < 4096 + 8 → tag_at 8 s16 b = some A_BITS2_UNWRITABLE) ∧
        (∀ b, b < 2 ^ WORD_BITS 8 → (b < 4096 ∨ 4096 + 8 ≤ b) →
          tag_at 8 s16 b = tag_at 8 s b) := by
  obtain ⟨id, s, h, hwf, hsm, _⟩ :=
    get_secmap_for_writing_spec 8 (Or.inr rfl) (og_pre_clo_init 8) 4096 (WF_startup 8)
      (by decide)
  exact ⟨id, s, h, store_abits16_covers_eight 8 (Or.inr rfl) s hwf 4096 id
    A_BITS2_UNWRITABLE (by decide) (by decide) (by decide) hsm⟩

/-! ## Arithmetic of the fast range painter -/

theorem and_seven (a : Nat) : a &&& 7 = a % 8 := Nat.and_pow_two_sub_one_eq_mod a 3

theorem VG_IS_8_ALIGNED_iff (a : Nat) : VG_IS_8_ALIGNED a = true ↔ a % 8 = 0 := by
  unfold VG_IS_8_ALIGNED
  rw [decide_eq_true_iff, and_seven]
  exact eq_comm

theorem word_cases (ws : Nat) (hws : WordSizeOk ws) :
    2 ^ WORD_BITS ws = 4294967296 ∨ 2 ^ WORD_BITS ws = 18446744073709551616 := by
  rcases hws with h | h
  · rw [h]; exact Or.inl (by decide)
  · rw [h]; exact Or.inr (by decide)

theorem start_of_this_sm_eq (ws : Nat) (hws : WordSizeOk ws) (a : Nat)
    (ha : a < 2 ^ WORD_BITS ws) : start_of_this_sm ws a = a - a % 65536 := by
  unfold start_of_this_sm
  have h := region_mask ws hws a ha
  have h2 : notWord ws SM_MASK = notWord ws 0xFFFF := rfl
  rw [h2, h]
  have := Nat.div_add_mod a 65536
  omega

theorem is_start_of_sm_iff (ws : Nat) (hws : WordSizeOk ws) (a : Nat)
    (ha : a < 2 ^ WORD_BITS ws) : is_start_of_sm ws a = true ↔ a % 65536 = 0 := by
  unfold is_start_of_sm
  rw [decide_eq_true_iff, start_of_this_sm_eq ws hws a ha]
  have := Nat.mod_le a 65536
  omega

theorem toWord_lt (ws x : Nat) : toWord ws x < 2 ^ WORD_BITS ws :=
  Nat.mod_lt _ (Nat.pos_pow_of_pos _ (by decide))

theorem block_no_wrap (ws : Nat) (hws : WordSizeOk ws) (c len d : Nat)
    (hc : c < 2 ^ WORD_BITS ws) (hfit : c % 65536 + len ≤ 65536) (hd : d < len) :
    c + d < 2 ^ WORD_BITS ws := by
  have := region_end_le ws hws c hc
  have := Nat.mod_le c 65536
  omega

theorem block_index (ws : Nat) (hws : WordSizeOk ws) (a i len b : Nat)
    (hfit : toWord ws (a + i) % 65536 + len ≤ 65536) :
    (∃ j, i ≤ j ∧ j < i + len ∧ toWord ws (a + j) = b)
      ↔ (toWord ws (a + i) ≤ b ∧ b < toWord ws (a + i) + len) := by
  have hc := toWord_lt ws (a + i)
  have key : ∀ d, d < len → toWord ws (a + (i + d)) = toWord ws (a + i) + d := by
    intro d hd
    rw [← Nat.add_assoc, ← toWord_add_toWord]
    exact toWord_of_lt ws _ (block_no_wrap ws hws _ len d hc hfit hd)
  constructor
  · rintro ⟨j, h1, h2, h3⟩
    have := key (j - i) (by omega)
    rw [show i + (j - i) = j by omega, h3] at this
    omega
  · rintro ⟨h1, h2⟩
    refine ⟨i + (b - toWord ws (a + i)), by omega, by omega, ?_⟩
    rw [key _ (by omega)]
    omega

theorem PaintStep_zero (ws a t i : Nat) (s s1 : State)
    (h : ∀ b, abits2_of ws s1 b = abits2_of ws s b) : PaintStep ws a t i 0 s s1 := by
  intro b _
  refine ⟨?_, fun _ => h b⟩
  rintro ⟨j, h1, h2, _⟩
  omega

theorem PaintStep_trans (ws a t i n n2 : Nat) (s s1 s2 : State)
    (h1 : PaintStep ws a t i n s s1) (h2 : PaintStep ws a t (i + n) n2 s1 s2) :
    PaintStep ws a t i (n + n2) s s2 := by
  intro b hb
  by_cases hin : ∃ j, i + n ≤ j ∧ j < i + n + n2 ∧ toWord ws (a + j) = b
  · refine ⟨fun _ => (h2 b hb).1 hin, ?_⟩
    intro hall
    obtain ⟨j, hj1, hj2, hj3⟩ := hin
    exact absurd hj3 (hall j (by omega) (by omega))
  · have hnot : ∀ j, i + n ≤ j → j < i + n + n2 → toWord ws (a + j) ≠ b :=
      fun j hj1 hj2 hj3 => hin ⟨j, hj1, hj2, hj3⟩
    have e2 := (h2 b hb).2 hnot
    constructor
    · rintro ⟨j, hj1, hj2, hj3⟩
      rw [e2]
      refine (h1 b hb).1 ⟨j, hj1, ?_, hj3⟩
      by_contra hc
      exact hnot j (by omega) (by omega) hj3
    · intro hall
      rw [e2]
      exact (h1 b hb).2 (fun j hj1 hj2 => hall j hj1 (by omega))

theorem PaintStep_congr (ws a t i n : Nat) (s s0 s1 : State)
    (h0 : ∀ b, abits2_of ws s0 b = abits2_of ws s b) (h : PaintStep ws a t i n s0 s1) :
    PaintStep ws a t i n s s1 := by
  intro b hb
  refine ⟨(h b hb).1, fun hall => ?_⟩
  rw [(h b hb).2 hall, h0]

theorem PaintStep_of_block (ws : Nat) (hws : WordSizeOk ws) (a t i len : Nat) (s s1 : State)
    (hfit : toWord ws (a + i) % 65536 + len ≤ 65536)
    (h : ∀ b, b < 2 ^ WORD_BITS ws → abits2_of ws s1 b
      = if toWord ws (a + i) ≤ b ∧ b < toWord ws (a + i) + len then t else abits2_of ws s b) :
    PaintStep ws a t i len s s1 := by
  intro b hb
  have hiff := block_index ws hws a i len b hfit
  constructor
  · intro hex
    rw [h b hb, if_pos (hiff.mp hex)]
  · intro hall
    rw [h b hb, if_neg]
    intro hc
    obtain ⟨j, h1, h2, h3⟩ := hiff.mpr hc
    exact hall j h1 h2 h3

/-! ## The loops of the fast range painter on a private page -/

theorem mod_succ_region (a k : Nat) (h : a % 65536 + k < 65536) :
    (a + k) % 65536 = a % 65536 + k := by
  omega

theorem sarp_1_byte_steps_to_8_aligned_page (ws : Nat) (hws : WordSizeOk ws) (id t : Nat)
    (ht : t < 4) :
    ∀ len a s m, s.heap id = some m → a < 2 ^ WORD_BITS ws → a % 65536 + len ≤ 65536 →
      ∃ k m1, k ≤ len ∧
        sarp_1_byte_steps_to_8_aligned ws (SecMapPtr.allocated id) t len a s
          = some (toWord ws (a + k), len - k, set_page s id m1) ∧
        Painted m m1 (a % 65536) (a % 65536 + k) t ∧
        (len - k = 0 ∨ (a + k) % 8 = 0) := by
  intro len
  induction len with
  | zero =>
    intro a s m hm ha _
    refine ⟨0, m, Nat.le_refl _, ?_, Painted_empty m _ _ t (Nat.le_refl _), Or.inl rfl⟩
    unfold sarp_1_byte_steps_to_8_aligned
    rw [set_page_self s id m hm, Nat.add_zero, toWord_of_lt ws a ha]
  | succ len ih =>
    intro a s m hm ha hlen
    unfold sarp_1_byte_steps_to_8_aligned
    by_cases hal : VG_IS_8_ALIGNED a = true
    · rw [if_pos hal]
      refine ⟨0, m, Nat.zero_le _, ?_, Painted_empty m _ _ t (Nat.le_refl _),
        Or.inr ((VG_IS_8_ALIGNED_iff a).mp hal)⟩
      rw [set_page_self s id m hm, toWord_of_lt ws (a + 0) ha]
      rfl
    · rw [if_neg hal, insert_abits2_at_page s id m a t hm]
      dsimp only
      have hend := region_end_le ws hws a ha
      have hmod := Nat.mod_le a 65536
      by_cases hl0 : len = 0
      · subst hl0
        refine ⟨1, _, Nat.le_refl _, ?_, Painted_insert m a t ht, Or.inl rfl⟩
        unfold sarp_1_byte_steps_to_8_aligned
        rfl
      · have ha1 : a + 1 < 2 ^ WORD_BITS ws := by omega
        have hmod1 : (a + 1) % 65536 = a % 65536 + 1 := mod_succ_region a 1 (by omega)
        obtain ⟨k, m1, hk, h1, hp1, hor⟩ := ih (a + 1) (set_page s id _) _
          (set_page_heap s id _) ha1 (by rw [hmod1]; omega)
        rw [toWord_of_lt ws _ ha1, h1, set_page_set_page]
        refine ⟨k + 1, m1, by omega, ?_, ?_, ?_⟩
        · rw [show a + 1 + k = a + (k + 1) by omega, show len + 1 - (k + 1) = len - k by omega]
        · rw [hmod1] at hp1
          exact Painted_trans m _ m1 (a % 65536) (a % 65536 + 1) (a % 65536 + (k + 1)) t
            (Painted_insert m a t ht)
            (by rw [show a % 65536 + (k + 1) = a % 65536 + 1 + k by omega]; exact hp1)
            (by omega) (by omega)
        · rw [show len + 1 - (k + 1) = len - k by omega, show a + (k + 1) = a + 1 + k by omega]
          exact hor

theorem sarp_8_byte_steps_page (ws : Nat) (hws : WordSizeOk ws) (id t : Nat) (ht : t < 4) :
    ∀ fuel a len s m, s.heap id = some m → a < 2 ^ WORD_BITS ws → a % 8 = 0 →
      a % 65536 + len ≤ 65536 → len ≤ 8 * fuel + 7 →
      ∃ m1, sarp_8_byte_steps ws (SecMapPtr.allocated id) (abits16_of_tag t) fuel a len s
          = some (toWord ws (a + 8 * (len / 8)), len % 8, set_page s id m1) ∧
        Painted m m1 (a % 65536) (a % 65536 + 8 * (len / 8)) t := by
  intro fuel
  induction fuel with
  | zero =>
    intro a len s m hm ha _ _ hfuel
    have hl : len < 8 := by omega
    refine ⟨m, ?_, Painted_empty m _ _ t (by omega)⟩
    unfold sarp_8_byte_steps
    rw [if_pos hl, set_page_self s id m hm, Nat.div_eq_of_lt hl, Nat.mod_eq_of_lt hl,
      Nat.mul_zero, Nat.add_zero, toWord_of_lt ws a ha]
  | succ fuel ih =>
    intro a len s m hm ha ha8 hfit hfuel
    unfold sarp_8_byte_steps
    by_cases hl : len < 8
    · refine ⟨m, ?_, Painted_empty m _ _ t (by omega)⟩
      rw [if_pos hl, set_page_self s id m hm, Nat.div_eq_of_lt hl, Nat.mod_eq_of_lt hl,
        Nat.mul_zero, Nat.add_zero, toWord_of_lt ws a ha]
    · rw [if_neg hl]
      obtain ⟨m0, h0, hp0⟩ := store_abits16_painted s id m a t hm ht ha8
      rw [h0]
      dsimp only
      have hend := region_end_le ws hws a ha
      have hmod := Nat.mod_le a 65536
      have hdiv : len / 8 = (len - 8) / 8 + 1 := by omega
      have hmodl : len % 8 = (len - 8) % 8 := by omega
      by_cases hl2 : len - 8 < 8
      · refine ⟨m0, ?_, ?_⟩
        · have : sarp_8_byte_steps ws (SecMapPtr.allocated id) (abits16_of_tag t) fuel
              (toWord ws (a + 8)) (len - 8) (set_page s id m0)
              = some (toWord ws (a + 8), len - 8, set_page s id m0) := by
            cases fuel with
            | zero => unfold sarp_8_byte_steps; rw [if_pos hl2]
            | succ f => unfold sarp_8_byte_steps; rw [if_pos hl2]
          rw [this, hdiv, Nat.div_eq_of_lt hl2, hmodl, Nat.mod_eq_of_lt hl2]
        · rw [hdiv, Nat.div_eq_of_lt hl2]
          exact hp0
      · have ha1 : a + 8 < 2 ^ WORD_BITS ws := by omega
        have hmod1 : (a + 8) % 65536 = a % 65536 + 8 := mod_succ_region a 8 (by omega)
        obtain ⟨m1, h1, hp1⟩ := ih (a + 8) (len - 8) (set_page s id m0) m0
          (set_page_heap s id m0) ha1 (by omega) (by rw [hmod1]; omega) (by omega)
        rw [toWord_of_lt ws _ ha1, h1, set_page_set_page]
        refine ⟨m1, ?_, ?_⟩
        · rw [hdiv, hmodl, show a + 8 + 8 * ((len - 8) / 8) = a + 8 * ((len - 8) / 8 + 1) by omega]
        · rw [hmod1] at hp1
          rw [hdiv]
          exact Painted_trans m m0 m1 (a % 65536) (a % 65536 + 8) _ t hp0
            (by rw [show a % 65536 + 8 * ((len - 8) / 8 + 1)
                  = a % 65536 + 8 + 8 * ((len - 8) / 8) by omega]; exact hp1)
            (by omega) (by omega)

theorem sarp_8_byte_steps_short (ws : Nat) (sm : SecMapPtr) (c fuel a len : Nat) (s : State)
    (h : len < 8) : sarp_8_byte_steps ws sm c fuel a len s = some (a, len, s) := by
  cases fuel with
  | zero => unfold sarp_8_byte_steps; rw [if_pos h]
  | succ f => unfold sarp_8_byte_steps; rw [if_pos h]

theorem sarp_1_byte_steps_zero (ws : Nat) (sm : SecMapPtr) (t a : Nat) (s : State) :
    sarp_1_byte_steps ws sm t 0 a s = some (a, 0, s) := by
  unfold sarp_1_byte_steps
  rfl

theorem sarp_tail_page (ws : Nat) (hws : WordSizeOk ws) (id t : Nat) (ht : t < 4)
    (a len : Nat) (s : State) (m : SecMap) (hm : s.heap id = some m)
    (ha : a < 2 ^ WORD_BITS ws) (ha8 : a % 8 = 0) (hfit : a % 65536 + len ≤ 65536) :
    ∃ a2 l2 m2 m3,
      sarp_8_byte_steps ws (SecMapPtr.allocated id) (abits16_of_tag t) len a len s
        = some (a2, l2, set_page s id m2) ∧
      sarp_1_byte_steps ws (SecMapPtr.allocated id) t l2 a2 (set_page s id m2)
        = some (toWord ws (a + len), 0, set_page s id m3) ∧
      Painted m m3 (a % 65536) (a % 65536 + len) t := by
  obtain ⟨m2, h2, hp2⟩ := sarp_8_byte_steps_page ws hws id t ht len a len s m hm ha ha8 hfit
    (by omega)
  have hend := region_end_le ws hws a ha
  have hmod := Nat.mod_le a 65536
  have hdm := Nat.div_add_mod len 8
  by_cases hl2 : len % 8 = 0
  · refine ⟨_, _, m2, m2, h2, ?_, ?_⟩
    · rw [hl2, sarp_1_byte_steps_zero]
      rw [show 8 * (len / 8) = len by omega]
    · rw [show 8 * (len / 8) = len by omega] at hp2
      exact hp2
  · have hlt : a + 8 * (len / 8) < 2 ^ WORD_BITS ws := by omega
    have hmod2 : (a + 8 * (len / 8)) % 65536 = a % 65536 + 8 * (len / 8) :=
      mod_succ_region a _ (by omega)
    obtain ⟨m3, h3, hp3⟩ := sarp_1_byte_steps_page ws hws id t ht (len % 8)
      (a + 8 * (len / 8)) (set_page s id m2) m2 (set_page_heap s id m2) hlt
      (by rw [hmod2]; omega)
    rw [set_page_set_page, show a + 8 * (len / 8) + len % 8 = a + len by omega] at h3
    rw [hmod2] at hp3
    refine ⟨_, _, m2, m3, h2, ?_, ?_⟩
    · rw [toWord_of_lt ws _ hlt]
      exact h3
    · have := Painted_trans m m2 m3 (a % 65536) (a % 65536 + 8 * (len / 8))
        (a % 65536 + len) t hp2
        (by rw [show a % 65536 + len = a % 65536 + 8 * (len / 8) + len % 8 by omega]
            exact hp3)
        (by omega) (by omega)
      exact this

theorem sarp_loops_page (ws : Nat) (hws : WordSizeOk ws) (id t : Nat) (ht : t < 4)
    (a len : Nat) (s : State) (m : SecMap) (hm : s.heap id = some m)
    (ha : a < 2 ^ WORD_BITS ws) (hfit : a % 65536 + len ≤ 65536) :
    ∃ a1 l1 m1 a2 l2 m2 m3,
      sarp_1_byte_steps_to_8_aligned ws (SecMapPtr.allocated id) t len a s
        = some (a1, l1, set_page s id m1) ∧
      sarp_8_byte_steps ws (SecMapPtr.allocated id) (abits16_of_tag t) l1 a1 l1
        (set_page s id m1) = some (a2, l2, set_page s id m2) ∧
      sarp_1_byte_steps ws (SecMapPtr.allocated id) t l2 a2 (set_page s id m2)
        = some (toWord ws (a + len), 0, set_page s id m3) ∧
      Painted m m3 (a % 65536) (a % 65536 + len) t := by
  obtain ⟨k, m1, hk, h1, hp1, hor⟩ :=
    sarp_1_byte_steps_to_8_aligned_page ws hws id t ht len a s m hm ha hfit
  have hend := region_end_le ws hws a ha
  have hmod := Nat.mod_le a 65536
  by_cases hz : len - k = 0
  · have hkl : k = len := by omega
    subst hkl
    refine ⟨_, _, m1, toWord ws (a + k), 0, m1, m1, h1, ?_, ?_, hp1⟩
    · rw [hz]
      exact sarp_8_byte_steps_short ws _ _ _ _ _ _ (by decide)
    · exact sarp_1_byte_steps_zero ws _ _ _ _
  · have hal : (a + k) % 8 = 0 := by
      rcases hor with h | h
      · exact absurd h hz
      · exact h
    have hlt : a + k < 2 ^ WORD_BITS ws := by omega
    have hmod1 : (a + k) % 65536 = a % 65536 + k := mod_succ_region a k (by omega)
    obtain ⟨a2, l2, m2, m3, h2, h3, hp3⟩ := sarp_tail_page ws hws id t ht (a + k) (len - k)
      (set_page s id m1) m1 (set_page_heap s id m1) hlt hal (by rw [hmod1]; omega)
    rw [set_page_set_page, set_page_set_page] at h3
    rw [set_page_set_page] at h2
    rw [show a + k + (len - k) = a + len by omega] at h3
    rw [hmod1] at hp3
    refine ⟨_, _, m1, a2, l2, m2, m3, h1, ?_, h3, ?_⟩
    · rw [toWord_of_lt ws _ hlt]
      exact h2
    · exact Painted_trans m m1 m3 (a % 65536) (a % 65536 + k) (a % 65536 + len) t hp1
        (by rw [show a % 65536 + len = a % 65536 + k + (len - k) by omega]; exact hp3)
        (by omega) (by omega)

/-! ## Parts 1 and 3 of the fast range painter -/

theorem dsm_of_tag_lt (t : Nat) : dsm_of_tag t < 3 := by
  unfold dsm_of_tag
  split
  · decide
  · split <;> decide

theorem abits2_of_distinguished (ws : Nat) (s : State) (b t : Nat)
    (ht : t = A_BITS2_NOCHECK ∨ t = A_BITS2_UNWRITABLE ∨ t = A_BITS2_UNREFERABLE)
    (hdi : DistinguishedIntact s)
    (h : smOf ws s b = SecMapPtr.distinguished (dsm_of_tag t)) : abits2_of ws s b = t := by
  unfold abits2_of abits8_of
  rw [h, contents_distinguished, if_pos (dsm_of_tag_lt t)]
  simp only [Option.map_some', Option.getD_some]
  obtain ⟨h0, h1, h2⟩ := hdi (SM_OFF b) (SM_OFF_lt b)
  rw [extract_abits2_mod]
  have h4 : b % 4 < 4 := Nat.mod_lt _ (by decide)
  rcases ht with rfl | rfl | rfl
  · have : dsm_of_tag A_BITS2_NOCHECK = SM_DIST_NOCHECK := rfl
    rw [this, h0]
    generalize b % 4 = r at h4
    revert r
    decide
  · have : dsm_of_tag A_BITS2_UNWRITABLE = SM_DIST_UNWRITABLE := rfl
    rw [this, h1]
    generalize b % 4 = r at h4
    revert r
    decide
  · have : dsm_of_tag A_BITS2_UNREFERABLE = SM_DIST_UNREFERABLE := rfl
    rw [this, h2]
    generalize b % 4 = r at h4
    revert r
    decide

theorem block_region (a len b : Nat) (hfit : a % 65536 + len ≤ 65536) :
    (b / 65536 = a / 65536 ∧ a % 65536 ≤ b % 65536 ∧ b % 65536 < a % 65536 + len)
      ↔ (a ≤ b ∧ b < a + len) := by
  omega

theorem sarp_prepare (ws : Nat) (hws : WordSizeOk ws) (s : State) (hwf : WF ws s) (a : Nat)
    (ha : a < 2 ^ WORD_BITS ws) :
    ∃ p s1, get_secmap_ptr ws s a = some (p, s1) ∧
      load_slot ws s1 p = some (smOf ws s a) ∧ WF ws s1 ∧ AuxOnly ws s s1 ∧
      ∃ id s2, cow_slot ws s1 p = some (SecMapPtr.allocated id, s2) ∧ WF ws s2 ∧
        smOf ws s2 a = SecMapPtr.allocated id ∧ SlotFrame ws a s s2 ∧
        (∀ b, b < 2 ^ WORD_BITS ws → abits2_of ws s2 b = abits2_of ws s b) ∧
        s2.sm_distinguished = s.sm_distinguished := by
  obtain ⟨p, s1, h1, hwf1, hao, hslot⟩ := get_secmap_ptr_spec ws hws s a hwf ha
  have hl := load_slot_of_SlotFor ws hws s1 a p hslot
  rw [hao.sm a] at hl
  obtain ⟨id, s2, h2, hwf2, hsm, hc, hother, hcont, hd, _⟩ :=
    get_secmap_for_writing_spec ws hws s a hwf ha
  rw [get_secmap_for_writing_eq, h1] at h2
  refine ⟨p, s1, h1, hl, hwf1, hao, id, s2, h2, hwf2, hsm, hother, ?_, hd⟩
  intro b hb
  unfold abits2_of
  rw [get_secmap_for_writing_abits8 ws hws s s2 a id hwf ha hsm hc hother hcont b hb]

theorem sarp_paint_page (ws : Nat) (hws : WordSizeOk ws) (s2 : State) (hwf2 : WF ws s2)
    (a len id t : Nat) (m m3 : SecMap) (ha : a < 2 ^ WORD_BITS ws)
    (hfit : a % 65536 + len ≤ 65536) (hsm : smOf ws s2 a = SecMapPtr.allocated id)
    (hm : s2.heap id = some m) (hp : Painted m m3 (a % 65536) (a % 65536 + len) t) :
    WF ws (set_page s2 id m3) ∧
      (set_page s2 id m3).sm_distinguished = s2.sm_distinguished ∧
      (∀ b, smOf ws (set_page s2 id m3) b = smOf ws s2 b) ∧
      (∀ b, b < 2 ^ WORD_BITS ws → abits2_of ws (set_page s2 id m3) b
        = if a ≤ b ∧ b < a + len then t else abits2_of ws s2 b) := by
  refine ⟨WF_set_page ws s2 id m3 hwf2 (by rw [hm]; simp), rfl, fun _ => rfl, ?_⟩
  intro b hb
  rw [tag_set_page_painted ws hws s2 hwf2 a id m m3 _ _ t ha hsm hm hp b hb]
  have hiff := block_region a len b hfit
  by_cases hin : a ≤ b ∧ b < a + len
  · rw [if_pos hin, if_pos (hiff.mpr hin)]
  · rw [if_neg hin, if_neg (fun h => hin (hiff.mp h))]

theorem sarp_part1_spec (ws : Nat) (hws : WordSizeOk ws) (s : State) (hwf : WF ws s)
    (hdi : DistinguishedIntact s) (a lenA aNext t : Nat)
    (ht : t = A_BITS2_NOCHECK ∨ t = A_BITS2_UNWRITABLE ∨ t = A_BITS2_UNREFERABLE)
    (ha : a < 2 ^ WORD_BITS ws) (hfit : a % 65536 + lenA ≤ 65536) :
    ∃ a1 s1, sarp_part1 ws s a lenA aNext (abits16_of_tag t)
        (SecMapPtr.distinguished (dsm_of_tag t)) = some (a1, 0, s1) ∧
      WF ws s1 ∧ s1.sm_distinguished = s.sm_distinguished ∧ SlotFrame ws a s s1 ∧
      (a1 = aNext ∨ a1 = toWord ws (a + lenA)) ∧
      (∀ b, b < 2 ^ WORD_BITS ws → abits2_of ws s1 b
        = if a ≤ b ∧ b < a + lenA then t else abits2_of ws s b) ∧
      (smOf ws s a = SecMapPtr.distinguished (dsm_of_tag t) →
        smOf ws s1 a = SecMapPtr.distinguished (dsm_of_tag t)) ∧
      (smOf ws s a ≠ SecMapPtr.distinguished (dsm_of_tag t) →
        ∃ id, smOf ws s1 a = SecMapPtr.allocated id) := by
  have ht4 : t < 4 := by rcases ht with rfl | rfl | rfl <;> decide
  obtain ⟨p, s1, h1, hl, hwf1, hao, id, s2, h2, hwf2, hsm2, hframe, htags, hd2⟩ :=
    sarp_prepare ws hws s hwf a ha
  unfold sarp_part1
  dsimp only
  rw [h1]
  dsimp only
  rw [hl]
  dsimp only
  rw [abits16_of_tag_and t ht]
  by_cases hskip : smOf ws s a = SecMapPtr.distinguished (dsm_of_tag t)
  · have hc : (is_distinguished_sm (smOf ws s a) = true ∧
        smOf ws s a = SecMapPtr.distinguished (dsm_of_tag t)) :=
      ⟨(is_distinguished_iff _).mpr ⟨_, dsm_of_tag_lt t, hskip⟩, hskip⟩
    rw [if_pos hc]
    dsimp only
    have e1 : sarp_1_byte_steps_to_8_aligned ws (smOf ws s a) t 0 aNext s1
        = some (aNext, 0, s1) := by
      unfold sarp_1_byte_steps_to_8_aligned
      rfl
    rw [e1]
    dsimp only
    rw [sarp_8_byte_steps_short ws _ _ _ _ _ _ (by decide)]
    dsimp only
    rw [sarp_1_byte_steps_zero]
    refine ⟨aNext, s1, rfl, hwf1, hao.dist, fun b _ _ => hao.sm b, Or.inl rfl, ?_,
      fun _ => by rw [hao.sm a]; exact hskip, fun h => absurd hskip h⟩
    intro b hb
    rw [abits2_of_AuxOnly ws s s1 hao b]
    by_cases hin : a ≤ b ∧ b < a + lenA
    · rw [if_pos hin]
      have hr := (block_region a lenA b hfit).mpr hin
      exact abits2_of_distinguished ws s b t ht hdi
        (by rw [smOf_region ws hws s b a hb ha hr.1]; exact hskip)
    · rw [if_neg hin]
  · have hc : ¬ (is_distinguished_sm (smOf ws s a) = true ∧
        smOf ws s a = SecMapPtr.distinguished (dsm_of_tag t)) := fun h => hskip h.2
    rw [if_neg hc, h2]
    dsimp only
    obtain ⟨m, hm⟩ := page_live ws hws s2 hwf2 a id hsm2
    obtain ⟨a1, l1, m1, a2, l2, m2, m3, e1, e2, e3, hp⟩ :=
      sarp_loops_page ws hws id t ht4 a lenA s2 m hm ha hfit
    rw [e1]
    dsimp only
    rw [e2]
    dsimp only
    rw [e3]
    obtain ⟨hwf3, hd3, hsm3, htag3⟩ :=
      sarp_paint_page ws hws s2 hwf2 a lenA id t m m3 ha hfit hsm2 hm hp
    refine ⟨_, _, rfl, hwf3, hd3.trans hd2, ?_, Or.inr rfl, ?_, fun h => absurd h hskip,
      fun _ => ⟨id, by rw [hsm3]; exact hsm2⟩⟩
    · intro b hb hne
      rw [hsm3]
      exact hframe b hb hne
    · intro b hb
      rw [htag3 b hb, htags b hb]

theorem sarp_part3_spec (ws : Nat) (hws : WordSizeOk ws) (s : State) (hwf : WF ws s)
    (hdi : DistinguishedIntact s) (a lenB t : Nat)
    (ht : t = A_BITS2_NOCHECK ∨ t = A_BITS2_UNWRITABLE ∨ t = A_BITS2_UNREFERABLE)
    (ha : a < 2 ^ WORD_BITS ws) (hal : a % 65536 = 0) (hlen : lenB < 65536) :
    ∃ s1, sarp_part3 ws s a lenB (abits16_of_tag t)
        (SecMapPtr.distinguished (dsm_of_tag t)) = some s1 ∧
      WF ws s1 ∧ s1.sm_distinguished = s.sm_distinguished ∧ SlotFrame ws a s s1 ∧
      (∀ b, b < 2 ^ WORD_BITS ws → abits2_of ws s1 b
        = if a ≤ b ∧ b < a + lenB then t else abits2_of ws s b) := by
  have ht4 : t < 4 := by rcases ht with rfl | rfl | rfl <;> decide
  have hfit : a % 65536 + lenB ≤ 65536 := by omega
  obtain ⟨p, s1, h1, hl, hwf1, hao, id, s2, h2, hwf2, hsm2, hframe, htags, hd2⟩ :=
    sarp_prepare ws hws s hwf a ha
  unfold sarp_part3
  dsimp only
  have hstart : (is_start_of_sm ws a = true ∧ lenB < SM_SIZE) :=
    ⟨(is_start_of_sm_iff ws hws a ha).mpr hal, hlen⟩
  rw [if_pos hstart, h1]
  dsimp only
  rw [hl]
  dsimp only
  rw [abits16_of_tag_and t ht]
  by_cases hskip : smOf ws s a = SecMapPtr.distinguished (dsm_of_tag t)
  · have hc : (is_distinguished_sm (smOf ws s a) = true ∧
        smOf ws s a = SecMapPtr.distinguished (dsm_of_tag t)) :=
      ⟨(is_distinguished_iff _).mpr ⟨_, dsm_of_tag_lt t, hskip⟩, hskip⟩
    rw [if_pos hc]
    refine ⟨s1, rfl, hwf1, hao.dist, fun b _ _ => hao.sm b, ?_⟩
    intro b hb
    rw [abits2_of_AuxOnly ws s s1 hao b]
    by_cases hin : a ≤ b ∧ b < a + lenB
    · rw [if_pos hin]
      have hr := (block_region a lenB b hfit).mpr hin
      exact abits2_of_distinguished ws s b t ht hdi
        (by rw [smOf_region ws hws s b a hb ha hr.1]; exact hskip)
    · rw [if_neg hin]
  · have hc : ¬ (is_distinguished_sm (smOf ws s a) = true ∧
        smOf ws s a = SecMapPtr.distinguished (dsm_of_tag t)) := fun h => hskip h.2
    rw [if_neg hc, h2]
    dsimp only
    obtain ⟨m, hm⟩ := page_live ws hws s2 hwf2 a id hsm2
    obtain ⟨a2, l2, m2, m3, e2, e3, hp⟩ :=
      sarp_tail_page ws hws id t ht4 a lenB s2 m hm ha (by omega) hfit
    rw [e2]
    dsimp only
    rw [e3]
    obtain ⟨hwf3, hd3, hsm3, htag3⟩ :=
      sarp_paint_page ws hws s2 hwf2 a lenB id t m m3 ha hfit hsm2 hm hp
    refine ⟨_, rfl, hwf3, hd3.trans hd2, ?_, ?_⟩
    · intro b hb hne
      rw [hsm3]
      exact hframe b hb hne
    · intro b hb
      rw [htag3 b hb, htags b hb]

/-! ## Part 2 of the fast range painter -/

theorem ShareStep_zero (ws a : Nat) (d : SecMapPtr) (i : Nat) (s s1 : State)
    (h : ∀ b, smOf ws s1 b = smOf ws s b) : ShareStep ws a d i 0 s s1 := by
  intro b _
  refine ⟨?_, fun _ => h b⟩
  rintro ⟨j, h1, h2, _⟩
  omega

theorem ShareStep_trans (ws a : Nat) (d : SecMapPtr) (i n n2 : Nat) (s s1 s2 : State)
    (h1 : ShareStep ws a d i n s s1) (h2 : ShareStep ws a d (i + n) n2 s1 s2) :
    ShareStep ws a d i (n + n2) s s2 := by
  intro b hb
  by_cases hin : ∃ j, i + n ≤ j ∧ j < i + n + n2 ∧ toWord ws (a + j) = b
  · refine ⟨fun _ => (h2 b hb).1 hin, ?_⟩
    intro hall
    obtain ⟨j, hj1, hj2, hj3⟩ := hin
    exact absurd hj3 (hall j (by omega) (by omega))
  · have hnot : ∀ j, i + n ≤ j → j < i + n + n2 → toWord ws (a + j) ≠ b :=
      fun j hj1 hj2 hj3 => hin ⟨j, hj1, hj2, hj3⟩
    have e2 := (h2 b hb).2 hnot
    constructor
    · rintro ⟨j, hj1, hj2, hj3⟩
      rw [e2]
      refine (h1 b hb).1 ⟨j, hj1, ?_, hj3⟩
      by_contra hc
      exact hnot j (by omega) (by omega) hj3
    · intro hall
      rw [e2]
      exact (h1 b hb).2 (fun j hj1 hj2 => hall j hj1 (by omega))

theorem ShareStep_of_block (ws : Nat) (hws : WordSizeOk ws) (a : Nat) (d : SecMapPtr)
    (i len : Nat) (s s1 : State) (hfit : toWord ws (a + i) % 65536 + len ≤ 65536)
    (h : ∀ b, b < 2 ^ WORD_BITS ws → smOf ws s1 b
      = if toWord ws (a + i) ≤ b ∧ b < toWord ws (a + i) + len then d else smOf ws s b) :
    ShareStep ws a d i len s s1 := by
  intro b hb
  have hiff := block_index ws hws a i len b hfit
  constructor
  · intro hex
    rw [h b hb, if_pos (hiff.mp hex)]
  · intro hall
    rw [h b hb, if_neg]
    intro hc
    obtain ⟨j, h1, h2, h3⟩ := hiff.mpr hc
    exact hall j h1 h2 h3

theorem load_slot_heap (ws : Nat) (s : State) (h2 : Nat → Option SecMap) (q : SecMapSlot) :
    load_slot ws { s with heap := h2 } q = load_slot ws s q := by
  cases q <;> rfl

theorem share_slot_spec (ws : Nat) (s1 : State) (hwf1 : WF ws s1) (p : SecMapSlot)
    (v : SecMapPtr) (hl : load_slot ws s1 p = some v) (h2 : Nat → Option SecMap)
    (hkeep : ∀ j, SecMapPtr.allocated j ≠ v → h2 j = s1.heap j)
    (hnone : ∀ j, s1.heap j = none → h2 j = none) (d : Nat) (hd : d < 3) :
    ∃ s3, store_slot ws { s1 with heap := h2 } p (SecMapPtr.distinguished d) = some s3 ∧
      WF ws s3 ∧
      (∀ q, load_slot ws s3 q
        = if q = p then some (SecMapPtr.distinguished d) else load_slot ws s1 q) ∧
      s3.heap = h2 ∧ s3.sm_distinguished = s1.sm_distinguished ∧
      s3.auxmap_L2.size = s1.auxmap_L2.size ∧
      (∀ k, (s3.auxmap_L2.nodes k).base = (s1.auxmap_L2.nodes k).base) := by
  obtain ⟨s3, h3, hload, hheap, hnext, hdist, _, _, hl1, hsz, hbase⟩ :=
    store_slot_spec ws { s1 with heap := h2 } p v (SecMapPtr.distinguished d)
      (by rw [load_slot_heap]; exact hl)
  have hload1 : ∀ q, load_slot ws s3 q
      = if q = p then some (SecMapPtr.distinguished d) else load_slot ws s1 q := by
    intro q
    rw [hload q, load_slot_heap]
  dsimp only at hheap hnext hdist hl1 hsz hbase
  refine ⟨s3, h3, ?_, hload1, hheap, hdist, hsz, hbase⟩
  refine ⟨?_, ?_, ?_, ?_, ?_⟩
  · intro n hn
    rw [hl1]
    exact EntOk_mono _ _ _ (fun k hk => ⟨by omega, hbase k⟩) (hwf1.l1 n hn)
  · exact L2Nodup_congr _ _ hsz hbase hwf1.l2
  · intro q w hw
    rw [hload1 q] at hw
    by_cases hqp : q = p
    · rw [if_pos hqp] at hw
      simp only [Option.some.injEq] at hw
      rw [← hw]
      exact hd
    · rw [if_neg hqp] at hw
      have hv := hwf1.valid q w hw
      cases w with
      | null => exact hv
      | distinguished j => exact hv
      | allocated j =>
        show s3.heap j ≠ none
        have hne : SecMapPtr.allocated j ≠ v := by
          intro he
          rw [← he] at hl
          exact hqp (hwf1.noalias q p j hw hl)
        rw [hheap, hkeep j hne]
        exact hv
  · intro q1 q2 id e1 e2
    rw [hload1 q1] at e1
    rw [hload1 q2] at e2
    by_cases hq1 : q1 = p
    · rw [if_pos hq1] at e1
      simp at e1
    · by_cases hq2 : q2 = p
      · rw [if_pos hq2] at e2
        simp at e2
      · rw [if_neg hq1] at e1
        rw [if_neg hq2] at e2
        exact hwf1.noalias q1 q2 id e1 e2
  · intro j hj
    rw [hnext] at hj
    rw [hheap]
    exact hnone j (hwf1.fresh j hj)

theorem aligned_region (a b : Nat) (hal : a % 65536 = 0) :
    (a ≤ b ∧ b < a + 65536) ↔ b / 65536 = a / 65536 := by
  omega

theorem sarp_share_step (ws : Nat) (hws : WordSizeOk ws) (s : State) (hwf : WF ws s)
    (a d : Nat) (hd : d < 3) (ha : a < 2 ^ WORD_BITS ws) :
    ∃ p s1 s2 s3, get_secmap_ptr ws s a = some (p, s1) ∧
      load_slot ws s1 p = some (smOf ws s a) ∧
      (if (!is_distinguished_sm (smOf ws s a)) = true then free_secmap s1 (smOf ws s a)
        else some s1) = some s2 ∧
      store_slot ws s2 p (SecMapPtr.distinguished d) = some s3 ∧
      WF ws s3 ∧ s3.sm_distinguished = s.sm_distinguished ∧
      (∀ b, b < 2 ^ WORD_BITS ws → smOf ws s3 b
        = if b / 65536 = a / 65536 then SecMapPtr.distinguished d else smOf ws s b) ∧
      (∀ b, b < 2 ^ WORD_BITS ws → b / 65536 ≠ a / 65536 →
        abits2_of ws s3 b = abits2_of ws s b) := by
  obtain ⟨p, s1, h1, hwf1, hao, hslot⟩ := get_secmap_ptr_spec ws hws s a hwf ha
  have hl1 := load_slot_of_SlotFor ws hws s1 a p hslot
  have hl := hl1
  rw [hao.sm a] at hl
  have hv := hwf1.valid p _ hl
  -- the heap after the conditional `VG_(free)`
  have hfree : ∃ h2, (if (!is_distinguished_sm (smOf ws s a)) = true
        then free_secmap s1 (smOf ws s a) else some s1) = some { s1 with heap := h2 } ∧
      (∀ j, SecMapPtr.allocated j ≠ smOf ws s a → h2 j = s1.heap j) ∧
      (∀ j, s1.heap j = none → h2 j = none) := by
    cases hsm : smOf ws s a with
    | null => rw [hsm] at hv; exact absurd hv id
    | distinguished i =>
      rw [hsm] at hv
      have hi : i < 3 := hv
      have : is_distinguished_sm (SecMapPtr.distinguished i) = true :=
        (is_distinguished_iff _).mpr ⟨i, hi, rfl⟩
      refine ⟨s1.heap, ?_, fun _ _ => rfl, fun _ h => h⟩
      rw [this]
      rfl
    | allocated id =>
      rw [hsm] at hv
      have hlive : s1.heap id ≠ none := hv
      refine ⟨Function.update s1.heap id none, ?_, ?_, ?_⟩
      · have : is_distinguished_sm (SecMapPtr.allocated id) = false := rfl
        rw [this]
        obtain ⟨m, hm⟩ : ∃ m, s1.heap id = some m := by
          cases hh : s1.heap id with
          | none => exact absurd hh hlive
          | some m => exact ⟨m, rfl⟩
        unfold free_secmap
        rw [if_pos (by rfl)]
        dsimp only
        rw [hm]
      · intro j hj
        have : j ≠ id := fun h => hj (by rw [h])
        rw [Function.update_noteq this]
      · intro j hj
        by_cases hji : j = id
        · rw [hji, Function.update_same]
        · rw [Function.update_noteq hji]
          exact hj
  obtain ⟨h2, e2, hkeep, hnone⟩ := hfree
  obtain ⟨s3, e3, hwf3, hload, hheap, hdist, hsz, hbase⟩ :=
    share_slot_spec ws s1 hwf1 p _ hl h2 hkeep hnone d hd
  have hlook : ∀ key, OSetGen_Lookup s3.auxmap_L2 key = OSetGen_Lookup s1.auxmap_L2 key :=
    lookup_congr _ _ hsz hbase
  have hslot3 := SlotFor_congr ws s1 s3 hlook a p hslot
  have hsma : smOf ws s3 a = SecMapPtr.distinguished d := by
    have := load_slot_of_SlotFor ws hws s3 a p hslot3
    rw [hload p, if_pos rfl] at this
    simp only [Option.some.injEq] at this
    exact this.symm
  have hother : ∀ b, b < 2 ^ WORD_BITS ws → b / 65536 ≠ a / 65536 →
      smOf ws s3 b = smOf ws s b := by
    intro b hb hne
    rw [← hao.sm b]
    rcases slot_cases ws s1 b with ⟨q, hq⟩ | ⟨hb1, hl2⟩
    · have hqp : q ≠ p := by
        intro h
        rw [h] at hq
        exact hne (SlotFor_same_region ws hws s1 a b ha hb p hslot hq).symm
      have e1 := load_slot_of_SlotFor ws hws s1 b q hq
      have e2 := load_slot_of_SlotFor ws hws s3 b q (SlotFor_congr ws s1 s3 hlook b q hq)
      rw [hload q, if_neg hqp, e1] at e2
      simp only [Option.some.injEq] at e2
      exact e2.symm
    · rw [smOf_no_node ws s1 b hb1 hl2]
      exact smOf_no_node ws s3 b hb1 (by rw [hlook]; exact hl2)
  refine ⟨p, s1, _, s3, h1, hl, e2, e3, hwf3, hdist.trans hao.dist, ?_, ?_⟩
  · intro b hb
    by_cases hr : b / 65536 = a / 65536
    · rw [if_pos hr, smOf_region ws hws s3 b a hb ha hr]
      exact hsma
    · rw [if_neg hr]
      exact hother b hb hr
  · intro b hb hne
    refine abits2_of_congr ws s s3 b (hother b hb hne) ?_
    have hvb := smOf_valid ws hws s hwf b
    cases hsb : smOf ws s b with
    | null => rfl
    | distinguished j =>
      rw [contents_distinguished, contents_distinguished, hdist, hao.dist]
    | allocated j =>
      rw [contents_allocated, contents_allocated, hheap]
      have hne2 : SecMapPtr.allocated j ≠ smOf ws s a := by
        intro he
        exact hne (smOf_noalias ws hws s hwf b a hb ha j hsb he.symm)
      rw [hkeep j hne2, hao.heap]

theorem toWord_mod_region (ws : Nat) (hws : WordSizeOk ws) (x : Nat) :
    toWord ws x % 65536 = x % 65536 := by
  unfold toWord
  exact Nat.mod_mod_of_dvd x (word_pow_dvd ws hws)

theorem DistinguishedIntact_congr (s s1 : State)
    (h : s1.sm_distinguished = s.sm_distinguished) (hdi : DistinguishedIntact s) :
    DistinguishedIntact s1 := by
  intro off hoff
  rw [h]
  exact hdi off hoff

theorem sarp_share_page (ws : Nat) (hws : WordSizeOk ws) (a0 t : Nat)
    (ht : t = A_BITS2_NOCHECK ∨ t = A_BITS2_UNWRITABLE ∨ t = A_BITS2_UNREFERABLE)
    (i : Nat) (s s3 : State) (hdi : DistinguishedIntact s3)
    (hal : (a0 + i) % 65536 = 0)
    (hsm : ∀ b, b < 2 ^ WORD_BITS ws → smOf ws s3 b
      = if b / 65536 = toWord ws (a0 + i) / 65536
        then SecMapPtr.distinguished (dsm_of_tag t) else smOf ws s b)
    (htag : ∀ b, b < 2 ^ WORD_BITS ws → b / 65536 ≠ toWord ws (a0 + i) / 65536 →
      abits2_of ws s3 b = abits2_of ws s b) :
    PaintStep ws a0 t i 65536 s s3 ∧
      ShareStep ws a0 (SecMapPtr.distinguished (dsm_of_tag t)) i 65536 s s3 := by
  have hal2 : toWord ws (a0 + i) % 65536 = 0 := by
    rw [toWord_mod_region ws hws]
    exact hal
  have hfit : toWord ws (a0 + i) % 65536 + 65536 ≤ 65536 := by omega
  constructor
  · apply PaintStep_of_block ws hws a0 t i 65536 s s3 hfit
    intro b hb
    have hiff := aligned_region (toWord ws (a0 + i)) b hal2
    by_cases hin : toWord ws (a0 + i) ≤ b ∧ b < toWord ws (a0 + i) + 65536
    · rw [if_pos hin]
      have := hsm b hb
      rw [if_pos (hiff.mp hin)] at this
      exact abits2_of_distinguished ws s3 b t ht hdi this
    · rw [if_neg hin]
      exact htag b hb (fun h => hin (hiff.mpr h))
  · apply ShareStep_of_block ws hws a0 _ i 65536 s s3 hfit
    intro b hb
    have hiff := aligned_region (toWord ws (a0 + i)) b hal2
    rw [hsm b hb]
    by_cases hin : toWord ws (a0 + i) ≤ b ∧ b < toWord ws (a0 + i) + 65536
    · rw [if_pos hin, if_pos (hiff.mp hin)]
    · rw [if_neg hin, if_neg (fun h => hin (hiff.mpr h))]

theorem sarp_part2_spec (ws : Nat) (hws : WordSizeOk ws) (a0 t : Nat)
    (ht : t = A_BITS2_NOCHECK ∨ t = A_BITS2_UNWRITABLE ∨ t = A_BITS2_UNREFERABLE) :
    ∀ fuel i lenB s, WF ws s → DistinguishedIntact s → (a0 + i) % 65536 = 0 →
      lenB / 65536 ≤ fuel →
      ∃ s1, sarp_part2 ws (SecMapPtr.distinguished (dsm_of_tag t)) fuel
          (toWord ws (a0 + i)) lenB s
          = some (toWord ws (a0 + (i + 65536 * (lenB / 65536))), lenB % 65536, s1) ∧
        WF ws s1 ∧ s1.sm_distinguished = s.sm_distinguished ∧
        PaintStep ws a0 t i (65536 * (lenB / 65536)) s s1 ∧
        ShareStep ws a0 (SecMapPtr.distinguished (dsm_of_tag t)) i
          (65536 * (lenB / 65536)) s s1 := by
  have hstop : ∀ fuel i lenB s, lenB < 65536 →
      sarp_part2 ws (SecMapPtr.distinguished (dsm_of_tag t)) fuel (toWord ws (a0 + i)) lenB s
          = some (toWord ws (a0 + (i + 65536 * (lenB / 65536))), lenB % 65536, s) ∧
        PaintStep ws a0 t i (65536 * (lenB / 65536)) s s ∧
        ShareStep ws a0 (SecMapPtr.distinguished (dsm_of_tag t)) i
          (65536 * (lenB / 65536)) s s := by
    intro fuel i lenB s hl
    have hl2 : lenB < SM_SIZE := hl
    rw [Nat.div_eq_of_lt hl, Nat.mod_eq_of_lt hl]
    refine ⟨?_, PaintStep_zero ws a0 t i s s (fun _ => rfl),
      ShareStep_zero ws a0 _ i s s (fun _ => rfl)⟩
    cases fuel with
    | zero => unfold sarp_part2; rw [if_pos hl2]; rfl
    | succ f => unfold sarp_part2; rw [if_pos hl2]; rfl
  intro fuel
  induction fuel with
  | zero =>
    intro i lenB s hwf _ _ hfuel
    have hl : lenB < 65536 := by omega
    obtain ⟨e, hp, hs⟩ := hstop 0 i lenB s hl
    exact ⟨s, e, hwf, rfl, hp, hs⟩
  | succ fuel ih =>
    intro i lenB s hwf hdi hal hfuel
    by_cases hl : lenB < 65536
    · obtain ⟨e, hp, hs⟩ := hstop (fuel + 1) i lenB s hl
      exact ⟨s, e, hwf, rfl, hp, hs⟩
    · have ha := toWord_lt ws (a0 + i)
      have hal2 : toWord ws (a0 + i) % 65536 = 0 := by
        rw [toWord_mod_region ws hws]
        exact hal
      have hstart : is_start_of_sm ws (toWord ws (a0 + i)) = true :=
        (is_start_of_sm_iff ws hws _ ha).mpr hal2
      obtain ⟨p, s1, s2, s3, e1, e2, e3, e4, hwf3, hd3, hsm3, htag3⟩ :=
        sarp_share_step ws hws s hwf (toWord ws (a0 + i)) (dsm_of_tag t) (dsm_of_tag_lt t) ha
      have hdi3 := DistinguishedIntact_congr s s3 hd3 hdi
      obtain ⟨hp3, hs3⟩ := sarp_share_page ws hws a0 t ht i s s3 hdi3 hal hsm3 htag3
      obtain ⟨s4, e5, hwf4, hd4, hp4, hs4⟩ := ih (i + 65536) (lenB - 65536) s3 hwf3 hdi3
        (by omega) (by omega)
      have hnext : toWord ws (toWord ws (a0 + i) + SM_SIZE) = toWord ws (a0 + (i + 65536)) := by
        rw [toWord_add_toWord, Nat.add_assoc]
        rfl
      have hl2 : ¬ lenB < SM_SIZE := hl
      have harith : i + 65536 + 65536 * ((lenB - 65536) / 65536)
          = i + 65536 * (lenB / 65536) := by omega
      have harith2 : 65536 + 65536 * ((lenB - 65536) / 65536) = 65536 * (lenB / 65536) := by
        omega
      have hmod : (lenB - 65536) % 65536 = lenB % 65536 := by omega
      rw [harith, hmod] at e5
      refine ⟨s4, ?_, hwf4, hd4.trans hd3, ?_, ?_⟩
      · unfold sarp_part2
        rw [if_neg hl2, if_pos hstart, e1]
        dsimp only
        rw [e2]
        dsimp only
        rw [e3]
        dsimp only
        rw [e4]
        dsimp only
        rw [hnext]
        exact e5
      · have := PaintStep_trans ws a0 t i 65536 _ s s3 s4 hp3 hp4
        rw [harith2] at this
        exact this
      · have := ShareStep_trans ws a0 _ i 65536 _ s s3 s4 hs3 hs4
        rw [harith2] at this
        exact this

/-! ## The fast range painter as a whole -/

theorem aNext_eq (ws : Nat) (hws : WordSizeOk ws) (a : Nat) (ha : a < 2 ^ WORD_BITS ws) :
    toWord ws (start_of_this_sm ws a + SM_SIZE) = toWord ws (a + (65536 - a % 65536)) := by
  rw [start_of_this_sm_eq ws hws a ha]
  have := Nat.mod_le a 65536
  have := Nat.mod_lt a (show 0 < 65536 by decide)
  have e : a - a % 65536 + SM_SIZE = a + (65536 - a % 65536) := by
    unfold SM_SIZE
    omega
  rw [e]

theorem len_to_next_eq (ws : Nat) (hws : WordSizeOk ws) (a : Nat) (ha : a < 2 ^ WORD_BITS ws) :
    toWord ws (toWord ws (start_of_this_sm ws a + SM_SIZE) + (2 ^ WORD_BITS ws - a))
      = 65536 - a % 65536 := by
  rw [aNext_eq ws hws a ha, toWord_add_toWord]
  have hend := region_end_le ws hws a ha
  have := Nat.mod_le a 65536
  have := Nat.mod_lt a (show 0 < 65536 by decide)
  unfold toWord
  rcases word_cases ws hws with h | h <;> rw [h] at ha hend ⊢ <;> omega

theorem sarp_part23_spec (ws : Nat) (hws : WordSizeOk ws) (a0 t : Nat)
    (ht : t = A_BITS2_NOCHECK ∨ t = A_BITS2_UNWRITABLE ∨ t = A_BITS2_UNREFERABLE)
    (i lenB : Nat) (s : State) (hwf : WF ws s) (hdi : DistinguishedIntact s)
    (hal : (a0 + i) % 65536 = 0) :
    ∃ s1, sarp_part23 ws s (toWord ws (a0 + i)) 0 lenB (abits16_of_tag t)
        (SecMapPtr.distinguished (dsm_of_tag t)) = some s1 ∧
      WF ws s1 ∧ s1.sm_distinguished = s.sm_distinguished ∧
      PaintStep ws a0 t i lenB s s1 ∧
      ∃ sm, ShareStep ws a0 (SecMapPtr.distinguished (dsm_of_tag t)) i
          (65536 * (lenB / 65536)) s sm ∧
        SlotFrame ws (toWord ws (a0 + (i + 65536 * (lenB / 65536)))) sm s1 := by
  obtain ⟨s1, e1, hwf1, hd1, hp1, hs1⟩ :=
    sarp_part2_spec ws hws a0 t ht lenB i lenB s hwf hdi hal (Nat.div_le_self _ _)
  have hdm := Nat.div_add_mod lenB 65536
  unfold sarp_part23
  rw [if_pos rfl, e1]
  dsimp only
  by_cases hr : lenB % 65536 = 0
  · rw [if_pos hr]
    refine ⟨s1, rfl, hwf1, hd1, ?_, s1, hs1, fun _ _ _ => rfl⟩
    rw [show 65536 * (lenB / 65536) = lenB by omega] at hp1
    exact hp1
  · rw [if_neg hr]
    have ha2 := toWord_lt ws (a0 + (i + 65536 * (lenB / 65536)))
    have hal2 : toWord ws (a0 + (i + 65536 * (lenB / 65536))) % 65536 = 0 := by
      rw [toWord_mod_region ws hws]
      omega
    obtain ⟨s2, e2, hwf2, hd2, hf2, htag2⟩ :=
      sarp_part3_spec ws hws s1 hwf1 (DistinguishedIntact_congr s s1 hd1 hdi)
        (toWord ws (a0 + (i + 65536 * (lenB / 65536)))) (lenB % 65536) t ht ha2 hal2
        (Nat.mod_lt _ (by decide))
    refine ⟨s2, e2, hwf2, hd2.trans hd1, ?_, s1, hs1, hf2⟩
    have hp2 := PaintStep_of_block ws hws a0 t (i + 65536 * (lenB / 65536)) (lenB % 65536)
      s1 s2 (by omega) htag2
    have := PaintStep_trans ws a0 t i _ _ s s1 s2 hp1 hp2
    rw [hdm] at this
    exact this

theorem fast_valid (t : Nat) :
    A_BITS16_NOCHECK = abits16_of_tag t ∨ A_BITS16_UNWRITABLE = abits16_of_tag t ∨
      A_BITS16_UNREFERABLE = abits16_of_tag t ∨ A_BITS16_REFCHECK = abits16_of_tag t := by
  rcases abits16_of_tag_valid t with h | h | h | h
  · exact Or.inl h.symm
  · exact Or.inr (Or.inl h.symm)
  · exact Or.inr (Or.inr (Or.inl h.symm))
  · exact Or.inr (Or.inr (Or.inr h.symm))

theorem fast_single_page (ws : Nat) (hws : WordSizeOk ws) (s : State) (hwf : WF ws s)
    (hdi : DistinguishedIntact s) (a n t : Nat)
    (ht : t = A_BITS2_NOCHECK ∨ t = A_BITS2_UNWRITABLE ∨ t = A_BITS2_UNREFERABLE)
    (ha : a < 2 ^ WORD_BITS ws) (hn0 : n ≠ 0) (hn : n ≤ 65536 - a % 65536) :
    ∃ s1, set_address_range_perms_fast ws s a n (abits16_of_tag t) (dsm_of_tag t)
        (SecMapPtr.distinguished (dsm_of_tag t)) = some s1 ∧
      WF ws s1 ∧ s1.sm_distinguished = s.sm_distinguished ∧ PaintStep ws a t 0 n s s1 ∧
      SlotFrame ws a s s1 ∧
      (smOf ws s a = SecMapPtr.distinguished (dsm_of_tag t) →
        smOf ws s1 a = SecMapPtr.distinguished (dsm_of_tag t)) ∧
      (smOf ws s a ≠ SecMapPtr.distinguished (dsm_of_tag t) →
        ∃ id, smOf ws s1 a = SecMapPtr.allocated id) := by
  have hmodlt := Nat.mod_lt a (show 0 < 65536 by decide)
  obtain ⟨a1, s1, e1, hwf1, hd1, hf1, _, htag1, hk1, hk2⟩ :=
    sarp_part1_spec ws hws s hwf hdi a n (toWord ws (start_of_this_sm ws a + SM_SIZE)) t ht ha
      (by omega)
  unfold set_address_range_perms_fast
  rw [if_pos (fast_valid t), if_neg hn0]
  dsimp only
  rw [len_to_next_eq ws hws a ha, if_pos hn, e1]
  refine ⟨s1, rfl, hwf1, hd1, ?_, hf1, hk1, hk2⟩
  have h0 : toWord ws (a + 0) = a := toWord_of_lt ws a ha
  apply PaintStep_of_block ws hws a t 0 n s s1
  · rw [h0]; omega
  · rw [h0]; exact htag1

theorem fast_multi_page (ws : Nat) (hws : WordSizeOk ws) (s : State) (hwf : WF ws s)
    (hdi : DistinguishedIntact s) (a n t : Nat)
    (ht : t = A_BITS2_NOCHECK ∨ t = A_BITS2_UNWRITABLE ∨ t = A_BITS2_UNREFERABLE)
    (ha : a < 2 ^ WORD_BITS ws) (hn : 65536 - a % 65536 < n) :
    ∃ s1, set_address_range_perms_fast ws s a n (abits16_of_tag t) (dsm_of_tag t)
        (SecMapPtr.distinguished (dsm_of_tag t)) = some s1 ∧
      WF ws s1 ∧ s1.sm_distinguished = s.sm_distinguished ∧ PaintStep ws a t 0 n s s1 ∧
      ∃ l s0 sm, (a + l) % 65536 = 0 ∧ l < 65536 ∧ l ≤ n ∧
        ShareStep ws a (SecMapPtr.distinguished (dsm_of_tag t)) l
          (65536 * ((n - l) / 65536)) s0 sm ∧
        SlotFrame ws (toWord ws (a + (l + 65536 * ((n - l) / 65536)))) sm s1 := by
  have hmodlt := Nat.mod_lt a (show 0 < 65536 by decide)
  have hn0 : n ≠ 0 := by omega
  have hnle : ¬ n ≤ 65536 - a % 65536 := by omega
  unfold set_address_range_perms_fast
  rw [if_pos (fast_valid t), if_neg hn0]
  dsimp only
  rw [len_to_next_eq ws hws a ha, if_neg hnle]
  by_cases hal : a % 65536 = 0
  · rw [if_pos ((is_start_of_sm_iff ws hws a ha).mpr hal)]
    obtain ⟨s1, e1, hwf1, hd1, hp1, sm, hs, hf⟩ :=
      sarp_part23_spec ws hws a t ht 0 n s hwf hdi (by omega)
    rw [toWord_of_lt ws (a + 0) ha] at e1
    exact ⟨s1, e1, hwf1, hd1, hp1, 0, s, sm, by omega, by decide, Nat.zero_le _, hs, hf⟩
  · have hns : ¬ is_start_of_sm ws a = true := fun h =>
      hal ((is_start_of_sm_iff ws hws a ha).mp h)
    rw [if_neg hns]
    obtain ⟨a1, s1, e1, hwf1, hd1, hf1, ha1, htag1, _, _⟩ :=
      sarp_part1_spec ws hws s hwf hdi a (65536 - a % 65536)
        (toWord ws (start_of_this_sm ws a + SM_SIZE)) t ht ha (by omega)
    have ha1' : a1 = toWord ws (a + (65536 - a % 65536)) := by
      rcases ha1 with h | h
      · rw [h, aNext_eq ws hws a ha]
      · exact h
    rw [e1]
    dsimp only
    rw [if_neg (by omega), ha1']
    obtain ⟨s2, e2, hwf2, hd2, hp2, sm, hs, hf⟩ :=
      sarp_part23_spec ws hws a t ht (65536 - a % 65536) (n - (65536 - a % 65536)) s1 hwf1
        (DistinguishedIntact_congr s s1 hd1 hdi) (by omega)
    refine ⟨s2, e2, hwf2, hd2.trans hd1, ?_, 65536 - a % 65536, s1, sm, by omega, by omega,
      by omega, hs, hf⟩
    have h0 : toWord ws (a + 0) = a := toWord_of_lt ws a ha
    have hp1 : PaintStep ws a t 0 (65536 - a % 65536) s s1 := by
      apply PaintStep_of_block ws hws a t 0 _ s s1
      · rw [h0]; omega
      · rw [h0]; exact htag1
    have := PaintStep_trans ws a t 0 _ _ s s1 s2 hp1 (by rw [Nat.zero_add]; exact hp2)
    rw [show 65536 - a % 65536 + (n - (65536 - a % 65536)) = n by omega] at this
    exact this

/-! ## The fast range painter against the byte loop -/

theorem set_address_range_perms_fast_spec (ws : Nat) (hws : WordSizeOk ws) (s : State)
    (hwf : WF ws s) (hdi : DistinguishedIntact s) (a n t : Nat)
    (ht : t = A_BITS2_NOCHECK ∨ t = A_BITS2_UNWRITABLE ∨ t = A_BITS2_UNREFERABLE)
    (ha : a < 2 ^ WORD_BITS ws) :
    ∃ s1, set_address_range_perms_fast ws s a n (abits16_of_tag t) (dsm_of_tag t)
        (SecMapPtr.distinguished (dsm_of_tag t)) = some s1 ∧
      WF ws s1 ∧ s1.sm_distinguished = s.sm_distinguished ∧ PaintStep ws a t 0 n s s1 := by
  by_cases hn0 : n = 0
  · refine ⟨s, ?_, hwf, rfl, ?_⟩
    · unfold set_address_range_perms_fast
      rw [if_pos (fast_valid t), if_pos hn0]
    · rw [hn0]
      exact PaintStep_zero ws a t 0 s s (fun _ => rfl)
  · by_cases hn : n ≤ 65536 - a % 65536
    · obtain ⟨s1, e1, hwf1, hd1, hp1, _⟩ :=
        fast_single_page ws hws s hwf hdi a n t ht ha hn0 hn
      exact ⟨s1, e1, hwf1, hd1, hp1⟩
    · obtain ⟨s1, e1, hwf1, hd1, hp1, _⟩ :=
        fast_multi_page ws hws s hwf hdi a n t ht ha (by omega)
      exact ⟨s1, e1, hwf1, hd1, hp1⟩

/-- C26. Fast painter refines the byte loop: for every state satisfying the representation
invariant whose distinguished pages hold their startup contents, every address `a`,
length `n` and paintable tag `t`, the three-part algorithm of `set_address_range_perms`
compiled with `PERF_FAST_SARP`, with `example_dsm` the distinguished page of `t`, returns,
the default byte loop returns, and `get_abits2` of every address gives the same tag in the
two resulting states. -/
theorem fast_painter_refines_byte_loop (ws : Nat) (hws : WordSizeOk ws) (s : State)
    (hwf : WF ws s) (hdi : DistinguishedIntact s) (a n t : Nat)
    (ht : t = A_BITS2_NOCHECK ∨ t = A_BITS2_UNWRITABLE ∨ t = A_BITS2_UNREFERABLE)
    (ha : a < 2 ^ WORD_BITS ws) :
    ∃ sf sd,
      set_address_range_perms_fast ws s a n (abits16_of_tag t) (dsm_of_tag t)
        (SecMapPtr.distinguished (dsm_of_tag t)) = some sf ∧
      set_address_range_perms ws s a n (abits16_of_tag t) (dsm_of_tag t) = some sd ∧
      ∀ b, b < 2 ^ WORD_BITS ws → tag_at ws sf b = tag_at ws sd b := by
  obtain ⟨sf, ef, hwff, _, hpf⟩ :=
    set_address_range_perms_fast_spec ws hws s hwf hdi a n t ht ha
  obtain ⟨sd, ed, hwfd, _, _, _, hpd⟩ :=
    set_address_range_perms_spec ws hws s a n (abits16_of_tag t) (dsm_of_tag t) hwf
      (abits16_of_tag_valid t)
  rw [abits16_of_tag_and t ht] at hpd
  refine ⟨sf, sd, ef, ed, ?_⟩
  intro b hb
  rw [tag_at_eq ws hws sf b hwff hb, tag_at_eq ws hws sd b hwfd hb]
  by_cases hin : ∃ j, j < n ∧ toWord ws (a + j) = b
  · obtain ⟨j, hj, hjb⟩ := hin
    rw [(hpf b hb).1 ⟨j, Nat.zero_le _, by omega, hjb⟩, (hpd b hb).1 ⟨j, hj, hjb⟩]
  · have hnot : ∀ j, j < n → toWord ws (a + j) ≠ b := fun j hj hjb => hin ⟨j, hj, hjb⟩
    rw [(hpf b hb).2 (fun j _ hj => hnot j (by omega)), (hpd b hb).2 hnot]

theorem fast_painter_refines_byte_loop_witness :
    ∃ sf sd,
      set_address_range_perms_fast 8 (og_pre_clo_init 8) 65530 140000
        (abits16_of_tag A_BITS2_UNWRITABLE) (dsm_of_tag A_BITS2_UNWRITABLE)
        (SecMapPtr.distinguished (dsm_of_tag A_BITS2_UNWRITABLE)) = some sf ∧
      set_address_range_perms 8 (og_pre_clo_init 8) 65530 140000
        (abits16_of_tag A_BITS2_UNWRITABLE) (dsm_of_tag A_BITS2_UNWRITABLE) = some sd ∧
      ∀ b, b < 2 ^ WORD_BITS 8 → tag_at 8 sf b = tag_at 8 sd b :=
  fast_painter_refines_byte_loop 8 (Or.inr rfl) (og_pre_clo_init 8) (WF_startup 8)
    (DistinguishedIntact_startup 8) 65530 140000 A_BITS2_UNWRITABLE (Or.inr (Or.inl rfl))
    (by decide)

/-- C27 (counterexample). From the startup state of a 64-bit build, the fast algorithm
called for the one aligned page `a = 0`, `n = 65536` with the UNWRITABLE constant and
`example_dsm` the distinguished UNWRITABLE page leaves the map slot of that page holding a
heap block, not the distinguished page. -/
theorem fast_painter_one_aligned_page_private :
    ∃ s1 id, set_address_range_perms_fast 8 (og_pre_clo_init 8) 0 65536 A_BITS16_UNWRITABLE
        SM_DIST_UNWRITABLE (SecMapPtr.distinguished SM_DIST_UNWRITABLE) = some s1 ∧
      s1.primary_map 0 = SecMapPtr.allocated id ∧
      s1.primary_map 0 ≠ SecMapPtr.distinguished SM_DIST_UNWRITABLE := by
  obtain ⟨s1, e1, _, _, _, _, _, hk⟩ :=
    fast_single_page 8 (Or.inr rfl) (og_pre_clo_init 8) (WF_startup 8)
      (DistinguishedIntact_startup 8) 0 65536 A_BITS2_UNWRITABLE (Or.inr (Or.inl rfl))
      (by decide) (by decide) (by decide)
  obtain ⟨id, hid⟩ := hk (by
    rw [startup_smOf 8 (Or.inr rfl) 0]
    decide)
  have hsm : smOf 8 s1 0 = s1.primary_map 0 := rfl
  rw [hsm] at hid
  refine ⟨s1, id, e1, hid, ?_⟩
  rw [hid]
  intro h
  cases h

/-- C27 (amended). Full-page sharing in the fast painter: for every state satisfying the
representation invariant whose distinguished pages hold their startup contents, every
address `a`, length `n` and paintable tag `t`, the fast algorithm of
`set_address_range_perms` (with `example_dsm` the distinguished page of `t`) returns; when
the range extends beyond the 64 KiB page of `a` (`n > 65536 - a % 65536`), every page that
lies wholly inside `[a, a+n)` has its map slot equal, by pointer identity, to the
distinguished page of `t`; when the range stays within the page of `a`, which includes the
range that is exactly one aligned page, the slot of that page holds the distinguished page
of `t` if it held it before and a heap block otherwise. -/
theorem fast_painter_shares_full_pages (ws : Nat) (hws : WordSizeOk ws) (s : State)
    (hwf : WF ws s) (hdi : DistinguishedIntact s) (a n t : Nat)
    (ht : t = A_BITS2_NOCHECK ∨ t = A_BITS2_UNWRITABLE ∨ t = A_BITS2_UNREFERABLE)
    (ha : a < 2 ^ WORD_BITS ws) (hn : n < 2 ^ WORD_BITS ws) :
    ∃ s1, set_address_range_perms_fast ws s a n (abits16_of_tag t) (dsm_of_tag t)
        (SecMapPtr.distinguished (dsm_of_tag t)) = some s1 ∧
      (65536 - a % 65536 < n → ∀ b, b < 2 ^ WORD_BITS ws → a ≤ b - b % 65536 →
        b - b % 65536 + 65536 ≤ a + n →
        smOf ws s1 b = SecMapPtr.distinguished (dsm_of_tag t)) ∧
      (n ≠ 0 → n ≤ 65536 - a % 65536 →
        (smOf ws s a = SecMapPtr.distinguished (dsm_of_tag t) →
          smOf ws s1 a = SecMapPtr.distinguished (dsm_of_tag t)) ∧
        (smOf ws s a ≠ SecMapPtr.distinguished (dsm_of_tag t) →
          ∃ id, smOf ws s1 a = SecMapPtr.allocated id)) := by
  by_cases hn0 : n = 0
  · refine ⟨s, ?_, fun h => by omega, fun h => absurd hn0 h⟩
    unfold set_address_range_perms_fast
    rw [if_pos (fast_valid t), if_pos hn0]
  · by_cases hsingle : n ≤ 65536 - a % 65536
    · obtain ⟨s1, e1, _, _, _, _, hk1, hk2⟩ :=
        fast_single_page ws hws s hwf hdi a n t ht ha hn0 hsingle
      exact ⟨s1, e1, fun h => by omega, fun _ _ => ⟨hk1, hk2⟩⟩
    · obtain ⟨s1, e1, _, _, _, l, s0, sm, hl1, hl2, hl3, hshare, hframe⟩ :=
        fast_multi_page ws hws s hwf hdi a n t ht ha (by omega)
      refine ⟨s1, e1, ?_, fun _ h => absurd h hsingle⟩
      intro _ b hb hlo hhi
      have hbm := Nat.mod_le b 65536
      have hbl := Nat.mod_lt b (show 0 < 65536 by decide)
      have hsmb : smOf ws sm b = SecMapPtr.distinguished (dsm_of_tag t) := by
        refine (hshare b hb).1 ⟨b - a, by omega, by omega, ?_⟩
        rw [show a + (b - a) = b by omega]
        exact toWord_of_lt ws b hb
      rw [hframe b hb ?_, hsmb]
      unfold toWord
      rcases word_cases ws hws with h | h <;> rw [h] at ha hb hn ⊢ <;> omega

theorem fast_painter_shares_full_pages_witness :
    ∃ s1, set_address_range_perms_fast 8 (og_pre_clo_init 8) 65530 140000
        (abits16_of_tag A_BITS2_UNWRITABLE) (dsm_of_tag A_BITS2_UNWRITABLE)
        (SecMapPtr.distinguished (dsm_of_tag A_BITS2_UNWRITABLE)) = some s1 ∧
      smOf 8 s1 65536 = SecMapPtr.distinguished (dsm_of_tag A_BITS2_UNWRITABLE) ∧
      smOf 8 s1 (131072 + 65535) = SecMapPtr.distinguished (dsm_of_tag A_BITS2_UNWRITABLE) := by
  obtain ⟨s1, e1, h1, _⟩ :=
    fast_painter_shares_full_pages 8 (Or.inr rfl) (og_pre_clo_init 8) (WF_startup 8)
      (DistinguishedIntact_startup 8) 65530 140000 A_BITS2_UNWRITABLE (Or.inr (Or.inl rfl))
      (by decide) (by decide)
  exact ⟨s1, e1, h1 (by decide) 65536 (by decide) (by decide) (by decide),
    h1 (by decide) (131072 + 65535) (by decide) (by decide) (by decide)⟩

/-! ## What `insert_store_checker` emits -/

theorem insert_store_checker_V128 (bbOut : IRSB) (addr data : IRExpr) (guard : Option IRExpr)
    (tyAddr : IRType) (hA : tyAddr = IRType.Ity_I32 ∨ tyAddr = IRType.Ity_I64)
    (h : typeOfIRExpr bbOut.tyenv data = some IRType.Ity_V128) :
    insert_store_checker bbOut addr data guard tyAddr
      = some { bbOut with
          tyenv := bbOut.tyenv ++ [tyAddr, IRType.Ity_I64, tyAddr, IRType.Ity_I64],
          stmts := bbOut.stmts ++
            [IRStmt.WrTmp bbOut.tyenv.length
               (IRExpr.Binop (if tyAddr = IRType.Ity_I32 then IROp.Iop_Add32 else IROp.Iop_Add64)
                 addr (eBias tyAddr 0)),
             IRStmt.WrTmp (bbOut.tyenv.length + 1) (IRExpr.Unop IROp.Iop_V128to64 data),
             IRStmt.WrTmp (bbOut.tyenv.length + 2)
               (IRExpr.Binop (if tyAddr = IRType.Ity_I32 then IROp.Iop_Add32 else IROp.Iop_Add64)
                 addr (eBias tyAddr 8)),
             IRStmt.WrTmp (bbOut.tyenv.length + 3) (IRExpr.Unop IROp.Iop_V128HIto64 data),
             IRStmt.Dirty (set_guard guard (IRDirty_0_N 0 "OG_(store_check64)"
               OgHelper.store_check64
               [IRExpr.RdTmp bbOut.tyenv.length, IRExpr.RdTmp (bbOut.tyenv.length + 1)])),
             IRStmt.Dirty (set_guard guard (IRDirty_0_N 0 "OG_(store_check64)"
               OgHelper.store_check64
               [IRExpr.RdTmp (bbOut.tyenv.length + 2),
                IRExpr.RdTmp (bbOut.tyenv.length + 3)]))] } := by
  unfold insert_store_checker
  simp only [h, hA, if_true, select_helper, assignNew, newIRTemp, addStmtToIRSB,
    List.append_assoc, List.length_append, List.length_singleton, List.singleton_append,
    List.cons_append, List.nil_append, Nat.add_assoc, reduceCtorEq, if_false]
  rfl

theorem insert_store_checker_V256 (bbOut : IRSB) (addr data : IRExpr) (guard : Option IRExpr)
    (tyAddr : IRType) (hA : tyAddr = IRType.Ity_I32 ∨ tyAddr = IRType.Ity_I64)
    (h : typeOfIRExpr bbOut.tyenv data = some IRType.Ity_V256) :
    insert_store_checker bbOut addr data guard tyAddr
      = some { bbOut with
          tyenv := bbOut.tyenv ++ [tyAddr, IRType.Ity_I64, tyAddr, IRType.Ity_I64,
            tyAddr, IRType.Ity_I64, tyAddr, IRType.Ity_I64],
          stmts := bbOut.stmts ++
            [IRStmt.WrTmp bbOut.tyenv.length
               (IRExpr.Binop (if tyAddr = IRType.Ity_I32 then IROp.Iop_Add32 else IROp.Iop_Add64)
                 addr (eBias tyAddr 0)),
             IRStmt.WrTmp (bbOut.tyenv.length + 1) (IRExpr.Unop IROp.Iop_V256to64_0 data),
             IRStmt.WrTmp (bbOut.tyenv.length + 2)
               (IRExpr.Binop (if tyAddr = IRType.Ity_I32 then IROp.Iop_Add32 else IROp.Iop_Add64)
                 addr (eBias tyAddr 8)),
             IRStmt.WrTmp (bbOut.tyenv.length + 3) (IRExpr.Unop IROp.Iop_V256to64_1 data),
             IRStmt.WrTmp (bbOut.tyenv.length + 4)
               (IRExpr.Binop (if tyAddr = IRType.Ity_I32 then IROp.Iop_Add32 else IROp.Iop_Add64)
                 addr (eBias tyAddr 16)),
             IRStmt.WrTmp (bbOut.tyenv.length + 5) (IRExpr.Unop IROp.Iop_V256to64_2 data),
             IRStmt.WrTmp (bbOut.tyenv.length + 6)
               (IRExpr.Binop (if tyAddr = IRType.Ity_I32 then IROp.Iop_Add32 else IROp.Iop_Add64)
                 addr (eBias tyAddr 24)),
             IRStmt.WrTmp (bbOut.tyenv.length + 7) (IRExpr.Unop IROp.Iop_V256to64_3 data),
             IRStmt.Dirty (set_guard guard (IRDirty_0_N 0 "OG_(store_check64)"
               OgHelper.store_check64
               [IRExpr.RdTmp bbOut.tyenv.length, IRExpr.RdTmp (bbOut.tyenv.length + 1),
                IRExpr.Const (IRConst.U32 (if tyAddr = IRType.Ity_I32 then 32 else 64))])),
             IRStmt.Dirty (set_guard guard (IRDirty_0_N 0 "OG_(store_check64)"
               OgHelper.store_check64
               [IRExpr.RdTmp (bbOut.tyenv.length + 2), IRExpr.RdTmp (bbOut.tyenv.length + 3),
                IRExpr.Const (IRConst.U32 (if tyAddr = IRType.Ity_I32 then 32 else 64))])),
             IRStmt.Dirty (set_guard guard (IRDirty_0_N 0 "OG_(store_check64)"
               OgHelper.store_check64
               [IRExpr.RdTmp (bbOut.tyenv.length + 4), IRExpr.RdTmp (bbOut.tyenv.length + 5),
                IRExpr.Const (IRConst.U32 (if tyAddr = IRType.Ity_I32 then 32 else 64))])),
             IRStmt.Dirty (set_guard guard (IRDirty_0_N 0 "OG_(store_check64)"
               OgHelper.store_check64
               [IRExpr.RdTmp (bbOut.tyenv.length + 6), IRExpr.RdTmp (bbOut.tyenv.length + 7),
                IRExpr.Const (IRConst.U32 (if tyAddr = IRType.Ity_I32 then 32 else 64))]))] } := by
  unfold insert_store_checker
  simp only [h, hA, if_true, select_helper, assignNew, newIRTemp, addStmtToIRSB,
    List.append_assoc, List.length_append, List.length_singleton, List.singleton_append,
    List.cons_append, List.nil_append, Nat.add_assoc, reduceCtorEq, if_false]
  rfl

theorem insert_store_checker_I64 (bbOut : IRSB) (addr data : IRExpr) (guard : Option IRExpr)
    (tyAddr : IRType) (hA : tyAddr = IRType.Ity_I32 ∨ tyAddr = IRType.Ity_I64)
    (h : typeOfIRExpr bbOut.tyenv data = some IRType.Ity_I64) :
    insert_store_checker bbOut addr data guard tyAddr
      = some (addStmtToIRSB bbOut (IRStmt.Dirty (set_guard guard
          (IRDirty_0_N 0 "OG_(store_check64)" OgHelper.store_check64 [addr, data])))) := by
  unfold insert_store_checker
  simp only [h, hA, if_true, select_helper, reduceCtorEq, if_false]

theorem insert_store_checker_narrow (bbOut : IRSB) (addr data : IRExpr)
    (guard : Option IRExpr) (tyAddr ty : IRType) (helper : OgHelper) (hname : String)
    (hA : tyAddr = IRType.Ity_I32 ∨ tyAddr = IRType.Ity_I64)
    (h : typeOfIRExpr bbOut.tyenv data = some ty)
    (hty : ty = IRType.Ity_I8 ∨ ty = IRType.Ity_I16 ∨ ty = IRType.Ity_I32)
    (hsel : select_helper ty = some (helper, hname)) :
    insert_store_checker bbOut addr data guard tyAddr
      = (zwidenToHostWord bbOut tyAddr data).map (fun r =>
          addStmtToIRSB r.2 (IRStmt.Dirty (set_guard guard
            (IRDirty_0_N 0 hname helper [addr, r.1])))) := by
  have h1 : ty ≠ IRType.Ity_V256 := by rcases hty with rfl | rfl | rfl <;> decide
  have h2 : ty ≠ IRType.Ity_V128 := by rcases hty with rfl | rfl | rfl <;> decide
  have h3 : ty ≠ IRType.Ity_I64 := by rcases hty with rfl | rfl | rfl <;> decide
  unfold insert_store_checker
  simp only [h, hA, if_true, hsel, h1, h2, h3, if_false]
  cases zwidenToHostWord bbOut tyAddr data with
  | none => rfl
  | some r => rfl

theorem zwidenToHostWord_narrow (bbOut : IRSB) (data : IRExpr) (tyAddr ty : IRType)
    (hA : tyAddr = IRType.Ity_I32 ∨ tyAddr = IRType.Ity_I64)
    (h : typeOfIRExpr bbOut.tyenv data = some ty)
    (hty : ty = IRType.Ity_I8 ∨ ty = IRType.Ity_I16 ∨ ty = IRType.Ity_I32) :
    ∃ w pre extra, zwidenToHostWord bbOut tyAddr data
        = some (w, { bbOut with tyenv := bbOut.tyenv ++ extra, stmts := bbOut.stmts ++ pre }) ∧
      ∀ x, x ∈ pre → ∃ t e, x = IRStmt.WrTmp t e ∧ bbOut.tyenv.length ≤ t := by
  unfold zwidenToHostWord
  rw [h]
  dsimp only
  rcases hA with rfl | rfl
  · rw [if_pos rfl]
    rcases hty with rfl | rfl | rfl
    · refine ⟨_, [IRStmt.WrTmp bbOut.tyenv.length (IRExpr.Unop IROp.Iop_8Uto32 data)],
        [IRType.Ity_I32], rfl, ?_⟩
      intro x hx
      simp only [List.mem_singleton] at hx
      exact ⟨_, _, hx, Nat.le_refl _⟩
    · refine ⟨_, [IRStmt.WrTmp bbOut.tyenv.length (IRExpr.Unop IROp.Iop_16Uto32 data)],
        [IRType.Ity_I32], rfl, ?_⟩
      intro x hx
      simp only [List.mem_singleton] at hx
      exact ⟨_, _, hx, Nat.le_refl _⟩
    · refine ⟨data, [], [], ?_, ?_⟩
      · simp only [List.append_nil]
      · intro x hx
        cases hx
  · rw [if_neg (by decide), if_pos rfl]
    rcases hty with rfl | rfl | rfl
    · refine ⟨IRExpr.RdTmp (bbOut.tyenv.length + 1),
        [IRStmt.WrTmp bbOut.tyenv.length (IRExpr.Unop IROp.Iop_8Uto32 data),
          IRStmt.WrTmp (bbOut.tyenv.length + 1)
            (IRExpr.Unop IROp.Iop_32Uto64 (IRExpr.RdTmp bbOut.tyenv.length))],
        [IRType.Ity_I32, IRType.Ity_I64], ?_, ?_⟩
      · simp only [assignNew, newIRTemp, addStmtToIRSB, List.append_assoc,
          List.length_append, List.length_singleton, List.singleton_append]
      · intro x hx
        simp only [List.mem_cons, List.mem_singleton, List.not_mem_nil, or_false] at hx
        rcases hx with rfl | rfl
        · exact ⟨_, _, rfl, Nat.le_refl _⟩
        · exact ⟨_, _, rfl, Nat.le_add_right _ _⟩
    · refine ⟨IRExpr.RdTmp (bbOut.tyenv.length + 1),
        [IRStmt.WrTmp bbOut.tyenv.length (IRExpr.Unop IROp.Iop_16Uto32 data),
          IRStmt.WrTmp (bbOut.tyenv.length + 1)
            (IRExpr.Unop IROp.Iop_32Uto64 (IRExpr.RdTmp bbOut.tyenv.length))],
        [IRType.Ity_I32, IRType.Ity_I64], ?_, ?_⟩
      · simp only [assignNew, newIRTemp, addStmtToIRSB, List.append_assoc,
          List.length_append, List.length_singleton, List.singleton_append]
      · intro x hx
        simp only [List.mem_cons, List.mem_singleton, List.not_mem_nil, or_false] at hx
        rcases hx with rfl | rfl
        · exact ⟨_, _, rfl, Nat.le_refl _⟩
        · exact ⟨_, _, rfl, Nat.le_add_right _ _⟩
    · refine ⟨_, [IRStmt.WrTmp bbOut.tyenv.length (IRExpr.Unop IROp.Iop_32Uto64 data)],
        [IRType.Ity_I64], rfl, ?_⟩
      intro x hx
      simp only [List.mem_singleton] at hx
      exact ⟨_, _, hx, Nat.le_refl _⟩

theorem typeOfIRExpr_append (base extra : List IRType) (data : IRExpr) (ty : IRType)
    (h : typeOfIRExpr base data = some ty) : typeOfIRExpr (base ++ extra) data = some ty := by
  cases data with
  | RdTmp t =>
    have h : base.get? t = some ty := h
    show (base ++ extra).get? t = some ty
    rw [List.get?_eq_getElem?] at h ⊢
    have hlt : t < base.length := by
      by_contra hc
      rw [List.getElem?_eq_none (by omega)] at h
      cases h
    rw [List.getElem?_append_left hlt]
    exact h
  | Binder _ => exact h
  | Get _ _ => exact h
  | GetI _ _ _ => exact h
  | Qop _ _ _ _ _ => exact h
  | Triop _ _ _ _ => exact h
  | Binop _ _ _ => exact h
  | Unop _ _ => exact h
  | Load _ _ => exact h
  | Const _ => exact h
  | ITE _ _ _ => exact h
  | CCall _ _ _ => exact h

theorem set_guard_fields (guard : Option IRExpr) (n : String) (hp : OgHelper)
    (a : List IRExpr) :
    (set_guard guard (IRDirty_0_N 0 n hp a)).guard
        = guard.getD (IRExpr.Const (IRConst.U1 true)) ∧
      (set_guard guard (IRDirty_0_N 0 n hp a)).helper = hp ∧
      (set_guard guard (IRDirty_0_N 0 n hp a)).hname = n ∧
      (set_guard guard (IRDirty_0_N 0 n hp a)).args = a := by
  cases guard <;> exact ⟨rfl, rfl, rfl, rfl⟩

theorem insert_store_checker_emits (base extra : List IRType) (bbOut : IRSB)
    (addr data : IRExpr) (guard : Option IRExpr) (tyAddr ty : IRType)
    (hA : tyAddr = IRType.Ity_I32 ∨ tyAddr = IRType.Ity_I64)
    (hty : typeOfIRExpr base data = some ty) (hc : checked_types.contains ty = true)
    (henv : bbOut.tyenv = base ++ extra) :
    ∃ c extra1, insert_store_checker bbOut addr data guard tyAddr
        = some { bbOut with tyenv := base ++ extra1, stmts := bbOut.stmts ++ c } ∧
      ChecksStore base addr data guard c := by
  have hty2 : typeOfIRExpr bbOut.tyenv data = some ty := by
    rw [henv]
    exact typeOfIRExpr_append base extra data ty hty
  have hlen : base.length ≤ bbOut.tyenv.length := by
    rw [henv, List.length_append]
    exact Nat.le_add_right _ _
  have hcases : ty = IRType.Ity_I8 ∨ ty = IRType.Ity_I16 ∨ ty = IRType.Ity_I32 ∨
      ty = IRType.Ity_I64 ∨ ty = IRType.Ity_V128 ∨ ty = IRType.Ity_V256 := by
    simpa [checked_types] using hc
  have hnarrow : ∀ (hp : OgHelper) (n : String),
      (ty = IRType.Ity_I8 ∨ ty = IRType.Ity_I16 ∨ ty = IRType.Ity_I32) →
      select_helper ty = some (hp, n) →
      (ty = IRType.Ity_I8 → hp = OgHelper.store_check8 ∧ n = "OG_(store_check8)") →
      (ty = IRType.Ity_I16 → hp = OgHelper.store_check16 ∧ n = "OG_(store_check16)") →
      (ty = IRType.Ity_I32 → hp = OgHelper.store_check32 ∧ n = "OG_(store_check32)") →
      ∃ c extra1, insert_store_checker bbOut addr data guard tyAddr
          = some { bbOut with tyenv := base ++ extra1, stmts := bbOut.stmts ++ c } ∧
        ChecksStore base addr data guard c := by
    intro hp n hn hsel h8 h16 h32
    obtain ⟨w, pre, ex, hz, hpre⟩ := zwidenToHostWord_narrow bbOut data tyAddr ty hA hty2 hn
    have hf := set_guard_fields guard n hp [addr, w]
    refine ⟨pre ++ [IRStmt.Dirty (set_guard guard (IRDirty_0_N 0 n hp [addr, w]))],
      extra ++ ex, ?_, ty, pre, [set_guard guard (IRDirty_0_N 0 n hp [addr, w])], hty, rfl,
      ?_, by simp, ?_, ?_⟩
    · rw [insert_store_checker_narrow bbOut addr data guard tyAddr ty hp n hA hty2 hn hsel, hz]
      simp only [Option.map_some', addStmtToIRSB, henv, List.append_assoc]
    · intro x hx
      obtain ⟨t, e, he, hle⟩ := hpre x hx
      exact ⟨t, e, he, Nat.le_trans hlen hle⟩
    · intro d hd
      simp only [List.mem_singleton] at hd
      subst hd
      refine ⟨hf.1, ?_, ?_, ?_, ?_⟩
      · intro h; rw [hf.2.1, hf.2.2.1]; exact h8 h
      · intro h; rw [hf.2.1, hf.2.2.1]; exact h16 h
      · intro h; rw [hf.2.1, hf.2.2.1]; exact h32 h
      · intro h
        rcases hn with h1 | h1 | h1 <;> rw [h1] at h <;> simp at h
    · intro _
      exact ⟨_, rfl, by rw [hf.2.2.2]; rfl⟩
  rcases hcases with h | h | h | h | h | h
  · subst h
    exact hnarrow OgHelper.store_check8 "OG_(store_check8)" (Or.inl rfl) rfl
      (fun _ => ⟨rfl, rfl⟩) ((fun h => by cases h)) ((fun h => by cases h))
  · subst h
    exact hnarrow OgHelper.store_check16 "OG_(store_check16)" (Or.inr (Or.inl rfl)) rfl
      ((fun h => by cases h)) (fun _ => ⟨rfl, rfl⟩) ((fun h => by cases h))
  · subst h
    exact hnarrow OgHelper.store_check32 "OG_(store_check32)" (Or.inr (Or.inr rfl)) rfl
      ((fun h => by cases h)) ((fun h => by cases h)) (fun _ => ⟨rfl, rfl⟩)
  · subst h
    have hf := set_guard_fields guard "OG_(store_check64)" OgHelper.store_check64 [addr, data]
    refine ⟨[IRStmt.Dirty (set_guard guard
        (IRDirty_0_N 0 "OG_(store_check64)" OgHelper.store_check64 [addr, data]))], extra, ?_,
      IRType.Ity_I64, [], [set_guard guard
        (IRDirty_0_N 0 "OG_(store_check64)" OgHelper.store_check64 [addr, data])], hty, rfl,
      ?_, by simp, ?_, ?_⟩
    · rw [insert_store_checker_I64 bbOut addr data guard tyAddr hA hty2]
      simp only [addStmtToIRSB, henv]
    · intro x hx
      cases hx
    · intro d hd
      simp only [List.mem_singleton] at hd
      subst hd
      exact ⟨hf.1, (fun h => by cases h), (fun h => by cases h), (fun h => by cases h),
        fun _ => ⟨hf.2.1, hf.2.2.1⟩⟩
    · intro _
      exact ⟨_, rfl, by rw [hf.2.2.2]; rfl⟩
  · subst h
    rw [insert_store_checker_V128 bbOut addr data guard tyAddr hA hty2]
    refine ⟨_, extra ++ [tyAddr, IRType.Ity_I64, tyAddr, IRType.Ity_I64], ?_,
      IRType.Ity_V128,
        [IRStmt.WrTmp bbOut.tyenv.length (IRExpr.Binop (if tyAddr = IRType.Ity_I32 then IROp.Iop_Add32 else IROp.Iop_Add64) addr (eBias tyAddr 0)),
         IRStmt.WrTmp (bbOut.tyenv.length + 1) (IRExpr.Unop IROp.Iop_V128to64 data),
         IRStmt.WrTmp (bbOut.tyenv.length + 2) (IRExpr.Binop (if tyAddr = IRType.Ity_I32 then IROp.Iop_Add32 else IROp.Iop_Add64) addr (eBias tyAddr 8)),
         IRStmt.WrTmp (bbOut.tyenv.length + 3) (IRExpr.Unop IROp.Iop_V128HIto64 data)],
        [set_guard guard (IRDirty_0_N 0 "OG_(store_check64)" OgHelper.store_check64
           [IRExpr.RdTmp bbOut.tyenv.length, IRExpr.RdTmp (bbOut.tyenv.length + 1)]),
         set_guard guard (IRDirty_0_N 0 "OG_(store_check64)" OgHelper.store_check64
           [IRExpr.RdTmp (bbOut.tyenv.length + 2), IRExpr.RdTmp (bbOut.tyenv.length + 3)])], hty, rfl, ?_, by simp, ?_, ?_⟩
    · simp only [henv, List.append_assoc]
      rfl
    · intro x hx
      simp only [List.mem_cons, List.mem_singleton, List.not_mem_nil, or_false] at hx
      rcases hx with rfl | rfl | rfl | rfl
      · exact ⟨_, _, rfl, hlen⟩
      · exact ⟨_, _, rfl, by omega⟩
      · exact ⟨_, _, rfl, by omega⟩
      · exact ⟨_, _, rfl, by omega⟩
    · intro d hd
      simp only [List.mem_cons, List.mem_singleton, List.not_mem_nil, or_false] at hd
      rcases hd with rfl | rfl
      · have hf := set_guard_fields guard "OG_(store_check64)" OgHelper.store_check64
          [IRExpr.RdTmp bbOut.tyenv.length, IRExpr.RdTmp (bbOut.tyenv.length + 1)]
        exact ⟨hf.1, (fun h => by cases h), (fun h => by cases h), (fun h => by cases h),
          fun _ => ⟨hf.2.1, hf.2.2.1⟩⟩
      · have hf := set_guard_fields guard "OG_(store_check64)" OgHelper.store_check64
          [IRExpr.RdTmp (bbOut.tyenv.length + 2), IRExpr.RdTmp (bbOut.tyenv.length + 3)]
        exact ⟨hf.1, (fun h => by cases h), (fun h => by cases h), (fun h => by cases h),
          fun _ => ⟨hf.2.1, hf.2.2.1⟩⟩
    · intro h
      rcases h with h | h | h | h <;> cases h
  · subst h
    rw [insert_store_checker_V256 bbOut addr data guard tyAddr hA hty2]
    refine ⟨_, extra ++ [tyAddr, IRType.Ity_I64, tyAddr, IRType.Ity_I64,
        tyAddr, IRType.Ity_I64, tyAddr, IRType.Ity_I64], ?_,
      IRType.Ity_V256,
        [IRStmt.WrTmp bbOut.tyenv.length (IRExpr.Binop (if tyAddr = IRType.Ity_I32 then IROp.Iop_Add32 else IROp.Iop_Add64) addr (eBias tyAddr 0)),
         IRStmt.WrTmp (bbOut.tyenv.length + 1) (IRExpr.Unop IROp.Iop_V256to64_0 data),
         IRStmt.WrTmp (bbOut.tyenv.length + 2) (IRExpr.Binop (if tyAddr = IRType.Ity_I32 then IROp.Iop_Add32 else IROp.Iop_Add64) addr (eBias tyAddr 8)),
         IRStmt.WrTmp (bbOut.tyenv.length + 3) (IRExpr.Unop IROp.Iop_V256to64_1 data),
         IRStmt.WrTmp (bbOut.tyenv.length + 4) (IRExpr.Binop (if tyAddr = IRType.Ity_I32 then IROp.Iop_Add32 else IROp.Iop_Add64) addr (eBias tyAddr 16)),
         IRStmt.WrTmp (bbOut.tyenv.length + 5) (IRExpr.Unop IROp.Iop_V256to64_2 data),
         IRStmt.WrTmp (bbOut.tyenv.length + 6) (IRExpr.Binop (if tyAddr = IRType.Ity_I32 then IROp.Iop_Add32 else IROp.Iop_Add64) addr (eBias tyAddr 24)),
         IRStmt.WrTmp (bbOut.tyenv.length + 7) (IRExpr.Unop IROp.Iop_V256to64_3 data)],
        [set_guard guard (IRDirty_0_N 0 "OG_(store_check64)" OgHelper.store_check64
           [IRExpr.RdTmp bbOut.tyenv.length, IRExpr.RdTmp (bbOut.tyenv.length + 1), IRExpr.Const (IRConst.U32 (if tyAddr = IRType.Ity_I32 then 32 else 64))]),
         set_guard guard (IRDirty_0_N 0 "OG_(store_check64)" OgHelper.store_check64
           [IRExpr.RdTmp (bbOut.tyenv.length + 2), IRExpr.RdTmp (bbOut.tyenv.length + 3), IRExpr.Const (IRConst.U32 (if tyAddr = IRType.Ity_I32 then 32 else 64))]),
         set_guard guard (IRDirty_0_N 0 "OG_(store_check64)" OgHelper.store_check64
           [IRExpr.RdTmp (bbOut.tyenv.length + 4), IRExpr.RdTmp (bbOut.tyenv.length + 5), IRExpr.Const (IRConst.U32 (if tyAddr = IRType.Ity_I32 then 32 else 64))]),
         set_guard guard (IRDirty_0_N 0 "OG_(store_check64)" OgHelper.store_check64
           [IRExpr.RdTmp (bbOut.tyenv.length + 6), IRExpr.RdTmp (bbOut.tyenv.length + 7), IRExpr.Const (IRConst.U32 (if tyAddr = IRType.Ity_I32 then 32 else 64))])], hty, rfl, ?_, by simp, ?_, ?_⟩
    · simp only [henv, List.append_assoc]
      rfl
    · intro x hx
      simp only [List.mem_cons, List.mem_singleton, List.not_mem_nil, or_false] at hx
      rcases hx with rfl | rfl | rfl | rfl | rfl | rfl | rfl | rfl
      · exact ⟨_, _, rfl, hlen⟩
      · exact ⟨_, _, rfl, by omega⟩
      · exact ⟨_, _, rfl, by omega⟩
      · exact ⟨_, _, rfl, by omega⟩
      · exact ⟨_, _, rfl, by omega⟩
      · exact ⟨_, _, rfl, by omega⟩
      · exact ⟨_, _, rfl, by omega⟩
      · exact ⟨_, _, rfl, by omega⟩
    · intro d hd
      simp only [List.mem_cons, List.mem_singleton, List.not_mem_nil, or_false] at hd
      rcases hd with rfl | rfl | rfl | rfl
      all_goals exact ⟨(set_guard_fields guard _ _ _).1, (fun h => by cases h), (fun h => by cases h),
          (fun h => by cases h),
          fun _ => ⟨(set_guard_fields guard _ _ _).2.1, (set_guard_fields guard _ _ _).2.2.1⟩⟩
    · intro h
      rcases h with h | h | h | h <;> cases h

/-! ## The instrumentation pass -/

theorem og_instrument_stmt_emits (base extra : List IRType) (hWordTy : IRType)
    (hh : hWordTy = IRType.Ity_I32 ∨ hWordTy = IRType.Ity_I64) (bbOut : IRSB) (st : IRStmt)
    (hflat : isFlatIRStmt st = true) (hty : store_data_checked base st = true)
    (henv : bbOut.tyenv = base ++ extra) :
    ∃ c extra1, og_instrument_stmt hWordTy bbOut st
        = some { bbOut with tyenv := base ++ extra1, stmts := bbOut.stmts ++ (c ++ [st]) } ∧
      EmittedFor base st c := by
  have hpass : ∀ st1 : IRStmt, store_operands st1 = none →
      ∃ c extra1, some (addStmtToIRSB bbOut st1)
          = some { bbOut with tyenv := base ++ extra1, stmts := bbOut.stmts ++ (c ++ [st1]) } ∧
        EmittedFor base st1 c := by
    intro st1 hso
    refine ⟨[], extra, ?_, ?_⟩
    · rw [← henv]
      rfl
    · unfold EmittedFor
      rw [hso]
  have hstore : ∀ (st1 : IRStmt) (addr data : IRExpr) (guard : Option IRExpr),
      store_operands st1 = some (addr, data, guard) → store_data_checked base st1 = true →
      ∃ c extra1, (match insert_store_checker bbOut addr data guard hWordTy with
          | none => none
          | some bb1 => some (addStmtToIRSB bb1 st1))
          = some { bbOut with tyenv := base ++ extra1, stmts := bbOut.stmts ++ (c ++ [st1]) } ∧
        EmittedFor base st1 c := by
    intro st1 addr data guard hso hck
    unfold store_data_checked at hck
    rw [hso] at hck
    dsimp only at hck
    cases hte : typeOfIRExpr base data with
    | none =>
      rw [hte] at hck
      cases hck
    | some ty =>
      rw [hte] at hck
      obtain ⟨c, extra1, e1, hc1⟩ :=
        insert_store_checker_emits base extra bbOut addr data guard hWordTy ty hh hte hck henv
      refine ⟨c, extra1, ?_, ?_⟩
      · rw [e1]
        simp only [addStmtToIRSB, List.append_assoc]
      · unfold EmittedFor
        rw [hso]
        exact hc1
  unfold og_instrument_stmt
  rw [if_pos hflat]
  cases st with
  | NoOp => exact hpass _ rfl
  | IMark _ _ _ => exact hpass _ rfl
  | AbiHint _ _ _ => exact hpass _ rfl
  | Put _ _ => exact hpass _ rfl
  | PutI _ _ _ => exact hpass _ rfl
  | WrTmp _ _ => exact hpass _ rfl
  | Store addr data => exact hstore _ addr data none rfl hty
  | StoreG addr data guard => exact hstore _ addr data (some guard) rfl hty
  | LoadG _ _ _ _ => exact hpass _ rfl
  | CAS _ _ _ _ _ => exact hpass _ rfl
  | LLSC _ _ _ => exact hpass _ rfl
  | Dirty _ => exact hpass _ rfl
  | MBE _ => exact hpass _ rfl
  | Exit _ _ _ _ => exact hpass _ rfl

theorem og_instrument_loop_emits (base : List IRType) (hWordTy : IRType)
    (hh : hWordTy = IRType.Ity_I32 ∨ hWordTy = IRType.Ity_I64) :
    ∀ (stmts : List IRStmt) (bbOut : IRSB) (extra : List IRType),
      stmts.all isFlatIRStmt = true → stmts.all (store_data_checked base) = true →
      bbOut.tyenv = base ++ extra →
      ∃ chunks extra1, og_instrument_loop hWordTy stmts bbOut
          = some { bbOut with tyenv := base ++ extra1,
                              stmts := bbOut.stmts ++
                                (List.zipWith (fun c st => c ++ [st]) chunks stmts).flatten } ∧
        List.Forall₂ (EmittedFor base) stmts chunks := by
  intro stmts
  induction stmts with
  | nil =>
    intro bbOut extra _ _ henv
    refine ⟨[], extra, ?_, List.Forall₂.nil⟩
    unfold og_instrument_loop
    rw [← henv]
    simp only [List.zipWith_nil_right, List.flatten_nil, List.append_nil]
  | cons st rest ih =>
    intro bbOut extra hflat hty henv
    rw [List.all_cons, Bool.and_eq_true] at hflat hty
    obtain ⟨c, extra1, e1, hc1⟩ :=
      og_instrument_stmt_emits base extra hWordTy hh bbOut st hflat.1 hty.1 henv
    obtain ⟨chunks, extra2, e2, hc2⟩ :=
      ih { bbOut with tyenv := base ++ extra1, stmts := bbOut.stmts ++ (c ++ [st]) } extra1
        hflat.2 hty.2 rfl
    refine ⟨c :: chunks, extra2, ?_, List.Forall₂.cons hc1 hc2⟩
    unfold og_instrument_loop
    rw [e1]
    dsimp only
    rw [e2]
    simp only [List.zipWith_cons_cons, List.flatten_cons, List.append_assoc]

/-- C22 (counterexample). A flat block of a 64-bit host whose one statement stores the
temporary `t0` of type F64 to address 4096: `og_instrument` panics in
`insert_store_checker` and produces no output block. -/
theorem og_instrument_panics_on_F64_store :
    isFlatIRStmt (IRStmt.Store (IRExpr.Const (IRConst.U64 4096)) (IRExpr.RdTmp 0)) = true ∧
    (og_instrument
      { tyenv := [IRType.Ity_F64],
        stmts := [IRStmt.Store (IRExpr.Const (IRConst.U64 4096)) (IRExpr.RdTmp 0)],
        next := IRExpr.Const (IRConst.U64 0), jumpkind := 0, offsIP := 0 }
      IRType.Ity_I64 IRType.Ity_I64).isNone = true := by
  decide

/-- C22 (amended). Instrumentation order and pass-through: for a host word type I32 or I64
and every flat input block in which the data of every Store and StoreG statement has type
I8, I16, I32, I64, V128 or V256, `og_instrument` returns a block with the `next`,
`jumpkind` and `offsIP` of the input, whose temporaries extend those of the input and
whose statement list is the input statement list, in the same order, with a list of
emitted statements in front of each statement; the list is empty for every statement
other than Store and StoreG, CAS included; in front of a Store or StoreG it consists of
assignments to new temporaries followed, immediately before the original store, by the
call(s) to the checker matching the data type (I8, I16, I32, I64 to
`store_check8/16/32/64`, the vector types to `store_check64`) on the address of the store,
with the guard of the store. -/
theorem og_instrument_checks_stores (bb_in : IRSB) (gWordTy hWordTy : IRType)
    (hh : hWordTy = IRType.Ity_I32 ∨ hWordTy = IRType.Ity_I64)
    (hflat : bb_in.stmts.all isFlatIRStmt = true)
    (hty : bb_in.stmts.all (store_data_checked bb_in.tyenv) = true) :
    ∃ bbOut chunks extra, og_instrument bb_in gWordTy hWordTy = some bbOut ∧
      bbOut.tyenv = bb_in.tyenv ++ extra ∧ bbOut.next = bb_in.next ∧
      bbOut.jumpkind = bb_in.jumpkind ∧ bbOut.offsIP = bb_in.offsIP ∧
      bbOut.stmts = (List.zipWith (fun c st => c ++ [st]) chunks bb_in.stmts).flatten ∧
      List.Forall₂ (EmittedFor bb_in.tyenv) bb_in.stmts chunks := by
  obtain ⟨chunks, extra1, e1, hc⟩ :=
    og_instrument_loop_emits bb_in.tyenv hWordTy hh bb_in.stmts
      { tyenv := bb_in.tyenv, stmts := [], next := bb_in.next, jumpkind := bb_in.jumpkind,
        offsIP := bb_in.offsIP } [] hflat hty (by simp only [List.append_nil])
  refine ⟨{ tyenv := bb_in.tyenv ++ extra1,
             stmts := [] ++ (List.zipWith (fun c st => c ++ [st]) chunks bb_in.stmts).flatten,
             next := bb_in.next, jumpkind := bb_in.jumpkind, offsIP := bb_in.offsIP },
    chunks, extra1, ?_, rfl, rfl, rfl, rfl, ?_, hc⟩
  · unfold og_instrument
    exact e1
  · simp only [List.nil_append]

theorem og_instrument_checks_stores_witness :
    ∃ bbOut chunks extra,
      og_instrument
        { tyenv := [IRType.Ity_I64, IRType.Ity_I8, IRType.Ity_V128, IRType.Ity_I1],
          stmts := [IRStmt.IMark 4096 4 0, IRStmt.WrTmp 0 (IRExpr.Get 16 IRType.Ity_I64),
            IRStmt.Store (IRExpr.RdTmp 0) (IRExpr.RdTmp 1),
            IRStmt.CAS (IRExpr.RdTmp 0) none (IRExpr.Const (IRConst.U64 0)) none
              (IRExpr.Const (IRConst.U64 1)),
            IRStmt.StoreG (IRExpr.RdTmp 0) (IRExpr.RdTmp 2) (IRExpr.RdTmp 3)],
          next := IRExpr.Const (IRConst.U64 4100), jumpkind := 0, offsIP := 184 }
        IRType.Ity_I64 IRType.Ity_I64 = some bbOut ∧
      bbOut.tyenv = [IRType.Ity_I64, IRType.Ity_I8, IRType.Ity_V128, IRType.Ity_I1] ++ extra ∧
      bbOut.next = IRExpr.Const (IRConst.U64 4100) ∧ bbOut.jumpkind = 0 ∧
      bbOut.offsIP = 184 ∧
      bbOut.stmts = (List.zipWith (fun c st => c ++ [st]) chunks
        [IRStmt.IMark 4096 4 0, IRStmt.WrTmp 0 (IRExpr.Get 16 IRType.Ity_I64),
          IRStmt.Store (IRExpr.RdTmp 0) (IRExpr.RdTmp 1),
          IRStmt.CAS (IRExpr.RdTmp 0) none (IRExpr.Const (IRConst.U64 0)) none
            (IRExpr.Const (IRConst.U64 1)),
          IRStmt.StoreG (IRExpr.RdTmp 0) (IRExpr.RdTmp 2) (IRExpr.RdTmp 3)]).flatten ∧
      List.Forall₂
        (EmittedFor [IRType.Ity_I64, IRType.Ity_I8, IRType.Ity_V128, IRType.Ity_I1])
        [IRStmt.IMark 4096 4 0, IRStmt.WrTmp 0 (IRExpr.Get 16 IRType.Ity_I64),
          IRStmt.Store (IRExpr.RdTmp 0) (IRExpr.RdTmp 1),
          IRStmt.CAS (IRExpr.RdTmp 0) none (IRExpr.Const (IRConst.U64 0)) none
            (IRExpr.Const (IRConst.U64 1)),
          IRStmt.StoreG (IRExpr.RdTmp 0) (IRExpr.RdTmp 2) (IRExpr.RdTmp 3)] chunks :=
  og_instrument_checks_stores _ IRType.Ity_I64 IRType.Ity_I64 (Or.inr rfl) (by decide)
    (by decide)

/-! ## Running the checks of a vector store -/

theorem eval_atom_update (env : Nat → Option Nat) (k : Nat) (x : Option Nat) (e : IRExpr)
    (n : Nat) (he : AtomBelow n e) (hk : n ≤ k) :
    eval_atom (Function.update env k x) e = eval_atom env e := by
  cases e with
  | RdTmp t =>
    have ht : t < n := he
    show Function.update env k x t = env t
    rw [Function.update_noteq (by omega)]
  | Const _ => rfl
  | Binder _ => rfl
  | Get _ _ => rfl
  | GetI _ _ _ => rfl
  | Qop _ _ _ _ _ => rfl
  | Triop _ _ _ _ => rfl
  | Binop _ _ _ => rfl
  | Unop _ _ => rfl
  | Load _ _ => rfl
  | ITE _ _ _ => rfl
  | CCall _ _ _ => rfl

theorem eval_add (ws : Nat) (hws : WordSizeOk ws) (env : Nat → Option Nat) (addr : IRExpr)
    (a b : Nat) (hea : eval_atom env addr = some a) :
    eval_expr env (IRExpr.Binop
        (if hWordTy_of ws = IRType.Ity_I32 then IROp.Iop_Add32 else IROp.Iop_Add64) addr
        (eBias (hWordTy_of ws) b)) = some (toWord ws (a + b)) := by
  rcases hws with rfl | rfl
  · show (match eval_atom env addr, some b with
      | some x, some y => eval_binop IROp.Iop_Add32 x y
      | _, _ => none) = _
    rw [hea]
    rfl
  · show (match eval_atom env addr, some b with
      | some x, some y => eval_binop IROp.Iop_Add64 x y
      | _, _ => none) = _
    rw [hea]
    rfl

theorem eval_expr_Unop (env : Nat → Option Nat) (op : IROp) (a : IRExpr) :
    eval_expr env (IRExpr.Unop op a)
      = (match eval_atom env a with
         | none => none
         | some x => eval_unop op x) := rfl

theorem eval_lane (env : Nat → Option Nat) (data : IRExpr) (v : Nat)
    (hed : eval_atom env data = some v) :
    eval_expr env (IRExpr.Unop IROp.Iop_V256to64_0 data) = some (lane64 v 0) ∧
    eval_expr env (IRExpr.Unop IROp.Iop_V256to64_1 data) = some (lane64 v 1) ∧
    eval_expr env (IRExpr.Unop IROp.Iop_V256to64_2 data) = some (lane64 v 2) ∧
    eval_expr env (IRExpr.Unop IROp.Iop_V256to64_3 data) = some (lane64 v 3) := by
  simp only [eval_expr_Unop, hed]
  exact ⟨rfl, rfl, rfl, rfl⟩

theorem AtomBelow_of_type (tyenv : List IRType) (data : IRExpr) (ty : IRType) (v : Nat)
    (env : Nat → Option Nat) (hty : typeOfIRExpr tyenv data = some ty)
    (hed : eval_atom env data = some v) : AtomBelow tyenv.length data := by
  cases data with
  | RdTmp t =>
    have h : tyenv.get? t = some ty := hty
    rw [List.get?_eq_getElem?] at h
    show t < tyenv.length
    by_contra hc
    rw [List.getElem?_eq_none (by omega)] at h
    cases h
  | Const _ => exact True.intro
  | Binder _ => cases hed
  | Get _ _ => cases hed
  | GetI _ _ _ => cases hed
  | Qop _ _ _ _ _ => cases hed
  | Triop _ _ _ _ => cases hed
  | Binop _ _ _ => cases hed
  | Unop _ _ => cases hed
  | Load _ _ => cases hed
  | ITE _ _ _ => cases hed
  | CCall _ _ _ => cases hed

theorem run_stmts_WrTmp (ws junk : Nat) (t : Nat) (e : IRExpr) (rest : List IRStmt)
    (env : Nat → Option Nat) (s : State) :
    run_stmts ws junk (IRStmt.WrTmp t e :: rest) (env, s)
      = run_stmts ws junk rest (Function.update env t (eval_expr env e), s) := rfl

theorem run_stmts_Dirty (ws junk : Nat) (d : IRDirty) (rest : List IRStmt)
    (env : Nat → Option Nat) (s : State) :
    run_stmts ws junk (IRStmt.Dirty d :: rest) (env, s)
      = match run_dirty ws junk env s d with
        | none => none
        | some s1 => run_stmts ws junk rest (env, s1) := by
  show (match run_stmt ws junk (IRStmt.Dirty d) (env, s) with
    | none => none
    | some r1 => run_stmts ws junk rest r1) = _
  unfold run_stmt
  dsimp only
  cases run_dirty ws junk env s d <;> rfl

theorem run_dirty_check64 (ws junk : Nat) (env : Nat → Option Nat) (s : State)
    (guard : Option IRExpr) (ta td : IRExpr) (w a x : Nat)
    (hg : ∀ g, guard = some g → ∃ y, eval_atom env g = some y ∧ y ≠ 0)
    (hta : eval_atom env ta = some a) (htd : eval_atom env td = some x) :
    run_dirty ws junk env s (set_guard guard (IRDirty_0_N 0 "OG_(store_check64)"
        OgHelper.store_check64 [ta, td, IRExpr.Const (IRConst.U32 w)]))
      = store_check64 ws s a x w := by
  have hf := set_guard_fields guard "OG_(store_check64)" OgHelper.store_check64
    [ta, td, IRExpr.Const (IRConst.U32 w)]
  have hgv : ∃ y, eval_atom env (guard.getD (IRExpr.Const (IRConst.U1 true))) = some y ∧
      y ≠ 0 := by
    cases guard with
    | none => exact ⟨1, rfl, by decide⟩
    | some g => exact hg g rfl
  obtain ⟨y, hy, hy0⟩ := hgv
  unfold run_dirty
  rw [hf.1, hy]
  dsimp only
  rw [if_neg hy0, hf.2.1, hf.2.2.2]
  simp only [List.map_cons, List.map_nil, hta, htd]
  rfl

theorem wordSize_of_eq (ws : Nat) (hws : WordSizeOk ws) :
    (if hWordTy_of ws = IRType.Ity_I32 then 32 else 64) = wordSize_of ws := by
  rcases hws with rfl | rfl <;> rfl

theorem run_V256_emitted (ws : Nat) (hws : WordSizeOk ws) (junk n : Nat)
    (addr data : IRExpr) (guard : Option IRExpr) (env : Nat → Option Nat) (a v : Nat)
    (s : State) (hea : eval_atom env addr = some a) (hed : eval_atom env data = some v)
    (hba : AtomBelow n addr) (hbd : AtomBelow n data)
    (hg : ∀ g, guard = some g → AtomBelow n g ∧ ∃ y, eval_atom env g = some y ∧ y ≠ 0) :
    (run_stmts ws junk
      [IRStmt.WrTmp n (IRExpr.Binop (if hWordTy_of ws = IRType.Ity_I32 then IROp.Iop_Add32 else IROp.Iop_Add64) addr (eBias (hWordTy_of ws) 0)),
       IRStmt.WrTmp (n + 1) (IRExpr.Unop IROp.Iop_V256to64_0 data),
       IRStmt.WrTmp (n + 2) (IRExpr.Binop (if hWordTy_of ws = IRType.Ity_I32 then IROp.Iop_Add32 else IROp.Iop_Add64) addr (eBias (hWordTy_of ws) 8)),
       IRStmt.WrTmp (n + 3) (IRExpr.Unop IROp.Iop_V256to64_1 data),
       IRStmt.WrTmp (n + 4) (IRExpr.Binop (if hWordTy_of ws = IRType.Ity_I32 then IROp.Iop_Add32 else IROp.Iop_Add64) addr (eBias (hWordTy_of ws) 16)),
       IRStmt.WrTmp (n + 5) (IRExpr.Unop IROp.Iop_V256to64_2 data),
       IRStmt.WrTmp (n + 6) (IRExpr.Binop (if hWordTy_of ws = IRType.Ity_I32 then IROp.Iop_Add32 else IROp.Iop_Add64) addr (eBias (hWordTy_of ws) 24)),
       IRStmt.WrTmp (n + 7) (IRExpr.Unop IROp.Iop_V256to64_3 data),
       IRStmt.Dirty (set_guard guard (IRDirty_0_N 0 "OG_(store_check64)"
         OgHelper.store_check64 [IRExpr.RdTmp n, IRExpr.RdTmp (n + 1),
           IRExpr.Const (IRConst.U32 (wordSize_of ws))])),
       IRStmt.Dirty (set_guard guard (IRDirty_0_N 0 "OG_(store_check64)"
         OgHelper.store_check64 [IRExpr.RdTmp (n + 2), IRExpr.RdTmp (n + 3),
           IRExpr.Const (IRConst.U32 (wordSize_of ws))])),
       IRStmt.Dirty (set_guard guard (IRDirty_0_N 0 "OG_(store_check64)"
         OgHelper.store_check64 [IRExpr.RdTmp (n + 4), IRExpr.RdTmp (n + 5),
           IRExpr.Const (IRConst.U32 (wordSize_of ws))])),
       IRStmt.Dirty (set_guard guard (IRDirty_0_N 0 "OG_(store_check64)"
         OgHelper.store_check64 [IRExpr.RdTmp (n + 6), IRExpr.RdTmp (n + 7),
           IRExpr.Const (IRConst.U32 (wordSize_of ws))]))]
      (env, s)).map Prod.snd = four_checks ws s a v (wordSize_of ws) := by
  have ea0 := hea
  have ed0 := hed
  have ea1 := (eval_atom_update _ n (some (toWord ws (a + 0))) addr n hba (by omega)).trans ea0
  have ed1 := (eval_atom_update _ n (some (toWord ws (a + 0))) data n hbd (by omega)).trans ed0
  have ea2 := (eval_atom_update _ (n + 1) (some (lane64 v 0)) addr n hba (by omega)).trans ea1
  have ed2 := (eval_atom_update _ (n + 1) (some (lane64 v 0)) data n hbd (by omega)).trans ed1
  have ea3 := (eval_atom_update _ (n + 2) (some (toWord ws (a + 8))) addr n hba (by omega)).trans ea2
  have ed3 := (eval_atom_update _ (n + 2) (some (toWord ws (a + 8))) data n hbd (by omega)).trans ed2
  have ea4 := (eval_atom_update _ (n + 3) (some (lane64 v 1)) addr n hba (by omega)).trans ea3
  have ed4 := (eval_atom_update _ (n + 3) (some (lane64 v 1)) data n hbd (by omega)).trans ed3
  have ea5 := (eval_atom_update _ (n + 4) (some (toWord ws (a + 16))) addr n hba (by omega)).trans ea4
  have ed5 := (eval_atom_update _ (n + 4) (some (toWord ws (a + 16))) data n hbd (by omega)).trans ed4
  have ea6 := (eval_atom_update _ (n + 5) (some (lane64 v 2)) addr n hba (by omega)).trans ea5
  have ed6 := (eval_atom_update _ (n + 5) (some (lane64 v 2)) data n hbd (by omega)).trans ed5
  have ea7 := (eval_atom_update _ (n + 6) (some (toWord ws (a + 24))) addr n hba (by omega)).trans ea6
  have ed7 := (eval_atom_update _ (n + 6) (some (toWord ws (a + 24))) data n hbd (by omega)).trans ed6
  have ea8 := (eval_atom_update _ (n + 7) (some (lane64 v 3)) addr n hba (by omega)).trans ea7
  have ed8 := (eval_atom_update _ (n + 7) (some (lane64 v 3)) data n hbd (by omega)).trans ed7
  rw [run_stmts_WrTmp, eval_add ws hws _ addr a 0 ea0]
  rw [run_stmts_WrTmp, (eval_lane _ data v ed1).1]
  rw [run_stmts_WrTmp, eval_add ws hws _ addr a 8 ea2]
  rw [run_stmts_WrTmp, (eval_lane _ data v ed3).2.1]
  rw [run_stmts_WrTmp, eval_add ws hws _ addr a 16 ea4]
  rw [run_stmts_WrTmp, (eval_lane _ data v ed5).2.2.1]
  rw [run_stmts_WrTmp, eval_add ws hws _ addr a 24 ea6]
  rw [run_stmts_WrTmp, (eval_lane _ data v ed7).2.2.2]
  generalize hE :
    (Function.update (Function.update (Function.update (Function.update (Function.update (Function.update (Function.update (Function.update env n (some (toWord ws (a + 0)))) (n + 1) (some (lane64 v 0))) (n + 2) (some (toWord ws (a + 8)))) (n + 3) (some (lane64 v 1))) (n + 4) (some (toWord ws (a + 16)))) (n + 5) (some (lane64 v 2))) (n + 6) (some (toWord ws (a + 24)))) (n + 7) (some (lane64 v 3))) = E at ea8 ed8 ⊢
  have hg8 : ∀ g, guard = some g → ∃ y, eval_atom E g = some y ∧ y ≠ 0 := by
    intro g hgg
    obtain ⟨hbg, y, hy, hy0⟩ := hg g hgg
    refine ⟨y, ?_, hy0⟩
    rw [← hE, eval_atom_update _ _ _ g n hbg (by omega), eval_atom_update _ _ _ g n hbg (by omega),
      eval_atom_update _ _ _ g n hbg (by omega), eval_atom_update _ _ _ g n hbg (by omega),
      eval_atom_update _ _ _ g n hbg (by omega), eval_atom_update _ _ _ g n hbg (by omega),
      eval_atom_update _ _ _ g n hbg (by omega), eval_atom_update _ _ _ g n hbg (by omega)]
    exact hy
  have l0 : eval_atom E (IRExpr.RdTmp n) = some (toWord ws (a + 0)) := by
    rw [← hE]
    simp [eval_atom, Function.update]
  have l1 : eval_atom E (IRExpr.RdTmp (n + 1)) = some (lane64 v 0) := by
    rw [← hE]
    simp [eval_atom, Function.update]
  have l2 : eval_atom E (IRExpr.RdTmp (n + 2)) = some (toWord ws (a + 8)) := by
    rw [← hE]
    simp [eval_atom, Function.update]
  have l3 : eval_atom E (IRExpr.RdTmp (n + 3)) = some (lane64 v 1) := by
    rw [← hE]
    simp [eval_atom, Function.update]
  have l4 : eval_atom E (IRExpr.RdTmp (n + 4)) = some (toWord ws (a + 16)) := by
    rw [← hE]
    simp [eval_atom, Function.update]
  have l5 : eval_atom E (IRExpr.RdTmp (n + 5)) = some (lane64 v 2) := by
    rw [← hE]
    simp [eval_atom, Function.update]
  have l6 : eval_atom E (IRExpr.RdTmp (n + 6)) = some (toWord ws (a + 24)) := by
    rw [← hE]
    simp [eval_atom, Function.update]
  have l7 : eval_atom E (IRExpr.RdTmp (n + 7)) = some (lane64 v 3) := by
    rw [← hE]
    simp [eval_atom, Function.update]
  unfold four_checks
  rw [run_stmts_Dirty, run_dirty_check64 ws junk E s guard _ _ _ _ _ hg8 l0 l1]
  cases store_check64 ws s (toWord ws (a + 0)) (lane64 v 0) (wordSize_of ws) with
  | none => rfl
  | some s1 =>
    dsimp only
    rw [run_stmts_Dirty, run_dirty_check64 ws junk E s1 guard _ _ _ _ _ hg8 l2 l3]
    cases store_check64 ws s1 (toWord ws (a + 8)) (lane64 v 1) (wordSize_of ws) with
    | none => rfl
    | some s2 =>
      dsimp only
      rw [run_stmts_Dirty, run_dirty_check64 ws junk E s2 guard _ _ _ _ _ hg8 l4 l5]
      cases store_check64 ws s2 (toWord ws (a + 16)) (lane64 v 2) (wordSize_of ws) with
      | none => rfl
      | some s3 =>
        dsimp only
        rw [run_stmts_Dirty, run_dirty_check64 ws junk E s3 guard _ _ _ _ _ hg8 l6 l7]
        cases store_check64 ws s3 (toWord ws (a + 24)) (lane64 v 3) (wordSize_of ws) with
        | none => rfl
        | some s4 => rfl

/-! ## The errors submitted for a vector store -/

theorem store_check64_unwritable_count (ws : Nat) (hws : WordSizeOk ws) (s : State)
    (a d w : Nat) (hwf : WF ws s) (ha : a < 2 ^ WORD_BITS ws) :
    ∃ s1 E, store_check64 ws s a d w = some s1 ∧ WF ws s1 ∧ SameTags ws s s1 ∧
      s1.errors = s.errors ++ E ∧
      E.filter (fun e => decide (e.ekind = OgErrorKind.UnwritableErr))
        = (if abits2_of ws s a = A_BITS2_UNWRITABLE then
            (if w = 32 then [unwritable_at s a, unwritable_at s a] else [unwritable_at s a])
           else []) := by
  by_cases hw : w = 32
  · subst hw
    obtain ⟨_, s2, _, _, h, hwf2, hst, he⟩ := store_check64_split_spec ws hws s a d hwf ha
    refine ⟨s2, _, h, hwf2, hst, by rw [he, List.append_assoc], ?_⟩
    by_cases ht : abits2_of ws s a = A_BITS2_UNWRITABLE
    · simp only [ht, if_true]
      rfl
    · simp only [ht, if_false]
      split_ifs <;> rfl
  · obtain ⟨s1, h, hwf1, hst, he⟩ := store_check64_spec ws hws s a d w hwf ha hw
    refine ⟨s1, _, h, hwf1, hst, he, ?_⟩
    by_cases ht : abits2_of ws s a = A_BITS2_UNWRITABLE
    · simp only [ht, if_true, if_neg hw]
      rfl
    · simp only [ht, if_false]
      split_ifs <;> rfl

theorem four_checks_unwritable (ws : Nat) (hws : WordSizeOk ws) (s : State) (a v w : Nat)
    (hwf : WF ws s) :
    ∃ s4 E, four_checks ws s a v w = some s4 ∧ s4.errors = s.errors ++ E ∧
      E.filter (fun e => decide (e.ekind = OgErrorKind.UnwritableErr))
        = (if abits2_of ws s (toWord ws (a + 0)) = A_BITS2_UNWRITABLE then
            (if w = 32 then [unwritable_at s (toWord ws (a + 0)),
                unwritable_at s (toWord ws (a + 0))]
             else [unwritable_at s (toWord ws (a + 0))])
           else []) ++
          (if abits2_of ws s (toWord ws (a + 8)) = A_BITS2_UNWRITABLE then
            (if w = 32 then [unwritable_at s (toWord ws (a + 8)),
                unwritable_at s (toWord ws (a + 8))]
             else [unwritable_at s (toWord ws (a + 8))])
           else []) ++
          (if abits2_of ws s (toWord ws (a + 16)) = A_BITS2_UNWRITABLE then
            (if w = 32 then [unwritable_at s (toWord ws (a + 16)),
                unwritable_at s (toWord ws (a + 16))]
             else [unwritable_at s (toWord ws (a + 16))])
           else []) ++
          (if abits2_of ws s (toWord ws (a + 24)) = A_BITS2_UNWRITABLE then
            (if w = 32 then [unwritable_at s (toWord ws (a + 24)),
                unwritable_at s (toWord ws (a + 24))]
             else [unwritable_at s (toWord ws (a + 24))])
           else []) := by
  obtain ⟨s1, E1, h1, hwf1, hst1, he1, hf1⟩ :=
    store_check64_unwritable_count ws hws s (toWord ws (a + 0)) (lane64 v 0) w hwf
      (toWord_lt ws _)
  obtain ⟨s2, E2, h2, hwf2, hst2, he2, hf2⟩ :=
    store_check64_unwritable_count ws hws s1 (toWord ws (a + 8)) (lane64 v 1) w hwf1
      (toWord_lt ws _)
  obtain ⟨s3, E3, h3, hwf3, hst3, he3, hf3⟩ :=
    store_check64_unwritable_count ws hws s2 (toWord ws (a + 16)) (lane64 v 2) w hwf2
      (toWord_lt ws _)
  obtain ⟨s4, E4, h4, _, _, he4, hf4⟩ :=
    store_check64_unwritable_count ws hws s3 (toWord ws (a + 24)) (lane64 v 3) w hwf3
      (toWord_lt ws _)
  have hst12 := SameTags_trans ws s s1 s2 hst1 hst2
  have hst13 := SameTags_trans ws s s2 s3 hst12 hst3
  have u1 : ∀ x, unwritable_at s1 x = unwritable_at s x := by
    intro x; unfold unwritable_at; rw [hst1.tid]
  have u2 : ∀ x, unwritable_at s2 x = unwritable_at s x := by
    intro x; unfold unwritable_at; rw [hst12.tid]
  have u3 : ∀ x, unwritable_at s3 x = unwritable_at s x := by
    intro x; unfold unwritable_at; rw [hst13.tid]
  rw [hst1.tags, u1] at hf2
  rw [hst12.tags, u2] at hf3
  rw [hst13.tags, u3] at hf4
  refine ⟨s4, E1 ++ E2 ++ E3 ++ E4, ?_, ?_, ?_⟩
  · unfold four_checks
    rw [h1]
    dsimp only
    rw [h2]
    dsimp only
    rw [h3]
    exact h4
  · rw [he4, he3, he2, he1]
    simp only [List.append_assoc]
  · rw [List.filter_append, List.filter_append, List.filter_append, hf1, hf2, hf3, hf4]

theorem hWordTy_of_ok (ws : Nat) :
    hWordTy_of ws = IRType.Ity_I32 ∨ hWordTy_of ws = IRType.Ity_I64 := by
  unfold hWordTy_of
  split
  · exact Or.inl rfl
  · exact Or.inr rfl

/-- C23 (counterexample). On a host with 32-bit words, after
`set_address_range_perms(4112, 8, A_BITS16_UNWRITABLE, SM_DIST_UNWRITABLE)` on the startup
state the tags of 4096, 4104 and 4120 are NOCHECK and the tag of 4112 is UNWRITABLE;
running the statements that `insert_store_checker` emits for the unguarded store of the
256-bit temporary `t0` to address 4096 submits two UnwritableErr at 4112, not one. -/
theorem v256_store_on_32bit_host_records_two :
    ((set_address_range_perms 4 (og_pre_clo_init 4) 4112 8 A_BITS16_UNWRITABLE
        SM_DIST_UNWRITABLE).bind (fun s =>
      (insert_store_checker
        { tyenv := [IRType.Ity_V256], stmts := [], next := IRExpr.Const (IRConst.U32 0),
          jumpkind := 0, offsIP := 0 }
        (IRExpr.Const (IRConst.U32 4096)) (IRExpr.RdTmp 0) none IRType.Ity_I32).bind (fun bb =>
        (run_stmts 4 0 bb.stmts (fun t => if t = 0 then some 0 else none, s)).map (fun r =>
          (tag_at 4 s 4096, tag_at 4 s 4104, tag_at 4 s 4112, tag_at 4 s 4120,
            r.2.errors)))))
      = some (some A_BITS2_NOCHECK, some A_BITS2_NOCHECK, some A_BITS2_UNWRITABLE,
          some A_BITS2_NOCHECK,
          [{ tid := 1, ekind := OgErrorKind.UnwritableErr, addr := 4112 },
           { tid := 1, ekind := OgErrorKind.UnwritableErr, addr := 4112 }]) := by
  decide

/-- C23 (amended). Vector store split, on a host whose words have `ws` bytes. For a
128-bit store to `addr`, `insert_store_checker` emits exactly two calls to
`store_check64`, whose first two arguments are temporaries holding (`addr`+0, low 64-bit
lane) then (`addr`+8, high lane). For a 256-bit store it emits exactly four, with
arguments (`addr`+0, lane 0, w), (`addr`+8, lane 1, w), (`addr`+16, lane 2, w) and
(`addr`+24, lane 3, w), where w is the host word width, 32 or 64. Each emitted call
carries the guard of the store when it has one. Running the statements emitted for a
256-bit store of the value `v` to the address `a`, with no guard or a guard that holds, in
a state satisfying the representation invariant runs the four 64-bit checks in order; when
the tag is UNWRITABLE at `a`+16 only, the UnwritableErr it submits are exactly one, at
`a`+16, on a host with 64-bit words, and exactly two, both at `a`+16, on a host with
32-bit words. -/
theorem vector_store_split (ws : Nat) (hws : WordSizeOk ws) (junk : Nat) (bbOut : IRSB)
    (addr data : IRExpr) (guard : Option IRExpr) :
    (typeOfIRExpr bbOut.tyenv data = some IRType.Ity_V128 →
      ∃ d0 d1 extra, insert_store_checker bbOut addr data guard (hWordTy_of ws)
          = some { bbOut with
              tyenv := bbOut.tyenv ++ extra,
              stmts := bbOut.stmts ++
            [IRStmt.WrTmp bbOut.tyenv.length (IRExpr.Binop (if hWordTy_of ws = IRType.Ity_I32 then IROp.Iop_Add32 else IROp.Iop_Add64) addr
               (eBias (hWordTy_of ws) 0)),
             IRStmt.WrTmp (bbOut.tyenv.length + 1) (IRExpr.Unop IROp.Iop_V128to64 data),
             IRStmt.WrTmp (bbOut.tyenv.length + 2) (IRExpr.Binop (if hWordTy_of ws = IRType.Ity_I32 then IROp.Iop_Add32 else IROp.Iop_Add64) addr
               (eBias (hWordTy_of ws) 8)),
             IRStmt.WrTmp (bbOut.tyenv.length + 3) (IRExpr.Unop IROp.Iop_V128HIto64 data),
             IRStmt.Dirty d0,
             IRStmt.Dirty d1] } ∧
        d0.helper = OgHelper.store_check64 ∧ d1.helper = OgHelper.store_check64 ∧
        d0.args.take 2
          = [IRExpr.RdTmp bbOut.tyenv.length, IRExpr.RdTmp (bbOut.tyenv.length + 1)] ∧
        d1.args.take 2
          = [IRExpr.RdTmp (bbOut.tyenv.length + 2), IRExpr.RdTmp (bbOut.tyenv.length + 3)] ∧
        d0.guard = guard.getD (IRExpr.Const (IRConst.U1 true)) ∧
        d1.guard = guard.getD (IRExpr.Const (IRConst.U1 true))) ∧
    (typeOfIRExpr bbOut.tyenv data = some IRType.Ity_V256 →
      ∃ extra emitted, insert_store_checker bbOut addr data guard (hWordTy_of ws)
          = some { bbOut with tyenv := bbOut.tyenv ++ extra,
                              stmts := bbOut.stmts ++ emitted } ∧
        emitted =
            [IRStmt.WrTmp bbOut.tyenv.length (IRExpr.Binop (if hWordTy_of ws = IRType.Ity_I32 then IROp.Iop_Add32 else IROp.Iop_Add64) addr
               (eBias (hWordTy_of ws) 0)),
             IRStmt.WrTmp (bbOut.tyenv.length + 1) (IRExpr.Unop IROp.Iop_V256to64_0 data),
             IRStmt.WrTmp (bbOut.tyenv.length + 2) (IRExpr.Binop (if hWordTy_of ws = IRType.Ity_I32 then IROp.Iop_Add32 else IROp.Iop_Add64) addr
               (eBias (hWordTy_of ws) 8)),
             IRStmt.WrTmp (bbOut.tyenv.length + 3) (IRExpr.Unop IROp.Iop_V256to64_1 data),
             IRStmt.WrTmp (bbOut.tyenv.length + 4) (IRExpr.Binop (if hWordTy_of ws = IRType.Ity_I32 then IROp.Iop_Add32 else IROp.Iop_Add64) addr
               (eBias (hWordTy_of ws) 16)),
             IRStmt.WrTmp (bbOut.tyenv.length + 5) (IRExpr.Unop IROp.Iop_V256to64_2 data),
             IRStmt.WrTmp (bbOut.tyenv.length + 6) (IRExpr.Binop (if hWordTy_of ws = IRType.Ity_I32 then IROp.Iop_Add32 else IROp.Iop_Add64) addr
               (eBias (hWordTy_of ws) 24)),
             IRStmt.WrTmp (bbOut.tyenv.length + 7) (IRExpr.Unop IROp.Iop_V256to64_3 data),
             IRStmt.Dirty (set_guard guard (IRDirty_0_N 0 "OG_(store_check64)"
               OgHelper.store_check64 [IRExpr.RdTmp bbOut.tyenv.length, IRExpr.RdTmp (bbOut.tyenv.length + 1),
                 IRExpr.Const (IRConst.U32 (wordSize_of ws))])),
             IRStmt.Dirty (set_guard guard (IRDirty_0_N 0 "OG_(store_check64)"
               OgHelper.store_check64 [IRExpr.RdTmp (bbOut.tyenv.length + 2), IRExpr.RdTmp (bbOut.tyenv.length + 3),
                 IRExpr.Const (IRConst.U32 (wordSize_of ws))])),
             IRStmt.Dirty (set_guard guard (IRDirty_0_N 0 "OG_(store_check64)"
               OgHelper.store_check64 [IRExpr.RdTmp (bbOut.tyenv.length + 4), IRExpr.RdTmp (bbOut.tyenv.length + 5),
                 IRExpr.Const (IRConst.U32 (wordSize_of ws))])),
             IRStmt.Dirty (set_guard guard (IRDirty_0_N 0 "OG_(store_check64)"
               OgHelper.store_check64 [IRExpr.RdTmp (bbOut.tyenv.length + 6), IRExpr.RdTmp (bbOut.tyenv.length + 7),
                 IRExpr.Const (IRConst.U32 (wordSize_of ws))]))] ∧
        ∀ (env : Nat → Option Nat) (a v : Nat) (s : State),
          eval_atom env addr = some a → eval_atom env data = some v →
          AtomBelow bbOut.tyenv.length addr →
          (∀ g, guard = some g →
            AtomBelow bbOut.tyenv.length g ∧ ∃ y, eval_atom env g = some y ∧ y ≠ 0) →
          WF ws s →
          ∃ s1 new, (run_stmts ws junk emitted (env, s)).map Prod.snd = some s1 ∧
            four_checks ws s a v (wordSize_of ws) = some s1 ∧
            s1.errors = s.errors ++ new ∧
            (tag_at ws s (toWord ws (a + 16)) = some A_BITS2_UNWRITABLE →
              tag_at ws s (toWord ws (a + 0)) ≠ some A_BITS2_UNWRITABLE →
              tag_at ws s (toWord ws (a + 8)) ≠ some A_BITS2_UNWRITABLE →
              tag_at ws s (toWord ws (a + 24)) ≠ some A_BITS2_UNWRITABLE →
              new.filter (fun e => decide (e.ekind = OgErrorKind.UnwritableErr))
                = if ws = 4 then [unwritable_at s (toWord ws (a + 16)),
                      unwritable_at s (toWord ws (a + 16))]
                  else [unwritable_at s (toWord ws (a + 16))])) := by
  have hA := hWordTy_of_ok ws
  constructor
  · intro hty
    have hf0 := set_guard_fields guard "OG_(store_check64)" OgHelper.store_check64
      [IRExpr.RdTmp bbOut.tyenv.length, IRExpr.RdTmp (bbOut.tyenv.length + 1)]
    have hf1 := set_guard_fields guard "OG_(store_check64)" OgHelper.store_check64
      [IRExpr.RdTmp (bbOut.tyenv.length + 2), IRExpr.RdTmp (bbOut.tyenv.length + 3)]
    refine ⟨_, _, _, insert_store_checker_V128 bbOut addr data guard (hWordTy_of ws) hA hty,
      hf0.2.1, hf1.2.1, ?_, ?_, hf0.1, hf1.1⟩
    · rw [hf0.2.2.2]
      rfl
    · rw [hf1.2.2.2]
      rfl
  · intro hty
    refine ⟨[hWordTy_of ws, IRType.Ity_I64, hWordTy_of ws, IRType.Ity_I64,
        hWordTy_of ws, IRType.Ity_I64, hWordTy_of ws, IRType.Ity_I64], _, ?_, rfl, ?_⟩
    · rw [insert_store_checker_V256 bbOut addr data guard (hWordTy_of ws) hA hty,
        wordSize_of_eq ws hws]
    · intro env a v s hea hed hba hg hwf
      have hbd := AtomBelow_of_type bbOut.tyenv data _ v env hty hed
      have hrun := run_V256_emitted ws hws junk bbOut.tyenv.length addr data guard env a v s
        hea hed hba hbd hg
      obtain ⟨s4, E, h4, he, hfl⟩ := four_checks_unwritable ws hws s a v (wordSize_of ws) hwf
      refine ⟨s4, E, by rw [hrun, h4], h4, he, ?_⟩
      intro t16 t0 t8 t24
      rw [tag_at_eq ws hws s _ hwf (toWord_lt ws _)] at t16 t0 t8 t24
      have e16 : abits2_of ws s (toWord ws (a + 16)) = A_BITS2_UNWRITABLE :=
        Option.some.inj t16
      have e0 : ¬ abits2_of ws s (toWord ws (a + 0)) = A_BITS2_UNWRITABLE :=
        fun h => t0 (by rw [h])
      have e8 : ¬ abits2_of ws s (toWord ws (a + 8)) = A_BITS2_UNWRITABLE :=
        fun h => t8 (by rw [h])
      have e24 : ¬ abits2_of ws s (toWord ws (a + 24)) = A_BITS2_UNWRITABLE :=
        fun h => t24 (by rw [h])
      rw [hfl, if_neg e0, if_neg e8, if_pos e16, if_neg e24, List.nil_append, List.nil_append,
        List.append_nil]
      rcases hws with rfl | rfl
      · rfl
      · rfl

theorem vector_store_split_witness :
    ∃ s0 s1 new,
      set_address_range_perms 8 (og_pre_clo_init 8) 4112 8
        (abits16_of_tag A_BITS2_UNWRITABLE) (dsm_of_tag A_BITS2_UNWRITABLE) = some s0 ∧
      ((insert_store_checker
          { tyenv := [IRType.Ity_I64, IRType.Ity_V256], stmts := [],
            next := IRExpr.Const (IRConst.U64 0), jumpkind := 0, offsIP := 0 }
          (IRExpr.RdTmp 0) (IRExpr.RdTmp 1) none (hWordTy_of 8)).bind (fun bb =>
        (run_stmts 8 0 bb.stmts
          (fun t => if t = 0 then some 4096 else if t = 1 then some 7 else none, s0)).map
          Prod.snd)) = some s1 ∧
      s1.errors = s0.errors ++ new ∧
      new.filter (fun e => decide (e.ekind = OgErrorKind.UnwritableErr))
        = [unwritable_at s0 4112] := by
  have hws : WordSizeOk 8 := Or.inr rfl
  obtain ⟨s0, h0, hwf0, _, _, _, hin, hout⟩ :=
    paint_spec 8 hws (og_pre_clo_init 8) (WF_startup 8) 4112 8 A_BITS2_UNWRITABLE
      (dsm_of_tag A_BITS2_UNWRITABLE) (Or.inr (Or.inl rfl)) (by decide)
  have hno : ∀ b, b < 2 ^ WORD_BITS 8 → (b < 4112 ∨ 4112 + 8 ≤ b) →
      tag_at 8 s0 b ≠ some A_BITS2_UNWRITABLE := by
    intro b hb hbo
    rw [tag_at_eq 8 hws s0 b hwf0 hb, hout b hb hbo, startup_abits2 8 hws b]
    decide
  obtain ⟨extra, emitted, hi, _, hrun⟩ :=
    (vector_store_split 8 hws 0
      { tyenv := [IRType.Ity_I64, IRType.Ity_V256], stmts := [],
        next := IRExpr.Const (IRConst.U64 0), jumpkind := 0, offsIP := 0 }
      (IRExpr.RdTmp 0) (IRExpr.RdTmp 1) none).2 rfl
  obtain ⟨s1, new, hr, _, he, hcount⟩ :=
    hrun (fun t => if t = 0 then some 4096 else if t = 1 then some 7 else none) 4096 7 s0
      rfl rfl (show (0 : Nat) < 2 by decide) (fun g hg => by cases hg) hwf0
  refine ⟨s0, s1, new, h0, ?_, he, ?_⟩
  · rw [hi]
    exact hr
  · have := hcount
      (by rw [tag_at_eq 8 hws s0 _ hwf0 (toWord_lt 8 _)]
          rw [hin (toWord 8 (4096 + 16)) (by decide) (by decide)])
      (hno _ (toWord_lt 8 _) (Or.inl (by decide)))
      (hno _ (toWord_lt 8 _) (Or.inl (by decide)))
      (hno _ (toWord_lt 8 _) (Or.inr (by decide)))
    rw [this]
    rfl

/-! ## Index bounds -/

/-- C35. Index bounds: for every address `a`, `SM_OFF(a)` is below `SM_CHUNKS` = 16384 and
`SM_OFF_16(a)` is below 8192; for an 8-aligned `a` the two shadow bytes of the 16-bit
index, `2 * SM_OFF_16(a)` and the next one, are `SM_OFF(a)` and `SM_OFF(a) + 1`, both below
`SM_CHUNKS`; `MAX_PRIMARY_ADDRESS` is `2^32 - 1` in a 32-bit build (`N_PRIMARY_BITS` = 16)
and `2^36 - 1` in a 64-bit build (`N_PRIMARY_BITS` = 20), and for every
`a <= MAX_PRIMARY_ADDRESS` the primary index `a >> 16` is below `N_PRIMARY_MAP`. So the read
of `primary_map[a >> 16]` succeeds, and in a page that can be dereferenced the read and the
write of the shadow byte `SM_OFF(a)` and the 16-bit write at `SM_OFF_16(a)` succeed. -/
theorem index_bounds (ws : Nat) (hws : WordSizeOk ws) (a : Nat) :
    SM_OFF a < SM_CHUNKS ∧ SM_CHUNKS = 16384 ∧ SM_OFF_16 a < 8192 ∧
    (a % 8 = 0 → 2 * SM_OFF_16 a = SM_OFF a ∧ 2 * SM_OFF_16 a + 1 = SM_OFF a + 1 ∧
      SM_OFF a + 1 < SM_CHUNKS) ∧
    N_PRIMARY_BITS ws = (if ws = 4 then 16 else 20) ∧
    MAX_PRIMARY_ADDRESS ws = (if ws = 4 then 2 ^ 32 - 1 else 2 ^ 36 - 1) ∧
    (a ≤ MAX_PRIMARY_ADDRESS ws → a >>> 16 < N_PRIMARY_MAP ws ∧
      ∀ s : State, load_slot ws s (get_secmap_low_ptr a) = some (s.primary_map (a >>> 16))) ∧
    (∀ (s : State) (sm : SecMapPtr) (m : SecMap), contents s sm = some m →
      load_abits8 s sm (SM_OFF a) = some (m.abits8 (SM_OFF a))) ∧
    (∀ (s : State) (id : Nat) (m : SecMap) (v c : Nat), s.heap id = some m →
      (∃ s1, store_abits8 s (SecMapPtr.allocated id) (SM_OFF a) v = some s1) ∧
      (∃ s1, store_abits16 s (SecMapPtr.allocated id) (SM_OFF_16 a) c = some s1)) := by
  have h16 := SM_OFF_16_eq a
  have h4 := SM_OFF_eq a
  have hC : SM_CHUNKS = 16384 := rfl
  have hm := Nat.mod_lt a (show 0 < 65536 by decide)
  refine ⟨SM_OFF_lt a, hC, SM_OFF_16_lt a, ?_, rfl, ?_, ?_, ?_, ?_⟩
  · intro ha8
    have : a % 65536 % 8 = 0 := by
      rw [Nat.mod_mod_of_dvd a (by decide)]
      exact ha8
    refine ⟨?_, ?_, ?_⟩ <;> omega
  · rcases hws with rfl | rfl
    · exact MAX_PRIMARY_ADDRESS_four
    · exact MAX_PRIMARY_ADDRESS_eight
  · intro hle
    have hlt : a >>> 16 < N_PRIMARY_MAP ws := by
      rw [Nat.shiftRight_eq_div_pow]
      exact (le_MAX_iff ws hws a).mp hle
    refine ⟨hlt, fun s => ?_⟩
    unfold get_secmap_low_ptr
    rw [load_slot_primary, if_pos hlt]
  · intro s sm m hc
    exact load_abits8_of_contents s sm m (SM_OFF a) (SM_OFF_lt a) hc
  · intro s id m v c hheap
    exact ⟨⟨_, store_abits8_page s id m (SM_OFF a) v hheap (SM_OFF_lt a)⟩,
      ⟨_, store_abits16_page s id m (SM_OFF_16 a) c hheap (SM_OFF_16_lt a)⟩⟩

theorem index_bounds_witness :
    SM_OFF (2 ^ 36 - 8) = 16382 ∧ 2 * SM_OFF_16 (2 ^ 36 - 8) + 1 = 16383 ∧
    (2 ^ 36 - 8) >>> 16 = 2 ^ 20 - 1 ∧ (2 ^ 36 - 8) >>> 16 < N_PRIMARY_MAP 8 ∧
    load_slot 8 (og_pre_clo_init 8) (get_secmap_low_ptr (2 ^ 36 - 8))
      = some ((og_pre_clo_init 8).primary_map ((2 ^ 36 - 8) >>> 16)) := by
  have h := index_bounds 8 (Or.inr rfl) (2 ^ 36 - 8)
  have h8 := h.2.2.2.1 (by decide)
  have hp := h.2.2.2.2.2.2.1 (by rw [h.2.2.2.2.2.1]; decide)
  refine ⟨by decide, ?_, by decide, hp.1, hp.2 _⟩
  rw [h8.2.1]
  decide

/-! ## Frame of `set_abits2` and of the reads -/

/-- C32. Single-byte frame of `set_abits2`: in every state satisfying the representation
invariant, for every address `a` and each of the four 2-bit tags `t` (REFCHECK included),
`set_abits2(a, t)` returns, `get_abits2(a)` is `t` afterwards, and `get_abits2(b)` is
unchanged for every address `b` different from `a`: in particular for the three other
addresses of the shadow byte of `a` (same `a >> 2`) and for the addresses of other regions
whose slot held the same page as that of `a` before the call. -/
theorem set_abits2_single_byte_frame (ws : Nat) (hws : WordSizeOk ws) (s : State)
    (hwf : WF ws s) (a t : Nat) (ha : a < 2 ^ WORD_BITS ws) (ht : t < 4) :
    ∃ s1, set_abits2 ws s a t = some s1 ∧ tag_at ws s1 a = some t ∧
      (∀ b, b < 2 ^ WORD_BITS ws → b ≠ a → tag_at ws s1 b = tag_at ws s b) ∧
      (∀ b, b < 2 ^ WORD_BITS ws → b >>> 2 = a >>> 2 → b ≠ a →
        tag_at ws s1 b = tag_at ws s b) ∧
      (∀ b, b < 2 ^ WORD_BITS ws → b / 65536 ≠ a / 65536 → smOf ws s b = smOf ws s a →
        tag_at ws s1 b = tag_at ws s b) := by
  obtain ⟨s1, h1, hwf1, _, _, _, hset, hframe⟩ := set_abits2_spec ws hws s a t hwf ha ht
  have hf : ∀ b, b < 2 ^ WORD_BITS ws → b ≠ a → tag_at ws s1 b = tag_at ws s b := by
    intro b hb hne
    rw [tag_at_eq ws hws s1 b hwf1 hb, tag_at_eq ws hws s b hwf hb, hframe b hb hne]
  refine ⟨s1, h1, ?_, hf, fun b hb _ hne => hf b hb hne, ?_⟩
  · rw [tag_at_eq ws hws s1 a hwf1 ha, hset]
  · intro b hb hreg _
    exact hf b hb (fun h => hreg (by rw [h]))

theorem set_abits2_single_byte_frame_witness :
    ∃ s1, set_abits2 8 (og_pre_clo_init 8) 4097 A_BITS2_REFCHECK = some s1 ∧
      tag_at 8 s1 4097 = some A_BITS2_REFCHECK ∧
      tag_at 8 s1 4096 = tag_at 8 (og_pre_clo_init 8) 4096 ∧
      tag_at 8 s1 4099 = tag_at 8 (og_pre_clo_init 8) 4099 ∧
      tag_at 8 s1 (2 ^ 40 + 4097) = tag_at 8 (og_pre_clo_init 8) (2 ^ 40 + 4097) := by
  obtain ⟨s1, h1, ha, _, hn, hr⟩ :=
    set_abits2_single_byte_frame 8 (Or.inr rfl) (og_pre_clo_init 8) (WF_startup 8) 4097
      A_BITS2_REFCHECK (by decide) (by decide)
  exact ⟨s1, h1, ha, hn 4096 (by decide) (by decide) (by decide),
    hn 4099 (by decide) (by decide) (by decide),
    hr (2 ^ 40 + 4097) (by decide) (by decide)
      (by rw [startup_smOf 8 (Or.inr rfl), startup_smOf 8 (Or.inr rfl)])⟩

theorem tag_at_SameTags (ws : Nat) (hws : WordSizeOk ws) (s s1 : State) (hwf : WF ws s)
    (hwf1 : WF ws s1) (h : SameTags ws s s1) (b : Nat) (hb : b < 2 ^ WORD_BITS ws) :
    tag_at ws s1 b = tag_at ws s b := by
  rw [tag_at_eq ws hws s1 b hwf1 hb, tag_at_eq ws hws s b hwf hb, h.tags b]

/-- C33. Reads do not change tags: in every state satisfying the representation invariant
and for all arguments, `get_abits2`, the four store checkers (`store_check64` with either
host word width) and the CHECK_UNWRITABLE request return and leave `get_abits2` of every
address unchanged; `get_abits2` and the request change nothing but the auxiliary map and
its front-cache. A lookup above `MAX_PRIMARY_ADDRESS` may add an auxiliary node holding the
distinguished NOCHECK page (at startup, `get_abits2(2^40)` does, and so does the reference
check of `store_check64` for the stored value `2^40`), and may reorder the front-cache (a hit
in slot 5 moves the entry to slot 4). -/
theorem reads_do_not_change_tags (ws : Nat) (hws : WordSizeOk ws) (s : State)
    (hwf : WF ws s) (a d d64 w tid ret : Nat) (arg : Nat → Nat)
    (ha : a < 2 ^ WORD_BITS ws) (hd : d < 2 ^ WORD_BITS ws)
    (harg : arg 0 = VG_USERREQ__CHECK_UNWRITABLE) (harg1 : arg 1 < 2 ^ WORD_BITS ws) :
    (∃ t s1, get_abits2 ws s a = some (t, s1) ∧ AuxOnly ws s s1 ∧
      ∀ b, b < 2 ^ WORD_BITS ws → tag_at ws s1 b = tag_at ws s b) ∧
    (∃ s1, store_check8 ws s a d = some s1 ∧
      ∀ b, b < 2 ^ WORD_BITS ws → tag_at ws s1 b = tag_at ws s b) ∧
    (∃ s1, store_check16 ws s a d = some s1 ∧
      ∀ b, b < 2 ^ WORD_BITS ws → tag_at ws s1 b = tag_at ws s b) ∧
    (∃ s1, store_check32 ws s a d = some s1 ∧
      ∀ b, b < 2 ^ WORD_BITS ws → tag_at ws s1 b = tag_at ws s b) ∧
    (∃ s1, store_check64 ws s a d64 w = some s1 ∧
      ∀ b, b < 2 ^ WORD_BITS ws → tag_at ws s1 b = tag_at ws s b) ∧
    (∃ r s1, og_handle_client_request ws s tid arg ret = some (true, r, s1) ∧
      AuxOnly ws s s1 ∧ ∀ b, b < 2 ^ WORD_BITS ws → tag_at ws s1 b = tag_at ws s b) ∧
    (get_abits2 8 (og_pre_clo_init 8) (2 ^ 40)).map
        (fun p => (p.2.auxmap_L2.size, p.2.auxmap_L2.nodes 0))
      = some (1, { base := 2 ^ 40, sm := SecMapPtr.distinguished SM_DIST_NOCHECK }) ∧
    (og_pre_clo_init 8).auxmap_L2.size = 0 ∧
    ((set_abits2 8 (og_pre_clo_init 8) 4096 A_BITS2_REFCHECK).bind
        (fun s0 => (store_check64 8 s0 4096 (2 ^ 40) 64).map
          (fun s1 => (s0.auxmap_L2.size, s1.auxmap_L2.size, s1.auxmap_L2.nodes 0))))
      = some (0, 1, { base := 2 ^ 40, sm := SecMapPtr.distinguished SM_DIST_NOCHECK }) ∧
    ((cache_example.auxmap_L1 4).base, (cache_example.auxmap_L1 5).base) = (0, 2 ^ 42) ∧
    (get_abits2 8 cache_example (2 ^ 42 + 100)).map
        (fun p => ((p.2.auxmap_L1 4).base, (p.2.auxmap_L1 5).base)) = some (2 ^ 42, 0) := by
  refine ⟨?_, ?_, ?_, ?_, ?_, ?_, by decide, by decide, by decide, by decide, by decide⟩
  · obtain ⟨s1, h1, hwf1, hao⟩ := get_abits2_spec ws hws s a hwf ha
    exact ⟨_, s1, h1, hao, fun b hb =>
      tag_at_SameTags ws hws s s1 hwf hwf1 (SameTags_of_AuxOnly ws s s1 hao) b hb⟩
  · obtain ⟨s1, h1, hwf1, hst, _⟩ := store_check8_spec ws hws s a d hwf ha
    exact ⟨s1, h1, fun b hb => tag_at_SameTags ws hws s s1 hwf hwf1 hst b hb⟩
  · obtain ⟨s1, h1, hwf1, hst, _⟩ := store_check16_spec ws hws s a d hwf ha
    exact ⟨s1, h1, fun b hb => tag_at_SameTags ws hws s s1 hwf hwf1 hst b hb⟩
  · obtain ⟨s1, h1, hwf1, hst, _⟩ := store_check32_spec ws hws s a d hwf ha hd
    exact ⟨s1, h1, fun b hb => tag_at_SameTags ws hws s s1 hwf hwf1 hst b hb⟩
  · by_cases hw : w = 32
    · subst hw
      obtain ⟨_, s2, _, _, h2, hwf2, hst, _⟩ := store_check64_split_spec ws hws s a d64 hwf ha
      exact ⟨s2, h2, fun b hb => tag_at_SameTags ws hws s s2 hwf hwf2 hst b hb⟩
    · obtain ⟨s1, h1, hwf1, hst, _⟩ := store_check64_spec ws hws s a d64 w hwf ha hw
      exact ⟨s1, h1, fun b hb => tag_at_SameTags ws hws s s1 hwf hwf1 hst b hb⟩
  · obtain ⟨s1, h1, hwf1, hao⟩ :=
      handle_CHECK_UNWRITABLE_spec ws hws s hwf tid arg ret harg harg1
    exact ⟨_, s1, h1, hao, fun b hb =>
      tag_at_SameTags ws hws s s1 hwf hwf1 (SameTags_of_AuxOnly ws s s1 hao) b hb⟩

theorem reads_do_not_change_tags_witness :
    (∃ t s1, get_abits2 8 (og_pre_clo_init 8) (2 ^ 40) = some (t, s1) ∧
      tag_at 8 s1 (2 ^ 40) = tag_at 8 (og_pre_clo_init 8) (2 ^ 40)) ∧
    (∃ s1, store_check64 8 (og_pre_clo_init 8) (2 ^ 40) (2 ^ 41) 32 = some s1 ∧
      tag_at 8 s1 (2 ^ 41) = tag_at 8 (og_pre_clo_init 8) (2 ^ 41)) ∧
    (∃ r s1, og_handle_client_request 8 (og_pre_clo_init 8) 1
        (request_args VG_USERREQ__CHECK_UNWRITABLE (2 ^ 40) 0) 0 = some (true, r, s1) ∧
      tag_at 8 s1 4096 = tag_at 8 (og_pre_clo_init 8) 4096) := by
  have h := reads_do_not_change_tags 8 (Or.inr rfl) (og_pre_clo_init 8) (WF_startup 8)
    (2 ^ 40) 7 (2 ^ 41) 32 1 0 (request_args VG_USERREQ__CHECK_UNWRITABLE (2 ^ 40) 0)
    (by decide) (by decide) (by decide) (by decide)
  obtain ⟨⟨t, s1, h1, _, hf1⟩, _, _, _, ⟨s5, h5, hf5⟩, ⟨r, s6, h6, _, hf6⟩, _⟩ := h
  exact ⟨⟨t, s1, h1, hf1 _ (by decide)⟩, ⟨s5, h5, hf5 _ (by decide)⟩,
    ⟨r, s6, h6, hf6 _ (by decide)⟩⟩

/-! ## The writes of the loops of the fast range painter -/

theorem sarp_1_byte_steps_to_8_aligned_log_erase (ws : Nat) (sm : SecMapPtr) (t : Nat) :
    ∀ len a s, (sarp_1_byte_steps_to_8_aligned_log ws sm t len a s).map
        (fun r => (r.1, r.2.1, r.2.2.1)) = sarp_1_byte_steps_to_8_aligned ws sm t len a s := by
  intro len
  induction len with
  | zero =>
    intro a s
    unfold sarp_1_byte_steps_to_8_aligned_log sarp_1_byte_steps_to_8_aligned
    rfl
  | succ len ih =>
    intro a s
    unfold sarp_1_byte_steps_to_8_aligned_log sarp_1_byte_steps_to_8_aligned
    by_cases hal : VG_IS_8_ALIGNED a = true
    · rw [if_pos hal, if_pos hal]
      rfl
    · rw [if_neg hal, if_neg hal]
      cases insert_abits2_at s sm a t with
      | none => rfl
      | some s1 =>
        dsimp only
        rw [← ih (toWord ws (a + 1)) s1]
        cases sarp_1_byte_steps_to_8_aligned_log ws sm t len (toWord ws (a + 1)) s1 with
        | none => rfl
        | some r => rfl

theorem sarp_8_byte_steps_log_erase (ws : Nat) (sm : SecMapPtr) (c : Nat) :
    ∀ fuel a len s, (sarp_8_byte_steps_log ws sm c fuel a len s).map
        (fun r => (r.1, r.2.1, r.2.2.1)) = sarp_8_byte_steps ws sm c fuel a len s := by
  intro fuel
  induction fuel with
  | zero =>
    intro a len s
    unfold sarp_8_byte_steps_log sarp_8_byte_steps
    by_cases hl : len < 8
    · rw [if_pos hl, if_pos hl]
      rfl
    · rw [if_neg hl, if_neg hl]
      rfl
  | succ fuel ih =>
    intro a len s
    unfold sarp_8_byte_steps_log sarp_8_byte_steps
    by_cases hl : len < 8
    · rw [if_pos hl, if_pos hl]
      rfl
    · rw [if_neg hl, if_neg hl]
      cases store_abits16 s sm (SM_OFF_16 a) c with
      | none => rfl
      | some s1 =>
        dsimp only
        rw [← ih (toWord ws (a + 8)) (len - 8) s1]
        cases sarp_8_byte_steps_log ws sm c fuel (toWord ws (a + 8)) (len - 8) s1 with
        | none => rfl
        | some r => rfl

theorem sarp_1_byte_steps_log_erase (ws : Nat) (sm : SecMapPtr) (t : Nat) :
    ∀ len a s, (sarp_1_byte_steps_log ws sm t len a s).map
        (fun r => (r.1, r.2.1, r.2.2.1)) = sarp_1_byte_steps ws sm t len a s := by
  intro len
  induction len with
  | zero =>
    intro a s
    unfold sarp_1_byte_steps_log sarp_1_byte_steps
    rfl
  | succ len ih =>
    intro a s
    unfold sarp_1_byte_steps_log sarp_1_byte_steps
    cases insert_abits2_at s sm a t with
    | none => rfl
    | some s1 =>
      dsimp only
      rw [← ih (toWord ws (a + 1)) s1]
      cases sarp_1_byte_steps_log ws sm t len (toWord ws (a + 1)) s1 with
      | none => rfl
      | some r => rfl

theorem sarp_1_byte_steps_to_8_aligned_log_writes (ws : Nat) (sm : SecMapPtr) (t : Nat) :
    ∀ len a s a1 l1 s1 w, a < 2 ^ WORD_BITS ws → a + len ≤ 2 ^ WORD_BITS ws →
      sarp_1_byte_steps_to_8_aligned_log ws sm t len a s = some (a1, l1, s1, w) →
      ∃ k, k ≤ len ∧ a1 = toWord ws (a + k) ∧ l1 = len - k ∧
        (l1 = 0 ∨ (a + k) % 8 = 0) ∧
        ∀ x, x ∈ w → x.wide = false ∧ ∃ j, j < k ∧ x.a = a + j := by
  intro len
  induction len with
  | zero =>
    intro a s a1 l1 s1 w ha _ h
    unfold sarp_1_byte_steps_to_8_aligned_log at h
    cases h
    exact ⟨0, Nat.le_refl _, (toWord_of_lt ws _ ha).symm, rfl, Or.inl rfl,
      fun x hx => absurd hx (List.not_mem_nil x)⟩
  | succ len ih =>
    intro a s a1 l1 s1 w ha hfit h
    unfold sarp_1_byte_steps_to_8_aligned_log at h
    by_cases hal : VG_IS_8_ALIGNED a = true
    · rw [if_pos hal] at h
      cases h
      exact ⟨0, Nat.zero_le _, (toWord_of_lt ws _ ha).symm, rfl,
        Or.inr ((VG_IS_8_ALIGNED_iff a).mp hal), fun x hx => absurd hx (List.not_mem_nil x)⟩
    · rw [if_neg hal] at h
      cases hi : insert_abits2_at s sm a t with
      | none => rw [hi] at h; cases h
      | some s2 =>
        rw [hi] at h
        dsimp only at h
        cases hr : sarp_1_byte_steps_to_8_aligned_log ws sm t len (toWord ws (a + 1)) s2 with
        | none => rw [hr] at h; cases h
        | some r =>
          obtain ⟨a2, l2, s3, w2⟩ := r
          rw [hr] at h
          cases h
          have hfit2 : toWord ws (a + 1) + len ≤ 2 ^ WORD_BITS ws := by
            have := Nat.mod_le (a + 1) (2 ^ WORD_BITS ws)
            unfold toWord
            omega
          obtain ⟨k, hk, e1, e2, hor, hw⟩ :=
            ih (toWord ws (a + 1)) s2 a1 l1 s1 w2 (toWord_lt ws _) hfit2 hr
          have hstep : 0 < len → toWord ws (a + 1) = a + 1 := fun hl =>
            toWord_of_lt ws _ (by omega)
          refine ⟨k + 1, by omega, ?_, by omega, ?_, ?_⟩
          · rw [e1, toWord_add_toWord, show a + 1 + k = a + (k + 1) by omega]
          · by_cases hl : len = 0
            · exact Or.inl (by omega)
            · rcases hor with h0 | h8
              · exact Or.inl h0
              · rw [hstep (by omega)] at h8
                exact Or.inr (by rw [show a + (k + 1) = a + 1 + k by omega]; exact h8)
          · intro x hx
            rcases List.mem_cons.mp hx with rfl | hx
            · exact ⟨rfl, 0, by omega, rfl⟩
            · obtain ⟨hwd, j, hj, hxa⟩ := hw x hx
              rw [hstep (by omega)] at hxa
              exact ⟨hwd, j + 1, by omega, by omega⟩

theorem sarp_8_byte_steps_log_writes (ws : Nat) (sm : SecMapPtr) (c : Nat) :
    ∀ fuel a len s a1 l1 s1 w, a < 2 ^ WORD_BITS ws → a + len ≤ 2 ^ WORD_BITS ws →
      (8 ≤ len → a % 8 = 0) →
      sarp_8_byte_steps_log ws sm c fuel a len s = some (a1, l1, s1, w) →
      a1 = toWord ws (a + 8 * (len / 8)) ∧ l1 = len % 8 ∧
        ∀ x, x ∈ w → x.wide = true ∧ x.a % 8 = 0 ∧ ∃ j, j + 8 ≤ len ∧ x.a = a + j := by
  have hstop : ∀ a len (s : State) a1 l1 s1 (w : List SarpWrite),
      a < 2 ^ WORD_BITS ws → len < 8 → some (a, len, s, ([] : List SarpWrite))
        = some (a1, l1, s1, w) →
      a1 = toWord ws (a + 8 * (len / 8)) ∧ l1 = len % 8 ∧
        ∀ x, x ∈ w → x.wide = true ∧ x.a % 8 = 0 ∧ ∃ j, j + 8 ≤ len ∧ x.a = a + j := by
    intro a len s a1 l1 s1 w ha hl h
    cases h
    refine ⟨?_, (Nat.mod_eq_of_lt hl).symm, fun x hx => absurd hx (List.not_mem_nil x)⟩
    rw [Nat.div_eq_of_lt hl, Nat.mul_zero, Nat.add_zero, toWord_of_lt ws _ ha]
  intro fuel
  induction fuel with
  | zero =>
    intro a len s a1 l1 s1 w ha _ _ h
    unfold sarp_8_byte_steps_log at h
    by_cases hl : len < 8
    · rw [if_pos hl] at h
      exact hstop a len s a1 l1 s1 w ha hl h
    · rw [if_neg hl] at h
      cases h
  | succ fuel ih =>
    intro a len s a1 l1 s1 w ha hfit h8 h
    unfold sarp_8_byte_steps_log at h
    by_cases hl : len < 8
    · rw [if_pos hl] at h
      exact hstop a len s a1 l1 s1 w ha hl h
    · rw [if_neg hl] at h
      cases hi : store_abits16 s sm (SM_OFF_16 a) c with
      | none => rw [hi] at h; cases h
      | some s2 =>
        rw [hi] at h
        dsimp only at h
        cases hr : sarp_8_byte_steps_log ws sm c fuel (toWord ws (a + 8)) (len - 8) s2 with
        | none => rw [hr] at h; cases h
        | some r =>
          obtain ⟨a2, l2, s3, w2⟩ := r
          rw [hr] at h
          cases h
          have ha8 := h8 (by omega)
          have hfit2 : toWord ws (a + 8) + (len - 8) ≤ 2 ^ WORD_BITS ws := by
            have := Nat.mod_le (a + 8) (2 ^ WORD_BITS ws)
            unfold toWord
            omega
          have hstep : 8 ≤ len - 8 → toWord ws (a + 8) = a + 8 := fun hl2 =>
            toWord_of_lt ws _ (by omega)
          obtain ⟨e1, e2, hw⟩ :=
            ih (toWord ws (a + 8)) (len - 8) s2 a1 l1 s1 w2 (toWord_lt ws _) hfit2
              (fun hl2 => by rw [hstep hl2]; omega) hr
          refine ⟨?_, by omega, ?_⟩
          · rw [e1, toWord_add_toWord]
            congr 1
            omega
          · intro x hx
            rcases List.mem_cons.mp hx with rfl | hx
            · exact ⟨rfl, ha8, 0, by omega, rfl⟩
            · obtain ⟨hwd, hx8, j, hj, hxa⟩ := hw x hx
              rw [hstep (by omega)] at hxa
              exact ⟨hwd, hx8, j + 8, by omega, by omega⟩

theorem sarp_1_byte_steps_log_writes (ws : Nat) (sm : SecMapPtr) (t : Nat) :
    ∀ len a s a1 l1 s1 w, a < 2 ^ WORD_BITS ws → a + len ≤ 2 ^ WORD_BITS ws →
      sarp_1_byte_steps_log ws sm t len a s = some (a1, l1, s1, w) →
      a1 = toWord ws (a + len) ∧ l1 = 0 ∧
        ∀ x, x ∈ w → x.wide = false ∧ ∃ j, j < len ∧ x.a = a + j := by
  intro len
  induction len with
  | zero =>
    intro a s a1 l1 s1 w ha _ h
    unfold sarp_1_byte_steps_log at h
    cases h
    exact ⟨(toWord_of_lt ws _ ha).symm, rfl, fun x hx => absurd hx (List.not_mem_nil x)⟩
  | succ len ih =>
    intro a s a1 l1 s1 w ha hfit h
    unfold sarp_1_byte_steps_log at h
    cases hi : insert_abits2_at s sm a t with
    | none => rw [hi] at h; cases h
    | some s2 =>
      rw [hi] at h
      dsimp only at h
      cases hr : sarp_1_byte_steps_log ws sm t len (toWord ws (a + 1)) s2 with
      | none => rw [hr] at h; cases h
      | some r =>
        obtain ⟨a2, l2, s3, w2⟩ := r
        rw [hr] at h
        cases h
        have hfit2 : toWord ws (a + 1) + len ≤ 2 ^ WORD_BITS ws := by
          have := Nat.mod_le (a + 1) (2 ^ WORD_BITS ws)
          unfold toWord
          omega
        obtain ⟨e1, e2, hw⟩ :=
          ih (toWord ws (a + 1)) s2 a1 l1 s1 w2 (toWord_lt ws _) hfit2 hr
        have hstep : 0 < len → toWord ws (a + 1) = a + 1 := fun hl =>
          toWord_of_lt ws _ (by omega)
        refine ⟨?_, e2, ?_⟩
        · rw [e1, toWord_add_toWord, show a + 1 + len = a + (len + 1) by omega]
        · intro x hx
          rcases List.mem_cons.mp hx with rfl | hx
          · exact ⟨rfl, 0, by omega, rfl⟩
          · obtain ⟨hwd, j, hj, hxa⟩ := hw x hx
            rw [hstep (by omega)] at hxa
            exact ⟨hwd, j + 1, by omega, by omega⟩

/-! ## The arguments of the calls to `store_check64` -/

/-- C31. Evaluation at the failing input: `og_instrument` on the block
`t0:I64, t1:I64; IMark; STle(t0) = t1` for a host with 64-bit words returns a block whose one
call to `store_check64` has two arguments and no width; so does the 32-bit host for a store
of an I64 temporary, and the two calls emitted for a V128 store have two arguments each on
both hosts, whereas the four calls emitted for a V256 store have three, the third being the
constant 32 when the host word type is I32 and 64 when it is I64. When the I64 store runs
with its destination UNWRITABLE, the number of errors submitted depends on the value that
the third parameter of `store_check64` happens to hold: two when it is 32, one when it is
64. -/
theorem store_check64_call_without_width :
    (og_instrument (store_example IRType.Ity_I64 IRType.Ity_I64) IRType.Ity_I64
        IRType.Ity_I64).map check64_calls = some [(2, none)] ∧
    (og_instrument (store_example IRType.Ity_I32 IRType.Ity_I64) IRType.Ity_I32
        IRType.Ity_I32).map check64_calls = some [(2, none)] ∧
    (og_instrument (store_example IRType.Ity_I64 IRType.Ity_V128) IRType.Ity_I64
        IRType.Ity_I64).map check64_calls = some [(2, none), (2, none)] ∧
    (og_instrument (store_example IRType.Ity_I32 IRType.Ity_V128) IRType.Ity_I32
        IRType.Ity_I32).map check64_calls = some [(2, none), (2, none)] ∧
    (og_instrument (store_example IRType.Ity_I64 IRType.Ity_V256) IRType.Ity_I64
        IRType.Ity_I64).map check64_calls
      = some [(3, some (IRConst.U32 64)), (3, some (IRConst.U32 64)),
          (3, some (IRConst.U32 64)), (3, some (IRConst.U32 64))] ∧
    (og_instrument (store_example IRType.Ity_I32 IRType.Ity_V256) IRType.Ity_I32
        IRType.Ity_I32).map check64_calls
      = some [(3, some (IRConst.U32 32)), (3, some (IRConst.U32 32)),
          (3, some (IRConst.U32 32)), (3, some (IRConst.U32 32))] ∧
    ((set_abits2 8 (og_pre_clo_init 8) 4096 A_BITS2_UNWRITABLE).bind (fun s =>
        (og_instrument (store_example IRType.Ity_I64 IRType.Ity_I64) IRType.Ity_I64
          IRType.Ity_I64).bind (fun bb => errors_of_run 8 32 bb 4096 0 s))) = some 2 ∧
    ((set_abits2 8 (og_pre_clo_init 8) 4096 A_BITS2_UNWRITABLE).bind (fun s =>
        (og_instrument (store_example IRType.Ity_I64 IRType.Ity_I64) IRType.Ity_I64
          IRType.Ity_I64).bind (fun bb => errors_of_run 8 64 bb 4096 0 s))) = some 1 := by
  refine ⟨by decide, by decide, by decide, by decide, by decide, by decide, by decide,
    by decide⟩

/-! ## The writes of the parts of the fast range painter -/

theorem sarp_loops_log_erase (ws : Nat) (sm : SecMapPtr) (c a len : Nat) (s : State) :
    (sarp_loops_log ws sm c a len s).map (fun r => (r.1, r.2.1, r.2.2.1))
      = match sarp_1_byte_steps_to_8_aligned ws sm (c &&& 0x3) len a s with
        | none => none
        | some (a, lenA, s3) =>
          match sarp_8_byte_steps ws sm c lenA a lenA s3 with
          | none => none
          | some (a, lenA, s4) => sarp_1_byte_steps ws sm (c &&& 0x3) lenA a s4 := by
  unfold sarp_loops_log
  dsimp only
  rw [← sarp_1_byte_steps_to_8_aligned_log_erase]
  cases sarp_1_byte_steps_to_8_aligned_log ws sm (c &&& 0x3) len a s with
  | none => rfl
  | some r1 =>
    obtain ⟨a1, l1, s1, w1⟩ := r1
    dsimp only [Option.map]
    rw [← sarp_8_byte_steps_log_erase]
    cases sarp_8_byte_steps_log ws sm c l1 a1 l1 s1 with
    | none => rfl
    | some r2 =>
      obtain ⟨a2, l2, s2, w2⟩ := r2
      dsimp only [Option.map]
      rw [← sarp_1_byte_steps_log_erase]
      cases sarp_1_byte_steps_log ws sm (c &&& 0x3) l2 a2 s2 with
      | none => rfl
      | some r3 => rfl

theorem sarp_loops_log_writes (ws : Nat) (sm : SecMapPtr) (c a len : Nat) (s : State)
    (a1 l1 : Nat) (s1 : State) (w : List SarpWrite) (ha : a < 2 ^ WORD_BITS ws)
    (hfit : a + len ≤ 2 ^ WORD_BITS ws)
    (h : sarp_loops_log ws sm c a len s = some (a1, l1, s1, w)) :
    a1 < 2 ^ WORD_BITS ws ∧ l1 = 0 ∧
      ∀ x, x ∈ w → (x.wide = true → x.a % 8 = 0) ∧ ∃ j, j < len ∧ x.a = a + j := by
  unfold sarp_loops_log at h
  dsimp only at h
  cases hr1 : sarp_1_byte_steps_to_8_aligned_log ws sm (c &&& 0x3) len a s with
  | none => rw [hr1] at h; cases h
  | some r1 =>
    obtain ⟨a2, l2, s2, w1⟩ := r1
    rw [hr1] at h
    dsimp only at h
    obtain ⟨k, hk, e2, el2, hor, hw1⟩ :=
      sarp_1_byte_steps_to_8_aligned_log_writes ws sm _ len a s a2 l2 s2 w1 ha hfit hr1
    have hle2 : a2 ≤ a + k := by
      rw [e2]
      exact Nat.mod_le _ _
    have hid2 : l2 ≠ 0 → a2 = a + k := fun hl => by
      rw [e2]
      exact toWord_of_lt ws _ (by omega)
    have ha2 : a2 < 2 ^ WORD_BITS ws := by
      rw [e2]
      exact toWord_lt ws _
    cases hr2 : sarp_8_byte_steps_log ws sm c l2 a2 l2 s2 with
    | none => rw [hr2] at h; cases h
    | some r2 =>
      obtain ⟨a3, l3, s3, w2⟩ := r2
      rw [hr2] at h
      dsimp only at h
      obtain ⟨e3, el3, hw2⟩ :=
        sarp_8_byte_steps_log_writes ws sm c l2 a2 l2 s2 a3 l3 s3 w2 ha2 (by omega)
          (fun h8 => by
            have hne : l2 ≠ 0 := by omega
            rw [hid2 hne]
            rcases hor with h0 | h8
            · exact absurd h0 hne
            · exact h8) hr2
      have hle3 : a3 ≤ a2 + 8 * (l2 / 8) := by
        rw [e3]
        exact Nat.mod_le _ _
      have hid3 : l3 ≠ 0 → a3 = a2 + 8 * (l2 / 8) := fun hl => by
        rw [e3]
        exact toWord_of_lt ws _ (by omega)
      have ha3 : a3 < 2 ^ WORD_BITS ws := by
        rw [e3]
        exact toWord_lt ws _
      cases hr3 : sarp_1_byte_steps_log ws sm (c &&& 0x3) l3 a3 s3 with
      | none => rw [hr3] at h; cases h
      | some r3 =>
        obtain ⟨a4, l4, s4, w3⟩ := r3
        rw [hr3] at h
        cases h
        obtain ⟨e4, el4, hw3⟩ :=
          sarp_1_byte_steps_log_writes ws sm _ l3 a3 s3 a1 l1 s1 w3 ha3 (by omega) hr3
        refine ⟨by rw [e4]; exact toWord_lt ws _, el4, ?_⟩
        intro x hx
        rcases List.mem_append.mp hx with hx | hx
        · obtain ⟨hwd, j, hj, hxa⟩ := hw1 x hx
          exact ⟨(fun hw => by rw [hwd] at hw; cases hw), j, by omega, hxa⟩
        · rcases List.mem_append.mp hx with hx | hx
          · obtain ⟨_, hx8, j, hj, hxa⟩ := hw2 x hx
            have hne : l2 ≠ 0 := by omega
            have := hid2 hne
            exact ⟨fun _ => hx8, k + j, by omega, by omega⟩
          · obtain ⟨hwd, j, hj, hxa⟩ := hw3 x hx
            have hne3 : l3 ≠ 0 := by omega
            have hne : l2 ≠ 0 := by omega
            have := hid2 hne
            have := hid3 hne3
            exact ⟨(fun hw => by rw [hwd] at hw; cases hw), k + 8 * (l2 / 8) + j, by omega,
              by omega⟩

theorem sarp_part1_log_erase (ws : Nat) (s : State) (a lenA aNext c : Nat) (dsm : SecMapPtr) :
    (sarp_part1_log ws s a lenA aNext c dsm).map (fun r => (r.1, r.2.1, r.2.2.1))
      = sarp_part1 ws s a lenA aNext c dsm := by
  unfold sarp_part1_log sarp_part1
  dsimp only
  cases get_secmap_ptr ws s a with
  | none => rfl
  | some r =>
    obtain ⟨p, s1⟩ := r
    dsimp only
    cases load_slot ws s1 p with
    | none => rfl
    | some q =>
      dsimp only
      by_cases hskip : is_distinguished_sm q = true ∧ q = dsm
      · rw [if_pos hskip]
        exact sarp_loops_log_erase ws q c aNext 0 s1
      · rw [if_neg hskip]
        cases cow_slot ws s1 p with
        | none => rfl
        | some r2 =>
          obtain ⟨sm, s2⟩ := r2
          exact sarp_loops_log_erase ws sm c a lenA s2

theorem in_region_of_fit (a len j : Nat) (hfit : a % 65536 + len ≤ 65536) (hj : j < len) :
    (a + j) / 65536 = a / 65536 := by
  omega

theorem sarp_part1_log_writes (ws : Nat) (hws : WordSizeOk ws) (s : State)
    (a lenA aNext c : Nat) (dsm : SecMapPtr) (a1 l1 : Nat) (s1 : State) (w : List SarpWrite)
    (ha : a < 2 ^ WORD_BITS ws) (hn : aNext < 2 ^ WORD_BITS ws)
    (hfit : a % 65536 + lenA ≤ 65536)
    (h : sarp_part1_log ws s a lenA aNext c dsm = some (a1, l1, s1, w)) :
    a1 < 2 ^ WORD_BITS ws ∧ l1 = 0 ∧
      ∀ x, x ∈ w → (x.wide = true → x.a % 8 = 0) ∧ x.a < 2 ^ WORD_BITS ws ∧
        x.a / 65536 = a / 65536 := by
  have hend := region_end_le ws hws a ha
  have hmod := Nat.mod_le a 65536
  unfold sarp_part1_log at h
  dsimp only at h
  split at h
  · cases h
  · split at h
    · cases h
    · split at h
      · cases h
      · rename_i r a0 l0 sm s2 hr
        split at hr
        · cases hr
          obtain ⟨h1, h2, hw⟩ :=
            sarp_loops_log_writes ws _ c aNext 0 _ a1 l1 s1 w hn (by omega) h
          refine ⟨h1, h2, fun x hx => ?_⟩
          obtain ⟨_, j, hj, _⟩ := hw x hx
          omega
        · split at hr
          · cases hr
          · cases hr
            obtain ⟨h1, h2, hw⟩ :=
              sarp_loops_log_writes ws _ c a lenA _ a1 l1 s1 w ha (by omega) h
            refine ⟨h1, h2, fun x hx => ?_⟩
            obtain ⟨h8, j, hj, hxa⟩ := hw x hx
            refine ⟨h8, by omega, ?_⟩
            rw [hxa]
            exact in_region_of_fit a lenA j hfit hj

theorem sarp_part3_log_erase (ws : Nat) (s : State) (a lenB c : Nat) (dsm : SecMapPtr) :
    (sarp_part3_log ws s a lenB c dsm).map Prod.fst = sarp_part3 ws s a lenB c dsm := by
  unfold sarp_part3_log sarp_part3
  dsimp only
  by_cases hst : is_start_of_sm ws a = true ∧ lenB < SM_SIZE
  · rw [if_pos hst, if_pos hst]
    cases get_secmap_ptr ws s a with
    | none => rfl
    | some r =>
      obtain ⟨p, s1⟩ := r
      dsimp only
      cases load_slot ws s1 p with
      | none => rfl
      | some q =>
        dsimp only
        by_cases hskip : is_distinguished_sm q = true ∧ q = dsm
        · rw [if_pos hskip, if_pos hskip]
          rfl
        · rw [if_neg hskip, if_neg hskip]
          cases cow_slot ws s1 p with
          | none => rfl
          | some r2 =>
            obtain ⟨sm, s2⟩ := r2
            dsimp only
            rw [← sarp_8_byte_steps_log_erase]
            cases sarp_8_byte_steps_log ws sm c lenB a lenB s2 with
            | none => rfl
            | some r3 =>
              obtain ⟨a3, l3, s3, w3⟩ := r3
              dsimp only [Option.map]
              rw [← sarp_1_byte_steps_log_erase]
              cases sarp_1_byte_steps_log ws sm (c &&& 0x3) l3 a3 s3 with
              | none => rfl
              | some r4 => rfl
  · rw [if_neg hst, if_neg hst]
    rfl

theorem sarp_part3_log_writes (ws : Nat) (hws : WordSizeOk ws) (s : State)
    (a lenB c : Nat) (dsm : SecMapPtr) (s1 : State) (w : List SarpWrite)
    (ha : a < 2 ^ WORD_BITS ws)
    (h : sarp_part3_log ws s a lenB c dsm = some (s1, w)) :
    ∀ x, x ∈ w → (x.wide = true → x.a % 8 = 0) ∧ x.a < 2 ^ WORD_BITS ws ∧
      x.a / 65536 = a / 65536 := by
  have hend := region_end_le ws hws a ha
  have hmod := Nat.mod_le a 65536
  unfold sarp_part3_log at h
  dsimp only at h
  split at h
  · rename_i hst
    have hal : a % 65536 = 0 := (is_start_of_sm_iff ws hws a ha).mp hst.1
    have hlen : lenB < 65536 := hst.2
    split at h
    · cases h
    · split at h
      · cases h
      · split at h
        · cases h
          intro x hx
          exact absurd hx (List.not_mem_nil x)
        · split at h
          · cases h
          · split at h
            · cases h
            · rename_i a3 l3 s3 w2 hr2
              split at h
              · cases h
              · rename_i a4 l4 s4 w3 hr3
                cases h
                obtain ⟨e3, el3, hw2⟩ :=
                  sarp_8_byte_steps_log_writes ws _ c lenB a lenB _ a3 l3 s3 w2 ha
                    (by omega) (fun _ => by omega) hr2
                have hle3 : a3 ≤ a + 8 * (lenB / 8) := by
                  rw [e3]
                  exact Nat.mod_le _ _
                have hid3 : l3 ≠ 0 → a3 = a + 8 * (lenB / 8) := fun hl => by
                  rw [e3]
                  exact toWord_of_lt ws _ (by omega)
                have ha3 : a3 < 2 ^ WORD_BITS ws := by
                  rw [e3]
                  exact toWord_lt ws _
                obtain ⟨_, _, hw3⟩ :=
                  sarp_1_byte_steps_log_writes ws _ _ l3 a3 s3 a4 l4 _ w3 ha3 (by omega) hr3
                intro x hx
                rcases List.mem_append.mp hx with hx | hx
                · obtain ⟨_, hx8, j, hj, hxa⟩ := hw2 x hx
                  refine ⟨fun _ => hx8, by omega, ?_⟩
                  rw [hxa]
                  exact in_region_of_fit a lenB j (by omega) (by omega)
                · obtain ⟨hwd, j, hj, hxa⟩ := hw3 x hx
                  have := hid3 (by omega)
                  refine ⟨(fun hw => by rw [hwd] at hw; cases hw), by omega, ?_⟩
                  rw [hxa, this, show a + 8 * (lenB / 8) + j = a + (8 * (lenB / 8) + j) by omega]
                  exact in_region_of_fit a lenB _ (by omega) (by omega)
  · cases h

theorem sarp_part2_word (ws : Nat) (dsm : SecMapPtr) :
    ∀ fuel a lenB s a2 l2 s2, a < 2 ^ WORD_BITS ws →
      sarp_part2 ws dsm fuel a lenB s = some (a2, l2, s2) → a2 < 2 ^ WORD_BITS ws := by
  intro fuel
  induction fuel with
  | zero =>
    intro a lenB s a2 l2 s2 ha h
    unfold sarp_part2 at h
    split at h
    · cases h
      exact ha
    · cases h
  | succ fuel ih =>
    intro a lenB s a2 l2 s2 ha h
    unfold sarp_part2 at h
    split at h
    · cases h
      exact ha
    · split at h
      · split at h
        · cases h
        · split at h
          · cases h
          · split at h
            · cases h
            · split at h
              · cases h
              · exact ih _ _ _ _ _ _ (toWord_lt ws _) h
      · cases h

theorem sarp_part23_log_erase (ws : Nat) (s : State) (a lenA lenB c : Nat) (dsm : SecMapPtr) :
    (sarp_part23_log ws s a lenA lenB c dsm).map Prod.fst
      = sarp_part23 ws s a lenA lenB c dsm := by
  unfold sarp_part23_log sarp_part23
  by_cases h0 : 0 = lenA
  · rw [if_pos h0, if_pos h0]
    cases sarp_part2 ws dsm lenB a lenB s with
    | none => rfl
    | some r =>
      obtain ⟨a2, l2, s2⟩ := r
      dsimp only
      by_cases hl : l2 = 0
      · rw [if_pos hl, if_pos hl]
        rfl
      · rw [if_neg hl, if_neg hl, ← sarp_part3_log_erase]
        cases sarp_part3_log ws s2 a2 l2 c dsm with
        | none => rfl
        | some r3 => rfl
  · rw [if_neg h0, if_neg h0]
    rfl

theorem sarp_part23_log_writes (ws : Nat) (hws : WordSizeOk ws) (s : State)
    (a lenA lenB c : Nat) (dsm : SecMapPtr) (s1 : State) (log : List SarpPart)
    (ha : a < 2 ^ WORD_BITS ws)
    (h : sarp_part23_log ws s a lenA lenB c dsm = some (s1, log)) :
    ∀ p, p ∈ log → p.fetched < 2 ^ WORD_BITS ws ∧
      ∀ x, x ∈ p.writes → (x.wide = true → x.a % 8 = 0) ∧ x.a < 2 ^ WORD_BITS ws ∧
        x.a / 65536 = p.fetched / 65536 := by
  unfold sarp_part23_log at h
  split at h
  · split at h
    · cases h
    · rename_i a2 l2 s2 h2
      have ha2 := sarp_part2_word ws dsm lenB a lenB s a2 l2 s2 ha h2
      split at h
      · cases h
        intro p hp
        exact absurd hp (List.not_mem_nil p)
      · split at h
        · cases h
        · rename_i s3 w h3
          cases h
          intro p hp
          rcases List.mem_singleton.mp hp with rfl
          exact ⟨ha2, sarp_part3_log_writes ws hws s2 a2 l2 c dsm _ w ha2 h3⟩
  · cases h

theorem set_address_range_perms_fast_log_erase (ws : Nat) (s : State) (a n c d : Nat)
    (dsm : SecMapPtr) :
    (set_address_range_perms_fast_log ws s a n c d dsm).map Prod.fst
      = set_address_range_perms_fast ws s a n c d dsm := by
  unfold set_address_range_perms_fast_log set_address_range_perms_fast
  dsimp only
  generalize toWord ws (toWord ws (start_of_this_sm ws a + SM_SIZE) + (2 ^ WORD_BITS ws - a))
    = L
  generalize toWord ws (start_of_this_sm ws a + SM_SIZE) = aN
  split
  · split
    · rfl
    · split
      · rw [← sarp_part1_log_erase]
        cases sarp_part1_log ws s a n aN c dsm with
        | none => rfl
        | some r => rfl
      · split
        · exact sarp_part23_log_erase ws s a 0 n c dsm
        · rw [← sarp_part1_log_erase]
          cases sarp_part1_log ws s a L aN c dsm with
          | none => rfl
          | some r =>
            obtain ⟨a1, l1, s1, w⟩ := r
            dsimp only [Option.map]
            by_cases hz : n - L = 0
            · rw [if_pos hz, if_pos hz]
            · rw [if_neg hz, if_neg hz, ← sarp_part23_log_erase]
              cases sarp_part23_log ws s1 a1 l1 (n - L) c dsm with
              | none => rfl
              | some r2 => rfl
  · rfl

theorem set_address_range_perms_fast_log_writes (ws : Nat) (hws : WordSizeOk ws) (s : State)
    (a n c d : Nat) (dsm : SecMapPtr) (s1 : State) (log : List SarpPart)
    (ha : a < 2 ^ WORD_BITS ws)
    (h : set_address_range_perms_fast_log ws s a n c d dsm = some (s1, log)) :
    ∀ p, p ∈ log → p.fetched < 2 ^ WORD_BITS ws ∧
      ∀ x, x ∈ p.writes → (x.wide = true → x.a % 8 = 0) ∧ x.a < 2 ^ WORD_BITS ws ∧
        x.a / 65536 = p.fetched / 65536 := by
  have hmodlt := Nat.mod_lt a (show 0 < 65536 by decide)
  have hnext := toWord_lt ws (start_of_this_sm ws a + SM_SIZE)
  unfold set_address_range_perms_fast_log at h
  dsimp only at h
  rw [len_to_next_eq ws hws a ha] at h
  split at h
  · split at h
    · cases h
      intro p hp
      exact absurd hp (List.not_mem_nil p)
    · split at h
      · rename_i hle
        split at h
        · cases h
        · rename_i a1 l1 s2 w h1
          cases h
          obtain ⟨_, _, hw⟩ := sarp_part1_log_writes ws hws s a n _ c dsm a1 l1 _ w ha hnext
            (by omega) h1
          intro p hp
          rcases List.mem_singleton.mp hp with rfl
          exact ⟨ha, hw⟩
      · split at h
        · exact sarp_part23_log_writes ws hws s a 0 n c dsm s1 log ha h
        · split at h
          · cases h
          · rename_i a1 l1 s2 w h1
            obtain ⟨ha1, _, hw⟩ := sarp_part1_log_writes ws hws s a (65536 - a % 65536) _ c dsm
              a1 l1 s2 w ha hnext (by omega) h1
            split at h
            · cases h
              intro p hp
              rcases List.mem_singleton.mp hp with rfl
              exact ⟨ha, hw⟩
            · split at h
              · cases h
              · rename_i s3 l h23
                cases h
                intro p hp
                rcases List.mem_cons.mp hp with rfl | hp
                · exact ⟨ha, hw⟩
                · exact sarp_part23_log_writes ws hws s2 a1 l1 _ c dsm _ l ha1 h23 p hp
  · cases h

/-! ## Validity of the assertions of the fast range painter -/

/-- C34. Fast painter assertion validity: for every state satisfying the representation
invariant whose distinguished pages hold their startup contents, every address `a`,
length `n` and paintable tag, the fast algorithm of `set_address_range_perms` (with
`example_dsm` the distinguished page of the tag) returns, so none of the assertions
`0 == lenA` at part 2, `is_start_of_sm(a)` inside the whole-page loop and
`is_start_of_sm(a) && lenB < SM_SIZE` at part 3 fails; the run that also lists the writes
gives the same state, and in it every write of part 1 and of part 3 is at an address of the
64 KiB region of the address for which the part fetched its page, so it falls inside that
page (its index `SM_OFF` is below `SM_CHUNKS`, and `SM_OFF_16` below 8192), and every
8-byte step (16-bit shadow write) happens at an 8-aligned address. -/
theorem fast_painter_assertions_hold (ws : Nat) (hws : WordSizeOk ws) (s : State)
    (hwf : WF ws s) (hdi : DistinguishedIntact s) (a n t : Nat)
    (ht : t = A_BITS2_NOCHECK ∨ t = A_BITS2_UNWRITABLE ∨ t = A_BITS2_UNREFERABLE)
    (ha : a < 2 ^ WORD_BITS ws) :
    ∃ s1 log,
      set_address_range_perms_fast ws s a n (abits16_of_tag t) (dsm_of_tag t)
        (SecMapPtr.distinguished (dsm_of_tag t)) = some s1 ∧
      set_address_range_perms_fast_log ws s a n (abits16_of_tag t) (dsm_of_tag t)
        (SecMapPtr.distinguished (dsm_of_tag t)) = some (s1, log) ∧
      ∀ p, p ∈ log → p.fetched < 2 ^ WORD_BITS ws ∧
        ∀ x, x ∈ p.writes → x.a < 2 ^ WORD_BITS ws ∧ x.a / 65536 = p.fetched / 65536 ∧
          SM_OFF x.a < SM_CHUNKS ∧ (x.wide = true → x.a % 8 = 0 ∧ SM_OFF_16 x.a < 8192) := by
  obtain ⟨s1, e1, _⟩ := set_address_range_perms_fast_spec ws hws s hwf hdi a n t ht ha
  have he := set_address_range_perms_fast_log_erase ws s a n (abits16_of_tag t) (dsm_of_tag t)
    (SecMapPtr.distinguished (dsm_of_tag t))
  rw [e1] at he
  cases hl : set_address_range_perms_fast_log ws s a n (abits16_of_tag t) (dsm_of_tag t)
      (SecMapPtr.distinguished (dsm_of_tag t)) with
  | none =>
    rw [hl] at he
    cases he
  | some r =>
    obtain ⟨s2, log⟩ := r
    rw [hl] at he
    cases he
    refine ⟨s2, log, e1, rfl, ?_⟩
    intro p hp
    obtain ⟨hf, hw⟩ := set_address_range_perms_fast_log_writes ws hws s a n _ _ _ s2 log ha hl
      p hp
    refine ⟨hf, fun x hx => ?_⟩
    obtain ⟨h8, hlt, hreg⟩ := hw x hx
    exact ⟨hlt, hreg, SM_OFF_lt x.a, fun hwd => ⟨h8 hwd, SM_OFF_16_lt x.a⟩⟩

theorem fast_painter_assertions_hold_witness :
    ∃ s1 log,
      set_address_range_perms_fast 8 (og_pre_clo_init 8) 65530 140000
        (abits16_of_tag A_BITS2_UNWRITABLE) (dsm_of_tag A_BITS2_UNWRITABLE)
        (SecMapPtr.distinguished (dsm_of_tag A_BITS2_UNWRITABLE)) = some s1 ∧
      set_address_range_perms_fast_log 8 (og_pre_clo_init 8) 65530 140000
        (abits16_of_tag A_BITS2_UNWRITABLE) (dsm_of_tag A_BITS2_UNWRITABLE)
        (SecMapPtr.distinguished (dsm_of_tag A_BITS2_UNWRITABLE)) = some (s1, log) ∧
      ∀ p, p ∈ log → p.fetched < 2 ^ WORD_BITS 8 ∧
        ∀ x, x ∈ p.writes → x.a < 2 ^ WORD_BITS 8 ∧ x.a / 65536 = p.fetched / 65536 ∧
          SM_OFF x.a < SM_CHUNKS ∧ (x.wide = true → x.a % 8 = 0 ∧ SM_OFF_16 x.a < 8192) :=
  fast_painter_assertions_hold 8 (Or.inr rfl) (og_pre_clo_init 8) (WF_startup 8)
    (DistinguishedIntact_startup 8) 65530 140000 A_BITS2_UNWRITABLE (Or.inr (Or.inl rfl))
    (by decide)

end Objgrind
